import Mathlib

/-!
# rv64sim: a shallow embedding of the RV64I simulator

The development follows the C++ sources:

* `Instruction.h`  : the enumeration `Ins`
* `Decoder.cpp`    : the class `Decoder` (`decodeIns`, `decodeRType` .. `decodeJType`, `resetIns`)
* `processor.cpp`  : the class `processor` (`set_reg`, `set_csr`, `execute`, `executeIns`,
                     `except`, `interrupt`, the sign-extension helpers)
* `memory.h`       : the declaration of the class `memory`; its member functions are not part
                     of the sources at hand and are modelled from the specification.

Machine integers are natural numbers; every C++ operation that can leave the range of its
type is followed by an explicit reduction modulo `2^32` or `2^64`.  Verbose tracing writes to
the console only and is left out.
-/

namespace RV64

/-! ## Finite maps (`std::unordered_map` with integer keys) -/

/-- The lookup `m.find(k)`: the value stored under `k`, if any. -/
def umFind {α : Type} : List (Nat × α) → Nat → Option α
  | [], _ => none
  | (k', v) :: rest, k => if k' = k then some v else umFind rest k

/-- The assignment `m[k] = v`: overwrite the entry of `k`, creating it when it is absent. -/
def umAssign {α : Type} : List (Nat × α) → Nat → α → List (Nat × α)
  | [], k, v => [(k, v)]
  | (k', v') :: rest, k, v =>
    if k' = k then (k, v) :: rest else (k', v') :: umAssign rest k v

/-! ## Instruction.h -/

/-- The enumeration `RV64I::Ins`. -/
inductive Ins where
  | ins_default | ins_lui | ins_auipc | ins_jal | ins_jalr
  | ins_beq | ins_bne | ins_blt | ins_bge | ins_bltu | ins_bgeu
  | ins_lb | ins_lh | ins_lw | ins_lbu | ins_lhu
  | ins_sb | ins_sh | ins_sw
  | ins_addi | ins_slti | ins_sltiu | ins_xori | ins_ori | ins_andi
  | ins_slli | ins_srli | ins_srai
  | ins_add | ins_sub | ins_sll | ins_slt | ins_sltu | ins_xor | ins_srl | ins_sra
  | ins_or | ins_and
  | ins_fence | ins_ecall | ins_ebreak
  | ins_lwu | ins_ld | ins_sd
  | ins_addiw | ins_slliw | ins_srliw | ins_sraiw
  | ins_addw | ins_subw | ins_sllw | ins_srlw | ins_sraw
  | ins_mret
  | ins_csrrw | ins_csrrs | ins_csrrc | ins_csrrwi | ins_csrrsi | ins_csrrci
  deriving DecidableEq, Repr

open Ins

/-! ## Decoder.cpp -/

/-- The data members of the class `Decoder` (the verbose flag and the name table are
console-only and omitted).  `ins` and `imm` are `uint32_t`, the other fields `uint8_t`. -/
structure Decoder where
  ins : Nat
  opcode : Nat
  rd : Nat
  rs1 : Nat
  rs2 : Nat
  funct3 : Nat
  funct7 : Nat
  imm : Nat
  code : Ins
  type : Char
  deriving DecidableEq, Repr

namespace Decoder

/-- The state left by the constructor `Decoder::Decoder`. -/
def init : Decoder :=
  { ins := 0, opcode := 0, rd := 0, rs1 := 0, rs2 := 0, funct3 := 0, funct7 := 0, imm := 0,
    code := ins_default, type := '0' }

/-- Source function `Decoder::resetIns`. -/
def resetIns (_d : Decoder) : Decoder :=
  { ins := 0, opcode := 0, rd := 0, rs1 := 0, rs2 := 0, funct3 := 0, funct7 := 0, imm := 0,
    code := ins_default, type := '0' }

/-- Source function `Decoder::decodeRType`. -/
def decodeRType (d : Decoder) : Decoder :=
  { d with
    rd := (d.ins >>> 7) &&& 0x1f
    rs1 := (d.ins >>> 15) &&& 0x1f
    rs2 := (d.ins >>> 20) &&& 0x1f }

/-- Source function `Decoder::decodeIType`. -/
def decodeIType (d : Decoder) : Decoder :=
  { d with
    rd := (d.ins >>> 7) &&& 0x1f
    rs1 := (d.ins >>> 15) &&& 0x1f
    imm := (d.ins >>> 20) &&& 0xfff }

/-- Source function `Decoder::decodeSType`; `imm +=` is 32-bit unsigned addition. -/
def decodeSType (d : Decoder) : Decoder :=
  { d with
    rs1 := (d.ins >>> 15) &&& 0x1f
    rs2 := (d.ins >>> 20) &&& 0x1f
    imm := (((d.ins >>> 7) &&& 0x1f) + ((((d.ins >>> 25) &&& 0x7f) <<< 5) % 2 ^ 32)) % 2 ^ 32 }

/-- Source function `Decoder::decodeBType`. -/
def decodeBType (d : Decoder) : Decoder :=
  let imm0 := (d.ins >>> 8) &&& 0xf
  let imm1 := (imm0 + ((((d.ins >>> 25) &&& 0x3f) <<< 4) % 2 ^ 32)) % 2 ^ 32
  let imm2 := (imm1 + ((((d.ins >>> 7) &&& 0x1) <<< 10) % 2 ^ 32)) % 2 ^ 32
  let imm3 := (imm2 + ((((d.ins >>> 31) &&& 0x1) <<< 11) % 2 ^ 32)) % 2 ^ 32
  { d with
    rs1 := (d.ins >>> 15) &&& 0x1f
    rs2 := (d.ins >>> 20) &&& 0x1f
    imm := imm3 }

/-- Source function `Decoder::decodeUType`. -/
def decodeUType (d : Decoder) : Decoder :=
  { d with
    rd := (d.ins >>> 7) &&& 0x1f
    imm := (d.ins >>> 12) &&& 0xfffff }

/-- Source function `Decoder::decodeJType`. -/
def decodeJType (d : Decoder) : Decoder :=
  let imm0 := (d.ins >>> 21) &&& 0x3ff
  let imm1 := (imm0 + ((((d.ins >>> 20) &&& 0x1) <<< 10) % 2 ^ 32)) % 2 ^ 32
  let imm2 := (imm1 + ((((d.ins >>> 12) &&& 0xff) <<< 11) % 2 ^ 32)) % 2 ^ 32
  let imm3 := (imm2 + ((((d.ins >>> 31) &&& 0x1) <<< 19) % 2 ^ 32)) % 2 ^ 32
  { d with
    rd := (d.ins >>> 7) &&& 0x1f
    imm := imm3 }

/-- The inner `switch(funct3)` of opcode 3 (loads). -/
def decodeOp3 (d : Decoder) : Decoder :=
  match d.funct3 with
  | 0 => decodeIType { d with code := ins_lb, type := 'I' }
  | 1 => decodeIType { d with code := ins_lh, type := 'I' }
  | 2 => decodeIType { d with code := ins_lw, type := 'I' }
  | 3 => decodeIType { d with code := ins_ld, type := 'I' }
  | 4 => decodeIType { d with code := ins_lbu, type := 'I' }
  | 5 => decodeIType { d with code := ins_lhu, type := 'I' }
  | 6 => decodeIType { d with code := ins_lwu, type := 'I' }
  | _ => d

/-- The inner `switch(funct3)` of opcode 19 (register-immediate ALU). -/
def decodeOp19 (d : Decoder) : Decoder :=
  match d.funct3 with
  | 0 => decodeIType { d with code := ins_addi, type := 'I' }
  | 1 => decodeRType { d with code := ins_slli, type := 'R' }
  | 2 => decodeIType { d with code := ins_slti, type := 'I' }
  | 3 => decodeIType { d with code := ins_sltiu, type := 'I' }
  | 4 => decodeIType { d with code := ins_xori, type := 'I' }
  | 5 => decodeRType
      { d with code := (if d.funct7 >>> 1 = 0 then ins_srli else ins_srai), type := 'R' }
  | 6 => decodeIType { d with code := ins_ori, type := 'I' }
  | 7 => decodeIType { d with code := ins_andi, type := 'I' }
  | _ => d

/-- The inner `switch(funct3)` of opcode 27 (register-immediate, 32-bit). -/
def decodeOp27 (d : Decoder) : Decoder :=
  match d.funct3 with
  | 0 => decodeIType { d with code := ins_addiw, type := 'I' }
  | 1 => decodeRType { d with code := ins_slliw, type := 'R' }
  | 5 => decodeRType
      { d with code := (if d.funct7 = 0 then ins_srliw else ins_sraiw), type := 'R' }
  | _ => d

/-- The inner `switch(funct3)` of opcode 35 (stores). -/
def decodeOp35 (d : Decoder) : Decoder :=
  match d.funct3 with
  | 0 => decodeSType { d with code := ins_sb, type := 'S' }
  | 1 => decodeSType { d with code := ins_sh, type := 'S' }
  | 2 => decodeSType { d with code := ins_sw, type := 'S' }
  | 3 => decodeSType { d with code := ins_sd, type := 'S' }
  | _ => d

/-- The inner `switch(funct3)` of opcode 51 (register-register ALU). -/
def decodeOp51 (d : Decoder) : Decoder :=
  match d.funct3 with
  | 0 => decodeRType
      { d with code := (if d.funct7 = 0 then ins_add else ins_sub), type := 'R' }
  | 1 => decodeRType { d with code := ins_sll, type := 'R' }
  | 2 => decodeRType { d with code := ins_slt, type := 'R' }
  | 3 => decodeRType { d with code := ins_sltu, type := 'R' }
  | 4 => decodeRType { d with code := ins_xor, type := 'R' }
  | 5 => decodeRType
      { d with code := (if d.funct7 = 0 then ins_srl else ins_sra), type := 'R' }
  | 6 => decodeRType { d with code := ins_or, type := 'R' }
  | 7 => decodeRType { d with code := ins_and, type := 'R' }
  | _ => d

/-- The inner `switch(funct3)` of opcode 59 (register-register, 32-bit). -/
def decodeOp59 (d : Decoder) : Decoder :=
  match d.funct3 with
  | 0 => decodeRType
      { d with code := (if d.funct7 = 0 then ins_addw else ins_subw), type := 'R' }
  | 1 => decodeRType { d with code := ins_sllw, type := 'R' }
  | 5 => decodeRType
      { d with code := (if d.funct7 = 0 then ins_srlw else ins_sraw), type := 'R' }
  | _ => d

/-- The inner `switch(funct3)` of opcode 99 (branches). -/
def decodeOp99 (d : Decoder) : Decoder :=
  match d.funct3 with
  | 0 => decodeBType { d with code := ins_beq, type := 'B' }
  | 1 => decodeBType { d with code := ins_bne, type := 'B' }
  | 4 => decodeBType { d with code := ins_blt, type := 'B' }
  | 5 => decodeBType { d with code := ins_bge, type := 'B' }
  | 6 => decodeBType { d with code := ins_bltu, type := 'B' }
  | 7 => decodeBType { d with code := ins_bgeu, type := 'B' }
  | _ => d

/-- The inner `switch(funct3)` of opcode 115 (system); `ins` is the argument of
`decodeIns`.  Case 0 assigns `ins_ebreak`, then `ins_ecall`, then `ins_mret` in turn. -/
def decodeOp115 (d : Decoder) (ins : Nat) : Decoder :=
  match d.funct3 with
  | 0 =>
    let c0 := ins_ebreak
    let c1 := if ins >>> 20 = 0 then ins_ecall else c0
    let c2 := if ins >>> 20 = 770 then ins_mret else c1
    { d with code := c2 }
  | 1 => decodeIType { d with code := ins_csrrw, type := 'I' }
  | 2 => decodeIType { d with code := ins_csrrs, type := 'I' }
  | 3 => decodeIType { d with code := ins_csrrc, type := 'I' }
  | 5 => decodeIType { d with code := ins_csrrwi, type := 'I' }
  | 6 => decodeIType { d with code := ins_csrrsi, type := 'I' }
  | 7 => decodeIType { d with code := ins_csrrci, type := 'I' }
  | _ => d

/-- The four assignments at the head of `decodeIns`: `this->ins = ins`, then `opcode`,
`funct3` and `funct7`. -/
def header (d : Decoder) (ins : Nat) : Decoder :=
  { d with
    ins := ins
    opcode := ins &&& 0x7f
    funct3 := (ins >>> 12) &&& 0x07
    funct7 := (ins >>> 25) &&& 0x7f }

/-- Source function `Decoder::decodeIns`.  The argument is a `uint32_t`; the header fields
are stored first, then the outer `switch(opcode)` dispatches.  Only the outer `default`
calls `resetIns`. -/
def decodeIns (d : Decoder) (ins : Nat) : Decoder :=
  let d1 := header d ins
  match d1.opcode with
  | 3 => decodeOp3 d1
  | 15 => { d1 with code := ins_fence }
  | 19 => decodeOp19 d1
  | 23 => decodeUType { d1 with code := ins_auipc, type := 'U' }
  | 27 => decodeOp27 d1
  | 35 => decodeOp35 d1
  | 51 => decodeOp51 d1
  | 55 => decodeUType { d1 with code := ins_lui, type := 'U' }
  | 59 => decodeOp59 d1
  | 99 => decodeOp99 d1
  | 103 => decodeIType { d1 with code := ins_jalr, type := 'I' }
  | 111 => decodeJType { d1 with code := ins_jal, type := 'J' }
  | 115 => decodeOp115 d1 ins
  | _ => resetIns d1

end Decoder

/-! ## memory.h -/

/-- Modelled from the spec: the class `memory`, whose member functions (memory.cpp) are
missing from the sources.  A sparse map from block index (address / block size) to a
block; a block is a map from doubleword-aligned offset to a 64-bit value. -/
structure memory where
  mem : List (Nat × List (Nat × Nat))
  deriving DecidableEq, Repr

namespace memory

/-- The member `block_size` of `memory.h`. -/
def block_size : Nat := 1024

/-- Modelled from the spec: the constructor `memory::memory`; no block exists yet. -/
def init : memory := { mem := [] }

/-- Modelled from the spec: `memory::read_doubleword`.  The address is masked to
`addr & ~7`; a missing block or a missing entry reads as 0. -/
def read_doubleword (m : memory) (address : Nat) : Nat :=
  let a := address &&& 0xfffffffffffffff8
  match umFind m.mem (a / block_size) with
  | none => 0
  | some blk =>
    match umFind blk (a % block_size) with
    | none => 0
    | some v => v

/-- Modelled from the spec: `memory::write_doubleword`.  The address is masked to
`addr & ~7`, the new value is `(old & ~mask) | (data & mask)`, and the enclosing block and
entry are created on demand. -/
def write_doubleword (m : memory) (address data mask : Nat) : memory :=
  let a := address &&& 0xfffffffffffffff8
  let blk := (umFind m.mem (a / block_size)).getD []
  let old := (umFind blk (a % block_size)).getD 0
  let new := (old &&& (0xffffffffffffffff ^^^ mask)) ||| (data &&& mask)
  { mem := umAssign m.mem (a / block_size) (umAssign blk (a % block_size) new) }

end memory

/-! ## processor.cpp -/

/-- The data members of the class `processor`.  `registers` stands for
`uint64_t registers[32]`, `csrs` for `unordered_map<unsigned int,uint64_t>`; the flags
`verbose` and `stage2` are never read by a state-changing statement and are omitted. -/
structure processor where
  main_memory : memory
  pc : Nat
  breakpoint : Nat
  bp_enabled : Bool
  ins_count : Nat
  registers : List Nat
  decoder : Decoder
  prv : Nat
  csrs : List (Nat × Nat)
  deriving DecidableEq, Repr

namespace processor

/-- Source function `processor::initCSRs`: the thirteen `csrs.insert` calls. -/
def initCSRs : List (Nat × Nat) :=
  [ (0xf11, 0x0000000000000000), (0xf12, 0x0000000000000000),
    (0xf13, 0x2020020000000000), (0xf14, 0x0000000000000000),
    (0x300, 0x0000000200000000), (0x301, 0x8000000000100100),
    (0x304, 0x0000000000000000), (0x305, 0x0000000000000000),
    (0x340, 0x0000000000000000), (0x341, 0x0000000000000000),
    (0x342, 0x0000000000000000), (0x343, 0x0000000000000000),
    (0x344, 0x0000000000000000) ]

/-- The constructor `processor::processor`. -/
def init (main_memory : memory) : processor :=
  { main_memory := main_memory, pc := 0, breakpoint := 0, bp_enabled := false,
    ins_count := 0, registers := List.replicate 32 0, decoder := Decoder.init,
    prv := 3, csrs := initCSRs }

/-- The read `registers[i]`. -/
def reg (p : processor) (i : Nat) : Nat := p.registers.getD i 0

/-- The read `csrs[k]`.  Every key read this way is either one of the thirteen keys that
`initCSRs` inserts and nothing erases, or guarded by a `csrs.find` test, so the entry
exists; an absent key reads as the value-initialised 0. -/
def csrAt (p : processor) (k : Nat) : Nat := (umFind p.csrs k).getD 0

/-- The write `csrs[k] = v`. -/
def csrPut (p : processor) (k v : Nat) : processor :=
  { p with csrs := umAssign p.csrs k v }

/-- Source function `processor::set_pc`. -/
def set_pc (p : processor) (new_pc : Nat) : processor := { p with pc := new_pc }

/-- Source function `processor::set_reg`: register 0 is ignored. -/
def set_reg (p : processor) (reg_num new_value : Nat) : processor :=
  if reg_num = 0 then p
  else { p with registers := p.registers.set reg_num new_value }

/-- Source function `processor::clear_breakpoint`. -/
def clear_breakpoint (p : processor) : processor :=
  { p with breakpoint := 0, bp_enabled := false }

/-- Source function `processor::set_breakpoint`. -/
def set_breakpoint (p : processor) (address : Nat) : processor :=
  { p with breakpoint := address - address % 4, bp_enabled := true }

/-- Source function `processor::set_prv`. -/
def set_prv (p : processor) (prv_num : Nat) : processor := { p with prv := prv_num }

/-- The `switch(csr_num)` of `set_csr`: the value that is stored (the cases in the order
of the source, the last `else` being its `default`). -/
def csrMasked (csr_num new_value : Nat) : Nat :=
  if csr_num = 0x300 then (new_value &&& 0x1888) ||| 0x200000000
  else if csr_num = 0x301 then 0x8000000000100100
  else if csr_num = 0x304 then new_value &&& 0x999
  else if csr_num = 0x305 then
    if new_value &&& 0x1 = 0 then new_value &&& 0xfffffffffffffffc
    else new_value &&& 0xffffffffffffff01
  else if csr_num = 0x340 then new_value
  else if csr_num = 0x341 then new_value &&& 0xfffffffffffffffc
  else if csr_num = 0x342 then new_value &&& 0x800000000000000f
  else if csr_num = 0x343 then new_value
  else if csr_num = 0x344 then new_value &&& 0x999
  else new_value

/-- Source function `processor::set_csr`. -/
def set_csr (p : processor) (csr_num new_value : Nat) : processor :=
  if umFind p.csrs csr_num = none then p
  else if csr_num = 0xf11 ∨ csr_num = 0xf12 ∨ csr_num = 0xf13 ∨ csr_num = 0xf14 then p
  else csrPut p csr_num (csrMasked csr_num new_value)

/-- Source function `processor::get_instruction_count`. -/
def get_instruction_count (p : processor) : Nat := p.ins_count

/-- Source function `processor::get_cycle_count`. -/
def get_cycle_count (_p : processor) : Nat := 0

/-- Source function `processor::sext_12_32` (32-bit arithmetic). -/
def sext_12_32 (v : Nat) : Nat :=
  let val := v &&& 0xfff
  if val &&& 0x800 = 0x800 then (val + 0xfffff000) % 2 ^ 32 else val

/-- Source function `processor::sext_20_32` (32-bit arithmetic). -/
def sext_20_32 (v : Nat) : Nat :=
  let val := v &&& 0xfffff
  if val &&& 0x80000 = 0x80000 then (val + 0xfff00000) % 2 ^ 32 else val

/-- Source function `processor::sext_8_64`. -/
def sext_8_64 (v : Nat) : Nat :=
  let val := v &&& 0xff
  if val &&& 0x80 = 0x80 then (val + 0xffffffffffffff00) % 2 ^ 64 else val

/-- Source function `processor::sext_16_64`. -/
def sext_16_64 (v : Nat) : Nat :=
  let val := v &&& 0xffff
  if val &&& 0x8000 = 0x8000 then (val + 0xffffffffffff0000) % 2 ^ 64 else val

/-- Source function `processor::sext_32_64`. -/
def sext_32_64 (v : Nat) : Nat :=
  let val := v &&& 0xffffffff
  if val &&& 0x80000000 = 0x80000000 then (val + 0xffffffff00000000) % 2 ^ 64 else val

/-- Source function `processor::signedComp`: `a < b` as signed 64-bit values. -/
def signedComp (a b : Nat) : Bool :=
  let a_sign := a >>> 63
  let b_sign := b >>> 63
  if a_sign = b_sign then decide (a < b)
  else if a_sign = 1 then true else false

/-- The statement `csrs[k] = f(csrs[k])` (the compound assignments `|=` and `&=`). -/
def csrUpd (p : processor) (k : Nat) (f : Nat → Nat) : processor :=
  csrPut p k (f (csrAt p k))

/-- The assignment `pc = v`. -/
def pcSet (p : processor) (v : Nat) : processor := { p with pc := v }

/-- The assignment `prv = v`. -/
def prvSet (p : processor) (v : Nat) : processor := { p with prv := v }

/-- The call `main_memory->write_doubleword(address, data, mask)`. -/
def memWrite (p : processor) (address data mask : Nat) : processor :=
  { p with main_memory := p.main_memory.write_doubleword address data mask }

/-- The statement `pc += 4`. -/
def pcInc (p : processor) : processor := { p with pc := (p.pc + 4) % 2 ^ 64 }

/-- The statement `pc -= 4`. -/
def pcDec (p : processor) : processor := { p with pc := (p.pc + (2 ^ 64 - 4)) % 2 ^ 64 }

/-- The statement `ins_count ++`. -/
def countInc (p : processor) : processor :=
  { p with ins_count := (p.ins_count + 1) % 2 ^ 64 }

/-- The statement `ins_count --`. -/
def countDec (p : processor) : processor :=
  { p with ins_count := (p.ins_count + (2 ^ 64 - 1)) % 2 ^ 64 }

/-- The `mstatus` update of `except`, selected by the privilege level. -/
def exceptStatus (p : processor) : processor :=
  if p.prv = 0 then
    let p1 := csrUpd p 0x300 (fun x => x &&& 0xffffffffffffe7ff)
    let p2 :=
      if (csrAt p1 0x300 >>> 3) &&& 0x1 = 1 then csrUpd p1 0x300 (fun x => x ||| 0x80)
      else csrUpd p1 0x300 (fun x => x &&& 0xffffffffffffff7f)
    csrUpd p2 0x300 (fun x => x &&& 0xfffffffffffffff7)
  else if p.prv = 3 then
    let p1 := csrUpd p 0x300 (fun x => x ||| 0x1800)
    csrUpd p1 0x300 (fun x => x &&& 0xffffffffffffff7f)
  else p

/-- The `switch(cause)` of `except`; `old_pc` is the local variable of that name. -/
def exceptCause (p : processor) (cause old_pc : Nat) : processor :=
  match cause with
  | 0 => set_csr (pcInc (countInc p)) 0x343 old_pc
  | 2 => set_csr p 0x343 p.decoder.ins
  | 4 => set_csr p 0x343 (reg p p.decoder.rs1)
  | 6 => set_csr p 0x343 (reg p p.decoder.rs1)
  | 8 => set_prv (set_csr p 0x343 0) 3
  | 11 => set_csr p 0x343 0
  | _ => p

/-- Source function `processor::except`. -/
def except (p : processor) (cause : Nat) : processor :=
  let old_pc := p.pc
  let p1 := set_csr p 0x341 old_pc
  let p2 := set_csr p1 0x342 cause
  let p3 : processor :=
    if csrAt p2 0x305 &&& 0x1 = 0 then pcSet p2 (csrAt p2 0x305 &&& 0xfffffffffffffffc)
    else pcSet p2 (((csrAt p2 0x305 &&& 0xfffffffffffffffc) + 4 * (cause &&& 0x0)) % 2 ^ 64)
  let p4 := exceptStatus p3
  let p5 := exceptCause p4 cause old_pc
  countDec (pcDec p5)

/-- Source function `processor::interrupt` (its final `switch(cause)` has only empty
cases). -/
def interrupt (p : processor) (cause : Nat) : processor :=
  let p1 := csrUpd p 0x300 (fun x => x ||| 0x80)
  let p2 := set_csr p1 0x341 p1.pc
  let p3 := set_csr p2 0x342 ((0x8000000000000000 + cause) % 2 ^ 64)
  let p4 : processor :=
    if csrAt p3 0x305 &&& 0x1 = 0 then pcSet p3 (csrAt p3 0x305 &&& 0xfffffffffffffffc)
    else pcSet p3 (((csrAt p3 0x305 &&& 0xfffffffffffffffc) + 4 * cause) % 2 ^ 64)
  let p5 : processor :=
    if p4.prv = 0 then
      let q := set_prv p4 3
      if (csrAt q 0x300 >>> 3) &&& 0x1 = 0 then
        csrUpd q 0x300 (fun x => x &&& 0xffffffffffffff7f)
      else q
    else if p4.prv = 3 then csrUpd p4 0x300 (fun x => x ||| 0x1800)
    else p4
  csrUpd p5 0x300 (fun x => x &&& 0xfffffffffffffff7)

/-- The effective address `registers[rs1] + sext_32_64(sext_12_32(imm))` of loads and
stores (the local `tmp`). -/
def effAddr (p : processor) : Nat :=
  (reg p p.decoder.rs1 + sext_32_64 (sext_12_32 p.decoder.imm)) % 2 ^ 64

/-- The statement `pc += sext_32_64(sext_12_32(imm) << 1)` of a taken branch. -/
def branchJump (p : processor) : processor :=
  { p with pc := (p.pc + sext_32_64 ((sext_12_32 p.decoder.imm <<< 1) % 2 ^ 32)) % 2 ^ 64 }

/-- The statement `if(pc % 2 != 0) pc -= (pc % 2)`. -/
def pcEven (p : processor) : processor :=
  if p.pc % 2 ≠ 0 then { p with pc := p.pc - p.pc % 2 } else p

/-- The fill `tmp` of the arithmetic right shifts: all ones shifted left by `64 - mask`
when the sign bit `sign` is 1 and `mask` is not 0, else 0. -/
def sraFill (sign mask : Nat) : Nat :=
  if sign = 1 ∧ mask ≠ 0 then (0xffffffffffffffff <<< (64 - mask)) % 2 ^ 64 else 0x0

/-- The guard of the six CSR instructions that leads to `except(2)`. -/
def csrGuard (p : processor) (csr_num : Nat) : Prop :=
  p.prv = 0 ∨ umFind p.csrs csr_num = none ∨
    (csr_num = 0xf11 ∧ p.decoder.rs1 ≠ 0) ∨
    (csr_num = 0xf12 ∧ p.decoder.rs1 ≠ 0) ∨
    (csr_num = 0xf13 ∧ p.decoder.rs1 ≠ 0) ∨
    (csr_num = 0xf14 ∧ p.decoder.rs1 ≠ 0)

instance (p : processor) (csr_num : Nat) : Decidable (csrGuard p csr_num) := by
  unfold csrGuard; infer_instance

/-- The statement `if(csr_num == 0x344) tmp &= 0x111`. -/
def mipMask (csr_num tmp : Nat) : Nat :=
  if csr_num = 0x344 then tmp &&& 0x111 else tmp

/-- The case `ins_ebreak` of `executeIns`, up to its `break`. -/
def ebreakBody (p : processor) : processor :=
  let p1 := set_csr p 0x341 p.pc
  let p2 : processor :=
    if csrAt p1 0x305 &&& 0x1 = 0 then pcSet p1 (csrAt p1 0x305 &&& 0xfffffffffffffffc)
    else pcSet p1
      (((csrAt p1 0x305 &&& 0xfffffffffffffffc) + 4 * (csrAt p1 0x342 &&& 0x0)) % 2 ^ 64)
  let p3 : processor :=
    if p2.prv = 3 then csrUpd p2 0x300 (fun x => x ||| 0x1800)
    else if p2.prv = 0 then csrUpd p2 0x300 (fun x => x &&& 0xffffffffffffe7ff)
    else p2
  let p4 : processor :=
    if (csrAt p3 0x300 >>> 3) &&& 0x1 = 1 then csrUpd p3 0x300 (fun x => x ||| 0x80)
    else csrUpd p3 0x300 (fun x => x &&& 0xffffffffffffff7f)
  let p5 := csrUpd p4 0x300 (fun x => x &&& 0xfffffffffffffff7)
  let p6 := set_csr p5 0x342 3
  let p7 := prvSet p6 3
  pcDec (countDec p7)

/-- The else branch of the case `ins_mret` of `executeIns`. -/
def mretBody (p : processor) : processor :=
  let p1 := pcSet p ((csrAt p 0x341 + (2 ^ 64 - 4)) % 2 ^ 64)
  let p2 : processor :=
    if (csrAt p1 0x300 >>> 11) &&& 0x3 = 3 then prvSet p1 3 else prvSet p1 0
  let p3 := csrUpd p2 0x300 (fun x => x &&& 0xffffffffffffe7ff)
  let p4 : processor :=
    if (csrAt p3 0x300 >>> 7) &&& 0x1 = 1 then csrUpd p3 0x300 (fun x => x ||| 0x8)
    else csrUpd p3 0x300 (fun x => x &&& 0xfffffffffffffff7)
  csrUpd p4 0x300 (fun x => x ||| 0x80)

/-- The `switch(insCode)` of `processor::executeIns` followed by the final `pc += 4`, as a
function of the state and of `insCode`, together with the cause of the trap raised, if any:
the argument of the `except` call made, or 3 for the inlined sequence of `ins_ebreak`.
Cases that `return` skip the final `pc += 4`; all others end in `pcInc`. -/
def execCase (p : processor) : Ins → processor × Option Nat :=
  let d := p.decoder
  let mem := p.main_memory
  fun
  | ins_lui => (pcInc (set_reg p d.rd (sext_32_64 ((d.imm <<< 12) % 2 ^ 32))), none)
  | ins_auipc =>
    (pcInc (set_reg p d.rd ((p.pc + sext_32_64 ((d.imm <<< 12) % 2 ^ 32)) % 2 ^ 64)), none)
  | ins_jal =>
    let p1 := set_reg p d.rd ((p.pc + 4) % 2 ^ 64)
    let p2 := pcSet p1 ((p1.pc + sext_32_64 ((sext_20_32 d.imm <<< 1) % 2 ^ 32)) % 2 ^ 64)
    (pcEven p2, none)
  | ins_jalr =>
    let tmp := (p.pc + 4) % 2 ^ 64
    let p1 := pcSet p (sext_32_64 ((reg p d.rs1 + sext_12_32 d.imm) % 2 ^ 64))
    let p2 := set_reg p1 d.rd tmp
    (pcEven p2, none)
  | ins_beq =>
    if reg p d.rs1 = reg p d.rs2 then (branchJump p, none) else (pcInc p, none)
  | ins_bne =>
    if reg p d.rs1 ≠ reg p d.rs2 then (branchJump p, none) else (pcInc p, none)
  | ins_blt =>
    if signedComp (reg p d.rs1) (reg p d.rs2) = true then (branchJump p, none)
    else (pcInc p, none)
  | ins_bge =>
    if ¬ (signedComp (reg p d.rs1) (reg p d.rs2) = true) then (branchJump p, none)
    else (pcInc p, none)
  | ins_bltu =>
    if reg p d.rs1 < reg p d.rs2 then (branchJump p, none) else (pcInc p, none)
  | ins_bgeu =>
    if reg p d.rs1 ≥ reg p d.rs2 then (branchJump p, none) else (pcInc p, none)
  | ins_lb =>
    let tmp := effAddr p
    (pcInc (set_reg p d.rd (sext_8_64 (mem.read_doubleword tmp >>> (tmp % 8 * 8)))), none)
  | ins_lh =>
    let tmp := effAddr p
    if tmp % 2 = 0 then
      (pcInc (set_reg p d.rd (sext_16_64 (mem.read_doubleword tmp >>> (tmp % 8 * 8)))), none)
    else (pcInc (except p 4), some 4)
  | ins_lw =>
    let tmp := effAddr p
    if tmp % 4 = 0 then
      (pcInc (set_reg p d.rd (sext_32_64 (mem.read_doubleword tmp >>> (tmp % 8 * 8)))), none)
    else (pcInc (except p 4), some 4)
  | ins_lbu =>
    let tmp := effAddr p
    (pcInc (set_reg p d.rd ((mem.read_doubleword tmp >>> (tmp % 8 * 8)) &&& 0xff)), none)
  | ins_lhu =>
    let tmp := effAddr p
    if tmp % 2 = 0 then
      (pcInc (set_reg p d.rd ((mem.read_doubleword tmp >>> (tmp % 8 * 8)) &&& 0xffff)), none)
    else (pcInc (except p 4), some 4)
  | ins_sb =>
    let tmp := effAddr p
    let mask := (0xff <<< (tmp % 8 * 8)) % 2 ^ 64
    (pcInc (memWrite p tmp ((reg p d.rs2 <<< (tmp % 8 * 8)) % 2 ^ 64) mask), none)
  | ins_sh =>
    let tmp := effAddr p
    if tmp % 2 = 0 then
      let mask := (0xffff <<< (tmp % 8 * 8)) % 2 ^ 64
      (pcInc (memWrite p tmp ((reg p d.rs2 <<< (tmp % 8 * 8)) % 2 ^ 64) mask), none)
    else (pcInc (except p 6), some 6)
  | ins_sw =>
    let tmp := effAddr p
    if tmp % 4 = 0 then
      let mask := (0xffffffff <<< (tmp % 8 * 8)) % 2 ^ 64
      (pcInc (memWrite p tmp ((reg p d.rs2 <<< (tmp % 8 * 8)) % 2 ^ 64) mask), none)
    else (pcInc (except p 6), some 6)
  | ins_addi =>
    (pcInc (set_reg p d.rd ((reg p d.rs1 + sext_32_64 (sext_12_32 d.imm)) % 2 ^ 64)), none)
  | ins_slti =>
    if signedComp (reg p d.rs1) (sext_32_64 (sext_12_32 d.imm)) = true then
      (pcInc (set_reg p d.rd 0x1), none)
    else (pcInc (set_reg p d.rd 0x0), none)
  | ins_sltiu =>
    if reg p d.rs1 < sext_32_64 (sext_12_32 d.imm) then (pcInc (set_reg p d.rd 0x1), none)
    else (pcInc (set_reg p d.rd 0x0), none)
  | ins_xori =>
    (pcInc (set_reg p d.rd (reg p d.rs1 ^^^ sext_32_64 (sext_12_32 d.imm))), none)
  | ins_ori =>
    (pcInc (set_reg p d.rd (reg p d.rs1 ||| sext_32_64 (sext_12_32 d.imm))), none)
  | ins_andi =>
    (pcInc (set_reg p d.rd (reg p d.rs1 &&& sext_32_64 (sext_12_32 d.imm))), none)
  | ins_slli =>
    (pcInc (set_reg p d.rd
      ((reg p d.rs1 <<< (((d.funct7 &&& 0x1) <<< 5) + d.rs2)) % 2 ^ 64)), none)
  | ins_srli =>
    (pcInc (set_reg p d.rd (reg p d.rs1 >>> (((d.funct7 &&& 0x1) <<< 5) + d.rs2))), none)
  | ins_srai =>
    let mask := ((d.funct7 &&& 0x1) <<< 5) + d.rs2
    let tmp := sraFill (reg p d.rs1 >>> 63) mask
    (pcInc (set_reg p d.rd (((reg p d.rs1 >>> mask) + tmp) % 2 ^ 64)), none)
  | ins_add =>
    (pcInc (set_reg p d.rd ((reg p d.rs1 + reg p d.rs2) % 2 ^ 64)), none)
  | ins_sub =>
    let tmp := (reg p d.rs1 + (2 ^ 64 - reg p d.rs2)) % 2 ^ 64
    (pcInc (set_reg p d.rd tmp), none)
  | ins_sll =>
    (pcInc (set_reg p d.rd ((reg p d.rs1 <<< (reg p d.rs2 &&& 0x3f)) % 2 ^ 64)), none)
  | ins_slt =>
    if signedComp (reg p d.rs1) (reg p d.rs2) = true then (pcInc (set_reg p d.rd 0x1), none)
    else (pcInc (set_reg p d.rd 0x0), none)
  | ins_sltu =>
    if reg p d.rs1 < reg p d.rs2 then (pcInc (set_reg p d.rd 0x1), none)
    else (pcInc (set_reg p d.rd 0x0), none)
  | ins_xor => (pcInc (set_reg p d.rd (reg p d.rs1 ^^^ reg p d.rs2)), none)
  | ins_srl =>
    (pcInc (set_reg p d.rd (reg p d.rs1 >>> (reg p d.rs2 &&& 0x3f))), none)
  | ins_sra =>
    let mask := reg p d.rs2 &&& 0x3f
    let tmp := sraFill (reg p d.rs1 >>> 63) mask
    (pcInc (set_reg p d.rd (((reg p d.rs1 >>> mask) + tmp) % 2 ^ 64)), none)
  | ins_or => (pcInc (set_reg p d.rd (reg p d.rs1 ||| reg p d.rs2)), none)
  | ins_and => (pcInc (set_reg p d.rd (reg p d.rs1 &&& reg p d.rs2)), none)
  | ins_fence => (pcInc p, none)
  | ins_ecall =>
    if p.prv = 0 then (pcInc (except p 8), some 8)
    else if p.prv = 3 then (pcInc (except p 11), some 11)
    else (pcInc p, none)
  | ins_ebreak => (pcInc (ebreakBody p), some 3)
  | ins_lwu =>
    let tmp := effAddr p
    if tmp % 4 = 0 then
      (pcInc (set_reg p d.rd
        ((mem.read_doubleword tmp >>> (tmp % 8 * 8)) &&& 0xffffffff)), none)
    else (pcInc (except p 4), some 4)
  | ins_ld =>
    let tmp := effAddr p
    if tmp % 8 = 0 then (pcInc (set_reg p d.rd (mem.read_doubleword tmp)), none)
    else (pcInc (except p 4), some 4)
  | ins_sd =>
    let tmp := effAddr p
    if tmp % 8 = 0 then
      (pcInc (memWrite p tmp (reg p d.rs2) 0xffffffffffffffff), none)
    else (pcInc (except p 6), some 6)
  | ins_addiw =>
    (pcInc (set_reg p d.rd (sext_32_64 ((reg p d.rs1 + sext_12_32 d.imm) % 2 ^ 64))), none)
  | ins_slliw =>
    (pcInc (set_reg p d.rd (sext_32_64 ((reg p d.rs1 <<< d.rs2) % 2 ^ 64))), none)
  | ins_srliw =>
    (pcInc (set_reg p d.rd (sext_32_64 ((reg p d.rs1 &&& 0xffffffff) >>> d.rs2))), none)
  | ins_sraiw =>
    let mask := d.rs2
    let tmp := sraFill ((reg p d.rs1 >>> 31) &&& 0x1) mask
    (pcInc (set_reg p d.rd (((sext_32_64 (reg p d.rs1) >>> mask) + tmp) % 2 ^ 64)), none)
  | ins_addw =>
    (pcInc (set_reg p d.rd (sext_32_64 ((reg p d.rs1 + reg p d.rs2) % 2 ^ 64))), none)
  | ins_subw =>
    (pcInc (set_reg p d.rd
      (sext_32_64 ((reg p d.rs1 + (2 ^ 64 - reg p d.rs2)) % 2 ^ 64))), none)
  | ins_sllw =>
    (pcInc (set_reg p d.rd
      (sext_32_64 ((reg p d.rs1 <<< (reg p d.rs2 &&& 0x1f)) % 2 ^ 64))), none)
  | ins_srlw =>
    (pcInc (set_reg p d.rd
      (sext_32_64 ((reg p d.rs1 &&& 0xffffffff) >>> (reg p d.rs2 &&& 0x1f)))), none)
  | ins_sraw =>
    let mask := reg p d.rs2 &&& 0x1f
    let tmp := sraFill ((reg p d.rs1 >>> 31) &&& 0x1) mask
    (pcInc (set_reg p d.rd (((sext_32_64 (reg p d.rs1) >>> mask) + tmp) % 2 ^ 64)), none)
  | ins_mret =>
    if p.prv = 0 then (pcInc (except p 2), some 2) else (pcInc (mretBody p), none)
  | ins_csrrw =>
    let csr_num := d.imm
    if csrGuard p csr_num then (pcInc (except p 2), some 2)
    else
      let tmp := mipMask csr_num (reg p d.rs1)
      (pcInc (set_csr (set_reg p d.rd (csrAt p csr_num)) csr_num tmp), none)
  | ins_csrrs =>
    let csr_num := d.imm
    if csrGuard p csr_num then (pcInc (except p 2), some 2)
    else
      let tmp := mipMask csr_num (csrAt p csr_num ||| reg p d.rs1)
      let p1 := set_reg p d.rd (csrAt p csr_num)
      (pcInc (if d.rs1 ≠ 0 then set_csr p1 csr_num tmp else p1), none)
  | ins_csrrc =>
    let csr_num := d.imm
    if csrGuard p csr_num then (pcInc (except p 2), some 2)
    else
      let tmp := mipMask csr_num (csrAt p csr_num &&& (0xffffffffffffffff ^^^ reg p d.rs1))
      let p1 := set_reg p d.rd (csrAt p csr_num)
      (pcInc (if d.rs1 ≠ 0 then set_csr p1 csr_num tmp else p1), none)
  | ins_csrrwi =>
    let csr_num := d.imm
    if csrGuard p csr_num then (pcInc (except p 2), some 2)
    else
      let tmp := mipMask csr_num d.rs1
      (pcInc (set_csr (set_reg p d.rd (csrAt p csr_num)) csr_num tmp), none)
  | ins_csrrsi =>
    let csr_num := d.imm
    if csrGuard p csr_num then (pcInc (except p 2), some 2)
    else
      let tmp := mipMask csr_num (csrAt p csr_num ||| d.rs1)
      let p1 := set_reg p d.rd (csrAt p csr_num)
      (pcInc (if d.rs1 ≠ 0 then set_csr p1 csr_num tmp else p1), none)
  | ins_csrrci =>
    let csr_num := d.imm
    if csrGuard p csr_num then (pcInc (except p 2), some 2)
    else
      let tmp := mipMask csr_num (csrAt p csr_num &&& (0xffffffffffffffff ^^^ d.rs1))
      let p1 := set_reg p d.rd (csrAt p csr_num)
      (pcInc (if d.rs1 ≠ 0 then set_csr p1 csr_num tmp else p1), none)
  | ins_default => (pcInc p, none)

/-- Source function `processor::executeIns` with `insCode = decoder->getInsCode()`, and
the cause of the trap raised, if any. -/
def executeInsT (p : processor) : processor × Option Nat := execCase p p.decoder.code

/-- Source function `processor::executeIns`. -/
def executeIns (p : processor) : processor := (executeInsT p).1

/-- The test `((csrs[0x344] >> b) & 0x1) == 1 && ((csrs[0x304] >> b) & 0x1) == 1` of the
interrupt check (for `b = 0` the source omits the shift). -/
def pending (p : processor) (b : Nat) : Prop :=
  (csrAt p 0x344 >>> b) &&& 0x1 = 1 ∧ (csrAt p 0x304 >>> b) &&& 0x1 = 1

instance (p : processor) (b : Nat) : Decidable (pending p b) := by
  unfold pending; infer_instance

/-- The interrupt check of `execute`, with the cause passed to `interrupt`, if any.
Control continues with the fetch after the call. -/
def checkInterruptT (p : processor) : processor × Option Nat :=
  if (csrAt p 0x300 >>> 3) &&& 0x1 = 1 ∨ p.prv = 0 then
    if pending p 11 then (interrupt p 11, some 11)
    else if pending p 3 then (interrupt p 3, some 3)
    else if pending p 7 then (interrupt p 7, some 7)
    else if pending p 8 then (interrupt p 8, some 8)
    else if pending p 0 then (interrupt p 0, some 0)
    else if pending p 4 then (interrupt p 4, some 4)
    else (p, none)
  else (p, none)

/-- The instruction word fetched at the current `pc`. -/
def fetch (p : processor) : Nat :=
  let data := p.main_memory.read_doubleword p.pc
  if p.pc % 8 ≠ 0 then (data >>> 32) &&& 0xffffffff else data &&& 0xffffffff

/-- The statement `decoder->decodeIns(ins)` on the word fetched at the current `pc`. -/
def decodeAt (p : processor) : processor :=
  { p with decoder := p.decoder.decodeIns (fetch p) }

/-- What happened in one iteration of the loop of `execute`. -/
structure StepInfo where
  /-- the loop was left through `break` at the breakpoint -/
  halted : Bool
  /-- the cause passed to `interrupt` -/
  irq : Option Nat
  /-- the cause of the synchronous trap raised -/
  trap : Option Nat
  /-- the instruction word passed to `decodeIns` -/
  word : Option Nat
  deriving DecidableEq, Repr

/-- One iteration of the loop body of `processor::execute`, with the record of what
happened in it. -/
def executeStepT (p : processor) (breakpoint_check : Bool) : processor × StepInfo :=
  if p.pc % 4 ≠ 0 then
    (except p 0, { halted := false, irq := none, trap := some 0, word := none })
  else
    let ci := checkInterruptT p
    let q := ci.1
    let ins := fetch q
    if breakpoint_check = true ∧ q.pc = q.breakpoint ∧ q.bp_enabled = true then
      (q, { halted := true, irq := ci.2, trap := none, word := none })
    else
      let r := executeInsT (decodeAt q)
      (countInc r.1, { halted := false, irq := ci.2, trap := r.2, word := some ins })

/-- One iteration of the loop body of `processor::execute`: the state it leaves. -/
def executeStep (p : processor) (breakpoint_check : Bool) : processor :=
  (executeStepT p breakpoint_check).1

/-- Source function `processor::execute`: `num` iterations, cut short by the `break` at
the breakpoint. -/
def execute (p : processor) : Nat → Bool → processor
  | 0, _ => p
  | num + 1, breakpoint_check =>
    let r := executeStepT p breakpoint_check
    if r.2.halted = true then r.1 else execute r.1 num breakpoint_check

/-- The condition of the `if` in the six branch cases of `executeIns` (false for every
other kind): the branch is taken. -/
def branchTaken (p : processor) : Prop :=
  let d := p.decoder
  match d.code with
  | ins_beq => reg p d.rs1 = reg p d.rs2
  | ins_bne => reg p d.rs1 ≠ reg p d.rs2
  | ins_blt => signedComp (reg p d.rs1) (reg p d.rs2) = true
  | ins_bge => ¬ (signedComp (reg p d.rs1) (reg p d.rs2) = true)
  | ins_bltu => reg p d.rs1 < reg p d.rs2
  | ins_bgeu => reg p d.rs1 ≥ reg p d.rs2
  | _ => False

instance (p : processor) : Decidable (branchTaken p) := by
  unfold branchTaken
  simp only []
  split <;> infer_instance

/-- The states the driver can bring the simulator into: construction followed by any
sequence of calls of the command surface.  `load` stands for `memory::load_file`, which
may rewrite the shared memory in any way. -/
inductive Reachable : processor → Prop
  | init (m : memory) : Reachable (processor.init m)
  | set_pc {p : processor} (v : Nat) : Reachable p → Reachable (set_pc p v)
  | set_reg {p : processor} (r v : Nat) : Reachable p → Reachable (set_reg p r v)
  | set_csr {p : processor} (n v : Nat) : Reachable p → Reachable (set_csr p n v)
  | set_prv {p : processor} (v : Nat) : Reachable p → Reachable (set_prv p v)
  | set_breakpoint {p : processor} (a : Nat) : Reachable p → Reachable (set_breakpoint p a)
  | clear_breakpoint {p : processor} : Reachable p → Reachable (clear_breakpoint p)
  | execute {p : processor} (num : Nat) (chk : Bool) :
      Reachable p → Reachable (execute p num chk)
  | load {p : processor} (m : memory) : Reachable p → Reachable { p with main_memory := m }

/-- The elementary state changes out of which `execute` is composed: `Upd p q` says that
`q` arises from `p` by assignments to `pc`, `ins_count`, `prv`, the decoder and the memory,
by `set_reg` and `set_csr`, and by the six compound assignments to `csrs[0x300]`. -/
inductive Upd (p : processor) : processor → Prop
  | refl : Upd p p
  | pc (q : processor) (v : Nat) : Upd p q → Upd p (pcSet q v)
  | ins_count (q : processor) (v : Nat) : Upd p q → Upd p { q with ins_count := v }
  | prv (q : processor) (v : Nat) : Upd p q → Upd p (prvSet q v)
  | decoder (q : processor) (d : Decoder) : Upd p q → Upd p { q with decoder := d }
  | mem (q : processor) (m : memory) : Upd p q → Upd p { q with main_memory := m }
  | reg (q : processor) (r v : Nat) : Upd p q → Upd p (set_reg q r v)
  | csr (q : processor) (k v : Nat) : Upd p q → Upd p (set_csr q k v)
  | mstatusOr (q : processor) (a : Nat) : a = 0x80 ∨ a = 0x1800 ∨ a = 0x8 →
      Upd p q → Upd p (csrUpd q 0x300 (fun x => x ||| a))
  | mstatusAnd (q : processor) (a : Nat) :
      a = 0xffffffffffffe7ff ∨ a = 0xffffffffffffff7f ∨ a = 0xfffffffffffffff7 →
      Upd p q → Upd p (csrUpd q 0x300 (fun x => x &&& a))

end processor

/-! ## Notions of the specification -/

/-- The bit field `ins[hi:lo]` as a number. -/
def bits (ins hi lo : Nat) : Nat := (ins / 2 ^ lo) % 2 ^ (hi + 1 - lo)

/-- The dispatch table of section 4.2 of the specification, row by row: the kind of a
word, or `none` when no row matches.  The rows are grouped by opcode. -/
def specKind (ins : Nat) : Option Ins :=
  let funct3 := bits ins 14 12
  let funct7 := bits ins 31 25
  match bits ins 6 0 with
  | 0x03 =>
    match funct3 with
    | 0 => some ins_lb
    | 1 => some ins_lh
    | 2 => some ins_lw
    | 3 => some ins_ld
    | 4 => some ins_lbu
    | 5 => some ins_lhu
    | 6 => some ins_lwu
    | _ => none
  | 0x0F => some ins_fence
  | 0x13 =>
    match funct3 with
    | 0 => some ins_addi
    | 2 => some ins_slti
    | 3 => some ins_sltiu
    | 4 => some ins_xori
    | 6 => some ins_ori
    | 7 => some ins_andi
    | 1 => some ins_slli
    | 5 => some (if funct7 / 2 = 0 then ins_srli else ins_srai)
    | _ => none
  | 0x17 => some ins_auipc
  | 0x1B =>
    match funct3 with
    | 0 => some ins_addiw
    | 1 => some ins_slliw
    | 5 => some (if funct7 = 0 then ins_srliw else ins_sraiw)
    | _ => none
  | 0x23 =>
    match funct3 with
    | 0 => some ins_sb
    | 1 => some ins_sh
    | 2 => some ins_sw
    | 3 => some ins_sd
    | _ => none
  | 0x33 =>
    match funct3 with
    | 0 => some (if funct7 = 0 then ins_add else ins_sub)
    | 1 => some ins_sll
    | 2 => some ins_slt
    | 3 => some ins_sltu
    | 4 => some ins_xor
    | 6 => some ins_or
    | 7 => some ins_and
    | 5 => some (if funct7 = 0 then ins_srl else ins_sra)
    | _ => none
  | 0x37 => some ins_lui
  | 0x3B =>
    match funct3 with
    | 0 => some (if funct7 = 0 then ins_addw else ins_subw)
    | 1 => some ins_sllw
    | 5 => some (if funct7 = 0 then ins_srlw else ins_sraw)
    | _ => none
  | 0x63 =>
    match funct3 with
    | 0 => some ins_beq
    | 1 => some ins_bne
    | 4 => some ins_blt
    | 5 => some ins_bge
    | 6 => some ins_bltu
    | 7 => some ins_bgeu
    | _ => none
  | 0x67 => some ins_jalr
  | 0x6F => some ins_jal
  | 0x73 =>
    match funct3 with
    | 0 =>
      some (if ins / 2 ^ 20 = 0 then ins_ecall
            else if ins / 2 ^ 20 = 0x302 then ins_mret else ins_ebreak)
    | 1 => some ins_csrrw
    | 2 => some ins_csrrs
    | 3 => some ins_csrrc
    | 5 => some ins_csrrwi
    | 6 => some ins_csrrsi
    | 7 => some ins_csrrci
    | _ => none
  | _ => none

/-- The six instruction formats. -/
inductive Format where
  | R | I | S | B | U | J
  deriving DecidableEq, Repr

/-- The letter of a format, as stored in the field `type` of the decoder. -/
def Format.letter : Format → Char
  | .R => 'R'
  | .I => 'I'
  | .S => 'S'
  | .B => 'B'
  | .U => 'U'
  | .J => 'J'

/-- The format under which `decodeIns` decodes each kind (the `type = ...` and
`decode?Type()` next to each `code = ...`); FENCE, ECALL, EBREAK and MRET have none. -/
def kindFormat : Ins → Option Format
  | ins_lui | ins_auipc => some .U
  | ins_jal => some .J
  | ins_beq | ins_bne | ins_blt | ins_bge | ins_bltu | ins_bgeu => some .B
  | ins_sb | ins_sh | ins_sw | ins_sd => some .S
  | ins_jalr | ins_lb | ins_lh | ins_lw | ins_ld | ins_lbu | ins_lhu | ins_lwu
  | ins_addi | ins_slti | ins_sltiu | ins_xori | ins_ori | ins_andi | ins_addiw
  | ins_csrrw | ins_csrrs | ins_csrrc | ins_csrrwi | ins_csrrsi | ins_csrrci => some .I
  | ins_slli | ins_srli | ins_srai | ins_slliw | ins_srliw | ins_sraiw
  | ins_add | ins_sub | ins_sll | ins_slt | ins_sltu | ins_xor | ins_srl | ins_sra
  | ins_or | ins_and | ins_addw | ins_subw | ins_sllw | ins_srlw | ins_sraw => some .R
  | ins_fence | ins_ecall | ins_ebreak | ins_mret | ins_default => none

/-- The operand decoding of a format: the assignment to `type` followed by the
`decode?Type()` call; nothing for a kind without format. -/
def decodeFormat (f : Option Format) (d : Decoder) : Decoder :=
  match f with
  | some .R => Decoder.decodeRType { d with type := 'R' }
  | some .I => Decoder.decodeIType { d with type := 'I' }
  | some .S => Decoder.decodeSType { d with type := 'S' }
  | some .B => Decoder.decodeBType { d with type := 'B' }
  | some .U => Decoder.decodeUType { d with type := 'U' }
  | some .J => Decoder.decodeJType { d with type := 'J' }
  | none => d

/-- The thirteen opcodes of the dispatch table. -/
def tableOpcodes : List Nat :=
  [0x03, 0x0F, 0x13, 0x17, 0x1B, 0x23, 0x33, 0x37, 0x3B, 0x63, 0x67, 0x6F, 0x73]

/-- The thirteen registered CSR numbers of section 6 of the specification. -/
def registeredCSRs : List Nat :=
  [0xF11, 0xF12, 0xF13, 0xF14, 0x300, 0x301, 0x304, 0x305, 0x340, 0x341, 0x342, 0x343, 0x344]

/-- The read-only CSR numbers. -/
def readOnlyCSRs : List Nat := [0xF11, 0xF12, 0xF13, 0xF14]

/-- The fields of a decode record that belong to a format (`rd`, `rs1`, `rs2`, `imm`, in
this order, those present). -/
def formatFields (f : Option Format) (d : Decoder) : List Nat :=
  match f with
  | some .R => [d.rd, d.rs1, d.rs2]
  | some .I => [d.rd, d.rs1, d.imm]
  | some .S => [d.rs1, d.rs2, d.imm]
  | some .B => [d.rs1, d.rs2, d.imm]
  | some .U => [d.rd, d.imm]
  | some .J => [d.rd, d.imm]
  | none => []

/-- The fields of a decode record that do not belong to a format. -/
def otherFields (f : Option Format) (d : Decoder) : List Nat :=
  match f with
  | some .R => [d.imm]
  | some .I => [d.rs2]
  | some .S => [d.rd]
  | some .B => [d.rd]
  | some .U => [d.rs1, d.rs2]
  | some .J => [d.rs1, d.rs2]
  | none => [d.rd, d.rs1, d.rs2, d.imm]

/-- The CSR file holds exactly the thirteen registered numbers, and the four read-only
registers hold their initial values. -/
def CsrFileOK (c : List (Nat × Nat)) : Prop :=
  c.map Prod.fst = registeredCSRs ∧
    umFind c 0xF11 = some 0 ∧ umFind c 0xF12 = some 0 ∧
    umFind c 0xF13 = some 0x2020020000000000 ∧ umFind c 0xF14 = some 0

/-- The 64-bit complement `~x`. -/
def not64 (x : Nat) : Nat := 2 ^ 64 - 1 - x

/-- The table of CSR write masks of section 4.3.4 of the specification: the value stored
by a write of `v` to the writable CSR `n`. -/
def specCsrValue (n v : Nat) : Nat :=
  if n = 0x300 then (v &&& 0x1888) ||| 0x200000000
  else if n = 0x301 then 0x8000000000100100
  else if n = 0x304 then v &&& 0x999
  else if n = 0x305 then (if v % 2 = 0 then v &&& not64 0x3 else v &&& not64 0xFE)
  else if n = 0x340 then v
  else if n = 0x341 then v &&& not64 0x3
  else if n = 0x342 then v &&& 0x800000000000000F
  else if n = 0x343 then v
  else if n = 0x344 then v &&& 0x999
  else v

/-! ## Sample programs and states -/

/-- A memory holding `ADDI x1, x0, -1` (0xFFF00093) at address 0 and `LUI x2, 0xFFFFF`
(0xFFFFF137) at address 4. -/
def sampleMem : memory :=
  memory.init.write_doubleword 0 0xFFFFF137FFF00093 0xffffffffffffffff

/-- The simulator right after construction over `sampleMem`. -/
def sampleState : processor := processor.init sampleMem

/-- A memory holding `ADDI x0, x0, 5` (0x00500013) at address 0. -/
def zeroRdMem : memory := memory.init.write_doubleword 0 0x00500013 0xffffffffffffffff

/-- A memory holding `ADDI x1, x1, 1` (0x00108093) at address 0 and the word 0x00007003
(opcode 0x03 with the unlisted funct3 7) at address 4. -/
def staleMem : memory :=
  memory.init.write_doubleword 0 0x0000700300108093 0xffffffffffffffff

/-! ## Notions of the trap subsystem -/

/-- The field `mstatus.mie` (bit 3) of a value of `mstatus`, read as the source reads it. -/
def mstatusMie (m : Nat) : Nat := (m >>> 3) &&& 0x1

/-- The field `mstatus.mpie` (bit 7) of a value of `mstatus`. -/
def mstatusMpie (m : Nat) : Nat := (m >>> 7) &&& 0x1

/-- The two-bit field `mstatus.mpp` (bits 12:11) of a value of `mstatus`. -/
def mstatusMpp (m : Nat) : Nat := (m >>> 11) &&& 0x3

/-- The base of a value of `mtvec`: the value with its two low bits cleared. -/
def mtvecBase (v : Nat) : Nat := v &&& 0xfffffffffffffffc

/-- The CSRs a trap entry writes: `mstatus`, `mepc`, `mcause` and `mtval`. -/
def trapCSRs : List Nat := [0x300, 0x341, 0x342, 0x343]

/-- The alignment the specification requires of the effective address of a load or
store: 2 for halfwords, 4 for words, 8 for doublewords, 1 (none) otherwise. -/
def alignOf : Ins → Nat
  | ins_lh | ins_lhu | ins_sh => 2
  | ins_lw | ins_lwu | ins_sw => 4
  | ins_ld | ins_sd => 8
  | _ => 1

/-- The cause the specification gives to a misaligned access: 4 for the loads with an
alignment requirement, 6 for the stores with one. -/
def misalignedCause : Ins → Option Nat
  | ins_lh | ins_lhu | ins_lw | ins_lwu | ins_ld => some 4
  | ins_sh | ins_sw | ins_sd => some 6
  | _ => none

/-- The six CSR instructions. -/
def csrKinds : List Ins :=
  [ins_csrrw, ins_csrrs, ins_csrrc, ins_csrrwi, ins_csrrsi, ins_csrrci]

namespace processor

/-- The state in which a step fetches: the state after the interrupt check. -/
def atFetch (p : processor) : processor := (checkInterruptT p).1

/-- The state in which a step runs `executeIns`: after the interrupt check and the
decoding of the fetched word. -/
def atExec (p : processor) : processor := decodeAt (atFetch p)

end processor

/-! ## More sample programs and states -/

/-- A memory holding `ECALL` (0x00000073) at address 0. -/
def ecallMem : memory := memory.init.write_doubleword 0 0x00000073 0xffffffffffffffff

/-- A memory holding `EBREAK` (0x00100073) at address 0. -/
def ebreakMem : memory := memory.init.write_doubleword 0 0x00100073 0xffffffffffffffff

/-- A memory holding `MRET` (0x30200073) at address 0. -/
def mretMem : memory := memory.init.write_doubleword 0 0x30200073 0xffffffffffffffff

/-- A memory holding `LH x2, 1(x1)` (0x00109103) at address 0. -/
def lhMem : memory := memory.init.write_doubleword 0 0x00109103 0xffffffffffffffff

/-- A memory holding `CSRRW x0, mscratch, x1` (0x34009073) at address 0. -/
def csrrwMem : memory := memory.init.write_doubleword 0 0x34009073 0xffffffffffffffff

/-- Machine mode with `mstatus.mie = 1`, about to run `ECALL`. -/
def ecallMieState : processor := processor.set_csr (processor.init ecallMem) 0x300 0x8

/-- User mode, about to run `ECALL`. -/
def ecallUserState : processor := processor.set_prv (processor.init ecallMem) 0

/-- Machine mode with `x1 = 0x100`, about to run `LH x2, 1(x1)`. -/
def lhState : processor := processor.set_reg (processor.init lhMem) 1 0x100

/-- Machine mode with `mstatus.mpp = 1`, about to run `MRET`. -/
def mretMpp1State : processor := processor.set_csr (processor.init mretMem) 0x300 0x800

/-- User mode with `x1 = 0x1234`, about to run `CSRRW x0, mscratch, x1`. -/
def csrrwUserState : processor :=
  processor.set_prv (processor.set_reg (processor.init csrrwMem) 1 0x1234) 0

/-! ## The `mstatus` value a trap path leaves -/

/-- The value the case `ins_ebreak` of `executeIns` leaves in `mstatus`, as a function of
the privilege level and the value of `mstatus` before it: its three `mstatus` statements
in the order of the source. -/
def ebreakStatus (prv m : Nat) : Nat :=
  let m1 := if prv = 3 then m ||| 0x1800 else if prv = 0 then m &&& 0xffffffffffffe7ff else m
  let m2 := if (m1 >>> 3) &&& 0x1 = 1 then m1 ||| 0x80 else m1 &&& 0xffffffffffffff7f
  m2 &&& 0xfffffffffffffff7

/-- The value the else branch of the case `ins_mret` leaves in `mstatus`, as a function of
the value before it: its three `mstatus` statements in the order of the source. -/
def mretStatus (m : Nat) : Nat :=
  let m1 := m &&& 0xffffffffffffe7ff
  let m2 := if (m1 >>> 7) &&& 0x1 = 1 then m1 ||| 0x8 else m1 &&& 0xfffffffffffffff7
  m2 ||| 0x80

/-! ## Notions of the instruction semantics -/

/-- The `n`-bit two's complement number held in the low `n` bits of `x`, extended to 64
bits: the low `n` bits, with bit `n - 1` copied into the bits `n` to 63. -/
def signExt (n x : Nat) : Nat :=
  if x % 2 ^ n < 2 ^ (n - 1) then x % 2 ^ n else x % 2 ^ n + (2 ^ 64 - 2 ^ n)

/-- The integer a 64-bit word stands for in two's complement. -/
def toInt64 (x : Nat) : Int := if x < 2 ^ 63 then (x : Int) else (x : Int) - 2 ^ 64

/-- The integer the low 32 bits of a word stand for in two's complement. -/
def toInt32 (x : Nat) : Int :=
  if x % 2 ^ 32 < 2 ^ 31 then ((x % 2 ^ 32 : Nat) : Int) else ((x % 2 ^ 32 : Nat) : Int) - 2 ^ 32

/-- The 64-bit word that stands for an integer in two's complement (modulo 2^64). -/
def ofInt64 (z : Int) : Nat := (z % 2 ^ 64).toNat

/-- The 32-bit word that stands for an integer in two's complement (modulo 2^32). -/
def ofInt32 (z : Int) : Nat := (z % 2 ^ 32).toNat

/-- The well-formedness of the register file and of the register fields of the decoder:
32 registers, and 5-bit fields `rd`, `rs1`, `rs2`. -/
def RegsOK (p : processor) : Prop :=
  p.registers.length = 32 ∧ p.decoder.rd < 32 ∧ p.decoder.rs1 < 32 ∧ p.decoder.rs2 < 32

/-! ## Notions of the interrupt check -/

/-- The priority order of the interrupt causes, highest first: MEI, MSI, MTI, UEI, USI,
UTI. -/
def irqPriority : List Nat := [11, 3, 7, 8, 0, 4]

/-- Interrupts are globally enabled: `mstatus.mie == 1` or the privilege is User. -/
def irqEnabled (p : processor) : Prop :=
  mstatusMie (processor.csrAt p 0x300) = 1 ∨ p.prv = 0

instance (p : processor) : Decidable (irqEnabled p) := by
  unfold irqEnabled; infer_instance

/-- Bit `c` is set in both `mip` and `mie`. -/
def irqBit (p : processor) (c : Nat) : Bool :=
  (processor.csrAt p 0x344).testBit c && (processor.csrAt p 0x304).testBit c

/-- The interrupt the specification delivers at the start of a step: if interrupts are
enabled, the first cause in priority order whose bit is set in both `mip` and `mie`. -/
def specInterrupt (p : processor) : Option Nat :=
  if irqEnabled p then irqPriority.find? (irqBit p) else none

/-! ## Notions of the memory accesses -/

/-- The width in bytes of a load or store (0 for the other kinds). -/
def accessWidth : Ins → Nat
  | ins_lb | ins_lbu | ins_sb => 1
  | ins_lh | ins_lhu | ins_sh => 2
  | ins_lw | ins_lwu | ins_sw => 4
  | ins_ld | ins_sd => 8
  | _ => 0

/-- The seven load kinds. -/
def loadKinds : List Ins := [ins_lb, ins_lh, ins_lw, ins_ld, ins_lbu, ins_lhu, ins_lwu]

/-- The four store kinds. -/
def storeKinds : List Ins := [ins_sb, ins_sh, ins_sw, ins_sd]

/-- The loads that sign-extend (for LD the extension is the identity). -/
def signedLoad : Ins → Bool
  | ins_lb | ins_lh | ins_lw | ins_ld => true
  | _ => false

/-- The `w` bytes at address `a` inside the doubleword `dw` at `a & ~7`, little-endian:
the bits `(a mod 8) * 8` to `(a mod 8) * 8 + 8 * w - 1` of `dw`. -/
def byteField (dw a w : Nat) : Nat := (dw / 2 ^ (a % 8 * 8)) % 2 ^ (8 * w)

/-- The value the specification loads into `rd`: the byte field, sign-extended for LB, LH,
LW (and LD), zero-extended for LBU, LHU, LWU. -/
def specLoad (k : Ins) (dw a : Nat) : Nat :=
  if signedLoad k = true then signExt (8 * accessWidth k) (byteField dw a (accessWidth k))
  else byteField dw a (accessWidth k)

/-- The zero-extending load of each width: LBU, LHU, LWU, LD. -/
def zeroLoadOfWidth : Nat → Ins
  | 1 => ins_lbu
  | 2 => ins_lhu
  | 4 => ins_lwu
  | _ => ins_ld

/-! ## The encoding of JAL -/

/-- The standard J-type encoding of `JAL rd, o`: with `u` the 21-bit two's complement of
the offset `o`, `imm[20]` goes to bit 31, `imm[10:1]` to bits 30:21, `imm[11]` to bit 20,
`imm[19:12]` to bits 19:12, `rd` to bits 11:7, and the opcode is 0x6F. -/
def encodeJal (rd : Nat) (o : Int) : Nat :=
  let u := (o % 2 ^ 21).toNat
  bits u 20 20 * 2 ^ 31 + bits u 10 1 * 2 ^ 21 + bits u 11 11 * 2 ^ 20 + bits u 19 12 * 2 ^ 12
    + rd * 2 ^ 7 + 0x6F

/-! ## Sample programs and states of the later claims -/

/-- Machine mode with `x1 = 0x1234`, about to run `CSRRW x0, mscratch, x1`. -/
def csrrwState : processor := processor.set_reg (processor.init csrrwMem) 1 0x1234

/-- A pending and enabled machine external interrupt in Machine mode with
`mstatus.mie = 1`, at `pc = 8`; `mtvec` is 0, where `sampleMem` holds
`ADDI x1, x0, -1`. -/
def irqState : processor :=
  processor.set_pc
    (processor.set_csr
      (processor.set_csr (processor.set_csr (processor.init sampleMem) 0x300 0x8) 0x304 0x800)
      0x344 0x800) 8

/-- A pending and enabled machine external interrupt in User mode with
`mstatus.mpp = 3`. -/
def irqUserState : processor :=
  processor.set_prv
    (processor.set_csr
      (processor.set_csr (processor.set_csr (processor.init sampleMem) 0x300 0x1800) 0x304
        0x800)
      0x344 0x800) 0

/-- A memory holding `SD x1, 0(x0)` (0x00103023) at address 0x100 and `LD x2, 0(x0)`
(0x00003103) at address 0x104. -/
def sdldMem : memory :=
  memory.init.write_doubleword 0x100 0x0000310300103023 0xffffffffffffffff

/-- The state with `x1 = 0xDEADBEEFCAFEF00D` and `pc = 0x100`, about to run
`SD x1, 0(x0)` and `LD x2, 0(x0)`. -/
def sdldState : processor :=
  processor.set_pc (processor.set_reg (processor.init sdldMem) 1 0xDEADBEEFCAFEF00D) 0x100

/-- A memory holding `ADDI x1, x0, 1` (0x00100093) at address 0, `SLLI x1, x1, 63`
(0x03F09093) at address 4 and `SRAI x2, x1, 1` (0x4010D113) at address 8. -/
def sraiMem : memory :=
  (memory.init.write_doubleword 0 0x03F0909300100093 0xffffffffffffffff).write_doubleword 8
    0x4010D113 0xffffffffffffffff

/-- A memory holding `JAL x1, 8` (0x008000EF) at address 0x100. -/
def jalMem : memory := memory.init.write_doubleword 0x100 0x008000EF 0xffffffffffffffff

/-- The state with `pc = 0x100`, about to run `JAL x1, 8`. -/
def jalState : processor := processor.set_pc (processor.init jalMem) 0x100

/-! ## Notions of the CSR instructions -/

/-- The source operand of a CSR instruction: `x[rs1]` for the register forms, the 5-bit
field `zimm` (the field `rs1` of the word) for the immediate forms. -/
def csrSource (k : Ins) (xrs1 zimm : Nat) : Nat :=
  if k = ins_csrrw ∨ k = ins_csrrs ∨ k = ins_csrrc then xrs1 else zimm

/-- The value a CSR instruction computes from the old CSR value and the source operand:
`src` for CSRRW/CSRRWI, `old | src` for CSRRS/CSRRSI, `old & ~src` for CSRRC/CSRRCI. -/
def csrOperation (k : Ins) (old src : Nat) : Nat :=
  match k with
  | ins_csrrw | ins_csrrwi => src
  | ins_csrrs | ins_csrrsi => old ||| src
  | ins_csrrc | ins_csrrci => old &&& not64 src
  | _ => old

/-- A CSR instruction writes the CSR: always for CSRRW/CSRRWI, for the other four only when
the field `rs1`/`zimm` of the word is not 0. -/
def csrWrites (k : Ins) (field : Nat) : Prop :=
  k = ins_csrrw ∨ k = ins_csrrwi ∨ field ≠ 0

instance (k : Ins) (field : Nat) : Decidable (csrWrites k field) := by
  unfold csrWrites; infer_instance

/-! ## The arguments of the store cases -/

/-- The argument `mask` the store cases of `executeIns` pass to `write_doubleword`: the
width mask shifted to the byte position of the address (all ones for SD). -/
def storeMask (k : Ins) (a : Nat) : Nat :=
  match k with
  | ins_sb => (0xff <<< (a % 8 * 8)) % 2 ^ 64
  | ins_sh => (0xffff <<< (a % 8 * 8)) % 2 ^ 64
  | ins_sw => (0xffffffff <<< (a % 8 * 8)) % 2 ^ 64
  | _ => 0xffffffffffffffff

/-- The argument `data` the store cases of `executeIns` pass to `write_doubleword`:
`registers[rs2]` shifted to the byte position of the address (unshifted for SD). -/
def storeData (k : Ins) (v a : Nat) : Nat :=
  match k with
  | ins_sb | ins_sh | ins_sw => (v <<< (a % 8 * 8)) % 2 ^ 64
  | _ => v

/-! ## The results the specification gives to the ALU kinds -/

/-- The kinds with an immediate operand of claim C27. -/
def immKinds : List Ins :=
  [ins_addi, ins_xori, ins_ori, ins_andi, ins_slti, ins_sltiu, ins_lui, ins_auipc]

/-- The value the specification writes to `rd` for the kinds with an immediate operand:
`x` is `x[rs1]`, `imm` the immediate field of the word (12 bits, or 20 bits for LUI and
AUIPC), `pc` the address of the instruction. -/
def specImm (k : Ins) (x imm pc : Nat) : Nat :=
  match k with
  | ins_addi => (x + signExt 12 imm) % 2 ^ 64
  | ins_xori => x ^^^ signExt 12 imm
  | ins_ori => x ||| signExt 12 imm
  | ins_andi => x &&& signExt 12 imm
  | ins_slti => if toInt64 x < toInt64 (signExt 12 imm) then 1 else 0
  | ins_sltiu => if x < signExt 12 imm then 1 else 0
  | ins_lui => signExt 32 (imm * 2 ^ 12)
  | ins_auipc => (pc + signExt 32 (imm * 2 ^ 12)) % 2 ^ 64
  | _ => 0

/-- The six 64-bit shift kinds. -/
def shiftKinds : List Ins := [ins_slli, ins_srli, ins_srai, ins_sll, ins_srl, ins_sra]

/-- The shift amount of the specification: the 6-bit value `((funct7 & 1) << 5) | rs2` for
the immediate forms, `x[rs2] & 0x3F` for the register forms. -/
def shiftAmount (k : Ins) (funct7 rs2 xrs2 : Nat) : Nat :=
  if k = ins_slli ∨ k = ins_srli ∨ k = ins_srai then ((funct7 &&& 0x1) <<< 5) ||| rs2
  else xrs2 &&& 0x3F

/-- The value the specification writes to `rd` for a 64-bit shift of `x` by `s`: left
shift modulo 2^64, logical right shift, or arithmetic right shift, the last being
`floor(signed(x) / 2^s)` as a 64-bit two's complement value. -/
def specShift (k : Ins) (x s : Nat) : Nat :=
  match k with
  | ins_slli | ins_sll => (x * 2 ^ s) % 2 ^ 64
  | ins_srli | ins_srl => x / 2 ^ s
  | ins_srai | ins_sra => ofInt64 (Int.fdiv (toInt64 x) (2 ^ s))
  | _ => 0

/-- The nine W-type kinds. -/
def wKinds : List Ins :=
  [ins_addiw, ins_slliw, ins_srliw, ins_sraiw, ins_addw, ins_subw, ins_sllw, ins_srlw,
    ins_sraw]

/-- The second operand of a W-type kind: the sign-extended immediate for ADDIW, the 5-bit
field `rs2` for the immediate shifts, `x[rs2]` for the register forms. -/
def wOperand (k : Ins) (imm rs2 xrs2 : Nat) : Nat :=
  match k with
  | ins_addiw => signExt 12 imm
  | ins_slliw | ins_srliw | ins_sraiw => rs2
  | _ => xrs2

/-- The 32-bit result of a W-type kind on the low 32 bits of `x` and `y`: addition and
subtraction modulo 2^32, shifts of the 32-bit value by the low 5 bits of `y`. -/
def specW32 (k : Ins) (x y : Nat) : Nat :=
  match k with
  | ins_addiw | ins_addw => (x % 2 ^ 32 + y % 2 ^ 32) % 2 ^ 32
  | ins_subw => (x % 2 ^ 32 + (2 ^ 32 - y % 2 ^ 32)) % 2 ^ 32
  | ins_slliw | ins_sllw => (x % 2 ^ 32 * 2 ^ (y % 32)) % 2 ^ 32
  | ins_srliw | ins_srlw => (x % 2 ^ 32) / 2 ^ (y % 32)
  | ins_sraiw | ins_sraw => ofInt32 (Int.fdiv (toInt32 x) (2 ^ (y % 32)))
  | _ => 0

/-- A memory holding `ADDW x3, x1, x2` (0x002081BB) at address 0. -/
def addwMem : memory := memory.init.write_doubleword 0 0x002081BB 0xffffffffffffffff

/-- The state with `x1 = 0x1_7FFF_FFFF` and `x2 = 1`, about to run `ADDW x3, x1, x2`. -/
def addwState : processor :=
  processor.set_reg (processor.set_reg (processor.init addwMem) 1 0x17FFFFFFF) 2 1

/-! ## Notions of jumps and branches -/

/-- A value with its bit 0 cleared. -/
def clearBit0 (v : Nat) : Nat := v / 2 * 2

/-- The target of JALR in the architectural 64-bit definition, before bit 0 is cleared:
`(x[rs1] + sext64(imm)) mod 2^64` for the 12-bit immediate `imm`. -/
def jalrTarget (x imm : Nat) : Nat := (x + signExt 12 imm) % 2 ^ 64

/-- The six conditional branches. -/
def branchKinds : List Ins := [ins_beq, ins_bne, ins_blt, ins_bge, ins_bltu, ins_bgeu]

/-- The field `funct3` of a conditional branch in the standard encoding. -/
def branchFunct3 : Ins → Nat
  | ins_beq => 0
  | ins_bne => 1
  | ins_blt => 4
  | ins_bge => 5
  | ins_bltu => 6
  | ins_bgeu => 7
  | _ => 0

/-- The standard B-type encoding of a branch with offset `o`: imm[12|10:5] in bits 31:25,
`rs2` in bits 24:20, `rs1` in bits 19:15, `funct3` in bits 14:12, imm[4:1|11] in bits 11:7,
opcode 0x63. -/
def encodeBranch (funct3 rs1 rs2 : Nat) (o : Int) : Nat :=
  let u := (o % 2 ^ 13).toNat
  bits u 12 12 * 2 ^ 31 + bits u 10 5 * 2 ^ 25 + rs2 * 2 ^ 20 + rs1 * 2 ^ 15
    + funct3 * 2 ^ 12 + bits u 4 1 * 2 ^ 8 + bits u 11 11 * 2 ^ 7 + 0x63

/-- The condition of a branch on the operands `a = x[rs1]`, `b = x[rs2]`: equality for
BEQ/BNE, the order of the two's complement integers for BLT/BGE, the order of the unsigned
values for BLTU/BGEU. -/
def branchCond (k : Ins) (a b : Nat) : Bool :=
  match k with
  | ins_beq => decide (a = b)
  | ins_bne => decide (a ≠ b)
  | ins_blt => decide (toInt64 a < toInt64 b)
  | ins_bge => decide (toInt64 a ≥ toInt64 b)
  | ins_bltu => decide (a < b)
  | ins_bgeu => decide (a ≥ b)
  | _ => false

/-- A memory holding `JALR x1, 8(x1)` (0x008080E7) at address 0. -/
def jalrMem : memory := memory.init.write_doubleword 0 0x008080E7 0xffffffffffffffff

/-- The state with `x1 = 0x201`, about to run `JALR x1, 8(x1)`. -/
def jalrState : processor := processor.set_reg (processor.init jalrMem) 1 0x201

/-- The state with `x1 = 0x1_0000_0000`, about to run `JALR x1, 8(x1)`: the 64-bit sum
0x1_0000_0008 is not the sign extension of its low 32 bits. -/
def jalrWideState : processor := processor.set_reg (processor.init jalrMem) 1 0x100000000

/-- A memory holding `BLT x1, x2, -8` (0xFE20CCE3) at address 0x100. -/
def bltMem : memory := memory.init.write_doubleword 0x100 0xFE20CCE3 0xffffffffffffffff

/-- The state with `pc = 0x100`, `x1 = -1` and `x2 = 1`, about to run `BLT x1, x2, -8`. -/
def bltState : processor :=
  processor.set_pc
    (processor.set_reg (processor.set_reg (processor.init bltMem) 1 0xffffffffffffffff) 2 1)
    0x100

/-! ## Notions of sign extension -/

/-- The integer the low `n` bits of `x` stand for in two's complement. -/
def toIntN (n x : Nat) : Int :=
  if x % 2 ^ n < 2 ^ (n - 1) then ((x % 2 ^ n : Nat) : Int)
  else ((x % 2 ^ n : Nat) : Int) - 2 ^ n

/-- The `n`-bit two's complement number held in the low `n` bits of `x`, extended to `m`
bits: the low `n` bits, with bit `n - 1` copied into the bits `n` to `m - 1`. -/
def signExtTo (n m x : Nat) : Nat :=
  if x % 2 ^ n < 2 ^ (n - 1) then x % 2 ^ n else x % 2 ^ n + (2 ^ m - 2 ^ n)

/-- The `m`-bit word that stands for an integer in two's complement (modulo `2^m`). -/
def ofIntN (m : Nat) (z : Int) : Nat := (z % 2 ^ m).toNat

/-- The five sign-extension helpers of `processor`, each with its source width `N` and its
target width `M`. -/
def sextHelpers : List (Nat × Nat × (Nat → Nat)) :=
  [(12, 32, processor.sext_12_32), (20, 32, processor.sext_20_32),
   (8, 64, processor.sext_8_64), (16, 64, processor.sext_16_64),
   (32, 64, processor.sext_32_64)]

/-! ## The constraints on the stored CSR values -/

/-- The constraint on the value `v` stored in the CSR `k`: the bits of `mstatus` outside
0x1888 are those of 0x2_0000_0000, `misa` is fixed, `mie` and `mip` have no bit outside
0x999, `mepc` is a multiple of 4, `mcause` has no bit outside 0x8000_0000_0000_000F, the
bit 1 of `mtvec` is 0 and its bits 7..1 are 0 when its bit 0 is 1; each of these values is a
64-bit value.  The other CSRs are not constrained. -/
def csrValueOK (k v : Nat) : Prop :=
  if k = 0x300 then v &&& 0xffffffffffffe777 = 0x200000000 ∧ v < 2 ^ 64
  else if k = 0x301 then v = 0x8000000000100100
  else if k = 0x304 then v &&& 0xfffffffffffff666 = 0 ∧ v < 2 ^ 64
  else if k = 0x344 then v &&& 0xfffffffffffff666 = 0 ∧ v < 2 ^ 64
  else if k = 0x341 then v % 4 = 0 ∧ v < 2 ^ 64
  else if k = 0x342 then v &&& 0x7ffffffffffffff0 = 0 ∧ v < 2 ^ 64
  else if k = 0x305 then v &&& 0x2 = 0 ∧ (v &&& 0x1 = 1 → v &&& 0xfe = 0) ∧ v < 2 ^ 64
  else True

/-- Every stored CSR value meets its constraint. -/
def CsrValuesOK (p : processor) : Prop := ∀ k, csrValueOK k (processor.csrAt p k)

/-- The state with a breakpoint set through `set_breakpoint(2)` on the sample program:
the breakpoint address is 0, the `pc`. -/
def bpState : processor := processor.set_breakpoint sampleState 2

/-- The state `irqState` (a machine external interrupt pending and enabled at `pc = 8`,
`mtvec = 0`) with the breakpoint set at the handler address 0. -/
def irqBpState : processor := processor.set_breakpoint irqState 0

/-- User mode at the misaligned `pc = 2`: the next step raises cause 0. -/
def userMisalignedState : processor :=
  processor.set_pc (processor.set_prv sampleState 0) 2

/-! ## Sample states with an interrupt pending when the instruction is reached -/

/-- Machine mode over the empty memory with `mstatus.mie = 1` and a machine external
interrupt pending and enabled, at `pc = 8`; `mtvec` is 0, and the handler address 0 holds
the all-zero word. -/
def irqEmptyState : processor :=
  processor.set_pc
    (processor.set_csr
      (processor.set_csr (processor.set_csr (processor.init memory.init) 0x300 0x8) 0x304
        0x800)
      0x344 0x800) 8

/-- User mode with a machine external interrupt pending and enabled, at `pc = 8`; `mtvec`
is 0, and the handler address 0 holds `EBREAK`. -/
def irqEbreakUserState : processor :=
  processor.set_pc
    (processor.set_prv
      (processor.set_csr (processor.set_csr (processor.init ebreakMem) 0x304 0x800) 0x344
        0x800) 0) 8

/-- Machine mode with `mepc = 0x40`, `mstatus.mie = 1`, `mstatus.mpie = 0` and a machine
external interrupt pending and enabled, at `pc = 8`; `mtvec` is 0, and the handler address
0 holds `MRET`. -/
def irqMretState : processor :=
  processor.set_pc
    (processor.set_csr
      (processor.set_csr
        (processor.set_csr (processor.set_csr (processor.init mretMem) 0x341 0x40) 0x300 0x8)
        0x304 0x800)
      0x344 0x800) 8

/-! # Auxiliary lemmas -/

/-! ## Finite maps -/

theorem umFind_umAssign_same {α : Type} (m : List (Nat × α)) (k : Nat) (v : α) :
    umFind (umAssign m k v) k = some v := by
  induction m with
  | nil => simp [umAssign, umFind]
  | cons e rest ih =>
    obtain ⟨k', v'⟩ := e
    by_cases h : k' = k
    · simp [umAssign, umFind, h]
    · simp [umAssign, umFind, h, ih]

theorem umFind_umAssign_other {α : Type} (m : List (Nat × α)) (k k' : Nat) (v : α)
    (hk : k ≠ k') : umFind (umAssign m k v) k' = umFind m k' := by
  induction m with
  | nil => simp [umAssign, umFind, hk]
  | cons e rest ih =>
    obtain ⟨k0, v0⟩ := e
    by_cases h : k0 = k
    · subst h
      simp [umAssign, umFind, hk]
    · simp [umAssign, umFind, h, ih]

theorem umFind_ne_none_iff {α : Type} (m : List (Nat × α)) (k : Nat) :
    umFind m k ≠ none ↔ k ∈ m.map Prod.fst := by
  induction m with
  | nil => simp [umFind]
  | cons e rest ih =>
    obtain ⟨k0, v0⟩ := e
    by_cases h : k0 = k
    · simp [umFind, h]
    · have h' : ¬ k = k0 := fun hh => h hh.symm
      simp [umFind, h, h', ih]

theorem umAssign_keys {α : Type} (m : List (Nat × α)) (k : Nat) (v : α)
    (hk : k ∈ m.map Prod.fst) : (umAssign m k v).map Prod.fst = m.map Prod.fst := by
  induction m with
  | nil => simp at hk
  | cons e rest ih =>
    obtain ⟨k0, v0⟩ := e
    by_cases h : k0 = k
    · simp [umAssign, h]
    · have hk' : k ∈ rest.map Prod.fst := by
        simp only [List.map_cons, List.mem_cons] at hk
        rcases hk with hk | hk
        · exact absurd hk.symm h
        · exact hk
      simp [umAssign, h, ih hk']

namespace processor

open Ins

/-! ## Frame lemmas: the fields a helper leaves alone -/

@[simp] theorem csrPut_main_memory (p : processor) (k v : Nat) :
    (csrPut p k v).main_memory = p.main_memory := by
  unfold csrPut; rfl

@[simp] theorem csrPut_pc (p : processor) (k v : Nat) :
    (csrPut p k v).pc = p.pc := by
  unfold csrPut; rfl

@[simp] theorem csrPut_breakpoint (p : processor) (k v : Nat) :
    (csrPut p k v).breakpoint = p.breakpoint := by
  unfold csrPut; rfl

@[simp] theorem csrPut_bp_enabled (p : processor) (k v : Nat) :
    (csrPut p k v).bp_enabled = p.bp_enabled := by
  unfold csrPut; rfl

@[simp] theorem csrPut_ins_count (p : processor) (k v : Nat) :
    (csrPut p k v).ins_count = p.ins_count := by
  unfold csrPut; rfl

@[simp] theorem csrPut_registers (p : processor) (k v : Nat) :
    (csrPut p k v).registers = p.registers := by
  unfold csrPut; rfl

@[simp] theorem csrPut_decoder (p : processor) (k v : Nat) :
    (csrPut p k v).decoder = p.decoder := by
  unfold csrPut; rfl

@[simp] theorem csrPut_prv (p : processor) (k v : Nat) :
    (csrPut p k v).prv = p.prv := by
  unfold csrPut; rfl

@[simp] theorem csrUpd_main_memory (p : processor) (k : Nat) (f : Nat → Nat) :
    (csrUpd p k f).main_memory = p.main_memory := by
  unfold csrUpd; rfl

@[simp] theorem csrUpd_pc (p : processor) (k : Nat) (f : Nat → Nat) :
    (csrUpd p k f).pc = p.pc := by
  unfold csrUpd; rfl

@[simp] theorem csrUpd_breakpoint (p : processor) (k : Nat) (f : Nat → Nat) :
    (csrUpd p k f).breakpoint = p.breakpoint := by
  unfold csrUpd; rfl

@[simp] theorem csrUpd_bp_enabled (p : processor) (k : Nat) (f : Nat → Nat) :
    (csrUpd p k f).bp_enabled = p.bp_enabled := by
  unfold csrUpd; rfl

@[simp] theorem csrUpd_ins_count (p : processor) (k : Nat) (f : Nat → Nat) :
    (csrUpd p k f).ins_count = p.ins_count := by
  unfold csrUpd; rfl

@[simp] theorem csrUpd_registers (p : processor) (k : Nat) (f : Nat → Nat) :
    (csrUpd p k f).registers = p.registers := by
  unfold csrUpd; rfl

@[simp] theorem csrUpd_decoder (p : processor) (k : Nat) (f : Nat → Nat) :
    (csrUpd p k f).decoder = p.decoder := by
  unfold csrUpd; rfl

@[simp] theorem csrUpd_prv (p : processor) (k : Nat) (f : Nat → Nat) :
    (csrUpd p k f).prv = p.prv := by
  unfold csrUpd; rfl

@[simp] theorem set_prv_main_memory (p : processor) (v : Nat) :
    (set_prv p v).main_memory = p.main_memory := by
  unfold set_prv; rfl

@[simp] theorem set_prv_pc (p : processor) (v : Nat) :
    (set_prv p v).pc = p.pc := by
  unfold set_prv; rfl

@[simp] theorem set_prv_breakpoint (p : processor) (v : Nat) :
    (set_prv p v).breakpoint = p.breakpoint := by
  unfold set_prv; rfl

@[simp] theorem set_prv_bp_enabled (p : processor) (v : Nat) :
    (set_prv p v).bp_enabled = p.bp_enabled := by
  unfold set_prv; rfl

@[simp] theorem set_prv_ins_count (p : processor) (v : Nat) :
    (set_prv p v).ins_count = p.ins_count := by
  unfold set_prv; rfl

@[simp] theorem set_prv_registers (p : processor) (v : Nat) :
    (set_prv p v).registers = p.registers := by
  unfold set_prv; rfl

@[simp] theorem set_prv_decoder (p : processor) (v : Nat) :
    (set_prv p v).decoder = p.decoder := by
  unfold set_prv; rfl

@[simp] theorem set_prv_csrs (p : processor) (v : Nat) :
    (set_prv p v).csrs = p.csrs := by
  unfold set_prv; rfl

@[simp] theorem set_pc_main_memory (p : processor) (v : Nat) :
    (set_pc p v).main_memory = p.main_memory := by
  unfold set_pc; rfl

@[simp] theorem set_pc_breakpoint (p : processor) (v : Nat) :
    (set_pc p v).breakpoint = p.breakpoint := by
  unfold set_pc; rfl

@[simp] theorem set_pc_bp_enabled (p : processor) (v : Nat) :
    (set_pc p v).bp_enabled = p.bp_enabled := by
  unfold set_pc; rfl

@[simp] theorem set_pc_ins_count (p : processor) (v : Nat) :
    (set_pc p v).ins_count = p.ins_count := by
  unfold set_pc; rfl

@[simp] theorem set_pc_registers (p : processor) (v : Nat) :
    (set_pc p v).registers = p.registers := by
  unfold set_pc; rfl

@[simp] theorem set_pc_decoder (p : processor) (v : Nat) :
    (set_pc p v).decoder = p.decoder := by
  unfold set_pc; rfl

@[simp] theorem set_pc_prv (p : processor) (v : Nat) :
    (set_pc p v).prv = p.prv := by
  unfold set_pc; rfl

@[simp] theorem set_pc_csrs (p : processor) (v : Nat) :
    (set_pc p v).csrs = p.csrs := by
  unfold set_pc; rfl

@[simp] theorem pcSet_main_memory (p : processor) (v : Nat) :
    (pcSet p v).main_memory = p.main_memory := by
  unfold pcSet; rfl

@[simp] theorem pcSet_breakpoint (p : processor) (v : Nat) :
    (pcSet p v).breakpoint = p.breakpoint := by
  unfold pcSet; rfl

@[simp] theorem pcSet_bp_enabled (p : processor) (v : Nat) :
    (pcSet p v).bp_enabled = p.bp_enabled := by
  unfold pcSet; rfl

@[simp] theorem pcSet_ins_count (p : processor) (v : Nat) :
    (pcSet p v).ins_count = p.ins_count := by
  unfold pcSet; rfl

@[simp] theorem pcSet_registers (p : processor) (v : Nat) :
    (pcSet p v).registers = p.registers := by
  unfold pcSet; rfl

@[simp] theorem pcSet_decoder (p : processor) (v : Nat) :
    (pcSet p v).decoder = p.decoder := by
  unfold pcSet; rfl

@[simp] theorem pcSet_prv (p : processor) (v : Nat) :
    (pcSet p v).prv = p.prv := by
  unfold pcSet; rfl

@[simp] theorem pcSet_csrs (p : processor) (v : Nat) :
    (pcSet p v).csrs = p.csrs := by
  unfold pcSet; rfl

@[simp] theorem prvSet_main_memory (p : processor) (v : Nat) :
    (prvSet p v).main_memory = p.main_memory := by
  unfold prvSet; rfl

@[simp] theorem prvSet_pc (p : processor) (v : Nat) :
    (prvSet p v).pc = p.pc := by
  unfold prvSet; rfl

@[simp] theorem prvSet_breakpoint (p : processor) (v : Nat) :
    (prvSet p v).breakpoint = p.breakpoint := by
  unfold prvSet; rfl

@[simp] theorem prvSet_bp_enabled (p : processor) (v : Nat) :
    (prvSet p v).bp_enabled = p.bp_enabled := by
  unfold prvSet; rfl

@[simp] theorem prvSet_ins_count (p : processor) (v : Nat) :
    (prvSet p v).ins_count = p.ins_count := by
  unfold prvSet; rfl

@[simp] theorem prvSet_registers (p : processor) (v : Nat) :
    (prvSet p v).registers = p.registers := by
  unfold prvSet; rfl

@[simp] theorem prvSet_decoder (p : processor) (v : Nat) :
    (prvSet p v).decoder = p.decoder := by
  unfold prvSet; rfl

@[simp] theorem prvSet_csrs (p : processor) (v : Nat) :
    (prvSet p v).csrs = p.csrs := by
  unfold prvSet; rfl

@[simp] theorem memWrite_pc (p : processor) (a d m : Nat) :
    (memWrite p a d m).pc = p.pc := by
  unfold memWrite; rfl

@[simp] theorem memWrite_breakpoint (p : processor) (a d m : Nat) :
    (memWrite p a d m).breakpoint = p.breakpoint := by
  unfold memWrite; rfl

@[simp] theorem memWrite_bp_enabled (p : processor) (a d m : Nat) :
    (memWrite p a d m).bp_enabled = p.bp_enabled := by
  unfold memWrite; rfl

@[simp] theorem memWrite_ins_count (p : processor) (a d m : Nat) :
    (memWrite p a d m).ins_count = p.ins_count := by
  unfold memWrite; rfl

@[simp] theorem memWrite_registers (p : processor) (a d m : Nat) :
    (memWrite p a d m).registers = p.registers := by
  unfold memWrite; rfl

@[simp] theorem memWrite_decoder (p : processor) (a d m : Nat) :
    (memWrite p a d m).decoder = p.decoder := by
  unfold memWrite; rfl

@[simp] theorem memWrite_prv (p : processor) (a d m : Nat) :
    (memWrite p a d m).prv = p.prv := by
  unfold memWrite; rfl

@[simp] theorem memWrite_csrs (p : processor) (a d m : Nat) :
    (memWrite p a d m).csrs = p.csrs := by
  unfold memWrite; rfl

@[simp] theorem pcInc_main_memory (p : processor) :
    (pcInc p).main_memory = p.main_memory := by
  unfold pcInc; rfl

@[simp] theorem pcInc_breakpoint (p : processor) :
    (pcInc p).breakpoint = p.breakpoint := by
  unfold pcInc; rfl

@[simp] theorem pcInc_bp_enabled (p : processor) :
    (pcInc p).bp_enabled = p.bp_enabled := by
  unfold pcInc; rfl

@[simp] theorem pcInc_ins_count (p : processor) :
    (pcInc p).ins_count = p.ins_count := by
  unfold pcInc; rfl

@[simp] theorem pcInc_registers (p : processor) :
    (pcInc p).registers = p.registers := by
  unfold pcInc; rfl

@[simp] theorem pcInc_decoder (p : processor) :
    (pcInc p).decoder = p.decoder := by
  unfold pcInc; rfl

@[simp] theorem pcInc_prv (p : processor) :
    (pcInc p).prv = p.prv := by
  unfold pcInc; rfl

@[simp] theorem pcInc_csrs (p : processor) :
    (pcInc p).csrs = p.csrs := by
  unfold pcInc; rfl

@[simp] theorem pcDec_main_memory (p : processor) :
    (pcDec p).main_memory = p.main_memory := by
  unfold pcDec; rfl

@[simp] theorem pcDec_breakpoint (p : processor) :
    (pcDec p).breakpoint = p.breakpoint := by
  unfold pcDec; rfl

@[simp] theorem pcDec_bp_enabled (p : processor) :
    (pcDec p).bp_enabled = p.bp_enabled := by
  unfold pcDec; rfl

@[simp] theorem pcDec_ins_count (p : processor) :
    (pcDec p).ins_count = p.ins_count := by
  unfold pcDec; rfl

@[simp] theorem pcDec_registers (p : processor) :
    (pcDec p).registers = p.registers := by
  unfold pcDec; rfl

@[simp] theorem pcDec_decoder (p : processor) :
    (pcDec p).decoder = p.decoder := by
  unfold pcDec; rfl

@[simp] theorem pcDec_prv (p : processor) :
    (pcDec p).prv = p.prv := by
  unfold pcDec; rfl

@[simp] theorem pcDec_csrs (p : processor) :
    (pcDec p).csrs = p.csrs := by
  unfold pcDec; rfl

@[simp] theorem countInc_main_memory (p : processor) :
    (countInc p).main_memory = p.main_memory := by
  unfold countInc; rfl

@[simp] theorem countInc_pc (p : processor) :
    (countInc p).pc = p.pc := by
  unfold countInc; rfl

@[simp] theorem countInc_breakpoint (p : processor) :
    (countInc p).breakpoint = p.breakpoint := by
  unfold countInc; rfl

@[simp] theorem countInc_bp_enabled (p : processor) :
    (countInc p).bp_enabled = p.bp_enabled := by
  unfold countInc; rfl

@[simp] theorem countInc_registers (p : processor) :
    (countInc p).registers = p.registers := by
  unfold countInc; rfl

@[simp] theorem countInc_decoder (p : processor) :
    (countInc p).decoder = p.decoder := by
  unfold countInc; rfl

@[simp] theorem countInc_prv (p : processor) :
    (countInc p).prv = p.prv := by
  unfold countInc; rfl

@[simp] theorem countInc_csrs (p : processor) :
    (countInc p).csrs = p.csrs := by
  unfold countInc; rfl

@[simp] theorem countDec_main_memory (p : processor) :
    (countDec p).main_memory = p.main_memory := by
  unfold countDec; rfl

@[simp] theorem countDec_pc (p : processor) :
    (countDec p).pc = p.pc := by
  unfold countDec; rfl

@[simp] theorem countDec_breakpoint (p : processor) :
    (countDec p).breakpoint = p.breakpoint := by
  unfold countDec; rfl

@[simp] theorem countDec_bp_enabled (p : processor) :
    (countDec p).bp_enabled = p.bp_enabled := by
  unfold countDec; rfl

@[simp] theorem countDec_registers (p : processor) :
    (countDec p).registers = p.registers := by
  unfold countDec; rfl

@[simp] theorem countDec_decoder (p : processor) :
    (countDec p).decoder = p.decoder := by
  unfold countDec; rfl

@[simp] theorem countDec_prv (p : processor) :
    (countDec p).prv = p.prv := by
  unfold countDec; rfl

@[simp] theorem countDec_csrs (p : processor) :
    (countDec p).csrs = p.csrs := by
  unfold countDec; rfl

@[simp] theorem branchJump_main_memory (p : processor) :
    (branchJump p).main_memory = p.main_memory := by
  unfold branchJump; rfl

@[simp] theorem branchJump_breakpoint (p : processor) :
    (branchJump p).breakpoint = p.breakpoint := by
  unfold branchJump; rfl

@[simp] theorem branchJump_bp_enabled (p : processor) :
    (branchJump p).bp_enabled = p.bp_enabled := by
  unfold branchJump; rfl

@[simp] theorem branchJump_ins_count (p : processor) :
    (branchJump p).ins_count = p.ins_count := by
  unfold branchJump; rfl

@[simp] theorem branchJump_registers (p : processor) :
    (branchJump p).registers = p.registers := by
  unfold branchJump; rfl

@[simp] theorem branchJump_decoder (p : processor) :
    (branchJump p).decoder = p.decoder := by
  unfold branchJump; rfl

@[simp] theorem branchJump_prv (p : processor) :
    (branchJump p).prv = p.prv := by
  unfold branchJump; rfl

@[simp] theorem branchJump_csrs (p : processor) :
    (branchJump p).csrs = p.csrs := by
  unfold branchJump; rfl

@[simp] theorem set_csr_main_memory (p : processor) (k v : Nat) :
    (set_csr p k v).main_memory = p.main_memory := by
  unfold set_csr; split_ifs <;> rfl

@[simp] theorem set_csr_pc (p : processor) (k v : Nat) :
    (set_csr p k v).pc = p.pc := by
  unfold set_csr; split_ifs <;> rfl

@[simp] theorem set_csr_breakpoint (p : processor) (k v : Nat) :
    (set_csr p k v).breakpoint = p.breakpoint := by
  unfold set_csr; split_ifs <;> rfl

@[simp] theorem set_csr_bp_enabled (p : processor) (k v : Nat) :
    (set_csr p k v).bp_enabled = p.bp_enabled := by
  unfold set_csr; split_ifs <;> rfl

@[simp] theorem set_csr_ins_count (p : processor) (k v : Nat) :
    (set_csr p k v).ins_count = p.ins_count := by
  unfold set_csr; split_ifs <;> rfl

@[simp] theorem set_csr_registers (p : processor) (k v : Nat) :
    (set_csr p k v).registers = p.registers := by
  unfold set_csr; split_ifs <;> rfl

@[simp] theorem set_csr_decoder (p : processor) (k v : Nat) :
    (set_csr p k v).decoder = p.decoder := by
  unfold set_csr; split_ifs <;> rfl

@[simp] theorem set_csr_prv (p : processor) (k v : Nat) :
    (set_csr p k v).prv = p.prv := by
  unfold set_csr; split_ifs <;> rfl

@[simp] theorem set_reg_main_memory (p : processor) (r v : Nat) :
    (set_reg p r v).main_memory = p.main_memory := by
  unfold set_reg; split_ifs <;> rfl

@[simp] theorem set_reg_pc (p : processor) (r v : Nat) :
    (set_reg p r v).pc = p.pc := by
  unfold set_reg; split_ifs <;> rfl

@[simp] theorem set_reg_breakpoint (p : processor) (r v : Nat) :
    (set_reg p r v).breakpoint = p.breakpoint := by
  unfold set_reg; split_ifs <;> rfl

@[simp] theorem set_reg_bp_enabled (p : processor) (r v : Nat) :
    (set_reg p r v).bp_enabled = p.bp_enabled := by
  unfold set_reg; split_ifs <;> rfl

@[simp] theorem set_reg_ins_count (p : processor) (r v : Nat) :
    (set_reg p r v).ins_count = p.ins_count := by
  unfold set_reg; split_ifs <;> rfl

@[simp] theorem set_reg_decoder (p : processor) (r v : Nat) :
    (set_reg p r v).decoder = p.decoder := by
  unfold set_reg; split_ifs <;> rfl

@[simp] theorem set_reg_prv (p : processor) (r v : Nat) :
    (set_reg p r v).prv = p.prv := by
  unfold set_reg; split_ifs <;> rfl

@[simp] theorem set_reg_csrs (p : processor) (r v : Nat) :
    (set_reg p r v).csrs = p.csrs := by
  unfold set_reg; split_ifs <;> rfl

@[simp] theorem pcEven_main_memory (p : processor) :
    (pcEven p).main_memory = p.main_memory := by
  unfold pcEven; split_ifs <;> rfl

@[simp] theorem pcEven_breakpoint (p : processor) :
    (pcEven p).breakpoint = p.breakpoint := by
  unfold pcEven; split_ifs <;> rfl

@[simp] theorem pcEven_bp_enabled (p : processor) :
    (pcEven p).bp_enabled = p.bp_enabled := by
  unfold pcEven; split_ifs <;> rfl

@[simp] theorem pcEven_ins_count (p : processor) :
    (pcEven p).ins_count = p.ins_count := by
  unfold pcEven; split_ifs <;> rfl

@[simp] theorem pcEven_registers (p : processor) :
    (pcEven p).registers = p.registers := by
  unfold pcEven; split_ifs <;> rfl

@[simp] theorem pcEven_decoder (p : processor) :
    (pcEven p).decoder = p.decoder := by
  unfold pcEven; split_ifs <;> rfl

@[simp] theorem pcEven_prv (p : processor) :
    (pcEven p).prv = p.prv := by
  unfold pcEven; split_ifs <;> rfl

@[simp] theorem pcEven_csrs (p : processor) :
    (pcEven p).csrs = p.csrs := by
  unfold pcEven; split_ifs <;> rfl

@[simp] theorem exceptStatus_main_memory (p : processor) :
    (exceptStatus p).main_memory = p.main_memory := by
  unfold exceptStatus
  simp only [apply_ite processor.main_memory, ite_self, csrUpd_main_memory]

@[simp] theorem exceptStatus_pc (p : processor) :
    (exceptStatus p).pc = p.pc := by
  unfold exceptStatus
  simp only [apply_ite processor.pc, ite_self, csrUpd_pc]

@[simp] theorem exceptStatus_breakpoint (p : processor) :
    (exceptStatus p).breakpoint = p.breakpoint := by
  unfold exceptStatus
  simp only [apply_ite processor.breakpoint, ite_self, csrUpd_breakpoint]

@[simp] theorem exceptStatus_bp_enabled (p : processor) :
    (exceptStatus p).bp_enabled = p.bp_enabled := by
  unfold exceptStatus
  simp only [apply_ite processor.bp_enabled, ite_self, csrUpd_bp_enabled]

@[simp] theorem exceptStatus_ins_count (p : processor) :
    (exceptStatus p).ins_count = p.ins_count := by
  unfold exceptStatus
  simp only [apply_ite processor.ins_count, ite_self, csrUpd_ins_count]

@[simp] theorem exceptStatus_registers (p : processor) :
    (exceptStatus p).registers = p.registers := by
  unfold exceptStatus
  simp only [apply_ite processor.registers, ite_self, csrUpd_registers]

@[simp] theorem exceptStatus_decoder (p : processor) :
    (exceptStatus p).decoder = p.decoder := by
  unfold exceptStatus
  simp only [apply_ite processor.decoder, ite_self, csrUpd_decoder]

@[simp] theorem exceptStatus_prv (p : processor) :
    (exceptStatus p).prv = p.prv := by
  unfold exceptStatus
  simp only [apply_ite processor.prv, ite_self, csrUpd_prv]

@[simp] theorem exceptCause_main_memory (p : processor) (c o : Nat) :
    (exceptCause p c o).main_memory = p.main_memory := by
  unfold exceptCause
  split <;> simp only [set_csr_main_memory, pcInc_main_memory, countInc_main_memory,
    set_prv_main_memory]

@[simp] theorem exceptCause_breakpoint (p : processor) (c o : Nat) :
    (exceptCause p c o).breakpoint = p.breakpoint := by
  unfold exceptCause
  split <;> simp only [set_csr_breakpoint, pcInc_breakpoint, countInc_breakpoint,
    set_prv_breakpoint]

@[simp] theorem exceptCause_bp_enabled (p : processor) (c o : Nat) :
    (exceptCause p c o).bp_enabled = p.bp_enabled := by
  unfold exceptCause
  split <;> simp only [set_csr_bp_enabled, pcInc_bp_enabled, countInc_bp_enabled,
    set_prv_bp_enabled]

@[simp] theorem exceptCause_registers (p : processor) (c o : Nat) :
    (exceptCause p c o).registers = p.registers := by
  unfold exceptCause
  split <;> simp only [set_csr_registers, pcInc_registers, countInc_registers, set_prv_registers]

@[simp] theorem exceptCause_decoder (p : processor) (c o : Nat) :
    (exceptCause p c o).decoder = p.decoder := by
  unfold exceptCause
  split <;> simp only [set_csr_decoder, pcInc_decoder, countInc_decoder, set_prv_decoder]

@[simp] theorem except_main_memory (p : processor) (c : Nat) :
    (except p c).main_memory = p.main_memory := by
  unfold except
  simp only [apply_ite processor.main_memory, ite_self, countDec_main_memory, pcDec_main_memory,
    exceptCause_main_memory, exceptStatus_main_memory, pcSet_main_memory, set_csr_main_memory]

@[simp] theorem except_breakpoint (p : processor) (c : Nat) :
    (except p c).breakpoint = p.breakpoint := by
  unfold except
  simp only [apply_ite processor.breakpoint, ite_self, countDec_breakpoint, pcDec_breakpoint,
    exceptCause_breakpoint, exceptStatus_breakpoint, pcSet_breakpoint, set_csr_breakpoint]

@[simp] theorem except_bp_enabled (p : processor) (c : Nat) :
    (except p c).bp_enabled = p.bp_enabled := by
  unfold except
  simp only [apply_ite processor.bp_enabled, ite_self, countDec_bp_enabled, pcDec_bp_enabled,
    exceptCause_bp_enabled, exceptStatus_bp_enabled, pcSet_bp_enabled, set_csr_bp_enabled]

@[simp] theorem except_registers (p : processor) (c : Nat) :
    (except p c).registers = p.registers := by
  unfold except
  simp only [apply_ite processor.registers, ite_self, countDec_registers, pcDec_registers,
    exceptCause_registers, exceptStatus_registers, pcSet_registers, set_csr_registers]

@[simp] theorem except_decoder (p : processor) (c : Nat) :
    (except p c).decoder = p.decoder := by
  unfold except
  simp only [apply_ite processor.decoder, ite_self, countDec_decoder, pcDec_decoder,
    exceptCause_decoder, exceptStatus_decoder, pcSet_decoder, set_csr_decoder]

@[simp] theorem interrupt_main_memory (p : processor) (c : Nat) :
    (interrupt p c).main_memory = p.main_memory := by
  unfold interrupt
  simp only [apply_ite processor.main_memory, ite_self, csrUpd_main_memory, set_csr_main_memory,
    pcSet_main_memory, set_prv_main_memory]

@[simp] theorem interrupt_breakpoint (p : processor) (c : Nat) :
    (interrupt p c).breakpoint = p.breakpoint := by
  unfold interrupt
  simp only [apply_ite processor.breakpoint, ite_self, csrUpd_breakpoint, set_csr_breakpoint,
    pcSet_breakpoint, set_prv_breakpoint]

@[simp] theorem interrupt_bp_enabled (p : processor) (c : Nat) :
    (interrupt p c).bp_enabled = p.bp_enabled := by
  unfold interrupt
  simp only [apply_ite processor.bp_enabled, ite_self, csrUpd_bp_enabled, set_csr_bp_enabled,
    pcSet_bp_enabled, set_prv_bp_enabled]

@[simp] theorem interrupt_ins_count (p : processor) (c : Nat) :
    (interrupt p c).ins_count = p.ins_count := by
  unfold interrupt
  simp only [apply_ite processor.ins_count, ite_self, csrUpd_ins_count, set_csr_ins_count,
    pcSet_ins_count, set_prv_ins_count]

@[simp] theorem interrupt_registers (p : processor) (c : Nat) :
    (interrupt p c).registers = p.registers := by
  unfold interrupt
  simp only [apply_ite processor.registers, ite_self, csrUpd_registers, set_csr_registers,
    pcSet_registers, set_prv_registers]

@[simp] theorem interrupt_decoder (p : processor) (c : Nat) :
    (interrupt p c).decoder = p.decoder := by
  unfold interrupt
  simp only [apply_ite processor.decoder, ite_self, csrUpd_decoder, set_csr_decoder,
    pcSet_decoder, set_prv_decoder]

@[simp] theorem ebreakBody_main_memory (p : processor) :
    (ebreakBody p).main_memory = p.main_memory := by
  unfold ebreakBody
  simp only [apply_ite processor.main_memory, ite_self, pcDec_main_memory, countDec_main_memory,
    prvSet_main_memory, set_csr_main_memory, csrUpd_main_memory, pcSet_main_memory]

@[simp] theorem ebreakBody_breakpoint (p : processor) :
    (ebreakBody p).breakpoint = p.breakpoint := by
  unfold ebreakBody
  simp only [apply_ite processor.breakpoint, ite_self, pcDec_breakpoint, countDec_breakpoint,
    prvSet_breakpoint, set_csr_breakpoint, csrUpd_breakpoint, pcSet_breakpoint]

@[simp] theorem ebreakBody_bp_enabled (p : processor) :
    (ebreakBody p).bp_enabled = p.bp_enabled := by
  unfold ebreakBody
  simp only [apply_ite processor.bp_enabled, ite_self, pcDec_bp_enabled, countDec_bp_enabled,
    prvSet_bp_enabled, set_csr_bp_enabled, csrUpd_bp_enabled, pcSet_bp_enabled]

@[simp] theorem ebreakBody_registers (p : processor) :
    (ebreakBody p).registers = p.registers := by
  unfold ebreakBody
  simp only [apply_ite processor.registers, ite_self, pcDec_registers, countDec_registers,
    prvSet_registers, set_csr_registers, csrUpd_registers, pcSet_registers]

@[simp] theorem ebreakBody_decoder (p : processor) :
    (ebreakBody p).decoder = p.decoder := by
  unfold ebreakBody
  simp only [apply_ite processor.decoder, ite_self, pcDec_decoder, countDec_decoder,
    prvSet_decoder, set_csr_decoder, csrUpd_decoder, pcSet_decoder]

@[simp] theorem mretBody_main_memory (p : processor) :
    (mretBody p).main_memory = p.main_memory := by
  unfold mretBody
  simp only [apply_ite processor.main_memory, ite_self, csrUpd_main_memory, prvSet_main_memory,
    pcSet_main_memory]

@[simp] theorem mretBody_breakpoint (p : processor) :
    (mretBody p).breakpoint = p.breakpoint := by
  unfold mretBody
  simp only [apply_ite processor.breakpoint, ite_self, csrUpd_breakpoint, prvSet_breakpoint,
    pcSet_breakpoint]

@[simp] theorem mretBody_bp_enabled (p : processor) :
    (mretBody p).bp_enabled = p.bp_enabled := by
  unfold mretBody
  simp only [apply_ite processor.bp_enabled, ite_self, csrUpd_bp_enabled, prvSet_bp_enabled,
    pcSet_bp_enabled]

@[simp] theorem mretBody_ins_count (p : processor) :
    (mretBody p).ins_count = p.ins_count := by
  unfold mretBody
  simp only [apply_ite processor.ins_count, ite_self, csrUpd_ins_count, prvSet_ins_count,
    pcSet_ins_count]

@[simp] theorem mretBody_registers (p : processor) :
    (mretBody p).registers = p.registers := by
  unfold mretBody
  simp only [apply_ite processor.registers, ite_self, csrUpd_registers, prvSet_registers,
    pcSet_registers]

@[simp] theorem mretBody_decoder (p : processor) :
    (mretBody p).decoder = p.decoder := by
  unfold mretBody
  simp only [apply_ite processor.decoder, ite_self, csrUpd_decoder, prvSet_decoder, pcSet_decoder]

/-! ## Every helper is a composition of elementary updates -/

theorem Upd.trans {p q r : processor} (h1 : Upd p q) (h2 : Upd q r) : Upd p r := by
  induction h2 with
  | refl => exact h1
  | pc q v _ ih => exact Upd.pc q v ih
  | ins_count q v _ ih => exact Upd.ins_count q v ih
  | prv q v _ ih => exact Upd.prv q v ih
  | decoder q d _ ih => exact Upd.decoder q d ih
  | mem q m _ ih => exact Upd.mem q m ih
  | reg q r v _ ih => exact Upd.reg q r v ih
  | csr q k v _ ih => exact Upd.csr q k v ih
  | mstatusOr q a ha _ ih => exact Upd.mstatusOr q a ha ih
  | mstatusAnd q a ha _ ih => exact Upd.mstatusAnd q a ha ih

theorem Upd.pcInc {p q : processor} (h : Upd p q) : Upd p (pcInc q) := Upd.pc q _ h

theorem Upd.pcDec {p q : processor} (h : Upd p q) : Upd p (pcDec q) := Upd.pc q _ h

theorem Upd.countInc {p q : processor} (h : Upd p q) : Upd p (countInc q) :=
  Upd.ins_count q _ h

theorem Upd.countDec {p q : processor} (h : Upd p q) : Upd p (countDec q) :=
  Upd.ins_count q _ h

theorem Upd.set_prv {p q : processor} (v : Nat) (h : Upd p q) : Upd p (set_prv q v) :=
  Upd.prv q v h

theorem Upd.branchJump {p q : processor} (h : Upd p q) : Upd p (branchJump q) :=
  Upd.pc q _ h

theorem Upd.memWrite {p q : processor} (a d m : Nat) (h : Upd p q) :
    Upd p (memWrite q a d m) := Upd.mem q _ h

theorem Upd.decodeAt {p q : processor} (h : Upd p q) : Upd p (decodeAt q) :=
  Upd.decoder q _ h

theorem Upd.pcEven {p q : processor} (h : Upd p q) : Upd p (pcEven q) := by
  unfold processor.pcEven
  split_ifs
  · exact Upd.pc q _ h
  · exact h

theorem Upd.exceptStatus {p q : processor} (h : Upd p q) : Upd p (exceptStatus q) := by
  unfold processor.exceptStatus
  simp only []
  split_ifs <;>
  repeat (first
    | (with_reducible exact h)
    | (with_reducible refine Upd.mstatusOr _ _ (by norm_num) ?_)
    | (with_reducible refine Upd.mstatusAnd _ _ (by norm_num) ?_)
    | (with_reducible refine Upd.csr _ _ _ ?_)
    | (with_reducible refine Upd.reg _ _ _ ?_)
    | (with_reducible refine Upd.pc _ _ ?_)
    | (with_reducible refine Upd.prv _ _ ?_)
    | (with_reducible refine Upd.pcInc ?_)
    | (with_reducible refine Upd.pcDec ?_)
    | (with_reducible refine Upd.countInc ?_)
    | (with_reducible refine Upd.countDec ?_)
    | (with_reducible refine Upd.set_prv _ ?_))

theorem Upd.exceptCause {p q : processor} (c o : Nat) (h : Upd p q) :
    Upd p (exceptCause q c o) := by
  unfold processor.exceptCause
  split <;>
  repeat (first
    | (with_reducible exact h)
    | (with_reducible refine Upd.mstatusOr _ _ (by norm_num) ?_)
    | (with_reducible refine Upd.mstatusAnd _ _ (by norm_num) ?_)
    | (with_reducible refine Upd.csr _ _ _ ?_)
    | (with_reducible refine Upd.reg _ _ _ ?_)
    | (with_reducible refine Upd.pc _ _ ?_)
    | (with_reducible refine Upd.prv _ _ ?_)
    | (with_reducible refine Upd.pcInc ?_)
    | (with_reducible refine Upd.pcDec ?_)
    | (with_reducible refine Upd.countInc ?_)
    | (with_reducible refine Upd.countDec ?_)
    | (with_reducible refine Upd.set_prv _ ?_))

theorem Upd.except {p q : processor} (c : Nat) (h : Upd p q) : Upd p (except q c) := by
  unfold processor.except
  simp only []
  refine Upd.countDec (Upd.pcDec (Upd.exceptCause _ _ (Upd.exceptStatus ?_)))
  split_ifs <;>
  repeat (first
    | (with_reducible exact h)
    | (with_reducible refine Upd.mstatusOr _ _ (by norm_num) ?_)
    | (with_reducible refine Upd.mstatusAnd _ _ (by norm_num) ?_)
    | (with_reducible refine Upd.csr _ _ _ ?_)
    | (with_reducible refine Upd.reg _ _ _ ?_)
    | (with_reducible refine Upd.pc _ _ ?_)
    | (with_reducible refine Upd.prv _ _ ?_)
    | (with_reducible refine Upd.pcInc ?_)
    | (with_reducible refine Upd.pcDec ?_)
    | (with_reducible refine Upd.countInc ?_)
    | (with_reducible refine Upd.countDec ?_)
    | (with_reducible refine Upd.set_prv _ ?_))

theorem Upd.interrupt {p q : processor} (c : Nat) (h : Upd p q) : Upd p (interrupt q c) := by
  unfold processor.interrupt
  simp only []
  split_ifs <;>
  repeat (first
    | (with_reducible exact h)
    | (with_reducible refine Upd.mstatusOr _ _ (by norm_num) ?_)
    | (with_reducible refine Upd.mstatusAnd _ _ (by norm_num) ?_)
    | (with_reducible refine Upd.csr _ _ _ ?_)
    | (with_reducible refine Upd.reg _ _ _ ?_)
    | (with_reducible refine Upd.pc _ _ ?_)
    | (with_reducible refine Upd.prv _ _ ?_)
    | (with_reducible refine Upd.pcInc ?_)
    | (with_reducible refine Upd.pcDec ?_)
    | (with_reducible refine Upd.countInc ?_)
    | (with_reducible refine Upd.countDec ?_)
    | (with_reducible refine Upd.set_prv _ ?_))

theorem Upd.ebreakBody {p q : processor} (h : Upd p q) : Upd p (ebreakBody q) := by
  unfold processor.ebreakBody
  simp only []
  split_ifs <;>
  repeat (first
    | (with_reducible exact h)
    | (with_reducible refine Upd.mstatusOr _ _ (by norm_num) ?_)
    | (with_reducible refine Upd.mstatusAnd _ _ (by norm_num) ?_)
    | (with_reducible refine Upd.csr _ _ _ ?_)
    | (with_reducible refine Upd.reg _ _ _ ?_)
    | (with_reducible refine Upd.pc _ _ ?_)
    | (with_reducible refine Upd.prv _ _ ?_)
    | (with_reducible refine Upd.pcInc ?_)
    | (with_reducible refine Upd.pcDec ?_)
    | (with_reducible refine Upd.countInc ?_)
    | (with_reducible refine Upd.countDec ?_)
    | (with_reducible refine Upd.set_prv _ ?_))

theorem Upd.mretBody {p q : processor} (h : Upd p q) : Upd p (mretBody q) := by
  unfold processor.mretBody
  simp only []
  split_ifs <;>
  repeat (first
    | (with_reducible exact h)
    | (with_reducible refine Upd.mstatusOr _ _ (by norm_num) ?_)
    | (with_reducible refine Upd.mstatusAnd _ _ (by norm_num) ?_)
    | (with_reducible refine Upd.csr _ _ _ ?_)
    | (with_reducible refine Upd.reg _ _ _ ?_)
    | (with_reducible refine Upd.pc _ _ ?_)
    | (with_reducible refine Upd.prv _ _ ?_)
    | (with_reducible refine Upd.pcInc ?_)
    | (with_reducible refine Upd.pcDec ?_)
    | (with_reducible refine Upd.countInc ?_)
    | (with_reducible refine Upd.countDec ?_)
    | (with_reducible refine Upd.set_prv _ ?_))

/-! ## executeIns -/

theorem reg_set_reg_zero (p : processor) (r v : Nat) : reg (set_reg p r v) 0 = reg p 0 := by
  unfold set_reg reg
  split
  · rfl
  · rename_i h
    cases hl : p.registers with
    | nil => simp
    | cons a t =>
      cases r with
      | zero => exact absurd rfl h
      | succ n => simp

theorem reg_zero_congr {p q : processor} (h : q.registers = p.registers) :
    reg q 0 = reg p 0 := by
  unfold reg; rw [h]

set_option maxHeartbeats 4000000 in
theorem execCase_upd (p : processor) (k : Ins) : Upd p (execCase p k).1 := by
  cases k <;> dsimp only [execCase] <;> (try split_ifs) <;>
  repeat (first
    | (with_reducible exact Upd.refl)
    | (with_reducible refine Upd.mstatusOr _ _ (by norm_num) ?_)
    | (with_reducible refine Upd.mstatusAnd _ _ (by norm_num) ?_)
    | (with_reducible refine Upd.csr _ _ _ ?_)
    | (with_reducible refine Upd.reg _ _ _ ?_)
    | (with_reducible refine Upd.pc _ _ ?_)
    | (with_reducible refine Upd.prv _ _ ?_)
    | (with_reducible refine Upd.pcInc ?_)
    | (with_reducible refine Upd.pcDec ?_)
    | (with_reducible refine Upd.countInc ?_)
    | (with_reducible refine Upd.countDec ?_)
    | (with_reducible refine Upd.set_prv _ ?_)
    | (with_reducible refine Upd.pcEven ?_)
    | (with_reducible refine Upd.branchJump ?_)
    | (with_reducible refine Upd.memWrite _ _ _ ?_)
    | (with_reducible refine Upd.except _ ?_)
    | (with_reducible refine Upd.ebreakBody ?_)
    | (with_reducible refine Upd.mretBody ?_))

theorem executeInsT_upd (p : processor) : Upd p (executeInsT p).1 :=
  execCase_upd p p.decoder.code

/-! ## execute -/

theorem checkInterruptT_upd (p : processor) : Upd p (checkInterruptT p).1 := by
  unfold checkInterruptT
  split_ifs <;> first | exact Upd.refl | exact Upd.interrupt _ Upd.refl

theorem executeStepT_upd (p : processor) (chk : Bool) : Upd p (executeStepT p chk).1 := by
  unfold executeStepT
  simp only []
  split_ifs
  · exact Upd.except _ Upd.refl
  · exact checkInterruptT_upd p
  · exact Upd.countInc
      (Upd.trans (Upd.decodeAt (checkInterruptT_upd p)) (executeInsT_upd _))

theorem execute_upd (p : processor) (num : Nat) (chk : Bool) : Upd p (execute p num chk) := by
  induction num generalizing p with
  | zero => exact Upd.refl
  | succ n ih =>
    unfold execute
    simp only []
    split_ifs
    · exact executeStepT_upd p chk
    · exact Upd.trans (executeStepT_upd p chk) (ih _)

/-! ## Invariants of the elementary updates -/

theorem reg_zero_of_upd {p q : processor} (h : Upd p q) : reg q 0 = reg p 0 := by
  induction h with
  | refl => rfl
  | pc q v _ ih => exact ih
  | ins_count q v _ ih => exact ih
  | prv q v _ ih => exact ih
  | decoder q d _ ih => exact ih
  | mem q m _ ih => exact ih
  | reg q r v _ ih => exact (reg_set_reg_zero q r v).trans ih
  | csr q k v _ ih => exact (reg_zero_congr (set_csr_registers q k v)).trans ih
  | mstatusOr q a _ _ ih => exact ih
  | mstatusAnd q a _ _ ih => exact ih

theorem breakpoint_of_upd {p q : processor} (h : Upd p q) :
    q.breakpoint = p.breakpoint ∧ q.bp_enabled = p.bp_enabled := by
  induction h with
  | refl => exact ⟨rfl, rfl⟩
  | pc q v _ ih => exact ih
  | ins_count q v _ ih => exact ih
  | prv q v _ ih => exact ih
  | decoder q d _ ih => exact ih
  | mem q m _ ih => exact ih
  | reg q r v _ ih =>
    exact ⟨(set_reg_breakpoint q r v).trans ih.1, (set_reg_bp_enabled q r v).trans ih.2⟩
  | csr q k v _ ih =>
    exact ⟨(set_csr_breakpoint q k v).trans ih.1, (set_csr_bp_enabled q k v).trans ih.2⟩
  | mstatusOr q a _ _ ih => exact ih
  | mstatusAnd q a _ _ ih => exact ih

/-! ## Counting and the program counter -/

theorem exceptCause_ins_count_of_ne (p : processor) (c o : Nat) (hc : c ≠ 0) :
    (exceptCause p c o).ins_count = p.ins_count := by
  unfold exceptCause
  split <;> first | exact absurd rfl hc | simp only [set_csr_ins_count, set_prv_ins_count]

theorem exceptCause_ins_count_zero (p : processor) (o : Nat) :
    (exceptCause p 0 o).ins_count = (p.ins_count + 1) % 2 ^ 64 := by
  unfold exceptCause
  simp only [set_csr_ins_count, pcInc_ins_count]
  unfold countInc
  rfl

theorem except_ins_count_of_ne (p : processor) (c : Nat) (hc : c ≠ 0) :
    (except p c).ins_count = (p.ins_count + (2 ^ 64 - 1)) % 2 ^ 64 := by
  unfold except
  simp only []
  unfold countDec
  simp only [pcDec_ins_count, exceptCause_ins_count_of_ne _ _ _ hc, exceptStatus_ins_count,
    apply_ite processor.ins_count, pcSet_ins_count, set_csr_ins_count, ite_self]

theorem except_ins_count_zero (p : processor) :
    (except p 0).ins_count = ((p.ins_count + 1) % 2 ^ 64 + (2 ^ 64 - 1)) % 2 ^ 64 := by
  unfold except
  simp only []
  unfold countDec
  simp only [pcDec_ins_count, exceptCause_ins_count_zero, exceptStatus_ins_count,
    apply_ite processor.ins_count, pcSet_ins_count, set_csr_ins_count, ite_self]

theorem ebreakBody_ins_count (p : processor) :
    (ebreakBody p).ins_count = (p.ins_count + (2 ^ 64 - 1)) % 2 ^ 64 := by
  unfold ebreakBody
  simp only []
  unfold countDec
  simp only [pcDec_ins_count, prvSet_ins_count, csrUpd_ins_count,
    apply_ite processor.ins_count, pcSet_ins_count, set_csr_ins_count, ite_self]

theorem pcInc_pc (p : processor) : (pcInc p).pc = (p.pc + 4) % 2 ^ 64 := by
  unfold pcInc; rfl

theorem pcInc_pc_congr {p q : processor} (h : q.pc = p.pc) :
    (pcInc q).pc = (p.pc + 4) % 2 ^ 64 := by
  rw [pcInc_pc, h]

set_option maxHeartbeats 4000000 in
theorem executeInsT_facts (p : processor) :
    ((executeInsT p).2 = none →
      (executeInsT p).1.ins_count = p.ins_count ∧
      (p.decoder.code ≠ ins_jal → p.decoder.code ≠ ins_jalr →
        p.decoder.code ≠ ins_mret → ¬ branchTaken p →
        (executeInsT p).1.pc = (p.pc + 4) % 2 ^ 64)) ∧
    (∀ c, (executeInsT p).2 = some c →
      (c = 2 ∨ c = 3 ∨ c = 4 ∨ c = 6 ∨ c = 8 ∨ c = 11) ∧
      (executeInsT p).1.ins_count = (p.ins_count + (2 ^ 64 - 1)) % 2 ^ 64) := by
  unfold executeInsT branchTaken
  cases h : p.decoder.code <;> dsimp only [execCase] <;> (try split_ifs) <;>
    simp only [pcInc_ins_count, set_reg_ins_count, memWrite_ins_count, pcEven_ins_count,
      pcSet_ins_count, branchJump_ins_count, set_csr_ins_count, mretBody_ins_count,
      ebreakBody_ins_count, except_ins_count_of_ne _ _ (by norm_num : (2:Nat) ≠ 0),
      except_ins_count_of_ne _ _ (by norm_num : (4:Nat) ≠ 0),
      except_ins_count_of_ne _ _ (by norm_num : (6:Nat) ≠ 0),
      except_ins_count_of_ne _ _ (by norm_num : (8:Nat) ≠ 0),
      except_ins_count_of_ne _ _ (by norm_num : (11:Nat) ≠ 0),
      pcInc_pc, set_reg_pc, memWrite_pc, set_csr_pc, apply_ite processor.pc, ite_self,
      reduceCtorEq, ne_eq, not_true_eq_false, not_false_eq_true, false_implies, true_implies,
      implies_true, and_self, and_true, true_and, IsEmpty.forall_iff, Option.some.injEq,
      forall_eq', eq_self_iff_true, or_true, true_or, OfNat.ofNat_ne_zero, not_not] <;>
    (simp only [h]; intro hn; exact absurd ‹_› hn)
/-! ## Reachable states -/

theorem reachable_reg_zero {p : processor} (h : Reachable p) : reg p 0 = 0 := by
  induction h with
  | init m => simp [processor.init, reg]
  | set_pc v _ ih => exact ih
  | set_reg r v _ ih => exact (reg_set_reg_zero _ r v).trans ih
  | set_csr n v _ ih => exact (reg_zero_congr (set_csr_registers _ n v)).trans ih
  | set_prv v _ ih => exact ih
  | set_breakpoint a _ ih => exact ih
  | clear_breakpoint _ ih => exact ih
  | execute num chk _ ih => exact (reg_zero_of_upd (execute_upd _ num chk)).trans ih
  | load m _ ih => exact ih

theorem checkInterruptT_none (p : processor) (h : (checkInterruptT p).2 = none) :
    (checkInterruptT p).1 = p := by
  unfold checkInterruptT at h ⊢
  split_ifs at h ⊢ <;> rfl

theorem checkInterruptT_ins_count (p : processor) :
    (checkInterruptT p).1.ins_count = p.ins_count := by
  unfold checkInterruptT
  split_ifs <;> simp only [interrupt_ins_count]

theorem set_csr_rejected (p : processor) (n v : Nat)
    (h : umFind p.csrs n = none ∨ n ∈ readOnlyCSRs) : set_csr p n v = p := by
  unfold set_csr
  rcases h with h | h
  · simp only [h, if_true]
  · have h' : n = 0xf11 ∨ n = 0xf12 ∨ n = 0xf13 ∨ n = 0xf14 := by
      simpa [readOnlyCSRs] using h
    simp only [h', if_true, ite_self]

theorem csrFileOK_assign {c : List (Nat × Nat)} (h : CsrFileOK c) (k v : Nat)
    (hk : umFind c k ≠ none) (hro : k ∉ readOnlyCSRs) : CsrFileOK (umAssign c k v) := by
  have hro' : k ≠ 0xF11 ∧ k ≠ 0xF12 ∧ k ≠ 0xF13 ∧ k ≠ 0xF14 := by
    simpa [readOnlyCSRs] using hro
  obtain ⟨h0, h1, h2, h3, h4⟩ := h
  refine ⟨?_, ?_, ?_, ?_, ?_⟩
  · rw [umAssign_keys c k v ((umFind_ne_none_iff c k).1 hk)]; exact h0
  · rw [umFind_umAssign_other c k _ v hro'.1]; exact h1
  · rw [umFind_umAssign_other c k _ v hro'.2.1]; exact h2
  · rw [umFind_umAssign_other c k _ v hro'.2.2.1]; exact h3
  · rw [umFind_umAssign_other c k _ v hro'.2.2.2]; exact h4

theorem csrFileOK_mstatus {c : List (Nat × Nat)} (h : CsrFileOK c) (v : Nat) :
    CsrFileOK (umAssign c 0x300 v) := by
  refine csrFileOK_assign h 0x300 v ?_ (by simp [readOnlyCSRs])
  rw [umFind_ne_none_iff, h.1]
  simp [registeredCSRs]

theorem csrFileOK_set_csr {p : processor} (h : CsrFileOK p.csrs) (k v : Nat) :
    CsrFileOK (set_csr p k v).csrs := by
  unfold set_csr
  split_ifs with h1 h2
  · exact h
  · exact h
  · unfold csrPut
    refine csrFileOK_assign h k _ h1 ?_
    simpa [readOnlyCSRs] using h2

theorem csrFileOK_of_upd {p q : processor} (h : Upd p q) (hp : CsrFileOK p.csrs) :
    CsrFileOK q.csrs := by
  induction h with
  | refl => exact hp
  | pc q v _ ih => exact ih
  | ins_count q v _ ih => exact ih
  | prv q v _ ih => exact ih
  | decoder q d _ ih => exact ih
  | mem q m _ ih => exact ih
  | reg q r v _ ih => rw [set_reg_csrs]; exact ih
  | csr q k v _ ih => exact csrFileOK_set_csr ih k v
  | mstatusOr q a _ _ ih => exact csrFileOK_mstatus ih _
  | mstatusAnd q a _ _ ih => exact csrFileOK_mstatus ih _

theorem reachable_csrFileOK {p : processor} (h : Reachable p) : CsrFileOK p.csrs := by
  induction h with
  | init m =>
    simp [processor.init, CsrFileOK, initCSRs, registeredCSRs, umFind]
  | set_pc v _ ih => exact ih
  | set_reg r v _ ih => rw [set_reg_csrs]; exact ih
  | set_csr n v _ ih => exact csrFileOK_set_csr ih n v
  | set_prv v _ ih => exact ih
  | set_breakpoint a _ ih => exact ih
  | clear_breakpoint _ ih => exact ih
  | execute num chk _ ih => exact csrFileOK_of_upd (execute_upd _ num chk) ih
  | load m _ ih => exact ih

end processor

/-! ## The decoder -/

theorem and_mask_eq_mod (x n m : Nat) (hm : m = 2 ^ n - 1) : x &&& m = x % 2 ^ n := by
  subst hm; exact Nat.and_pow_two_sub_one_eq_mod x n

theorem opcode_eq_bits (ins : Nat) : ins &&& 0x7f = bits ins 6 0 := by
  unfold bits
  rw [and_mask_eq_mod ins 7 0x7f (by norm_num)]
  simp

theorem funct3_eq_bits (ins : Nat) : (ins >>> 12) &&& 0x07 = bits ins 14 12 := by
  unfold bits
  rw [and_mask_eq_mod _ 3 0x07 (by norm_num), Nat.shiftRight_eq_div_pow]

theorem funct7_eq_bits (ins : Nat) : (ins >>> 25) &&& 0x7f = bits ins 31 25 := by
  unfold bits
  rw [and_mask_eq_mod _ 7 0x7f (by norm_num), Nat.shiftRight_eq_div_pow]

theorem bits_lt (x hi lo : Nat) : bits x hi lo < 2 ^ (hi + 1 - lo) := by
  unfold bits; exact Nat.mod_lt _ (Nat.pow_pos (by norm_num))

theorem shift_mask_eq_bits (x lo n m : Nat) (hn : 0 < n) (hm : m = 2 ^ n - 1) :
    (x >>> lo) &&& m = bits x (lo + n - 1) lo := by
  unfold bits
  rw [and_mask_eq_mod _ n m hm, Nat.shiftRight_eq_div_pow]
  congr 2
  omega

theorem add_shl_eq_or (a b k : Nat) (ha : a < 2 ^ k) : a + b <<< k = (b <<< k) ||| a := by
  rw [Nat.shiftLeft_eq, Nat.mul_comm, Nat.add_comm]
  exact Nat.mul_add_lt_is_or ha b

namespace Decoder

theorem header_opcode (d : Decoder) (ins : Nat) : (header d ins).opcode = bits ins 6 0 := by
  unfold header; exact opcode_eq_bits ins

theorem header_funct3 (d : Decoder) (ins : Nat) : (header d ins).funct3 = bits ins 14 12 := by
  unfold header; exact funct3_eq_bits ins

theorem header_funct7 (d : Decoder) (ins : Nat) : (header d ins).funct7 = bits ins 31 25 := by
  unfold header; exact funct7_eq_bits ins

set_option maxHeartbeats 1000000 in
theorem decodeIns_of_specKind (d : Decoder) (ins : Nat) (k : Ins)
    (h : specKind ins = some k) :
    decodeIns d ins = decodeFormat (kindFormat k) { header d ins with code := k } := by
  have ho := header_opcode d ins
  have hf := header_funct3 d ins
  have h7 := header_funct7 d ins
  unfold specKind at h
  simp only [] at h
  unfold decodeIns
  simp only []
  generalize header d ins = d1 at ho hf h7 ⊢
  split at h <;> rename_i h1 <;>
    (try (have ho1 := ho.trans h1; simp only [ho1, decodeOp3, decodeOp19, decodeOp27,
      decodeOp35, decodeOp51, decodeOp59, decodeOp99, decodeOp115])) <;>
    (try split at h) <;>
    (try (rename_i h2; have hf1 := hf.trans h2; simp only [hf1])) <;>
    (try simp only [Option.some.injEq, reduceCtorEq] at h) <;> (try subst h) <;>
    (try simp only [h7, Nat.shiftRight_eq_div_pow, pow_one]) <;>
    (try split_ifs) <;> first | rfl | omega

theorem decodeIns_unknown (d : Decoder) (ins : Nat) (h : bits ins 6 0 ∉ tableOpcodes) :
    decodeIns d ins = Decoder.init := by
  have ho := header_opcode d ins
  simp only [tableOpcodes, List.mem_cons, List.mem_singleton, not_or, List.not_mem_nil,
    or_false] at h
  unfold decodeIns
  simp only []
  generalize header d ins = d1 at ho ⊢
  rw [ho]
  split <;> first | omega | rfl

set_option maxHeartbeats 2000000 in
theorem decodeIns_unlisted (d : Decoder) (ins : Nat) (h : specKind ins = none)
    (ht : bits ins 6 0 ∈ tableOpcodes) : decodeIns d ins = header d ins := by
  have ho := header_opcode d ins
  have hf := header_funct3 d ins
  have hv : bits ins 14 12 < 8 := by
    unfold bits; exact Nat.mod_lt _ (by norm_num)
  simp only [tableOpcodes, List.mem_cons, List.mem_singleton, List.not_mem_nil,
    or_false] at ht
  unfold specKind at h
  simp only [] at h
  unfold decodeIns
  simp only []
  generalize header d ins = d1 at ho hf ⊢
  generalize bits ins 14 12 = v at hf hv h
  rcases ht with ht | ht | ht | ht | ht | ht | ht | ht | ht | ht | ht | ht | ht <;>
    simp only [ht, reduceCtorEq] at h ho <;>
    simp only [ho, decodeOp3, decodeOp19, decodeOp27, decodeOp35, decodeOp51, decodeOp59,
      decodeOp99, decodeOp115, hf] <;>
    interval_cases v <;> first | rfl | simp only [reduceCtorEq] at h

theorem decodeRType_fields (d : Decoder) :
    (decodeRType d).rd = bits d.ins 11 7 ∧ (decodeRType d).rs1 = bits d.ins 19 15 ∧
      (decodeRType d).rs2 = bits d.ins 24 20 := by
  unfold decodeRType
  exact ⟨shift_mask_eq_bits _ 7 5 _ (by norm_num) (by norm_num),
    shift_mask_eq_bits _ 15 5 _ (by norm_num) (by norm_num),
    shift_mask_eq_bits _ 20 5 _ (by norm_num) (by norm_num)⟩

theorem decodeIType_fields (d : Decoder) :
    (decodeIType d).rd = bits d.ins 11 7 ∧ (decodeIType d).rs1 = bits d.ins 19 15 ∧
      (decodeIType d).imm = bits d.ins 31 20 := by
  unfold decodeIType
  exact ⟨shift_mask_eq_bits _ 7 5 _ (by norm_num) (by norm_num),
    shift_mask_eq_bits _ 15 5 _ (by norm_num) (by norm_num),
    shift_mask_eq_bits _ 20 12 _ (by norm_num) (by norm_num)⟩

theorem decodeUType_fields (d : Decoder) :
    (decodeUType d).rd = bits d.ins 11 7 ∧ (decodeUType d).imm = bits d.ins 31 12 := by
  unfold decodeUType
  exact ⟨shift_mask_eq_bits _ 7 5 _ (by norm_num) (by norm_num),
    shift_mask_eq_bits _ 12 20 _ (by norm_num) (by norm_num)⟩

theorem decodeSType_fields (d : Decoder) :
    (decodeSType d).rs1 = bits d.ins 19 15 ∧ (decodeSType d).rs2 = bits d.ins 24 20 ∧
      (decodeSType d).imm = (bits d.ins 31 25 <<< 5) ||| bits d.ins 11 7 := by
  unfold decodeSType
  refine ⟨shift_mask_eq_bits _ 15 5 _ (by norm_num) (by norm_num),
    shift_mask_eq_bits _ 20 5 _ (by norm_num) (by norm_num), ?_⟩
  simp only []
  rw [shift_mask_eq_bits d.ins 7 5 0x1f (by norm_num) (by norm_num),
    shift_mask_eq_bits d.ins 25 7 0x7f (by norm_num) (by norm_num)]
  have ha := bits_lt d.ins 11 7
  have hb := bits_lt d.ins 31 25
  simp only [Nat.reduceAdd, Nat.reduceSub, Nat.reducePow] at ha hb ⊢
  rw [← add_shl_eq_or _ _ 5 (by simpa using ha)]
  simp only [Nat.shiftLeft_eq, Nat.reducePow]
  omega

theorem decodeBType_fields (d : Decoder) :
    (decodeBType d).rs1 = bits d.ins 19 15 ∧ (decodeBType d).rs2 = bits d.ins 24 20 ∧
      (decodeBType d).imm =
        (bits d.ins 31 31 <<< 11) ||| (bits d.ins 7 7 <<< 10) ||| (bits d.ins 30 25 <<< 4)
          ||| bits d.ins 11 8 := by
  unfold decodeBType
  refine ⟨shift_mask_eq_bits _ 15 5 _ (by norm_num) (by norm_num),
    shift_mask_eq_bits _ 20 5 _ (by norm_num) (by norm_num), ?_⟩
  simp only []
  rw [shift_mask_eq_bits d.ins 8 4 0xf (by norm_num) (by norm_num),
    shift_mask_eq_bits d.ins 25 6 0x3f (by norm_num) (by norm_num),
    shift_mask_eq_bits d.ins 7 1 0x1 (by norm_num) (by norm_num),
    shift_mask_eq_bits d.ins 31 1 0x1 (by norm_num) (by norm_num)]
  have ha := bits_lt d.ins 11 8
  have hb := bits_lt d.ins 30 25
  have hc := bits_lt d.ins 7 7
  have he := bits_lt d.ins 31 31
  simp only [Nat.reduceAdd, Nat.reduceSub, Nat.reducePow] at ha hb hc he ⊢
  generalize bits d.ins 11 8 = a at *
  generalize bits d.ins 30 25 = b at *
  generalize bits d.ins 7 7 = c at *
  generalize bits d.ins 31 31 = e at *
  have h1 : a + b <<< 4 = (b <<< 4) ||| a := add_shl_eq_or a b 4 (by simpa using ha)
  have h1lt : (b <<< 4) ||| a < 2 ^ 10 := by
    rw [← h1, Nat.shiftLeft_eq]; norm_num; omega
  have h2 : ((b <<< 4) ||| a) + c <<< 10 = (c <<< 10) ||| ((b <<< 4) ||| a) :=
    add_shl_eq_or _ c 10 h1lt
  have h2lt : (c <<< 10) ||| ((b <<< 4) ||| a) < 2 ^ 11 := by
    rw [← h2, ← h1, Nat.shiftLeft_eq, Nat.shiftLeft_eq]; norm_num; omega
  have h3 : ((c <<< 10) ||| ((b <<< 4) ||| a)) + e <<< 11
      = (e <<< 11) ||| ((c <<< 10) ||| ((b <<< 4) ||| a)) := add_shl_eq_or _ e 11 h2lt
  rw [Nat.or_assoc, Nat.or_assoc, ← h3, ← h2, ← h1]
  simp only [Nat.shiftLeft_eq, Nat.reducePow]
  omega

theorem decodeJType_fields (d : Decoder) :
    (decodeJType d).rd = bits d.ins 11 7 ∧
      (decodeJType d).imm =
        (bits d.ins 31 31 <<< 19) ||| (bits d.ins 19 12 <<< 11) ||| (bits d.ins 20 20 <<< 10)
          ||| bits d.ins 30 21 := by
  unfold decodeJType
  refine ⟨shift_mask_eq_bits _ 7 5 _ (by norm_num) (by norm_num), ?_⟩
  simp only []
  rw [shift_mask_eq_bits d.ins 21 10 0x3ff (by norm_num) (by norm_num),
    shift_mask_eq_bits d.ins 20 1 0x1 (by norm_num) (by norm_num),
    shift_mask_eq_bits d.ins 12 8 0xff (by norm_num) (by norm_num),
    shift_mask_eq_bits d.ins 31 1 0x1 (by norm_num) (by norm_num)]
  have ha := bits_lt d.ins 30 21
  have hb := bits_lt d.ins 20 20
  have hc := bits_lt d.ins 19 12
  have he := bits_lt d.ins 31 31
  simp only [Nat.reduceAdd, Nat.reduceSub, Nat.reducePow] at ha hb hc he ⊢
  generalize bits d.ins 30 21 = a at *
  generalize bits d.ins 20 20 = b at *
  generalize bits d.ins 19 12 = c at *
  generalize bits d.ins 31 31 = e at *
  have h1 : a + b <<< 10 = (b <<< 10) ||| a := add_shl_eq_or a b 10 (by simpa using ha)
  have h1lt : (b <<< 10) ||| a < 2 ^ 11 := by
    rw [← h1, Nat.shiftLeft_eq]; norm_num; omega
  have h2 : ((b <<< 10) ||| a) + c <<< 11 = (c <<< 11) ||| ((b <<< 10) ||| a) :=
    add_shl_eq_or _ c 11 h1lt
  have h2lt : (c <<< 11) ||| ((b <<< 10) ||| a) < 2 ^ 19 := by
    rw [← h2, ← h1, Nat.shiftLeft_eq, Nat.shiftLeft_eq]; norm_num; omega
  have h3 : ((c <<< 11) ||| ((b <<< 10) ||| a)) + e <<< 19
      = (e <<< 19) ||| ((c <<< 11) ||| ((b <<< 10) ||| a)) := add_shl_eq_or _ e 19 h2lt
  rw [Nat.or_assoc, Nat.or_assoc, ← h3, ← h2, ← h1]
  simp only [Nat.shiftLeft_eq, Nat.reducePow]
  omega

end Decoder

/-! ## Consequences of the structural decode lemmas -/

theorem decodeFormat_header (f : Option Format) (d : Decoder) :
    (decodeFormat f d).code = d.code ∧ (decodeFormat f d).ins = d.ins ∧
      (decodeFormat f d).opcode = d.opcode ∧ (decodeFormat f d).funct3 = d.funct3 ∧
      (decodeFormat f d).funct7 = d.funct7 := by
  rcases f with _ | f
  · exact ⟨rfl, rfl, rfl, rfl, rfl⟩
  · cases f <;> exact ⟨rfl, rfl, rfl, rfl, rfl⟩

theorem decodeFormat_type (f : Format) (d : Decoder) :
    (decodeFormat (some f) d).type = f.letter := by
  cases f <;> rfl

theorem decodeFormat_none (d : Decoder) : decodeFormat none d = d := rfl

theorem decodeFormat_other (f : Option Format) (d : Decoder) :
    otherFields f (decodeFormat f d) = otherFields f d := by
  rcases f with _ | f
  · rfl
  · cases f <;> rfl

theorem decodeFormat_fields_congr (f : Option Format) (d e : Decoder) (h : d.ins = e.ins) :
    formatFields f (decodeFormat f d) = formatFields f (decodeFormat f e) := by
  rcases f with _ | f
  · rfl
  · cases f <;>
      simp only [decodeFormat, formatFields, Decoder.decodeRType, Decoder.decodeIType,
        Decoder.decodeSType, Decoder.decodeBType, Decoder.decodeUType, Decoder.decodeJType, h]

theorem and_31_lt (x : Nat) : x &&& 0x1f < 32 :=
  Nat.and_lt_two_pow x (by norm_num : (0x1f : Nat) < 2 ^ 5)

theorem decodeFormat_regs_lt (f : Option Format) (d : Decoder)
    (h : d.rd < 32 ∧ d.rs1 < 32 ∧ d.rs2 < 32) :
    (decodeFormat f d).rd < 32 ∧ (decodeFormat f d).rs1 < 32 ∧ (decodeFormat f d).rs2 < 32 := by
  rcases f with _ | f
  · exact h
  · cases f <;>
      simp only [decodeFormat, Decoder.decodeRType, Decoder.decodeIType,
        Decoder.decodeSType, Decoder.decodeBType, Decoder.decodeUType, Decoder.decodeJType] <;>
      first
        | exact ⟨and_31_lt _, and_31_lt _, and_31_lt _⟩
        | exact ⟨and_31_lt _, and_31_lt _, h.2.2⟩
        | exact ⟨h.1, and_31_lt _, and_31_lt _⟩
        | exact ⟨and_31_lt _, h.2.1, h.2.2⟩

theorem tableOpcodes_of_specKind (ins : Nat) (k : Ins) (h : specKind ins = some k) :
    bits ins 6 0 ∈ tableOpcodes := by
  unfold specKind at h
  simp only [] at h
  split at h <;> first | (rename_i h1; rw [h1]; decide) | exact absurd h (by simp)

theorem decodeIns_regs_lt (d : Decoder) (ins : Nat)
    (h : d.rd < 32 ∧ d.rs1 < 32 ∧ d.rs2 < 32) :
    (Decoder.decodeIns d ins).rd < 32 ∧ (Decoder.decodeIns d ins).rs1 < 32 ∧
      (Decoder.decodeIns d ins).rs2 < 32 := by
  cases hk : specKind ins with
  | some k =>
    rw [Decoder.decodeIns_of_specKind d ins k hk]
    exact decodeFormat_regs_lt _ _ h
  | none =>
    by_cases ht : bits ins 6 0 ∈ tableOpcodes
    · rw [Decoder.decodeIns_unlisted d ins hk ht]
      exact h
    · rw [Decoder.decodeIns_unknown d ins ht]
      exact ⟨by decide, by decide, by decide⟩

theorem decode_history_regs_lt (ws : List Nat) (d : Decoder)
    (h : d.rd < 32 ∧ d.rs1 < 32 ∧ d.rs2 < 32) :
    (ws.foldl Decoder.decodeIns d).rd < 32 ∧ (ws.foldl Decoder.decodeIns d).rs1 < 32 ∧
      (ws.foldl Decoder.decodeIns d).rs2 < 32 := by
  induction ws generalizing d with
  | nil => exact h
  | cons w rest ih => exact ih _ (decodeIns_regs_lt d w h)

/-! ## Bits of `mstatus` -/

theorem shr_and_one (m k : Nat) : (m >>> k) &&& 0x1 = (m.testBit k).toNat := by
  rw [Nat.toNat_testBit, Nat.shiftRight_eq_div_pow, Nat.and_one_is_mod]

theorem mstatusMie_eq (m : Nat) : mstatusMie m = (m.testBit 3).toNat := shr_and_one m 3

theorem mstatusMpie_eq (m : Nat) : mstatusMpie m = (m.testBit 7).toNat := shr_and_one m 7

theorem mstatusMpp_eq (m : Nat) :
    mstatusMpp m = (m.testBit 11).toNat + 2 * (m.testBit 12).toNat := by
  unfold mstatusMpp
  rw [Nat.toNat_testBit, Nat.toNat_testBit, Nat.shiftRight_eq_div_pow]
  have h : (m / 2 ^ 11) &&& 0x3 = (m / 2 ^ 11) % 2 ^ 2 := Nat.and_pow_two_sub_one_eq_mod _ 2
  rw [h]
  omega

theorem testBit_or_0x8 (x i : Nat) : (x ||| 0x8).testBit i = (x.testBit i || decide (i = 3)) := by
  have h : (0x8 : Nat) = 2 ^ 3 := by norm_num
  rw [h, Nat.testBit_or, Nat.testBit_two_pow]
  congr 1
  simp [eq_comm]

theorem testBit_or_0x80 (x i : Nat) :
    (x ||| 0x80).testBit i = (x.testBit i || decide (i = 7)) := by
  have h : (0x80 : Nat) = 2 ^ 7 := by norm_num
  rw [h, Nat.testBit_or, Nat.testBit_two_pow]
  congr 1
  simp [eq_comm]

theorem testBit_0x1800 (i : Nat) :
    (0x1800 : Nat).testBit i = (decide (i = 11) || decide (i = 12)) := by
  have h : (0x1800 : Nat) = 2 ^ 11 ||| 2 ^ 12 := by decide
  rw [h, Nat.testBit_or, Nat.testBit_two_pow, Nat.testBit_two_pow]
  congr 1 <;> simp [eq_comm]

theorem testBit_or_0x1800 (x i : Nat) :
    (x ||| 0x1800).testBit i = (x.testBit i || (decide (i = 11) || decide (i = 12))) := by
  rw [Nat.testBit_or, testBit_0x1800]

theorem testBit_and_not_mpp (x i : Nat) :
    (x &&& 0xffffffffffffe7ff).testBit i =
      (x.testBit i && (decide (i < 64) && !(decide (i = 11) || decide (i = 12)))) := by
  have h : (0xffffffffffffe7ff : Nat) = 2 ^ 64 - (0x1800 + 1) := by norm_num
  rw [h, Nat.testBit_and, Nat.testBit_two_pow_sub_succ (by norm_num), testBit_0x1800]

theorem testBit_and_not_mpie (x i : Nat) :
    (x &&& 0xffffffffffffff7f).testBit i =
      (x.testBit i && (decide (i < 64) && !decide (i = 7))) := by
  have h : (0xffffffffffffff7f : Nat) = 2 ^ 64 - (2 ^ 7 + 1) := by norm_num
  rw [h, Nat.testBit_and, Nat.testBit_two_pow_sub_succ (by norm_num), Nat.testBit_two_pow]
  congr 3
  simp [eq_comm]

theorem testBit_and_not_mie (x i : Nat) :
    (x &&& 0xfffffffffffffff7).testBit i =
      (x.testBit i && (decide (i < 64) && !decide (i = 3))) := by
  have h : (0xfffffffffffffff7 : Nat) = 2 ^ 64 - (2 ^ 3 + 1) := by norm_num
  rw [h, Nat.testBit_and, Nat.testBit_two_pow_sub_succ (by norm_num), Nat.testBit_two_pow]
  congr 3
  simp [eq_comm]

theorem testBit_of_lt_word (x i : Nat) (hx : x < 2 ^ 64) (hi : 64 ≤ i) :
    x.testBit i = false :=
  Nat.testBit_lt_two_pow (lt_of_lt_of_le hx (Nat.pow_le_pow_right (by norm_num) hi))

theorem and_mask_lt_word (x m : Nat) (hm : m < 2 ^ 64) : x &&& m < 2 ^ 64 :=
  lt_of_le_of_lt Nat.and_le_right hm

namespace processor

/-! ## Reads of the CSR file after a write -/

theorem csrAt_congr (p q : processor) (k : Nat) (h : umFind q.csrs k = umFind p.csrs k) :
    csrAt q k = csrAt p k := by
  unfold csrAt
  rw [h]

theorem present_of_ok {c : List (Nat × Nat)} (h : CsrFileOK c) (k : Nat)
    (hk : k ∈ registeredCSRs) : umFind c k ≠ none := by
  rw [umFind_ne_none_iff, h.1]
  exact hk

theorem absent_of_ok {c : List (Nat × Nat)} (h : CsrFileOK c) (k : Nat) :
    umFind c k = none ↔ k ∉ registeredCSRs := by
  rw [← h.1, ← umFind_ne_none_iff]
  simp

theorem umFind_csrPut_same (p : processor) (k v : Nat) :
    umFind (csrPut p k v).csrs k = some v := by
  unfold csrPut
  exact umFind_umAssign_same _ _ _

theorem umFind_csrPut_other (p : processor) (k v k' : Nat) (h : k ≠ k') :
    umFind (csrPut p k v).csrs k' = umFind p.csrs k' := by
  unfold csrPut
  exact umFind_umAssign_other _ _ _ _ h

theorem csrAt_csrUpd_same (p : processor) (k : Nat) (f : Nat → Nat) :
    csrAt (csrUpd p k f) k = f (csrAt p k) := by
  unfold csrUpd
  rw [csrAt, umFind_csrPut_same]
  rfl

theorem umFind_csrUpd_other (p : processor) (k : Nat) (f : Nat → Nat) (k' : Nat)
    (h : k ≠ k') : umFind (csrUpd p k f).csrs k' = umFind p.csrs k' := by
  unfold csrUpd
  exact umFind_csrPut_other _ _ _ _ h

theorem csrAt_csrUpd_other (p : processor) (k : Nat) (f : Nat → Nat) (k' : Nat)
    (h : k ≠ k') : csrAt (csrUpd p k f) k' = csrAt p k' :=
  csrAt_congr _ _ _ (umFind_csrUpd_other p k f k' h)

theorem umFind_set_csr_other (p : processor) (k v k' : Nat) (h : k ≠ k') :
    umFind (set_csr p k v).csrs k' = umFind p.csrs k' := by
  unfold set_csr
  split_ifs
  · rfl
  · rfl
  · exact umFind_csrPut_other _ _ _ _ h

theorem csrAt_set_csr_other (p : processor) (k v k' : Nat) (h : k ≠ k') :
    csrAt (set_csr p k v) k' = csrAt p k' :=
  csrAt_congr _ _ _ (umFind_set_csr_other p k v k' h)

theorem csrAt_set_csr_same (p : processor) (k v : Nat) (hp : umFind p.csrs k ≠ none)
    (hro : k ∉ readOnlyCSRs) : csrAt (set_csr p k v) k = csrMasked k v := by
  have hro' : ¬ (k = 0xf11 ∨ k = 0xf12 ∨ k = 0xf13 ∨ k = 0xf14) := by
    simpa [readOnlyCSRs] using hro
  unfold set_csr
  rw [if_neg hp, if_neg hro', csrAt, umFind_csrPut_same]
  rfl

theorem present_csrUpd (p : processor) (k : Nat) (f : Nat → Nat) (k' : Nat)
    (h : umFind p.csrs k' ≠ none) : umFind (csrUpd p k f).csrs k' ≠ none := by
  by_cases hk : k = k'
  · subst hk
    unfold csrUpd
    rw [umFind_csrPut_same]
    simp
  · rw [umFind_csrUpd_other _ _ _ _ hk]
    exact h

theorem present_set_csr (p : processor) (k v k' : Nat)
    (h : umFind p.csrs k' ≠ none) : umFind (set_csr p k v).csrs k' ≠ none := by
  unfold set_csr
  split_ifs
  · exact h
  · exact h
  · by_cases hk : k = k'
    · subst hk
      rw [umFind_csrPut_same]
      simp
    · rw [umFind_csrPut_other _ _ _ _ hk]
      exact h

/-- Every elementary update keeps the CSRs that exist. -/
theorem present_of_upd {p q : processor} (h : Upd p q) (k : Nat)
    (hp : umFind p.csrs k ≠ none) : umFind q.csrs k ≠ none := by
  induction h with
  | refl => exact hp
  | pc q v _ ih => exact ih
  | ins_count q v _ ih => exact ih
  | prv q v _ ih => exact ih
  | decoder q d _ ih => exact ih
  | mem q m _ ih => exact ih
  | reg q r v _ ih =>
    rw [set_reg_csrs]
    exact ih
  | csr q k' v _ ih => exact present_set_csr _ _ _ _ ih
  | mstatusOr q a _ _ ih => exact present_csrUpd _ _ _ _ ih
  | mstatusAnd q a _ _ ih => exact present_csrUpd _ _ _ _ ih

theorem csrMasked_mepc (v : Nat) : csrMasked 0x341 v = v &&& 0xfffffffffffffffc := by
  unfold csrMasked
  norm_num

theorem csrMasked_mcause (v : Nat) : csrMasked 0x342 v = v &&& 0x800000000000000f := by
  unfold csrMasked
  norm_num

theorem csrMasked_mtval (v : Nat) : csrMasked 0x343 v = v := by
  unfold csrMasked
  norm_num

theorem mtvecBase_lt (v : Nat) : mtvecBase v < 2 ^ 64 :=
  and_mask_lt_word v _ (by norm_num)

theorem mtvecBase_mod (v : Nat) : mtvecBase v % 4 = 0 := by
  unfold mtvecBase
  have h : (0xfffffffffffffffc : Nat) = 2 ^ 64 - (0x3 + 1) := by norm_num
  have h0 : ((v &&& 0xfffffffffffffffc) % 2 ^ 2) = 0 := by
    rw [← Nat.and_pow_two_sub_one_eq_mod]
    apply Nat.eq_of_testBit_eq
    intro i
    have h3 : (2 ^ 2 - 1 : Nat) = 2 ^ 0 ||| 2 ^ 1 := by decide
    rw [h, Nat.testBit_and, Nat.testBit_and, Nat.testBit_two_pow_sub_succ (by norm_num), h3,
      Nat.testBit_or, Nat.testBit_two_pow, Nat.testBit_two_pow]
    have h4 : (0x3 : Nat) = 2 ^ 0 ||| 2 ^ 1 := by decide
    rw [h4, Nat.testBit_or, Nat.testBit_two_pow, Nat.testBit_two_pow]
    simp only [Nat.zero_testBit]
    cases v.testBit i <;> cases decide (0 = i) <;> cases decide (1 = i) <;> simp
  simpa using h0

/-- A 4-aligned 64-bit value is left alone by the `mepc` mask. -/
theorem and_not_3_of_aligned (x : Nat) (hx : x < 2 ^ 64) (ha : x % 4 = 0) :
    x &&& 0xfffffffffffffffc = x := by
  apply Nat.eq_of_testBit_eq
  intro i
  have h : (0xfffffffffffffffc : Nat) = 2 ^ 64 - (0x3 + 1) := by norm_num
  have h4 : (0x3 : Nat) = 2 ^ 0 ||| 2 ^ 1 := by decide
  rw [h, Nat.testBit_and, Nat.testBit_two_pow_sub_succ (by norm_num), h4, Nat.testBit_or,
    Nat.testBit_two_pow, Nat.testBit_two_pow]
  by_cases hi : 64 ≤ i
  · rw [testBit_of_lt_word x i hx hi]
    rfl
  · have hi' : i < 64 := by omega
    by_cases h0 : i = 0
    · subst h0
      have : x.testBit 0 = false := by
        rw [Nat.testBit_zero]
        simp
        omega
      rw [this]
      rfl
    · by_cases h1 : i = 1
      · subst h1
        have : x.testBit 1 = false := by
          have := Nat.toNat_testBit x 1
          cases hb : x.testBit 1
          · rfl
          · rw [hb] at this
            simp at this
            omega
        rw [this]
        rfl
      · have e0 : decide (0 = i) = false := by simp; omega
        have e1 : decide (1 = i) = false := by simp; omega
        simp [hi', e0, e1]

/-! ## The field an assignment writes -/

theorem pcSet_pc (p : processor) (v : Nat) : (pcSet p v).pc = v := by
  unfold pcSet; rfl

theorem prvSet_prv (p : processor) (v : Nat) : (prvSet p v).prv = v := by
  unfold prvSet; rfl

theorem set_prv_prv (p : processor) (v : Nat) : (set_prv p v).prv = v := by
  unfold set_prv; rfl

theorem pcDec_pc (p : processor) : (pcDec p).pc = (p.pc + (2 ^ 64 - 4)) % 2 ^ 64 := by
  unfold pcDec; rfl

theorem countInc_ins_count (p : processor) :
    (countInc p).ins_count = (p.ins_count + 1) % 2 ^ 64 := by
  unfold countInc; rfl

theorem countDec_ins_count (p : processor) :
    (countDec p).ins_count = (p.ins_count + (2 ^ 64 - 1)) % 2 ^ 64 := by
  unfold countDec; rfl

/-! ## What `except` leaves in the CSR file -/

theorem exceptStatus_umFind_other (p : processor) (k : Nat) (hk : 0x300 ≠ k) :
    umFind (exceptStatus p).csrs k = umFind p.csrs k := by
  unfold exceptStatus
  simp only []
  split_ifs <;> simp only [umFind_csrUpd_other _ _ _ _ hk]

theorem exceptCause_umFind_other (p : processor) (cause old_pc k : Nat) (hk : 0x343 ≠ k) :
    umFind (exceptCause p cause old_pc).csrs k = umFind p.csrs k := by
  unfold exceptCause
  split <;>
    simp only [set_prv_csrs, umFind_set_csr_other _ _ _ _ hk, pcInc_csrs, countInc_csrs]

/-- The CSRs other than `mstatus`, `mepc`, `mcause` and `mtval` are left alone by `except`. -/
theorem except_umFind_other (p : processor) (cause k : Nat) (hk : k ∉ trapCSRs) :
    umFind (except p cause).csrs k = umFind p.csrs k := by
  have h : 0x300 ≠ k ∧ 0x341 ≠ k ∧ 0x342 ≠ k ∧ 0x343 ≠ k := by
    simp only [trapCSRs, List.mem_cons, List.mem_singleton, List.not_mem_nil, or_false,
      not_or] at hk
    exact ⟨fun e => hk.1 e.symm, fun e => hk.2.1 e.symm, fun e => hk.2.2.1 e.symm,
      fun e => hk.2.2.2 e.symm⟩
  unfold except
  simp only [countDec_csrs, pcDec_csrs]
  rw [exceptCause_umFind_other _ _ _ _ h.2.2.2, exceptStatus_umFind_other _ _ h.1]
  split_ifs <;>
    simp only [pcSet_csrs, umFind_set_csr_other _ _ _ _ h.2.2.1,
      umFind_set_csr_other _ _ _ _ h.2.1]

theorem except_mtvec (p : processor) (cause : Nat) :
    csrAt (except p cause) 0x305 = csrAt p 0x305 :=
  csrAt_congr _ _ _ (except_umFind_other p cause 0x305 (by decide))

theorem except_mepc (p : processor) (cause : Nat) (h : umFind p.csrs 0x341 ≠ none) :
    csrAt (except p cause) 0x341 = p.pc &&& 0xfffffffffffffffc := by
  have e : umFind (except p cause).csrs 0x341 = umFind (set_csr p 0x341 p.pc).csrs 0x341 := by
    unfold except
    simp only [countDec_csrs, pcDec_csrs]
    rw [exceptCause_umFind_other _ _ _ _ (by decide), exceptStatus_umFind_other _ _ (by decide)]
    split_ifs <;> simp only [pcSet_csrs, umFind_set_csr_other _ 0x342 _ 0x341 (by decide)]
  rw [csrAt_congr _ _ _ e, csrAt_set_csr_same _ _ _ h (by decide), csrMasked_mepc]

theorem except_mcause (p : processor) (cause : Nat) (h : umFind p.csrs 0x342 ≠ none) :
    csrAt (except p cause) 0x342 = cause &&& 0x800000000000000f := by
  have e : umFind (except p cause).csrs 0x342 =
      umFind (set_csr (set_csr p 0x341 p.pc) 0x342 cause).csrs 0x342 := by
    unfold except
    simp only [countDec_csrs, pcDec_csrs]
    rw [exceptCause_umFind_other _ _ _ _ (by decide), exceptStatus_umFind_other _ _ (by decide)]
    split_ifs <;> simp only [pcSet_csrs]
  rw [csrAt_congr _ _ _ e, csrAt_set_csr_same _ _ _ (present_set_csr _ _ _ _ h) (by decide),
    csrMasked_mcause]

/-- The state `except` hands to its `switch(cause)`. -/
theorem except_eq (p : processor) (cause : Nat) :
    ∃ q : processor, except p cause = countDec (pcDec (exceptCause q cause p.pc)) ∧
      q.pc = mtvecBase (csrAt p 0x305) ∧ q.prv = p.prv ∧ q.registers = p.registers ∧
      q.decoder = p.decoder ∧ q.ins_count = p.ins_count ∧
      (umFind p.csrs 0x343 ≠ none → umFind q.csrs 0x343 ≠ none) := by
  have hb : ∀ c : Nat, (mtvecBase (csrAt p 0x305) + 4 * (c &&& 0x0)) % 2 ^ 64 =
      mtvecBase (csrAt p 0x305) := by
    intro c
    rw [Nat.and_zero, Nat.mul_zero, Nat.add_zero, Nat.mod_eq_of_lt (mtvecBase_lt _)]
  have hv : csrAt (set_csr (set_csr p 0x341 p.pc) 0x342 cause) 0x305 = csrAt p 0x305 := by
    rw [csrAt_set_csr_other _ _ _ _ (by decide), csrAt_set_csr_other _ _ _ _ (by decide)]
  refine ⟨exceptStatus (pcSet (set_csr (set_csr p 0x341 p.pc) 0x342 cause)
    (mtvecBase (csrAt p 0x305))), ?_, ?_, ?_, ?_, ?_, ?_, ?_⟩
  · unfold except
    simp only [hv]
    split_ifs
    · rfl
    · have := hb cause
      unfold mtvecBase at this ⊢
      rw [this]
  · simp only [exceptStatus_pc, pcSet_pc]
  · simp only [exceptStatus_prv, pcSet_prv, set_csr_prv]
  · simp only [exceptStatus_registers, pcSet_registers, set_csr_registers]
  · simp only [exceptStatus_decoder, pcSet_decoder, set_csr_decoder]
  · simp only [exceptStatus_ins_count, pcSet_ins_count, set_csr_ins_count]
  · intro h
    have u : Upd p (exceptStatus (pcSet (set_csr (set_csr p 0x341 p.pc) 0x342 cause)
        (mtvecBase (csrAt p 0x305)))) :=
      Upd.exceptStatus (Upd.pc _ _ (Upd.csr _ _ _ (Upd.csr _ _ _ Upd.refl)))
    exact present_of_upd u _ h

theorem exceptCause_pc_of_ne (p : processor) (c o : Nat) (hc : c ≠ 0) :
    (exceptCause p c o).pc = p.pc := by
  unfold exceptCause
  split <;> first | exact absurd rfl hc | simp only [set_csr_pc, set_prv_pc]

theorem except_pc_of_ne (p : processor) (c : Nat) (hc : c ≠ 0) :
    (except p c).pc = (mtvecBase (csrAt p 0x305) + (2 ^ 64 - 4)) % 2 ^ 64 := by
  obtain ⟨q, e, hpc, -⟩ := except_eq p c
  rw [e, countDec_pc, pcDec_pc, exceptCause_pc_of_ne _ _ _ hc, hpc]

/-- After the final `pc += 4` of `executeIns` the trap has left `pc` at the base of
`mtvec`. -/
theorem pcInc_except_pc (p : processor) (c : Nat) (hc : c ≠ 0) :
    (pcInc (except p c)).pc = mtvecBase (csrAt p 0x305) := by
  rw [pcInc_pc, except_pc_of_ne _ _ hc]
  have := mtvecBase_lt (csrAt p 0x305)
  omega

theorem except_pc_zero (p : processor) :
    (except p 0).pc = mtvecBase (csrAt p 0x305) := by
  obtain ⟨q, e, hpc, -⟩ := except_eq p 0
  rw [e, countDec_pc, pcDec_pc]
  unfold exceptCause
  simp only [set_csr_pc, pcInc_pc, countInc_pc, hpc]
  have := mtvecBase_lt (csrAt p 0x305)
  omega

theorem except_prv_of_ne (p : processor) (c : Nat) (hc : c ≠ 8) :
    (except p c).prv = p.prv := by
  obtain ⟨q, e, -, hprv, -⟩ := except_eq p c
  rw [e, countDec_prv, pcDec_prv, ← hprv]
  unfold exceptCause
  split <;> first | exact absurd rfl hc | simp only [set_csr_prv, pcInc_prv, countInc_prv]

theorem except_prv_ecall (p : processor) : (except p 8).prv = 3 := by
  obtain ⟨q, e, -⟩ := except_eq p 8
  rw [e, countDec_prv, pcDec_prv]
  unfold exceptCause
  simp only [set_prv_prv]

theorem except_mtval_zero (p : processor) (h : umFind p.csrs 0x343 ≠ none) :
    csrAt (except p 0) 0x343 = p.pc := by
  obtain ⟨q, e, -, -, -, -, -, hq⟩ := except_eq p 0
  rw [e]
  unfold exceptCause
  simp only []
  have e2 : umFind (countDec (pcDec (set_csr (pcInc (countInc q)) 0x343 p.pc))).csrs 0x343 =
      umFind (set_csr (pcInc (countInc q)) 0x343 p.pc).csrs 0x343 := by
    simp only [countDec_csrs, pcDec_csrs]
  rw [csrAt_congr _ _ _ e2, csrAt_set_csr_same _ _ _ _ (by decide), csrMasked_mtval]
  simp only [pcInc_csrs, countInc_csrs]
  exact hq h

theorem except_mtval_illegal (p : processor) (h : umFind p.csrs 0x343 ≠ none) :
    csrAt (except p 2) 0x343 = p.decoder.ins := by
  obtain ⟨q, e, -, -, -, hd, -, hq⟩ := except_eq p 2
  rw [e]
  unfold exceptCause
  simp only []
  have e2 : umFind (countDec (pcDec (set_csr q 0x343 q.decoder.ins))).csrs 0x343 =
      umFind (set_csr q 0x343 q.decoder.ins).csrs 0x343 := by
    simp only [countDec_csrs, pcDec_csrs]
  rw [csrAt_congr _ _ _ e2, csrAt_set_csr_same _ _ _ (hq h) (by decide), csrMasked_mtval, hd]

theorem except_mtval_ecall_user (p : processor) (h : umFind p.csrs 0x343 ≠ none) :
    csrAt (except p 8) 0x343 = 0 := by
  obtain ⟨q, e, -, -, -, -, -, hq⟩ := except_eq p 8
  rw [e]
  unfold exceptCause
  simp only []
  have e2 : umFind (countDec (pcDec (set_prv (set_csr q 0x343 0) 3))).csrs 0x343 =
      umFind (set_csr q 0x343 0).csrs 0x343 := by
    simp only [countDec_csrs, pcDec_csrs, set_prv_csrs]
  rw [csrAt_congr _ _ _ e2, csrAt_set_csr_same _ _ _ (hq h) (by decide), csrMasked_mtval]

theorem except_mtval_ecall_machine (p : processor) (h : umFind p.csrs 0x343 ≠ none) :
    csrAt (except p 11) 0x343 = 0 := by
  obtain ⟨q, e, -, -, -, -, -, hq⟩ := except_eq p 11
  rw [e]
  unfold exceptCause
  simp only []
  have e2 : umFind (countDec (pcDec (set_csr q 0x343 0))).csrs 0x343 =
      umFind (set_csr q 0x343 0).csrs 0x343 := by
    simp only [countDec_csrs, pcDec_csrs]
  rw [csrAt_congr _ _ _ e2, csrAt_set_csr_same _ _ _ (hq h) (by decide), csrMasked_mtval]

/-- The value `except` leaves in `mtval` for the causes 4 and 6: the base register
`registers[rs1]`. -/
theorem except_mtval_access (p : processor) (c : Nat) (hc : c = 4 ∨ c = 6)
    (h : umFind p.csrs 0x343 ≠ none) :
    csrAt (except p c) 0x343 = reg p p.decoder.rs1 := by
  obtain ⟨q, e, -, -, hr, hd, -, hq⟩ := except_eq p c
  have hreg : reg q q.decoder.rs1 = reg p p.decoder.rs1 := by
    unfold reg
    rw [hr, hd]
  rw [e]
  rcases hc with hc | hc <;> subst hc
  all_goals
    unfold exceptCause
    simp only []
    have e2 : umFind (countDec (pcDec (set_csr q 0x343 (reg q q.decoder.rs1)))).csrs 0x343 =
        umFind (set_csr q 0x343 (reg q q.decoder.rs1)).csrs 0x343 := by
      simp only [countDec_csrs, pcDec_csrs]
    rw [csrAt_congr _ _ _ e2, csrAt_set_csr_same _ _ _ (hq h) (by decide), csrMasked_mtval, hreg]

theorem mcause_mask (c : Nat) (hc : c = 0 ∨ c = 2 ∨ c = 3 ∨ c = 4 ∨ c = 6 ∨ c = 8 ∨ c = 11) :
    c &&& 0x800000000000000f = c := by
  rcases hc with h | h | h | h | h | h | h <;> subst h <;> decide
/-! ## What the other trap paths leave in the CSR file -/

theorem csrAt_of_csrs {p q : processor} (h : q.csrs = p.csrs) (k : Nat) :
    csrAt q k = csrAt p k := by
  unfold csrAt
  rw [h]

theorem interrupt_umFind_other (p : processor) (cause k : Nat)
    (h0 : 0x300 ≠ k) (h1 : 0x341 ≠ k) (h2 : 0x342 ≠ k) :
    umFind (interrupt p cause).csrs k = umFind p.csrs k := by
  unfold interrupt
  simp only []
  split_ifs <;>
    simp only [umFind_csrUpd_other _ _ _ _ h0, umFind_set_csr_other _ _ _ _ h1,
      umFind_set_csr_other _ _ _ _ h2, pcSet_csrs, set_prv_csrs]

theorem vector_mod (v c : Nat) :
    ((v &&& 0xfffffffffffffffc) + 4 * c) % 2 ^ 64 % 4 = 0 := by
  have hm := mtvecBase_mod v
  unfold mtvecBase at hm
  omega

theorem interrupt_pc_mod (p : processor) (cause : Nat) : (interrupt p cause).pc % 4 = 0 := by
  unfold interrupt
  simp only []
  split_ifs <;> simp only [csrUpd_pc, set_prv_pc, pcSet_pc] <;>
    first
      | exact mtvecBase_mod _
      | exact vector_mod _ _

theorem interrupt_pc_lt (p : processor) (cause : Nat) : (interrupt p cause).pc < 2 ^ 64 := by
  unfold interrupt
  simp only []
  split_ifs <;> simp only [csrUpd_pc, set_prv_pc, pcSet_pc] <;>
    first
      | exact mtvecBase_lt _
      | exact Nat.mod_lt _ (by norm_num)

/-- The interrupt check either leaves the state alone or delivers one interrupt. -/
theorem checkInterruptT_cases (p : processor) :
    ((checkInterruptT p).2 = none ∧ (checkInterruptT p).1 = p) ∨
      ∃ c, (checkInterruptT p).2 = some c ∧ (checkInterruptT p).1 = interrupt p c := by
  unfold checkInterruptT
  split_ifs
  all_goals first
    | exact Or.inl ⟨rfl, rfl⟩
    | exact Or.inr ⟨_, rfl, rfl⟩

theorem atFetch_registers (p : processor) : (atFetch p).registers = p.registers := by
  unfold atFetch
  rcases checkInterruptT_cases p with ⟨-, h⟩ | ⟨c, -, h⟩ <;> rw [h]
  exact interrupt_registers p c

theorem atFetch_main_memory (p : processor) : (atFetch p).main_memory = p.main_memory := by
  unfold atFetch
  rcases checkInterruptT_cases p with ⟨-, h⟩ | ⟨c, -, h⟩ <;> rw [h]
  exact interrupt_main_memory p c

theorem atFetch_ins_count (p : processor) : (atFetch p).ins_count = p.ins_count :=
  checkInterruptT_ins_count p

theorem atFetch_umFind_other (p : processor) (k : Nat)
    (h0 : 0x300 ≠ k) (h1 : 0x341 ≠ k) (h2 : 0x342 ≠ k) :
    umFind (atFetch p).csrs k = umFind p.csrs k := by
  unfold atFetch
  rcases checkInterruptT_cases p with ⟨-, h⟩ | ⟨c, -, h⟩ <;> rw [h]
  exact interrupt_umFind_other p c k h0 h1 h2

theorem atFetch_pc_mod (p : processor) (ha : p.pc % 4 = 0) : (atFetch p).pc % 4 = 0 := by
  unfold atFetch
  rcases checkInterruptT_cases p with ⟨-, h⟩ | ⟨c, -, h⟩ <;> rw [h]
  · exact ha
  · exact interrupt_pc_mod p c

theorem atFetch_pc_lt (p : processor) (ha : p.pc < 2 ^ 64) : (atFetch p).pc < 2 ^ 64 := by
  unfold atFetch
  rcases checkInterruptT_cases p with ⟨-, h⟩ | ⟨c, -, h⟩ <;> rw [h]
  · exact ha
  · exact interrupt_pc_lt p c

theorem atFetch_of_no_irq (p : processor) (h : (checkInterruptT p).2 = none) :
    atFetch p = p :=
  checkInterruptT_none p h

theorem atFetch_ok (p : processor) (h : CsrFileOK p.csrs) : CsrFileOK (atFetch p).csrs :=
  csrFileOK_of_upd (checkInterruptT_upd p) h

theorem decodeAt_csrs (p : processor) : (decodeAt p).csrs = p.csrs := by
  unfold decodeAt; rfl

theorem decodeAt_pc (p : processor) : (decodeAt p).pc = p.pc := by
  unfold decodeAt; rfl

theorem decodeAt_prv (p : processor) : (decodeAt p).prv = p.prv := by
  unfold decodeAt; rfl

theorem decodeAt_registers (p : processor) : (decodeAt p).registers = p.registers := by
  unfold decodeAt; rfl

theorem decodeAt_main_memory (p : processor) : (decodeAt p).main_memory = p.main_memory := by
  unfold decodeAt; rfl

theorem decodeAt_ins_count (p : processor) : (decodeAt p).ins_count = p.ins_count := by
  unfold decodeAt; rfl

theorem atExec_csrs (p : processor) : (atExec p).csrs = (atFetch p).csrs := by
  unfold atExec; exact decodeAt_csrs _

theorem atExec_pc (p : processor) : (atExec p).pc = (atFetch p).pc := by
  unfold atExec; exact decodeAt_pc _

theorem atExec_prv (p : processor) : (atExec p).prv = (atFetch p).prv := by
  unfold atExec; exact decodeAt_prv _

theorem atExec_registers (p : processor) : (atExec p).registers = p.registers := by
  unfold atExec; rw [decodeAt_registers, atFetch_registers]

theorem atExec_main_memory (p : processor) : (atExec p).main_memory = p.main_memory := by
  unfold atExec; rw [decodeAt_main_memory, atFetch_main_memory]

theorem atExec_ins_count (p : processor) : (atExec p).ins_count = p.ins_count := by
  unfold atExec; rw [decodeAt_ins_count, atFetch_ins_count]

theorem atExec_csrAt (p : processor) (k : Nat) : csrAt (atExec p) k = csrAt (atFetch p) k :=
  csrAt_of_csrs (atExec_csrs p) k

theorem atExec_ok (p : processor) (h : CsrFileOK p.csrs) : CsrFileOK (atExec p).csrs := by
  rw [atExec_csrs]
  exact atFetch_ok p h

theorem atExec_mtvec (p : processor) : csrAt (atExec p) 0x305 = csrAt p 0x305 := by
  rw [atExec_csrAt]
  exact csrAt_congr _ _ _ (atFetch_umFind_other p 0x305 (by decide) (by decide) (by decide))

/-! ## One iteration of `execute`, by cases -/

theorem executeStepT_misaligned (p : processor) (chk : Bool) (ha : p.pc % 4 ≠ 0) :
    executeStepT p chk =
      (except p 0, { halted := false, irq := none, trap := some 0, word := none }) := by
  unfold executeStepT
  rw [if_pos ha]

theorem executeStepT_run (p : processor) (chk : Bool) (ha : p.pc % 4 = 0)
    (hrun : (executeStepT p chk).2.halted = false) :
    executeStepT p chk =
      (countInc (executeInsT (atExec p)).1,
        { halted := false, irq := (checkInterruptT p).2, trap := (executeInsT (atExec p)).2,
          word := some (fetch (atFetch p)) }) := by
  unfold executeStepT at hrun ⊢
  simp only [ha, ne_eq, not_true_eq_false, if_false] at hrun ⊢
  split_ifs at hrun ⊢ with hb
  rfl

/-- A step that records no trap at a misaligned `pc` does not exist; a step that halts at
the breakpoint records no trap. -/
theorem executeStepT_trap_run (p : processor) (chk : Bool) (ha : p.pc % 4 = 0) (c : Nat)
    (htrap : (executeStepT p chk).2.trap = some c) :
    (executeStepT p chk).2.halted = false := by
  unfold executeStepT at htrap ⊢
  simp only [ha, ne_eq, not_true_eq_false, if_false] at htrap ⊢
  split_ifs at htrap ⊢ with hb
  rfl

/-- The two shapes of a trap raised by `executeIns`: the inlined sequence of `ins_ebreak`
(cause 3), or a call of `except` with a cause other than 0 and 3. -/
theorem execCase_trap (p : processor) (k : Ins) (c : Nat) (h : (execCase p k).2 = some c) :
    (c = 3 ∧ k = ins_ebreak ∧ (execCase p k).1 = pcInc (ebreakBody p)) ∨
      ((c = 2 ∨ c = 4 ∨ c = 6 ∨ c = 8 ∨ c = 11) ∧ (execCase p k).1 = pcInc (except p c)) := by
  cases k <;> dsimp only [execCase] at h ⊢ <;> (try split_ifs at h ⊢) <;>
    simp only [Option.some.injEq, reduceCtorEq] at h <;> subst h <;> simp

theorem executeInsT_trap (p : processor) (c : Nat) (h : (executeInsT p).2 = some c) :
    (c = 3 ∧ p.decoder.code = ins_ebreak ∧ (executeInsT p).1 = pcInc (ebreakBody p)) ∨
      ((c = 2 ∨ c = 4 ∨ c = 6 ∨ c = 8 ∨ c = 11) ∧ (executeInsT p).1 = pcInc (except p c)) :=
  execCase_trap p p.decoder.code c h
/-! ## The cases `ins_ebreak` and `ins_mret` -/

theorem csrAt_ite (c : Prop) [Decidable c] (a b : processor) (k : Nat) :
    csrAt (if c then a else b) k = if c then csrAt a k else csrAt b k := by
  split_ifs <;> rfl

theorem csrAt_pcSet (p : processor) (v k : Nat) : csrAt (pcSet p v) k = csrAt p k :=
  csrAt_of_csrs (pcSet_csrs p v) k

theorem csrAt_prvSet (p : processor) (v k : Nat) : csrAt (prvSet p v) k = csrAt p k :=
  csrAt_of_csrs (prvSet_csrs p v) k

theorem csrAt_pcDec (p : processor) (k : Nat) : csrAt (pcDec p) k = csrAt p k :=
  csrAt_of_csrs (pcDec_csrs p) k

theorem csrAt_countDec (p : processor) (k : Nat) : csrAt (countDec p) k = csrAt p k :=
  csrAt_of_csrs (countDec_csrs p) k

theorem csrAt_pcInc (p : processor) (k : Nat) : csrAt (pcInc p) k = csrAt p k :=
  csrAt_of_csrs (pcInc_csrs p) k

theorem csrAt_countInc (p : processor) (k : Nat) : csrAt (countInc p) k = csrAt p k :=
  csrAt_of_csrs (countInc_csrs p) k

theorem ebreakBody_mstatus (p : processor) :
    csrAt (ebreakBody p) 0x300 = ebreakStatus p.prv (csrAt p 0x300) := by
  unfold ebreakBody ebreakStatus
  simp only [csrAt_pcDec, csrAt_countDec, csrAt_prvSet, csrAt_pcSet, csrAt_ite,
    csrAt_csrUpd_same, csrAt_set_csr_other _ 0x342 _ 0x300 (by decide),
    csrAt_set_csr_other _ 0x341 _ 0x300 (by decide), apply_ite processor.prv, pcSet_prv,
    set_csr_prv, ite_self]

theorem ebreakBody_prv (p : processor) : (ebreakBody p).prv = 3 := by
  unfold ebreakBody
  simp only [pcDec_prv, countDec_prv, prvSet_prv]

theorem ebreakBody_pc (p : processor) :
    (ebreakBody p).pc = (mtvecBase (csrAt p 0x305) + (2 ^ 64 - 4)) % 2 ^ 64 := by
  have hb : ∀ c : Nat, (mtvecBase (csrAt p 0x305) + 4 * (c &&& 0x0)) % 2 ^ 64 =
      mtvecBase (csrAt p 0x305) := by
    intro c
    rw [Nat.and_zero, Nat.mul_zero, Nat.add_zero, Nat.mod_eq_of_lt (mtvecBase_lt _)]
  unfold mtvecBase at hb ⊢
  unfold ebreakBody
  simp only [pcDec_pc, countDec_pc, prvSet_pc, set_csr_pc, csrUpd_pc, apply_ite processor.pc,
    ite_self, pcSet_pc, csrAt_set_csr_other _ 0x341 _ 0x305 (by decide), hb]

theorem pcInc_ebreakBody_pc (p : processor) :
    (pcInc (ebreakBody p)).pc = mtvecBase (csrAt p 0x305) := by
  rw [pcInc_pc, ebreakBody_pc]
  have := mtvecBase_lt (csrAt p 0x305)
  omega

theorem ebreakBody_umFind_other (p : processor) (k : Nat)
    (h0 : 0x300 ≠ k) (h1 : 0x341 ≠ k) (h2 : 0x342 ≠ k) :
    umFind (ebreakBody p).csrs k = umFind p.csrs k := by
  unfold ebreakBody
  simp only []
  split_ifs <;>
    simp only [pcDec_csrs, countDec_csrs, prvSet_csrs, pcSet_csrs,
      umFind_csrUpd_other _ _ _ _ h0, umFind_set_csr_other _ _ _ _ h1,
      umFind_set_csr_other _ _ _ _ h2]

theorem ebreakBody_mepc (p : processor) (h : umFind p.csrs 0x341 ≠ none) :
    csrAt (ebreakBody p) 0x341 = p.pc &&& 0xfffffffffffffffc := by
  have e : umFind (ebreakBody p).csrs 0x341 = umFind (set_csr p 0x341 p.pc).csrs 0x341 := by
    unfold ebreakBody
    simp only []
    split_ifs <;>
      simp only [pcDec_csrs, countDec_csrs, prvSet_csrs, pcSet_csrs,
        umFind_csrUpd_other _ 0x300 _ 0x341 (by decide),
        umFind_set_csr_other _ 0x342 _ 0x341 (by decide)]
  rw [csrAt_congr _ _ _ e, csrAt_set_csr_same _ _ _ h (by decide), csrMasked_mepc]

theorem ebreakBody_mcause (p : processor) (h : umFind p.csrs 0x342 ≠ none) :
    csrAt (ebreakBody p) 0x342 = 3 := by
  obtain ⟨q, e, hq⟩ : ∃ q : processor, ebreakBody p = pcDec (countDec (prvSet
      (set_csr q 0x342 3) 3)) ∧ Upd p q := by
    unfold ebreakBody
    simp only []
    refine ⟨_, rfl, ?_⟩
    split_ifs <;>
    repeat (first
      | (with_reducible exact Upd.refl)
      | (with_reducible refine Upd.mstatusOr _ _ (by norm_num) ?_)
      | (with_reducible refine Upd.mstatusAnd _ _ (by norm_num) ?_)
      | (with_reducible refine Upd.csr _ _ _ ?_)
      | (with_reducible refine Upd.pc _ _ ?_))
  rw [e, csrAt_pcDec, csrAt_countDec, csrAt_prvSet,
    csrAt_set_csr_same _ _ _ (present_of_upd hq _ h) (by decide), csrMasked_mcause]
  decide

theorem mretBody_mstatus (p : processor) :
    csrAt (mretBody p) 0x300 = mretStatus (csrAt p 0x300) := by
  unfold mretBody mretStatus
  simp only [csrAt_prvSet, csrAt_pcSet, csrAt_ite, csrAt_csrUpd_same, ite_self]

theorem mretBody_pc (p : processor) :
    (mretBody p).pc = (csrAt p 0x341 + (2 ^ 64 - 4)) % 2 ^ 64 := by
  unfold mretBody
  simp only [csrUpd_pc, apply_ite processor.pc, ite_self, prvSet_pc, pcSet_pc]

theorem mretBody_prv (p : processor) :
    (mretBody p).prv = if mstatusMpp (csrAt p 0x300) = 3 then 3 else 0 := by
  unfold mretBody mstatusMpp
  simp only [csrUpd_prv, apply_ite processor.prv, ite_self, prvSet_prv, csrAt_pcSet]

theorem mretBody_umFind_other (p : processor) (k : Nat) (h0 : 0x300 ≠ k) :
    umFind (mretBody p).csrs k = umFind p.csrs k := by
  unfold mretBody
  simp only []
  split_ifs <;>
    simp only [prvSet_csrs, pcSet_csrs, umFind_csrUpd_other _ _ _ _ h0]

/-! ## The fields of `mstatus` after `ins_ebreak` and `ins_mret` -/

theorem ebreakStatus_fields (prv m : Nat) (hprv : prv = 0 ∨ prv = 3) :
    mstatusMpp (ebreakStatus prv m) = prv ∧
      mstatusMpie (ebreakStatus prv m) = mstatusMie m ∧
      mstatusMie (ebreakStatus prv m) = 0 := by
  simp only [mstatusMpp_eq, mstatusMpie_eq, mstatusMie_eq]
  unfold ebreakStatus
  simp only [shr_and_one]
  rcases hprv with h | h <;> subst h <;> split_ifs with h1 h2 h3 <;>
    simp only [testBit_and_not_mpp, testBit_and_not_mpie, testBit_and_not_mie, testBit_or_0x80,
      testBit_or_0x1800] at * <;>
    cases hb : m.testBit 3 <;> simp [hb] at *

theorem mretStatus_fields (m : Nat) :
    mstatusMie (mretStatus m) = mstatusMpie m ∧ mstatusMpie (mretStatus m) = 1 ∧
      mstatusMpp (mretStatus m) = 0 := by
  simp only [mstatusMpp_eq, mstatusMpie_eq, mstatusMie_eq]
  unfold mretStatus
  simp only [shr_and_one]
  split_ifs with h1 <;>
    simp only [testBit_and_not_mpp, testBit_and_not_mie, testBit_or_0x80, testBit_or_0x8] at * <;>
    cases hb : m.testBit 7 <;> simp [hb] at *

theorem mretStatus_other_bits (m i : Nat) (hm : m < 2 ^ 64)
    (h3 : i ≠ 3) (h7 : i ≠ 7) (h11 : i ≠ 11) (h12 : i ≠ 12) :
    (mretStatus m).testBit i = m.testBit i := by
  unfold mretStatus
  simp only [shr_and_one]
  by_cases hi : i < 64
  · split_ifs with h1 <;>
      simp only [testBit_and_not_mpp, testBit_and_not_mie, testBit_or_0x80, testBit_or_0x8] <;>
      simp [h3, h7, h11, h12, hi]
  · have hz : m.testBit i = false := testBit_of_lt_word m i hm (Nat.le_of_not_lt hi)
    split_ifs with h1 <;>
      simp only [testBit_and_not_mpp, testBit_and_not_mie, testBit_or_0x80, testBit_or_0x8] <;>
      simp [h3, h7, h11, h12, hi, hz]

end processor

namespace Decoder

/-! ## The instruction word kept by the decoder -/

theorem decodeIType_ins (d : Decoder) : (decodeIType d).ins = d.ins := rfl

theorem decodeRType_ins (d : Decoder) : (decodeRType d).ins = d.ins := rfl

theorem decodeSType_ins (d : Decoder) : (decodeSType d).ins = d.ins := rfl

theorem decodeBType_ins (d : Decoder) : (decodeBType d).ins = d.ins := rfl

theorem decodeUType_ins (d : Decoder) : (decodeUType d).ins = d.ins := rfl

theorem decodeJType_ins (d : Decoder) : (decodeJType d).ins = d.ins := rfl

theorem decodeOp3_ins (d : Decoder) : (decodeOp3 d).ins = d.ins := by
  unfold decodeOp3; split <;> rfl

theorem decodeOp19_ins (d : Decoder) : (decodeOp19 d).ins = d.ins := by
  unfold decodeOp19; split <;> rfl

theorem decodeOp27_ins (d : Decoder) : (decodeOp27 d).ins = d.ins := by
  unfold decodeOp27; split <;> rfl

theorem decodeOp35_ins (d : Decoder) : (decodeOp35 d).ins = d.ins := by
  unfold decodeOp35; split <;> rfl

theorem decodeOp51_ins (d : Decoder) : (decodeOp51 d).ins = d.ins := by
  unfold decodeOp51; split <;> rfl

theorem decodeOp59_ins (d : Decoder) : (decodeOp59 d).ins = d.ins := by
  unfold decodeOp59; split <;> rfl

theorem decodeOp99_ins (d : Decoder) : (decodeOp99 d).ins = d.ins := by
  unfold decodeOp99; split <;> rfl

theorem decodeOp115_ins (d : Decoder) (w : Nat) : (decodeOp115 d w).ins = d.ins := by
  unfold decodeOp115; split <;> rfl

/-- After `decodeIns` the decoder holds the word it was given, unless the outer `default`
reset it (and then the kind is `ins_default`). -/
theorem decodeIns_ins (d : Decoder) (w : Nat) :
    (decodeIns d w).ins = w ∨ (decodeIns d w).code = ins_default := by
  unfold decodeIns
  simp only []
  split
  · exact Or.inl (decodeOp3_ins _)
  · exact Or.inl rfl
  · exact Or.inl (decodeOp19_ins _)
  · exact Or.inl rfl
  · exact Or.inl (decodeOp27_ins _)
  · exact Or.inl (decodeOp35_ins _)
  · exact Or.inl (decodeOp51_ins _)
  · exact Or.inl rfl
  · exact Or.inl (decodeOp59_ins _)
  · exact Or.inl (decodeOp99_ins _)
  · exact Or.inl rfl
  · exact Or.inl rfl
  · exact Or.inl (decodeOp115_ins _ _)
  · exact Or.inr rfl

end Decoder

namespace processor

/-! ## `executeIns` on the kinds that can trap -/

theorem executeInsT_ecall (p : processor) (h : p.decoder.code = ins_ecall) :
    executeInsT p =
      if p.prv = 0 then (pcInc (except p 8), some 8)
      else if p.prv = 3 then (pcInc (except p 11), some 11)
      else (pcInc p, none) := by
  unfold executeInsT
  rw [h]
  dsimp only [execCase]

theorem executeInsT_ebreak (p : processor) (h : p.decoder.code = ins_ebreak) :
    executeInsT p = (pcInc (ebreakBody p), some 3) := by
  unfold executeInsT
  rw [h]
  dsimp only [execCase]

theorem executeInsT_mret (p : processor) (h : p.decoder.code = ins_mret) :
    executeInsT p =
      if p.prv = 0 then (pcInc (except p 2), some 2) else (pcInc (mretBody p), none) := by
  unfold executeInsT
  rw [h]
  dsimp only [execCase]

theorem executeInsT_default (p : processor) (h : p.decoder.code = ins_default) :
    executeInsT p = (pcInc p, none) := by
  unfold executeInsT
  rw [h]
  dsimp only [execCase]

/-- A load or store with an alignment requirement whose effective address violates it
calls `except` and does nothing else. -/
theorem executeInsT_misaligned (p : processor) (c : Nat)
    (hkind : misalignedCause p.decoder.code = some c)
    (hmis : effAddr p % alignOf p.decoder.code ≠ 0) :
    executeInsT p = (pcInc (except p c), some c) := by
  unfold executeInsT
  cases hk : p.decoder.code <;> rw [hk] at hkind hmis <;>
    simp only [misalignedCause, reduceCtorEq, Option.some.injEq] at hkind <;>
    subst hkind <;> simp only [alignOf] at hmis <;> dsimp only [execCase] <;>
    rw [if_neg hmis]

/-- The six CSR instructions trap exactly when their guard holds. -/
theorem executeInsT_csr (p : processor) (hk : p.decoder.code ∈ csrKinds) :
    (csrGuard p p.decoder.imm → executeInsT p = (pcInc (except p 2), some 2)) ∧
      (¬ csrGuard p p.decoder.imm → (executeInsT p).2 = none) := by
  unfold executeInsT
  simp only [csrKinds, List.mem_cons, List.mem_singleton, List.not_mem_nil, or_false] at hk
  rcases hk with h | h | h | h | h | h <;> rw [h] <;> dsimp only [execCase] <;>
    refine ⟨fun hg => ?_, fun hg => ?_⟩ <;> first | rw [if_pos hg] | rw [if_neg hg]

/-- In a well-formed CSR file the guard of the CSR instructions reads as in the
specification. -/
theorem csrGuard_iff (p : processor) (hok : CsrFileOK p.csrs) (n : Nat) :
    csrGuard p n ↔
      (p.prv = 0 ∨ n ∉ registeredCSRs ∨ (n ∈ readOnlyCSRs ∧ p.decoder.rs1 ≠ 0)) := by
  unfold csrGuard
  rw [absent_of_ok hok]
  simp only [readOnlyCSRs, List.mem_cons, List.mem_singleton, List.not_mem_nil, or_false]
  tauto

end processor

namespace processor

/-! ## The register file -/

theorem reg_set_reg_same (p : processor) (r v : Nat) (h0 : r ≠ 0)
    (hl : r < p.registers.length) : reg (set_reg p r v) r = v := by
  unfold set_reg reg
  rw [if_neg h0]
  simp [List.getElem?_set_self hl]

theorem reg_set_reg_other (p : processor) (r v r' : Nat) (h : r ≠ r') :
    reg (set_reg p r v) r' = reg p r' := by
  unfold set_reg reg
  split_ifs
  · rfl
  · simp [List.getElem?_set_ne h]

theorem set_reg_length (p : processor) (r v : Nat) :
    (set_reg p r v).registers.length = p.registers.length := by
  unfold set_reg
  split_ifs
  · rfl
  · simp

theorem reg_of_registers {p q : processor} (h : q.registers = p.registers) (r : Nat) :
    reg q r = reg p r := by
  unfold reg
  rw [h]

/-- Every elementary update keeps the number of registers. -/
theorem length_of_upd {p q : processor} (h : Upd p q) :
    q.registers.length = p.registers.length := by
  induction h with
  | refl => rfl
  | pc q v _ ih => exact ih
  | ins_count q v _ ih => exact ih
  | prv q v _ ih => exact ih
  | decoder q d _ ih => exact ih
  | mem q m _ ih => exact ih
  | reg q r v _ ih => exact (set_reg_length q r v).trans ih
  | csr q k v _ ih =>
    rw [set_csr_registers]
    exact ih
  | mstatusOr q a _ _ ih => exact ih
  | mstatusAnd q a _ _ ih => exact ih

/-- The value of a register after the write `set_reg(rd, v)` of an instruction, read
through the two later statements `pc += 4` and `ins_count ++`. -/
theorem reg_after_write (p : processor) (rd v r : Nat) (hl : rd < p.registers.length) :
    reg (countInc (pcInc (set_reg p rd v))) r
      = if r = rd ∧ rd ≠ 0 then v else reg p r := by
  have e : reg (countInc (pcInc (set_reg p rd v))) r = reg (set_reg p rd v) r :=
    reg_of_registers (by simp only [countInc_registers, pcInc_registers]) r
  rw [e]
  by_cases h : r = rd
  · subst h
    by_cases h0 : r = 0
    · subst h0
      rw [reg_set_reg_zero]
      simp
    · rw [reg_set_reg_same p r v h0 hl]
      simp [h0]
  · rw [reg_set_reg_other p rd v r (fun e => h e.symm)]
    simp [h]

/-! ## The decoder is changed by `decodeIns` only -/

set_option maxHeartbeats 4000000 in
theorem execCase_decoder (p : processor) (k : Ins) : (execCase p k).1.decoder = p.decoder := by
  cases k <;> dsimp only [execCase] <;> (try split_ifs) <;>
    simp only [pcInc_decoder, set_reg_decoder, memWrite_decoder, pcEven_decoder,
      pcSet_decoder, branchJump_decoder, set_csr_decoder, mretBody_decoder,
      ebreakBody_decoder, except_decoder]

theorem executeInsT_decoder (p : processor) : (executeInsT p).1.decoder = p.decoder :=
  execCase_decoder p p.decoder.code

theorem atFetch_decoder (p : processor) : (atFetch p).decoder = p.decoder := by
  unfold atFetch
  rcases checkInterruptT_cases p with ⟨-, h⟩ | ⟨c, -, h⟩ <;> rw [h]
  exact interrupt_decoder p c

theorem atFetch_regsOK (p : processor) (h : RegsOK p) : RegsOK (atFetch p) := by
  unfold RegsOK at h ⊢
  rw [atFetch_decoder, atFetch_registers]
  exact h

theorem atExec_regsOK (p : processor) (h : RegsOK p) : RegsOK (atExec p) := by
  have h1 := atFetch_regsOK p h
  unfold RegsOK at h1 ⊢
  unfold atExec decodeAt
  exact ⟨h1.1, decodeIns_regs_lt _ _ h1.2⟩

theorem executeStepT_regsOK (p : processor) (chk : Bool) (h : RegsOK p) :
    RegsOK (executeStepT p chk).1 := by
  have hl := length_of_upd (executeStepT_upd p chk)
  refine ⟨hl.trans h.1, ?_⟩
  by_cases ha : p.pc % 4 = 0
  · by_cases hr : (executeStepT p chk).2.halted = false
    · rw [executeStepT_run p chk ha hr]
      simp only [countInc_decoder, executeInsT_decoder]
      exact (atExec_regsOK p h).2
    · have e : (executeStepT p chk).1 = atFetch p := by
        unfold executeStepT at hr ⊢
        simp only [ha, ne_eq, not_true_eq_false, if_false] at hr ⊢
        split_ifs at hr ⊢ with hb
        · rfl
        · exact absurd rfl hr
      rw [e]
      exact (atFetch_regsOK p h).2
  · rw [executeStepT_misaligned p chk ha]
    simp only [except_decoder]
    exact h.2

theorem execute_regsOK (p : processor) (num : Nat) (chk : Bool) (h : RegsOK p) :
    RegsOK (execute p num chk) := by
  induction num generalizing p with
  | zero => exact h
  | succ n ih =>
    unfold execute
    simp only []
    split_ifs
    · exact executeStepT_regsOK p chk h
    · exact ih _ (executeStepT_regsOK p chk h)

/-- Every reachable state has 32 registers and 5-bit register fields in the decoder. -/
theorem reachable_regsOK {p : processor} (h : Reachable p) : RegsOK p := by
  induction h with
  | init m =>
    have hd : (processor.init m).decoder = Decoder.init := rfl
    unfold RegsOK
    rw [hd]
    exact ⟨by simp [processor.init], by decide, by decide, by decide⟩
  | set_pc v _ ih => exact ih
  | set_reg r v _ ih =>
    unfold RegsOK at ih ⊢
    rw [set_reg_length, set_reg_decoder]
    exact ih
  | set_csr n v _ ih =>
    unfold RegsOK at ih ⊢
    rw [set_csr_registers, set_csr_decoder]
    exact ih
  | set_prv v _ ih => exact ih
  | set_breakpoint a _ ih => exact ih
  | clear_breakpoint _ ih => exact ih
  | execute num chk _ ih => exact execute_regsOK _ num chk ih
  | load m _ ih => exact ih

theorem executeInsT_of_code (p : processor) (k : Ins) (h : p.decoder.code = k) :
    executeInsT p = execCase p k := by
  unfold executeInsT
  rw [h]

/-! ## The CSR instructions that do not trap -/

theorem xor_ones_eq_not64 (x : Nat) (hx : x < 2 ^ 64) :
    0xffffffffffffffff ^^^ x = not64 x := by
  unfold not64
  apply Nat.eq_of_testBit_eq
  intro i
  have h1 : (0xffffffffffffffff : Nat) = 2 ^ 64 - 1 := by norm_num
  have h2 : 2 ^ 64 - 1 - x = 2 ^ 64 - (x + 1) := by omega
  rw [h2, Nat.testBit_two_pow_sub_succ hx, h1, Nat.testBit_xor, Nat.testBit_two_pow_sub_one]
  by_cases hi : i < 64
  · simp [hi]
  · have hz : x.testBit i = false := testBit_of_lt_word x i hx (Nat.le_of_not_lt hi)
    simp [hi, hz]

theorem set_csr_csrs_congr {p q : processor} (h : q.csrs = p.csrs) (n v : Nat) :
    (set_csr q n v).csrs = (set_csr p n v).csrs := by
  unfold set_csr csrPut
  rw [h]
  split_ifs <;> simp only [h]

theorem mip_premask (x : Nat) : csrMasked 0x344 (x &&& 0x111) = x &&& 0x111 := by
  have h : csrMasked 0x344 (x &&& 0x111) = (x &&& 0x111) &&& 0x999 := by
    unfold csrMasked
    norm_num
  rw [h, Nat.and_assoc]
  rfl

/-- The state a CSR instruction that passes its guard leaves: `x[rd]` is written with the
old CSR value, then the CSR is written through `set_csr` when the instruction writes. -/
theorem executeInsT_csr_ok (p : processor) (hk : p.decoder.code ∈ csrKinds)
    (hs : reg p p.decoder.rs1 < 2 ^ 64) (hr : p.decoder.rs1 < 32)
    (hg : ¬ csrGuard p p.decoder.imm) :
    executeInsT p =
      (pcInc (if csrWrites p.decoder.code p.decoder.rs1 then
          set_csr (set_reg p p.decoder.rd (csrAt p p.decoder.imm)) p.decoder.imm
            (mipMask p.decoder.imm (csrOperation p.decoder.code (csrAt p p.decoder.imm)
              (csrSource p.decoder.code (reg p p.decoder.rs1) p.decoder.rs1)))
        else set_reg p p.decoder.rd (csrAt p p.decoder.imm)), none) := by
  have hz : p.decoder.rs1 < 2 ^ 64 := by omega
  simp only [csrKinds, List.mem_cons, List.mem_singleton, List.not_mem_nil, or_false] at hk
  rcases hk with h | h | h | h | h | h <;>
    rw [executeInsT_of_code p _ h, h] <;> dsimp only [execCase] <;> rw [if_neg hg] <;>
    simp only [csrWrites, csrOperation, csrSource, reduceCtorEq, true_or, or_true, false_or,
      or_false, if_true, if_false, ne_eq, ite_not, xor_ones_eq_not64 _ hs,
      xor_ones_eq_not64 _ hz]

/-! ## The interrupt check -/

theorem pending_iff (p : processor) (b : Nat) : pending p b ↔ irqBit p b = true := by
  unfold pending irqBit
  rw [shr_and_one, shr_and_one]
  cases (csrAt p 0x344).testBit b <;> cases (csrAt p 0x304).testBit b <;> simp

theorem executeStepT_irq (p : processor) (chk : Bool) (ha : p.pc % 4 = 0) :
    (executeStepT p chk).2.irq = (checkInterruptT p).2 := by
  unfold executeStepT
  simp only [ha, ne_eq, not_true_eq_false, if_false]
  split_ifs <;> rfl

/-- The interrupt check of `execute` delivers the interrupt of the specification. -/
theorem checkInterruptT_spec (p : processor) : (checkInterruptT p).2 = specInterrupt p := by
  unfold checkInterruptT specInterrupt irqEnabled mstatusMie irqPriority
  simp only [pending_iff]
  by_cases he : (csrAt p 0x300 >>> 3) &&& 0x1 = 1 ∨ p.prv = 0
  · rw [if_pos he, if_pos he]
    cases h11 : irqBit p 11 <;> cases h3 : irqBit p 3 <;> cases h7 : irqBit p 7 <;>
      cases h8 : irqBit p 8 <;> cases h0 : irqBit p 0 <;> cases h4 : irqBit p 4 <;>
      simp [List.find?, h11, h3, h7, h8, h0, h4]
  · rw [if_neg he, if_neg he]

theorem checkInterruptT_delivers (p : processor) (c : Nat)
    (h : (checkInterruptT p).2 = some c) : (checkInterruptT p).1 = interrupt p c := by
  rcases checkInterruptT_cases p with ⟨h0, -⟩ | ⟨c', h1, h2⟩
  · rw [h0] at h
    exact absurd h (by simp)
  · rw [h1] at h
    cases Option.some.inj h
    exact h2

theorem specInterrupt_mem (p : processor) (c : Nat) (h : specInterrupt p = some c) :
    irqEnabled p ∧ c ∈ irqPriority ∧ irqBit p c = true := by
  unfold specInterrupt at h
  split_ifs at h with he
  exact ⟨he, List.mem_of_find?_eq_some h, List.find?_some h⟩

/-! ## What `interrupt` leaves -/

theorem interrupt_mepc (p : processor) (c : Nat) (h : umFind p.csrs 0x341 ≠ none) :
    csrAt (interrupt p c) 0x341 = p.pc &&& 0xfffffffffffffffc := by
  have e : umFind (interrupt p c).csrs 0x341 =
      umFind (set_csr (csrUpd p 0x300 (fun x => x ||| 0x80)) 0x341 p.pc).csrs 0x341 := by
    unfold interrupt
    simp only [csrUpd_pc]
    split_ifs <;>
      simp only [pcSet_csrs, set_prv_csrs, umFind_csrUpd_other _ 0x300 _ 0x341 (by decide),
        umFind_set_csr_other _ 0x342 _ 0x341 (by decide)]
  rw [csrAt_congr _ _ _ e,
    csrAt_set_csr_same _ _ _ (present_csrUpd _ _ _ _ h) (by decide), csrMasked_mepc]

theorem interrupt_mcause (p : processor) (c : Nat) (h : umFind p.csrs 0x342 ≠ none) :
    csrAt (interrupt p c) 0x342 =
      ((0x8000000000000000 + c) % 2 ^ 64) &&& 0x800000000000000f := by
  have e : umFind (interrupt p c).csrs 0x342 =
      umFind (set_csr (set_csr (csrUpd p 0x300 (fun x => x ||| 0x80)) 0x341
        (csrUpd p 0x300 (fun x => x ||| 0x80)).pc) 0x342
        ((0x8000000000000000 + c) % 2 ^ 64)).csrs 0x342 := by
    unfold interrupt
    simp only []
    split_ifs <;>
      simp only [pcSet_csrs, set_prv_csrs, umFind_csrUpd_other _ 0x300 _ 0x342 (by decide)]
  rw [csrAt_congr _ _ _ e,
    csrAt_set_csr_same _ _ _ (present_set_csr _ _ _ _ (present_csrUpd _ _ _ _ h)) (by decide),
    csrMasked_mcause]

theorem interrupt_pc (p : processor) (c : Nat) :
    (interrupt p c).pc =
      if csrAt p 0x305 &&& 0x1 = 0 then mtvecBase (csrAt p 0x305)
      else (mtvecBase (csrAt p 0x305) + 4 * c) % 2 ^ 64 := by
  have hv : ∀ v : Nat,
      csrAt (set_csr (set_csr (csrUpd p 0x300 (fun x => x ||| 0x80)) 0x341 v) 0x342
        ((0x8000000000000000 + c) % 2 ^ 64)) 0x305 = csrAt p 0x305 := by
    intro v
    rw [csrAt_set_csr_other _ _ _ _ (by decide), csrAt_set_csr_other _ _ _ _ (by decide),
      csrAt_csrUpd_other _ _ _ _ (by decide)]
  unfold interrupt mtvecBase
  simp only [hv]
  split_ifs <;> simp only [csrUpd_pc, set_prv_pc, pcSet_pc]

theorem interrupt_mcause_value (c : Nat) (hc : c ∈ irqPriority) :
    ((0x8000000000000000 + c) % 2 ^ 64) &&& 0x800000000000000f = 2 ^ 63 ||| c ∧
      2 ^ 63 ||| c = 2 ^ 63 + c := by
  simp only [irqPriority, List.mem_cons, List.mem_singleton, List.not_mem_nil, or_false] at hc
  rcases hc with h | h | h | h | h | h <;> subst h <;> exact ⟨by decide, by decide⟩

/-! ## The sign-extension helpers, arithmetically -/

theorem and_sign_bit (x k : Nat) : x &&& 2 ^ k = (x / 2 ^ k % 2) * 2 ^ k := by
  rw [Nat.and_two_pow, Nat.toNat_testBit]

theorem sext_8_64_eq (v : Nat) : sext_8_64 v = signExt 8 v := by
  have h1 : v &&& 0xff = v % 2 ^ 8 := and_mask_eq_mod v 8 0xff (by norm_num)
  have h2 : (v % 2 ^ 8) &&& 0x80 = ((v % 2 ^ 8) / 2 ^ 7 % 2) * 2 ^ 7 := and_sign_bit _ 7
  unfold sext_8_64 signExt
  simp only [h1, h2]
  split_ifs <;> omega

theorem sext_16_64_eq (v : Nat) : sext_16_64 v = signExt 16 v := by
  have h1 : v &&& 0xffff = v % 2 ^ 16 := and_mask_eq_mod v 16 0xffff (by norm_num)
  have h2 : (v % 2 ^ 16) &&& 0x8000 = ((v % 2 ^ 16) / 2 ^ 15 % 2) * 2 ^ 15 := and_sign_bit _ 15
  unfold sext_16_64 signExt
  simp only [h1, h2]
  split_ifs <;> omega

theorem sext_32_64_eq (v : Nat) : sext_32_64 v = signExt 32 v := by
  have h1 : v &&& 0xffffffff = v % 2 ^ 32 := and_mask_eq_mod v 32 0xffffffff (by norm_num)
  have h2 : (v % 2 ^ 32) &&& 0x80000000 = ((v % 2 ^ 32) / 2 ^ 31 % 2) * 2 ^ 31 :=
    and_sign_bit _ 31
  unfold sext_32_64 signExt
  simp only [h1, h2]
  split_ifs <;> omega

theorem sext_12_32_eq (v : Nat) :
    sext_12_32 v = if v % 2 ^ 12 < 2 ^ 11 then v % 2 ^ 12 else v % 2 ^ 12 + (2 ^ 32 - 2 ^ 12) := by
  have h1 : v &&& 0xfff = v % 2 ^ 12 := and_mask_eq_mod v 12 0xfff (by norm_num)
  have h2 : (v % 2 ^ 12) &&& 0x800 = ((v % 2 ^ 12) / 2 ^ 11 % 2) * 2 ^ 11 := and_sign_bit _ 11
  unfold sext_12_32
  simp only [h1, h2]
  split_ifs <;> omega

theorem sext_20_32_eq (v : Nat) :
    sext_20_32 v = if v % 2 ^ 20 < 2 ^ 19 then v % 2 ^ 20 else v % 2 ^ 20 + (2 ^ 32 - 2 ^ 20) := by
  have h1 : v &&& 0xfffff = v % 2 ^ 20 := and_mask_eq_mod v 20 0xfffff (by norm_num)
  have h2 : (v % 2 ^ 20) &&& 0x80000 = ((v % 2 ^ 20) / 2 ^ 19 % 2) * 2 ^ 19 :=
    and_sign_bit _ 19
  unfold sext_20_32
  simp only [h1, h2]
  split_ifs <;> omega

theorem signExt_mod (n x : Nat) : signExt n (x % 2 ^ n) = signExt n x := by
  unfold signExt
  rw [Nat.mod_mod]

theorem signExt_64 (x : Nat) (hx : x < 2 ^ 64) : signExt 64 x = x := by
  unfold signExt
  rw [Nat.mod_eq_of_lt hx]
  split_ifs <;> omega

/-- The composition used for every 12-bit immediate: sign extension to 64 bits. -/
theorem sext_12_64 (v : Nat) : sext_32_64 (sext_12_32 v) = signExt 12 v := by
  rw [sext_32_64_eq, sext_12_32_eq]
  unfold signExt
  split_ifs <;> omega

theorem signExt_lt (n x : Nat) (h64 : n ≤ 64) : signExt n x < 2 ^ 64 := by
  have h1 : x % 2 ^ n < 2 ^ n := Nat.mod_lt _ (Nat.pow_pos (by norm_num))
  have h2 : 2 ^ n ≤ 2 ^ 64 := Nat.pow_le_pow_right (by norm_num) h64
  unfold signExt
  split_ifs <;> omega

/-- The bits 32 to 63 of a value sign-extended from 32 bits all equal its bit 31. -/
theorem signExt_32_testBit (x i : Nat) (h1 : 32 ≤ i) (h2 : i < 64) :
    (signExt 32 x).testBit i = (signExt 32 x).testBit 31 := by
  have hlt : x % 2 ^ 32 < 2 ^ 32 := Nat.mod_lt _ (by norm_num)
  unfold signExt
  split_ifs with h
  · rw [Nat.testBit_lt_two_pow (lt_of_lt_of_le hlt (Nat.pow_le_pow_right (by norm_num) h1)),
      Nat.testBit_lt_two_pow (by simpa using h)]
  · have e : x % 2 ^ 32 + (2 ^ 64 - 2 ^ 32) = 2 ^ 64 - ((2 ^ 32 - 1 - x % 2 ^ 32) + 1) := by
      omega
    rw [e, Nat.testBit_two_pow_sub_succ (by omega), Nat.testBit_two_pow_sub_succ (by omega)]
    have hz : (2 ^ 32 - 1 - x % 2 ^ 32).testBit i = false :=
      Nat.testBit_lt_two_pow (lt_of_lt_of_le (by omega : 2 ^ 32 - 1 - x % 2 ^ 32 < 2 ^ 32)
        (Nat.pow_le_pow_right (by norm_num) h1))
    have hz2 : (2 ^ 32 - 1 - x % 2 ^ 32).testBit 31 = false :=
      Nat.testBit_lt_two_pow (by omega)
    rw [hz, hz2]
    simp [h2]

end processor

namespace memory

/-! ## Reads of the memory after a write -/

theorem umFind_nil {α : Type} (k : Nat) : umFind ([] : List (Nat × α)) k = none := rfl

theorem read_doubleword_eq (m : memory) (a : Nat) :
    m.read_doubleword a =
      (umFind ((umFind m.mem ((a &&& 0xfffffffffffffff8) / block_size)).getD [])
        ((a &&& 0xfffffffffffffff8) % block_size)).getD 0 := by
  unfold read_doubleword
  simp only []
  cases h : umFind m.mem ((a &&& 0xfffffffffffffff8) / block_size) with
  | none => simp [umFind_nil]
  | some blk =>
    simp only [Option.getD_some]
    cases h2 : umFind blk ((a &&& 0xfffffffffffffff8) % block_size) <;> rfl

/-- A read of the doubleword just written returns the old value with the bits of `mask`
replaced by those of `data`. -/
theorem read_write_same (m : memory) (a data mask b : Nat)
    (h : b &&& 0xfffffffffffffff8 = a &&& 0xfffffffffffffff8) :
    (m.write_doubleword a data mask).read_doubleword b =
      (m.read_doubleword a &&& (0xffffffffffffffff ^^^ mask)) ||| (data &&& mask) := by
  rw [read_doubleword_eq (m.write_doubleword a data mask) b, h, read_doubleword_eq m a]
  unfold write_doubleword
  simp only [umFind_umAssign_same, Option.getD_some]

/-- A read of any other doubleword is not affected by the write. -/
theorem read_write_other (m : memory) (a data mask b : Nat)
    (h : b &&& 0xfffffffffffffff8 ≠ a &&& 0xfffffffffffffff8) :
    (m.write_doubleword a data mask).read_doubleword b = m.read_doubleword b := by
  rw [read_doubleword_eq (m.write_doubleword a data mask) b, read_doubleword_eq m b]
  unfold write_doubleword
  simp only []
  by_cases hb : (a &&& 0xfffffffffffffff8) / block_size = (b &&& 0xfffffffffffffff8) / block_size
  · have ho : (a &&& 0xfffffffffffffff8) % block_size ≠ (b &&& 0xfffffffffffffff8) % block_size := by
      intro ho
      apply h
      have e1 := Nat.div_add_mod (a &&& 0xfffffffffffffff8) block_size
      have e2 := Nat.div_add_mod (b &&& 0xfffffffffffffff8) block_size
      rw [hb, ho] at e1
      exact e2.symm.trans e1
    rw [← hb, umFind_umAssign_same, Option.getD_some, umFind_umAssign_other _ _ _ _ ho]
  · rw [umFind_umAssign_other _ _ _ _ hb]

theorem read_doubleword_masked (m : memory) (a : Nat) :
    m.read_doubleword (a &&& 0xfffffffffffffff8) = m.read_doubleword a := by
  rw [read_doubleword_eq, read_doubleword_eq, Nat.and_assoc, Nat.and_self]

end memory

namespace processor

/-! ## The loads -/

theorem specLoad_lb (dw a : Nat) : sext_8_64 (dw >>> (a % 8 * 8)) = specLoad ins_lb dw a := by
  unfold specLoad signedLoad accessWidth byteField
  rw [sext_8_64_eq, Nat.shiftRight_eq_div_pow, if_pos rfl]
  exact (signExt_mod 8 _).symm

theorem specLoad_lh (dw a : Nat) : sext_16_64 (dw >>> (a % 8 * 8)) = specLoad ins_lh dw a := by
  unfold specLoad signedLoad accessWidth byteField
  rw [sext_16_64_eq, Nat.shiftRight_eq_div_pow, if_pos rfl]
  exact (signExt_mod 16 _).symm

theorem specLoad_lw (dw a : Nat) : sext_32_64 (dw >>> (a % 8 * 8)) = specLoad ins_lw dw a := by
  unfold specLoad signedLoad accessWidth byteField
  rw [sext_32_64_eq, Nat.shiftRight_eq_div_pow, if_pos rfl]
  exact (signExt_mod 32 _).symm

theorem specLoad_lbu (dw a : Nat) :
    (dw >>> (a % 8 * 8)) &&& 0xff = specLoad ins_lbu dw a := by
  unfold specLoad signedLoad accessWidth byteField
  rw [and_mask_eq_mod _ 8 0xff (by norm_num), Nat.shiftRight_eq_div_pow]
  rfl

theorem specLoad_lhu (dw a : Nat) :
    (dw >>> (a % 8 * 8)) &&& 0xffff = specLoad ins_lhu dw a := by
  unfold specLoad signedLoad accessWidth byteField
  rw [and_mask_eq_mod _ 16 0xffff (by norm_num), Nat.shiftRight_eq_div_pow]
  rfl

theorem specLoad_lwu (dw a : Nat) :
    (dw >>> (a % 8 * 8)) &&& 0xffffffff = specLoad ins_lwu dw a := by
  unfold specLoad signedLoad accessWidth byteField
  rw [and_mask_eq_mod _ 32 0xffffffff (by norm_num), Nat.shiftRight_eq_div_pow]
  rfl

theorem specLoad_ld (dw a : Nat) (ha : a % 8 = 0) (hdw : dw < 2 ^ 64) :
    dw = specLoad ins_ld dw a := by
  unfold specLoad signedLoad accessWidth byteField
  rw [if_pos rfl, ha]
  simp only [Nat.zero_mul, Nat.pow_zero, Nat.div_one]
  rw [signExt_mod 64 dw, signExt_64 dw hdw]

/-- A load whose effective address meets its alignment requirement writes the value of
the specification to `rd` and does nothing else. -/
theorem executeInsT_load (p : processor) (hk : p.decoder.code ∈ loadKinds)
    (hal : effAddr p % alignOf p.decoder.code = 0)
    (hdw : p.main_memory.read_doubleword (effAddr p) < 2 ^ 64) :
    executeInsT p =
      (pcInc (set_reg p p.decoder.rd
        (specLoad p.decoder.code (p.main_memory.read_doubleword (effAddr p)) (effAddr p))),
        none) := by
  simp only [loadKinds, List.mem_cons, List.mem_singleton, List.not_mem_nil, or_false] at hk
  rcases hk with h | h | h | h | h | h | h <;> rw [h] at hal ⊢ <;> simp only [alignOf] at hal <;>
    rw [executeInsT_of_code p _ h] <;> dsimp only [execCase]
  · rw [specLoad_lb]
  · rw [if_pos hal, specLoad_lh]
  · rw [if_pos hal, specLoad_lw]
  · rw [if_pos hal, ← specLoad_ld _ _ hal hdw]
  · rw [specLoad_lbu]
  · rw [if_pos hal, specLoad_lhu]
  · rw [if_pos hal, specLoad_lwu]

theorem effAddr_eq (p : processor) :
    effAddr p = (reg p p.decoder.rs1 + signExt 12 p.decoder.imm) % 2 ^ 64 := by
  unfold effAddr
  rw [sext_12_64]

/-! ## The stores -/

/-- A store whose effective address meets its alignment requirement calls
`write_doubleword` and does nothing else. -/
theorem executeInsT_store (p : processor) (hk : p.decoder.code ∈ storeKinds)
    (hal : effAddr p % alignOf p.decoder.code = 0) :
    executeInsT p =
      (pcInc (memWrite p (effAddr p)
        (storeData p.decoder.code (reg p p.decoder.rs2) (effAddr p))
        (storeMask p.decoder.code (effAddr p))), none) := by
  simp only [storeKinds, List.mem_cons, List.mem_singleton, List.not_mem_nil, or_false] at hk
  rcases hk with h | h | h | h <;> rw [h] at hal ⊢ <;> simp only [alignOf] at hal <;>
    rw [executeInsT_of_code p _ h] <;> dsimp only [execCase, storeData, storeMask]
  · rw [if_pos hal]
  · rw [if_pos hal]
  · rw [if_pos hal]

/-- The bits of `old` with the `n` bits from bit `s` on replaced by the low bits of `v`. -/
theorem splice_testBit (old v s n i : Nat) (hi : i < 64) :
    ((old &&& ((2 ^ 64 - 1) ^^^ (((2 ^ n - 1) <<< s) % 2 ^ 64))) |||
        (((v <<< s) % 2 ^ 64) &&& (((2 ^ n - 1) <<< s) % 2 ^ 64))).testBit i
      = if s ≤ i ∧ i < s + n then v.testBit (i - s) else old.testBit i := by
  simp only [Nat.testBit_or, Nat.testBit_and, Nat.testBit_xor, Nat.testBit_mod_two_pow,
    Nat.testBit_shiftLeft, Nat.testBit_two_pow_sub_one]
  by_cases h1 : s ≤ i
  · by_cases h2 : i < s + n
    · have h3 : i - s < n := by omega
      simp [hi, h1, h2, h3]
    · have h3 : ¬ i - s < n := by omega
      simp [hi, h1, h2, h3]
  · simp [hi, h1]

theorem store_testBit (k : Ins) (hk : k ∈ storeKinds) (old v a i : Nat) (hi : i < 64)
    (hal : a % alignOf k = 0) :
    ((old &&& (0xffffffffffffffff ^^^ storeMask k a)) |||
        (storeData k v a &&& storeMask k a)).testBit i
      = if a % 8 * 8 ≤ i ∧ i < a % 8 * 8 + 8 * accessWidth k then v.testBit (i - a % 8 * 8)
        else old.testBit i := by
  have e64 : (0xffffffffffffffff : Nat) = 2 ^ 64 - 1 := by norm_num
  have e8 : (0xff : Nat) = 2 ^ 8 - 1 := by norm_num
  have e16 : (0xffff : Nat) = 2 ^ 16 - 1 := by norm_num
  have e32 : (0xffffffff : Nat) = 2 ^ 32 - 1 := by norm_num
  simp only [storeKinds, List.mem_cons, List.mem_singleton, List.not_mem_nil, or_false] at hk
  rcases hk with h | h | h | h <;> subst h <;>
    simp only [storeMask, storeData, accessWidth, alignOf] at hal ⊢
  · rw [e64, e8]
    exact splice_testBit old v _ 8 i hi
  · rw [e64, e16]
    exact splice_testBit old v _ 16 i hi
  · rw [e64, e32]
    exact splice_testBit old v _ 32 i hi
  · have hs : a % 8 * 8 = 0 := by omega
    rw [hs, e64]
    simp only [Nat.testBit_or, Nat.testBit_and, Nat.testBit_xor, Nat.testBit_two_pow_sub_one]
    simp [hi]

theorem store_lt (k : Ins) (hk : k ∈ storeKinds) (old v a : Nat) :
    (old &&& (0xffffffffffffffff ^^^ storeMask k a)) ||| (storeData k v a &&& storeMask k a)
      < 2 ^ 64 := by
  have hm : storeMask k a < 2 ^ 64 := by
    simp only [storeKinds, List.mem_cons, List.mem_singleton, List.not_mem_nil, or_false] at hk
    rcases hk with h | h | h | h <;> subst h <;> simp only [storeMask] <;>
      first
        | exact Nat.mod_lt _ (by norm_num)
        | norm_num
  apply Nat.or_lt_two_pow
  · apply lt_of_le_of_lt Nat.and_le_right
    have e64 : (0xffffffffffffffff : Nat) = 2 ^ 64 - 1 := by norm_num
    rw [e64]
    exact Nat.xor_lt_two_pow (by norm_num) hm
  · exact lt_of_le_of_lt Nat.and_le_right hm

/-- After an aligned store the byte field at the address holds the low bits of the value
stored. -/
theorem store_byteField (k : Ins) (hk : k ∈ storeKinds) (old v a : Nat)
    (hal : a % alignOf k = 0) :
    byteField ((old &&& (0xffffffffffffffff ^^^ storeMask k a)) |||
        (storeData k v a &&& storeMask k a)) a (accessWidth k) = v % 2 ^ (8 * accessWidth k) := by
  have hfit : a % 8 * 8 + 8 * accessWidth k ≤ 64 := by
    simp only [storeKinds, List.mem_cons, List.mem_singleton, List.not_mem_nil, or_false] at hk
    rcases hk with h | h | h | h <;> subst h <;> simp only [alignOf, accessWidth] at hal ⊢ <;>
      omega
  unfold byteField
  apply Nat.eq_of_testBit_eq
  intro j
  rw [Nat.testBit_mod_two_pow, Nat.testBit_mod_two_pow, ← Nat.shiftRight_eq_div_pow,
    Nat.testBit_shiftRight]
  by_cases hj : j < 8 * accessWidth k
  · rw [store_testBit k hk old v a _ (by omega) hal]
    have h1 : a % 8 * 8 ≤ a % 8 * 8 + j := by omega
    have h2 : a % 8 * 8 + j < a % 8 * 8 + 8 * accessWidth k := by omega
    rw [if_pos ⟨h1, h2⟩]
    simp [hj]
  · simp [hj]

theorem specLoad_zero (k : Ins) (hk : k ∈ storeKinds) (dw a : Nat) :
    specLoad (zeroLoadOfWidth (accessWidth k)) dw a = byteField dw a (accessWidth k) := by
  simp only [storeKinds, List.mem_cons, List.mem_singleton, List.not_mem_nil, or_false] at hk
  rcases hk with h | h | h | h <;> subst h <;>
    simp only [accessWidth, zeroLoadOfWidth, specLoad, signedLoad] <;>
    first
      | rfl
      | (rw [if_pos trivial]
         show signExt 64 (byteField dw a 8) = byteField dw a 8
         exact signExt_64 _ (by unfold byteField; exact Nat.mod_lt _ (by norm_num)))

/-! ## Signed comparison and the kinds with an immediate operand -/

theorem signedComp_eq (a b : Nat) (ha : a < 2 ^ 64) (hb : b < 2 ^ 64) :
    signedComp a b = decide (toInt64 a < toInt64 b) := by
  unfold signedComp toInt64
  simp only [Nat.shiftRight_eq_div_pow]
  split_ifs <;> simp <;> omega

theorem lui_value (imm : Nat) :
    sext_32_64 ((imm <<< 12) % 2 ^ 32) = signExt 32 (imm * 2 ^ 12) := by
  rw [sext_32_64_eq, signExt_mod, Nat.shiftLeft_eq]

/-- The kinds with an immediate operand write the value of the specification to `rd` and
do nothing else. -/
theorem executeInsT_imm (p : processor) (hk : p.decoder.code ∈ immKinds)
    (hx : reg p p.decoder.rs1 < 2 ^ 64) :
    executeInsT p =
      (pcInc (set_reg p p.decoder.rd
        (specImm p.decoder.code (reg p p.decoder.rs1) p.decoder.imm p.pc)), none) := by
  have hS : signExt 12 p.decoder.imm < 2 ^ 64 := signExt_lt 12 _ (by norm_num)
  simp only [immKinds, List.mem_cons, List.mem_singleton, List.not_mem_nil, or_false] at hk
  rcases hk with h | h | h | h | h | h | h | h <;>
    rw [executeInsT_of_code p _ h, h] <;> dsimp only [execCase, specImm] <;>
    simp only [sext_12_64, lui_value]
  · rw [signedComp_eq _ _ hx hS]
    simp only [decide_eq_true_eq]
    split_ifs <;> rfl
  · split_ifs <;> rfl

/-! ## The 64-bit shifts -/

theorem int_div_pow (x s : Nat) : (x : Int) / 2 ^ s = ((x / 2 ^ s : Nat) : Int) := by
  push_cast
  rfl

/-- The quotient of a negative 64-bit two's complement value by a power of two. -/
theorem int_sub_div_pow (x s : Nat) (hs : s ≤ 64) :
    ((x : Int) - 2 ^ 64) / 2 ^ s = ((x / 2 ^ s : Nat) : Int) - ((2 ^ (64 - s) : Nat) : Int) := by
  have hPQ : (2 : Int) ^ 64 = 2 ^ (64 - s) * 2 ^ s := by
    rw [← pow_add]
    congr 1
    omega
  have hne : (2 : Int) ^ s ≠ 0 := by positivity
  have e : (x : Int) - 2 ^ 64 = (x : Int) + (-(2 ^ (64 - s))) * 2 ^ s := by
    rw [hPQ]
    ring
  rw [e, Int.add_mul_ediv_right _ _ hne, int_div_pow]
  push_cast
  ring

theorem fill_value (s : Nat) (h1 : 1 ≤ s) (hs : s ≤ 64) :
    (0xffffffffffffffff <<< (64 - s)) % 2 ^ 64 = 2 ^ 64 - 2 ^ (64 - s) := by
  have hQ1 : 0 < 2 ^ (64 - s) := Nat.pow_pos (by norm_num)
  have hQ2 : 2 ^ (64 - s) ≤ 2 ^ 63 := Nat.pow_le_pow_right (by norm_num) (by omega)
  rw [Nat.shiftLeft_eq]
  generalize 2 ^ (64 - s) = Q at hQ1 hQ2
  omega

theorem div_pow_lt (x s w : Nat) (hx : x < 2 ^ w) (hs : s ≤ w) : x / 2 ^ s < 2 ^ (w - s) := by
  apply Nat.div_lt_of_lt_mul
  rw [← Nat.pow_add]
  have : s + (w - s) = w := by omega
  rw [this]
  exact hx

/-- The arithmetic right shift of `executeIns`: a logical shift plus a fill of the top
bits, equal to the floor of the signed quotient. -/
theorem sra_value (x s : Nat) (hx : x < 2 ^ 64) (hs : s < 64) :
    ((x >>> s) + sraFill (x >>> 63) s) % 2 ^ 64 = ofInt64 (Int.fdiv (toInt64 x) (2 ^ s)) := by
  have hd := div_pow_lt x s 64 hx (by omega)
  have hQ2 : 2 ^ (64 - s) ≤ 2 ^ 64 := Nat.pow_le_pow_right (by norm_num) (by omega)
  rw [Int.fdiv_eq_ediv _ (by positivity)]
  unfold sraFill ofInt64 toInt64
  rw [Nat.shiftRight_eq_div_pow, Nat.shiftRight_eq_div_pow]
  by_cases hneg : x < 2 ^ 63
  · have h63 : x / 2 ^ 63 = 0 := Nat.div_eq_of_lt hneg
    rw [if_pos hneg, h63, if_neg (by simp), int_div_pow]
    generalize x / 2 ^ s = d at hd
    generalize 2 ^ (64 - s) = Q at hd hQ2
    omega
  · have h63 : x / 2 ^ 63 = 1 := by omega
    rw [if_neg hneg, h63]
    by_cases h0 : s = 0
    · subst h0
      rw [if_neg (by simp)]
      simp only [pow_zero, Nat.div_one, Int.ediv_one]
      omega
    · rw [if_pos ⟨rfl, h0⟩, fill_value s (by omega) (by omega), int_sub_div_pow x s (by omega)]
      have hQ1 : 0 < 2 ^ (64 - s) := Nat.pow_pos (by norm_num)
      generalize x / 2 ^ s = d at hd
      generalize 2 ^ (64 - s) = Q at hd hQ2 hQ1
      omega

theorem shift_amount_imm (f r : Nat) (hr : r < 32) :
    ((f &&& 0x1) <<< 5) + r = ((f &&& 0x1) <<< 5) ||| r ∧ ((f &&& 0x1) <<< 5) + r < 64 := by
  constructor
  · rw [Nat.add_comm]
    exact add_shl_eq_or r (f &&& 0x1) 5 (by omega)
  · have h1 : f &&& 0x1 ≤ 1 := Nat.and_le_right
    rw [Nat.shiftLeft_eq]
    omega

theorem shift_amount_reg (y : Nat) : y &&& 0x3f < 64 := by
  have h1 : y &&& 0x3f ≤ 0x3f := Nat.and_le_right
  omega

theorem shiftAmount_lt (k : Ins) (f r y : Nat) (hr : r < 32) : shiftAmount k f r y < 64 := by
  unfold shiftAmount
  split_ifs
  · rw [← (shift_amount_imm f r hr).1]
    exact (shift_amount_imm f r hr).2
  · exact shift_amount_reg y

/-- The six 64-bit shifts write the value of the specification to `rd` and do nothing
else. -/
theorem executeInsT_shift (p : processor) (hk : p.decoder.code ∈ shiftKinds)
    (hx : reg p p.decoder.rs1 < 2 ^ 64) (hr : p.decoder.rs2 < 32) :
    executeInsT p =
      (pcInc (set_reg p p.decoder.rd
        (specShift p.decoder.code (reg p p.decoder.rs1)
          (shiftAmount p.decoder.code p.decoder.funct7 p.decoder.rs2
            (reg p p.decoder.rs2)))), none) := by
  have hi := shift_amount_imm p.decoder.funct7 p.decoder.rs2 hr
  have hy := shift_amount_reg (reg p p.decoder.rs2)
  simp only [shiftKinds, List.mem_cons, List.mem_singleton, List.not_mem_nil, or_false] at hk
  rcases hk with h | h | h | h | h | h <;>
    rw [executeInsT_of_code p _ h, h] <;> dsimp only [execCase, specShift, shiftAmount] <;>
    simp only [reduceCtorEq, true_or, or_true, or_false, false_or, if_true, if_false,
      or_self]
  · rw [← hi.1, Nat.shiftLeft_eq (reg p p.decoder.rs1)]
  · rw [← hi.1, Nat.shiftRight_eq_div_pow]
  · rw [← hi.1, sra_value _ _ hx hi.2]
  · rw [Nat.shiftLeft_eq (reg p p.decoder.rs1)]
  · rw [Nat.shiftRight_eq_div_pow]
  · rw [sra_value _ _ hx hy]

/-! ## The W-type kinds -/

theorem signExt_congr (n a b : Nat) (h : a % 2 ^ n = b % 2 ^ n) : signExt n a = signExt n b := by
  unfold signExt
  rw [h]

theorem toInt64_signExt_32 (x : Nat) : toInt64 (signExt 32 x) = toInt32 x := by
  have hlt : x % 2 ^ 32 < 2 ^ 32 := Nat.mod_lt _ (by norm_num)
  unfold toInt64 toInt32 signExt
  split_ifs <;> omega

theorem toInt32_range (x : Nat) : -(2 ^ 31) ≤ toInt32 x ∧ toInt32 x < 2 ^ 31 := by
  have hlt : x % 2 ^ 32 < 2 ^ 32 := Nat.mod_lt _ (by norm_num)
  unfold toInt32
  split_ifs <;> omega

/-- The floor quotient of a 32-bit signed value by a power of two is a 32-bit signed
value. -/
theorem fdiv_pow_range (z : Int) (s : Nat) (h1 : -(2 ^ 31) ≤ z) (h2 : z < 2 ^ 31) :
    -(2 ^ 31) ≤ Int.fdiv z (2 ^ s) ∧ Int.fdiv z (2 ^ s) < 2 ^ 31 := by
  have hP : (0 : Int) < 2 ^ s := by positivity
  rw [Int.fdiv_eq_ediv _ (le_of_lt hP)]
  by_cases hz : 0 ≤ z
  · have h3 := Int.ediv_nonneg hz (le_of_lt hP)
    have h4 := Int.ediv_le_self (2 ^ s) hz
    constructor <;> omega
  · have hz1 : z < 0 := by omega
    have h3 : z / 2 ^ s < 0 := Int.ediv_lt_of_lt_mul hP (by
      have h1P : (1 : Int) ≤ 2 ^ s := by omega
      nlinarith)
    have h4 : z ≤ z / 2 ^ s := by
      apply Int.le_ediv_of_mul_le hP
      have hz2 : z ≤ 0 := by omega
      have h1P : (1 : Int) ≤ 2 ^ s := by omega
      nlinarith
    constructor <;> omega

/-- A signed 32-bit value as a 64-bit word is the sign extension of it as a 32-bit word. -/
theorem ofInt64_eq_signExt (q : Int) (h1 : -(2 ^ 31) ≤ q) (h2 : q < 2 ^ 31) :
    ofInt64 q = signExt 32 (ofInt32 q) := by
  unfold ofInt64 ofInt32 signExt
  split_ifs <;> omega

theorem sign_bit_32 (x : Nat) :
    ((x >>> 31) &&& 0x1 = 1) ↔ (signExt 32 x >>> 63 = 1) := by
  have hlt : x % 2 ^ 32 < 2 ^ 32 := Nat.mod_lt _ (by norm_num)
  rw [Nat.shiftRight_eq_div_pow, Nat.shiftRight_eq_div_pow, Nat.and_one_is_mod]
  unfold signExt
  split_ifs <;> omega

theorem sraFill_congr (a b s : Nat) (h : a = 1 ↔ b = 1) : sraFill a s = sraFill b s := by
  unfold sraFill
  simp only [h]

/-- The arithmetic right shift of the W-type kinds: the 64-bit shift of the sign-extended
operand, equal to the sign extension of the 32-bit arithmetic shift. -/
theorem sraw_value (x s : Nat) (hs : s < 32) :
    ((sext_32_64 x >>> s) + sraFill ((x >>> 31) &&& 0x1) s) % 2 ^ 64
      = signExt 32 (ofInt32 (Int.fdiv (toInt32 x) (2 ^ s))) := by
  have hr := toInt32_range x
  have hq := fdiv_pow_range (toInt32 x) s hr.1 hr.2
  rw [sext_32_64_eq, sraFill_congr _ _ s (sign_bit_32 x),
    sra_value _ s (signExt_lt 32 x (by norm_num)) (by omega), toInt64_signExt_32,
    ofInt64_eq_signExt _ hq.1 hq.2]

theorem mod_32_eq_and (y : Nat) : y &&& 0x1f = y % 32 :=
  and_mask_eq_mod y 5 0x1f (by norm_num)

theorem shl_mod_32 (x s : Nat) :
    ((x <<< s) % 2 ^ 64) % 2 ^ 32 = ((x % 2 ^ 32) * 2 ^ s) % 2 ^ 32 := by
  rw [Nat.shiftLeft_eq, Nat.mod_mod_of_dvd _ (by norm_num : 2 ^ 32 ∣ 2 ^ 64)]
  conv_lhs => rw [Nat.mul_mod]
  conv_rhs => rw [Nat.mul_mod, Nat.mod_mod]

/-- The nine W-type kinds write the sign extension of the 32-bit result of the
specification to `rd` and do nothing else. -/
theorem executeInsT_w (p : processor) (hk : p.decoder.code ∈ wKinds)
    (hy : reg p p.decoder.rs2 < 2 ^ 64) (hr : p.decoder.rs2 < 32) :
    executeInsT p =
      (pcInc (set_reg p p.decoder.rd
        (signExt 32 (specW32 p.decoder.code (reg p p.decoder.rs1)
          (wOperand p.decoder.code p.decoder.imm p.decoder.rs2 (reg p p.decoder.rs2))))),
        none) := by
  have hr32 : p.decoder.rs2 % 32 = p.decoder.rs2 := Nat.mod_eq_of_lt hr
  have hm : reg p p.decoder.rs2 % 32 < 32 := Nat.mod_lt _ (by norm_num)
  simp only [wKinds, List.mem_cons, List.mem_singleton, List.not_mem_nil, or_false] at hk
  rcases hk with h | h | h | h | h | h | h | h | h <;>
    rw [executeInsT_of_code p _ h, h] <;> dsimp only [execCase, specW32, wOperand]
  · rw [sext_32_64_eq]
    congr 3
    apply signExt_congr
    rw [sext_12_32_eq]
    unfold signExt
    split_ifs <;> omega
  · rw [sext_32_64_eq, hr32]
    congr 3
    apply signExt_congr
    rw [shl_mod_32, Nat.mod_mod]
  · rw [sext_32_64_eq, hr32, and_mask_eq_mod _ 32 0xffffffff (by norm_num),
      Nat.shiftRight_eq_div_pow]
  · rw [hr32, sraw_value _ _ hr]
  · rw [sext_32_64_eq]
    congr 3
    apply signExt_congr
    omega
  · rw [sext_32_64_eq]
    congr 3
    apply signExt_congr
    omega
  · rw [sext_32_64_eq, mod_32_eq_and]
    congr 3
    apply signExt_congr
    rw [shl_mod_32, Nat.mod_mod]
  · rw [sext_32_64_eq, mod_32_eq_and, and_mask_eq_mod _ 32 0xffffffff (by norm_num),
      Nat.shiftRight_eq_div_pow]
  · rw [mod_32_eq_and, sraw_value _ _ hm]

/-- The 32-bit result of a W-type kind depends on the low 32 bits of its operands only. -/
theorem specW32_low (k : Ins) (x y x2 y2 : Nat)
    (hx : x2 % 2 ^ 32 = x % 2 ^ 32) (hy : y2 % 2 ^ 32 = y % 2 ^ 32) :
    specW32 k x2 y2 = specW32 k x y := by
  have hy32 : y2 % 32 = y % 32 := by omega
  have ht : toInt32 x2 = toInt32 x := by
    unfold toInt32
    rw [hx]
  unfold specW32
  split <;> simp only [hx, hy, hy32, ht]

/-! ## JAL: the decoding of its encoding, and its execution -/

theorem encodeJal_eq (rd : Nat) (o : Int) :
    encodeJal rd o =
      ((o % 2 ^ 21).toNat / 2 ^ 20 % 2) * 2 ^ 31 + ((o % 2 ^ 21).toNat / 2 % 2 ^ 10) * 2 ^ 21
        + ((o % 2 ^ 21).toNat / 2 ^ 11 % 2) * 2 ^ 20
        + ((o % 2 ^ 21).toNat / 2 ^ 12 % 2 ^ 8) * 2 ^ 12 + rd * 2 ^ 7 + 0x6F := by
  unfold encodeJal bits
  norm_num

theorem encodeJal_opcode (rd : Nat) (o : Int) : bits (encodeJal rd o) 6 0 = 0x6F := by
  rw [encodeJal_eq]
  unfold bits
  norm_num
  omega

theorem decodeIns_jal (d : Decoder) (w : Nat) (hop : bits w 6 0 = 0x6F) :
    Decoder.decodeIns d w =
      Decoder.decodeJType { Decoder.header d w with code := ins_jal, type := 'J' } := by
  have ho := Decoder.header_opcode d w
  rw [hop] at ho
  unfold Decoder.decodeIns
  simp only []
  generalize Decoder.header d w = d1 at ho ⊢
  rw [ho]

theorem header_ins (d : Decoder) (w : Nat) : (Decoder.header d w).ins = w := rfl

theorem decodeJType_code (d : Decoder) : (Decoder.decodeJType d).code = d.code := rfl

/-- The fields of a word assembled from disjoint fields, read back. -/
theorem jal_fields (a b c d rd : Nat) (ha : a < 2) (hb : b < 2 ^ 10) (hc : c < 2)
    (hd : d < 2 ^ 8) (hrd : rd < 32) :
    (a * 2 ^ 31 + b * 2 ^ 21 + c * 2 ^ 20 + d * 2 ^ 12 + rd * 2 ^ 7 + 0x6F) / 2 ^ 7 % 2 ^ 5 = rd ∧
    (a * 2 ^ 31 + b * 2 ^ 21 + c * 2 ^ 20 + d * 2 ^ 12 + rd * 2 ^ 7 + 0x6F) / 2 ^ 21 % 2 ^ 10 = b ∧
    (a * 2 ^ 31 + b * 2 ^ 21 + c * 2 ^ 20 + d * 2 ^ 12 + rd * 2 ^ 7 + 0x6F) / 2 ^ 20 % 2 ^ 1 = c ∧
    (a * 2 ^ 31 + b * 2 ^ 21 + c * 2 ^ 20 + d * 2 ^ 12 + rd * 2 ^ 7 + 0x6F) / 2 ^ 12 % 2 ^ 8 = d ∧
    (a * 2 ^ 31 + b * 2 ^ 21 + c * 2 ^ 20 + d * 2 ^ 12 + rd * 2 ^ 7 + 0x6F) / 2 ^ 31 % 2 ^ 1 = a := by
  refine ⟨?_, ?_, ?_, ?_, ?_⟩ <;> omega

theorem jal_imm_sum (u : Nat) (hu : u < 2 ^ 21) :
    ((((u / 2 % 2 ^ 10 + (u / 2 ^ 11 % 2) * 2 ^ 10 % 2 ^ 32) % 2 ^ 32
        + (u / 2 ^ 12 % 2 ^ 8) * 2 ^ 11 % 2 ^ 32) % 2 ^ 32
        + (u / 2 ^ 20 % 2) * 2 ^ 19 % 2 ^ 32) % 2 ^ 32) = u / 2 % 2 ^ 20 := by
  omega

/-- Decoding the encoding of `JAL rd, o` gives back `rd` and the bits 20:1 of the
offset. -/
theorem decodeJType_encode (d : Decoder) (rd : Nat) (o : Int) (hrd : rd < 32)
    (hw : d.ins = encodeJal rd o) :
    (Decoder.decodeJType d).rd = rd ∧
      (Decoder.decodeJType d).imm = (o % 2 ^ 21).toNat / 2 % 2 ^ 20 := by
  have hu : (o % 2 ^ 21).toNat < 2 ^ 21 := by omega
  have hf := jal_fields ((o % 2 ^ 21).toNat / 2 ^ 20 % 2) ((o % 2 ^ 21).toNat / 2 % 2 ^ 10)
    ((o % 2 ^ 21).toNat / 2 ^ 11 % 2) ((o % 2 ^ 21).toNat / 2 ^ 12 % 2 ^ 8) rd
    (Nat.mod_lt _ (by norm_num)) (Nat.mod_lt _ (by norm_num)) (Nat.mod_lt _ (by norm_num))
    (Nat.mod_lt _ (by norm_num)) hrd
  rw [← encodeJal_eq rd o, ← hw] at hf
  unfold Decoder.decodeJType
  simp only []
  rw [and_mask_eq_mod _ 5 0x1f (by norm_num), and_mask_eq_mod _ 10 0x3ff (by norm_num),
    and_mask_eq_mod _ 1 0x1 (by norm_num), and_mask_eq_mod _ 8 0xff (by norm_num),
    and_mask_eq_mod _ 1 0x1 (by norm_num)]
  simp only [Nat.shiftRight_eq_div_pow, Nat.shiftLeft_eq]
  rw [hf.1, hf.2.1, hf.2.2.1, hf.2.2.2.1, hf.2.2.2.2]
  exact ⟨rfl, jal_imm_sum _ hu⟩

/-- The offset `executeIns` adds to `pc` for JAL, from the bits 20:1 of an even offset
in range: the offset itself as a 64-bit two's complement value. -/
theorem jal_offset (o : Int) (h1 : -(2 ^ 20) ≤ o) (h2 : o < 2 ^ 20) (hev : o % 2 = 0) :
    sext_32_64 ((sext_20_32 ((o % 2 ^ 21).toNat / 2 % 2 ^ 20) <<< 1) % 2 ^ 32) = ofInt64 o := by
  rw [sext_32_64_eq, sext_20_32_eq, Nat.shiftLeft_eq]
  unfold signExt ofInt64
  split_ifs <;> omega

theorem pcEven_of_even (p : processor) (h : p.pc % 2 = 0) : pcEven p = p := by
  unfold pcEven
  rw [if_neg (by simpa using h)]

theorem executeInsT_jal (p : processor) (h : p.decoder.code = ins_jal) :
    executeInsT p =
      (pcEven (pcSet (set_reg p p.decoder.rd ((p.pc + 4) % 2 ^ 64))
        (((set_reg p p.decoder.rd ((p.pc + 4) % 2 ^ 64)).pc
          + sext_32_64 ((sext_20_32 p.decoder.imm <<< 1) % 2 ^ 32)) % 2 ^ 64)), none) := by
  rw [executeInsT_of_code p _ h]
  dsimp only [execCase]

/-- A step that passes a word to `decodeIns` started at a 4-aligned `pc`, was not stopped
at the breakpoint, and the word is the one fetched after the interrupt check. -/
theorem executeStepT_word (p : processor) (chk : Bool) (w : Nat)
    (h : (executeStepT p chk).2.word = some w) :
    p.pc % 4 = 0 ∧ (executeStepT p chk).2.halted = false ∧ fetch (atFetch p) = w := by
  by_cases ha : p.pc % 4 = 0
  · by_cases hh : (executeStepT p chk).2.halted = false
    · rw [executeStepT_run p chk ha hh] at h
      exact ⟨ha, hh, Option.some.inj h⟩
    · exfalso
      unfold executeStepT at h hh
      simp only [ha, ne_eq, not_true_eq_false, if_false] at h hh
      split_ifs at h hh
      exact hh rfl
  · rw [executeStepT_misaligned p chk ha] at h
    exact absurd h (by simp)

/-- The value of a register after the write `set_reg(rd, v)` of a jump, read through the
later assignment to `pc` and `ins_count ++`. -/
theorem reg_after_jump (p : processor) (rd v t r : Nat) (hl : rd < p.registers.length) :
    reg (countInc (pcSet (set_reg p rd v) t)) r
      = if r = rd ∧ rd ≠ 0 then v else reg p r := by
  have e : reg (countInc (pcSet (set_reg p rd v) t)) r = reg (set_reg p rd v) r :=
    reg_of_registers (by simp only [countInc_registers, pcSet_registers]) r
  rw [e]
  by_cases h : r = rd
  · subst h
    by_cases h0 : r = 0
    · subst h0
      rw [reg_set_reg_zero]
      simp
    · rw [reg_set_reg_same p r v h0 hl]
      simp [h0]
  · rw [reg_set_reg_other p rd v r (fun e => h e.symm)]
    simp [h]

/-- The decoder record with which a step runs `executeIns` on the encoding of
`JAL rd, o`. -/
theorem atExec_jal (p : processor) (rd : Nat) (o : Int) (hrd : rd < 32)
    (hw : fetch (atFetch p) = encodeJal rd o) :
    (atExec p).decoder.code = ins_jal ∧ (atExec p).decoder.rd = rd ∧
      (atExec p).decoder.imm = (o % 2 ^ 21).toNat / 2 % 2 ^ 20 := by
  have hd : (atExec p).decoder = Decoder.decodeIns (atFetch p).decoder (encodeJal rd o) := by
    unfold atExec decodeAt
    rw [hw]
  rw [hd, decodeIns_jal _ _ (encodeJal_opcode rd o)]
  exact ⟨rfl, decodeJType_encode _ rd o hrd rfl⟩

/-! ## JALR -/

theorem executeInsT_jalr (p : processor) (h : p.decoder.code = ins_jalr) :
    executeInsT p =
      (pcEven (set_reg
        (pcSet p (sext_32_64 ((reg p p.decoder.rs1 + sext_12_32 p.decoder.imm) % 2 ^ 64)))
        p.decoder.rd ((p.pc + 4) % 2 ^ 64)), none) := by
  rw [executeInsT_of_code p _ h]
  dsimp only [execCase]

theorem pcEven_pc (p : processor) : (pcEven p).pc = clearBit0 p.pc := by
  unfold pcEven clearBit0
  split_ifs with h
  · show p.pc - p.pc % 2 = p.pc / 2 * 2
    omega
  · omega

/-- The register file after the statements of JALR: the assignment to `pc` comes first and
does not touch it. -/
theorem reg_after_jalr (p : processor) (rd v t r : Nat) (hl : rd < p.registers.length) :
    reg (countInc (pcEven (set_reg (pcSet p t) rd v))) r
      = if r = rd ∧ rd ≠ 0 then v else reg p r := by
  have e : reg (countInc (pcEven (set_reg (pcSet p t) rd v))) r = reg (set_reg (pcSet p t) rd v) r :=
    reg_of_registers (by simp only [countInc_registers, pcEven_registers]) r
  have e2 : ∀ r', reg (pcSet p t) r' = reg p r' := reg_of_registers (pcSet_registers p t)
  have hl2 : rd < (pcSet p t).registers.length := by
    rw [pcSet_registers]
    exact hl
  rw [e]
  by_cases h : r = rd
  · subst h
    by_cases h0 : r = 0
    · subst h0
      rw [reg_set_reg_zero, e2]
      simp
    · rw [reg_set_reg_same (pcSet p t) r v h0 hl2]
      simp [h0]
  · rw [reg_set_reg_other (pcSet p t) rd v r (fun e => h e.symm), e2]
    simp [h]

/-- The value JALR passes to `pc` is the sign extension of the low 32 bits of the
architectural 64-bit target. -/
theorem jalr_value (x imm : Nat) :
    sext_32_64 ((x + sext_12_32 imm) % 2 ^ 64) = signExt 32 (jalrTarget x imm) := by
  rw [sext_32_64_eq, sext_12_32_eq]
  apply signExt_congr
  unfold jalrTarget signExt
  split_ifs <;> omega

theorem signExt_low (x : Nat) : signExt 32 x % 2 ^ 32 = x % 2 ^ 32 := by
  unfold signExt
  split_ifs <;> omega

theorem clearBit0_inj_low (s t : Nat) (h : s % 2 ^ 32 = t % 2 ^ 32)
    (hc : clearBit0 s = clearBit0 t) : s = t := by
  unfold clearBit0 at hc
  omega

/-! ## Sign extension from `n` to `m` bits -/

theorem signExt_eq_signExtTo (n x : Nat) : signExt n x = signExtTo n 64 x := rfl

theorem sext_12_32_to (v : Nat) : sext_12_32 v = signExtTo 12 32 v := sext_12_32_eq v

theorem sext_20_32_to (v : Nat) : sext_20_32 v = signExtTo 20 32 v := sext_20_32_eq v

theorem sext_8_64_to (v : Nat) : sext_8_64 v = signExtTo 8 64 v := sext_8_64_eq v

theorem sext_16_64_to (v : Nat) : sext_16_64 v = signExtTo 16 64 v := sext_16_64_eq v

theorem sext_32_64_to (v : Nat) : sext_32_64 v = signExtTo 32 64 v := sext_32_64_eq v

theorem signExtTo_congr (n m a b : Nat) (h : a % 2 ^ n = b % 2 ^ n) :
    signExtTo n m a = signExtTo n m b := by
  unfold signExtTo
  rw [h]

theorem signExtTo_lt (n m x : Nat) (hnm : n ≤ m) : signExtTo n m x < 2 ^ m := by
  have h1 : x % 2 ^ n < 2 ^ n := Nat.mod_lt _ (Nat.pow_pos (by norm_num))
  have h2 : 2 ^ n ≤ 2 ^ m := Nat.pow_le_pow_right (by norm_num) hnm
  unfold signExtTo
  split_ifs <;> omega

/-- The sign of the low `n` bits, read off the bit `n - 1`. -/
theorem low_bits_sign (n x : Nat) (hn : 0 < n) :
    (x % 2 ^ n < 2 ^ (n - 1)) ↔ x.testBit (n - 1) = false := by
  obtain ⟨k, rfl⟩ : ∃ k, n = k + 1 := ⟨n - 1, by omega⟩
  have hk : k + 1 - 1 = k := rfl
  rw [hk, Nat.mod_pow_succ, ← Nat.toNat_testBit x k]
  have h1 : x % 2 ^ k < 2 ^ k := Nat.mod_lt _ (Nat.pow_pos (by norm_num))
  cases x.testBit k
  · simp [h1]
  · simp

/-- The bits of a sign-extended value: the low `n` bits are those of the argument, the bits
`n` to `m - 1` are copies of its bit `n - 1`, the bits from `m` on are 0. -/
theorem signExtTo_testBit (n m x i : Nat) (hn : 0 < n) (hnm : n ≤ m) :
    (signExtTo n m x).testBit i =
      if i < n then x.testBit i else (decide (i < m) && x.testBit (n - 1)) := by
  have hs := low_bits_sign n x hn
  have hr : x % 2 ^ n < 2 ^ n := Nat.mod_lt _ (Nat.pow_pos (by norm_num))
  unfold signExtTo
  split_ifs with h1 h2 h2
  · rw [Nat.testBit_mod_two_pow]
    simp [h2]
  · rw [Nat.testBit_mod_two_pow, hs.1 h1]
    simp [h2]
  · have e : x % 2 ^ n + (2 ^ m - 2 ^ n) = 2 ^ n * (2 ^ (m - n) - 1) + x % 2 ^ n := by
      have : 2 ^ m = 2 ^ n * 2 ^ (m - n) := by
        rw [← Nat.pow_add]
        congr 1
        omega
      rw [Nat.mul_sub, Nat.mul_one, ← this]
      omega
    rw [e, Nat.testBit_mul_pow_two_add _ hr, if_pos h2, Nat.testBit_mod_two_pow]
    simp [h2]
  · have e : x % 2 ^ n + (2 ^ m - 2 ^ n) = 2 ^ n * (2 ^ (m - n) - 1) + x % 2 ^ n := by
      have : 2 ^ m = 2 ^ n * 2 ^ (m - n) := by
        rw [← Nat.pow_add]
        congr 1
        omega
      rw [Nat.mul_sub, Nat.mul_one, ← this]
      omega
    have ht : x.testBit (n - 1) = true := by
      cases hb : x.testBit (n - 1)
      · exact absurd (hs.2 hb) h1
      · rfl
    rw [e, Nat.testBit_mul_pow_two_add _ hr, if_neg h2, Nat.testBit_two_pow_sub_one, ht]
    have : (i - n < m - n) ↔ i < m := by omega
    simp [this]

/-- A word of `m` bits whose bits `n - 1` to `m - 1` are all equal is the sign extension of
its low `n` bits. -/
theorem signExtTo_round_trip (n m v : Nat) (hn : 0 < n) (hnm : n ≤ m) (hv : v < 2 ^ m)
    (hb : ∀ i, n - 1 ≤ i → i < m → v.testBit i = v.testBit (n - 1)) :
    signExtTo n m (v % 2 ^ n) = v := by
  apply Nat.eq_of_testBit_eq
  intro i
  rw [signExtTo_testBit n m _ i hn hnm, Nat.testBit_mod_two_pow, Nat.testBit_mod_two_pow]
  by_cases h1 : i < n
  · simp [h1]
  · by_cases h2 : i < m
    · rw [if_neg h1, hb i (by omega) h2]
      have : n - 1 < n := by omega
      simp [h2, this]
    · rw [if_neg h1]
      have : v.testBit i = false :=
        Nat.testBit_lt_two_pow (lt_of_lt_of_le hv (Nat.pow_le_pow_right (by norm_num) (by omega)))
      simp [h2, this]

/-- Conversely the bits `n - 1` to `m - 1` of a sign extension are all equal. -/
theorem signExtTo_high_bits (n m x i : Nat) (hn : 0 < n) (hnm : n ≤ m) (h1 : n - 1 ≤ i)
    (h2 : i < m) : (signExtTo n m x).testBit i = (signExtTo n m x).testBit (n - 1) := by
  rw [signExtTo_testBit n m x i hn hnm, signExtTo_testBit n m x (n - 1) hn hnm]
  have h3 : n - 1 < n := by omega
  rw [if_pos h3]
  by_cases h4 : i < n
  · have : i = n - 1 := by omega
    rw [if_pos h4, this]
  · rw [if_neg h4]
    simp [h2]

/-- The sign extension is the `m`-bit word of the integer the low `n` bits stand for. -/
theorem signExtTo_eq_ofIntN (n m x : Nat) (hnm : n ≤ m) :
    signExtTo n m x = ofIntN m (toIntN n x) := by
  have hr : x % 2 ^ n < 2 ^ n := Nat.mod_lt _ (Nat.pow_pos (by norm_num))
  have h2 : 2 ^ n ≤ 2 ^ m := Nat.pow_le_pow_right (by norm_num) hnm
  unfold signExtTo ofIntN toIntN
  have hc : ((2 : Int) ^ m) = ((2 ^ m : Nat) : Int) := by norm_cast
  have hc2 : ((2 : Int) ^ n) = ((2 ^ n : Nat) : Int) := by norm_cast
  rw [hc, hc2]
  generalize x % 2 ^ n = r at hr ⊢
  generalize 2 ^ n = A at hr h2 ⊢
  generalize 2 ^ m = B at h2 ⊢
  split_ifs with h
  · rw [Int.emod_eq_of_lt (by omega) (by omega)]
    omega
  · have e : ((r : Int) - (A : Int)) % (B : Int) = (r : Int) - A + B := by
      rw [← Int.add_emod_self]
      exact Int.emod_eq_of_lt (by omega) (by omega)
    rw [e]
    omega

theorem toIntN_signExtTo (n m x : Nat) (hn : 0 < n) (hnm : n ≤ m) :
    toIntN m (signExtTo n m x) = toIntN n x := by
  have hr : x % 2 ^ n < 2 ^ n := Nat.mod_lt _ (Nat.pow_pos (by norm_num))
  have h2 : 2 ^ n ≤ 2 ^ m := Nat.pow_le_pow_right (by norm_num) hnm
  have h3 : 2 ^ (n - 1) * 2 = 2 ^ n := by
    rw [← Nat.pow_succ]
    congr 1
    omega
  have h4 : 2 ^ (m - 1) * 2 = 2 ^ m := by
    rw [← Nat.pow_succ]
    congr 1
    omega
  have hlt := signExtTo_lt n m x hnm
  unfold toIntN
  rw [Nat.mod_eq_of_lt hlt]
  unfold signExtTo at hlt ⊢
  have hc : ((2 : Int) ^ m) = ((2 ^ m : Nat) : Int) := by norm_cast
  have hc2 : ((2 : Int) ^ n) = ((2 ^ n : Nat) : Int) := by norm_cast
  rw [hc, hc2]
  generalize x % 2 ^ n = r at hr hlt ⊢
  generalize 2 ^ n = A at hr h2 h3 hlt ⊢
  generalize 2 ^ m = B at h2 h4 hlt ⊢
  generalize 2 ^ (n - 1) = C at h3 ⊢
  generalize 2 ^ (m - 1) = D at h4 ⊢
  split_ifs <;> omega

/-! ## The five helpers -/

/-- Each helper of the table is the sign extension from its `N` to its `M` bits. -/
theorem sextHelpers_spec (N M : Nat) (h : Nat → Nat) (hm : (N, M, h) ∈ sextHelpers) :
    0 < N ∧ N ≤ M ∧ ∀ v, h v = signExtTo N M v := by
  simp only [sextHelpers, List.mem_cons, Prod.mk.injEq, List.mem_singleton, List.mem_nil_iff,
    or_false] at hm
  rcases hm with ⟨rfl, rfl, rfl⟩ | ⟨rfl, rfl, rfl⟩ | ⟨rfl, rfl, rfl⟩ | ⟨rfl, rfl, rfl⟩ |
    ⟨rfl, rfl, rfl⟩
  · exact ⟨by norm_num, by norm_num, sext_12_32_to⟩
  · exact ⟨by norm_num, by norm_num, sext_20_32_to⟩
  · exact ⟨by norm_num, by norm_num, sext_8_64_to⟩
  · exact ⟨by norm_num, by norm_num, sext_16_64_to⟩
  · exact ⟨by norm_num, by norm_num, sext_32_64_to⟩

/-! ## Conditional branches: the decoding of their encoding, and their execution -/

theorem encodeBranch_eq (f rs1 rs2 : Nat) (o : Int) :
    encodeBranch f rs1 rs2 o =
      ((o % 2 ^ 13).toNat / 2 ^ 12 % 2) * 2 ^ 31 + ((o % 2 ^ 13).toNat / 2 ^ 5 % 2 ^ 6) * 2 ^ 25
        + rs2 * 2 ^ 20 + rs1 * 2 ^ 15 + f * 2 ^ 12
        + ((o % 2 ^ 13).toNat / 2 % 2 ^ 4) * 2 ^ 8
        + ((o % 2 ^ 13).toNat / 2 ^ 11 % 2) * 2 ^ 7 + 0x63 := by
  unfold encodeBranch bits
  norm_num

/-- The fields of a B-type word assembled from disjoint fields, read back. -/
theorem branch_fields (a b c d f rs1 rs2 : Nat) (ha : a < 2) (hb : b < 2 ^ 6) (hc : c < 2 ^ 4)
    (hd : d < 2) (hf : f < 8) (hrs1 : rs1 < 32) (hrs2 : rs2 < 32) :
    (a * 2 ^ 31 + b * 2 ^ 25 + rs2 * 2 ^ 20 + rs1 * 2 ^ 15 + f * 2 ^ 12 + c * 2 ^ 8 + d * 2 ^ 7
        + 0x63) % 2 ^ 7 = 0x63 ∧
    (a * 2 ^ 31 + b * 2 ^ 25 + rs2 * 2 ^ 20 + rs1 * 2 ^ 15 + f * 2 ^ 12 + c * 2 ^ 8 + d * 2 ^ 7
        + 0x63) / 2 ^ 12 % 2 ^ 3 = f ∧
    (a * 2 ^ 31 + b * 2 ^ 25 + rs2 * 2 ^ 20 + rs1 * 2 ^ 15 + f * 2 ^ 12 + c * 2 ^ 8 + d * 2 ^ 7
        + 0x63) / 2 ^ 15 % 2 ^ 5 = rs1 ∧
    (a * 2 ^ 31 + b * 2 ^ 25 + rs2 * 2 ^ 20 + rs1 * 2 ^ 15 + f * 2 ^ 12 + c * 2 ^ 8 + d * 2 ^ 7
        + 0x63) / 2 ^ 20 % 2 ^ 5 = rs2 ∧
    (a * 2 ^ 31 + b * 2 ^ 25 + rs2 * 2 ^ 20 + rs1 * 2 ^ 15 + f * 2 ^ 12 + c * 2 ^ 8 + d * 2 ^ 7
        + 0x63) / 2 ^ 8 % 2 ^ 4 = c ∧
    (a * 2 ^ 31 + b * 2 ^ 25 + rs2 * 2 ^ 20 + rs1 * 2 ^ 15 + f * 2 ^ 12 + c * 2 ^ 8 + d * 2 ^ 7
        + 0x63) / 2 ^ 25 % 2 ^ 6 = b ∧
    (a * 2 ^ 31 + b * 2 ^ 25 + rs2 * 2 ^ 20 + rs1 * 2 ^ 15 + f * 2 ^ 12 + c * 2 ^ 8 + d * 2 ^ 7
        + 0x63) / 2 ^ 7 % 2 ^ 1 = d ∧
    (a * 2 ^ 31 + b * 2 ^ 25 + rs2 * 2 ^ 20 + rs1 * 2 ^ 15 + f * 2 ^ 12 + c * 2 ^ 8 + d * 2 ^ 7
        + 0x63) / 2 ^ 31 % 2 ^ 1 = a := by
  refine ⟨?_, ?_, ?_, ?_, ?_, ?_, ?_, ?_⟩ <;> omega

theorem branch_imm_sum (u : Nat) (hu : u < 2 ^ 13) :
    ((((u / 2 % 2 ^ 4 + (u / 2 ^ 5 % 2 ^ 6) * 2 ^ 4 % 2 ^ 32) % 2 ^ 32
        + (u / 2 ^ 11 % 2) * 2 ^ 10 % 2 ^ 32) % 2 ^ 32
        + (u / 2 ^ 12 % 2) * 2 ^ 11 % 2 ^ 32) % 2 ^ 32) = u / 2 % 2 ^ 12 := by
  omega

theorem branchFunct3_lt (k : Ins) : branchFunct3 k < 8 := by
  cases k <;> simp [branchFunct3]

theorem encodeBranch_fields (f rs1 rs2 : Nat) (o : Int) (hf : f < 8) (hrs1 : rs1 < 32)
    (hrs2 : rs2 < 32) :
    bits (encodeBranch f rs1 rs2 o) 6 0 = 0x63 ∧ bits (encodeBranch f rs1 rs2 o) 14 12 = f := by
  have hx := branch_fields ((o % 2 ^ 13).toNat / 2 ^ 12 % 2) ((o % 2 ^ 13).toNat / 2 ^ 5 % 2 ^ 6)
    ((o % 2 ^ 13).toNat / 2 % 2 ^ 4) ((o % 2 ^ 13).toNat / 2 ^ 11 % 2) f rs1 rs2
    (Nat.mod_lt _ (by norm_num)) (Nat.mod_lt _ (by norm_num)) (Nat.mod_lt _ (by norm_num))
    (Nat.mod_lt _ (by norm_num)) hf hrs1 hrs2
  rw [← encodeBranch_eq f rs1 rs2 o] at hx
  unfold bits
  constructor
  · simpa using hx.1
  · simpa using hx.2.1

theorem decodeBType_code (d : Decoder) : (Decoder.decodeBType d).code = d.code := rfl

theorem decodeIns_branch (d : Decoder) (w : Nat) (k : Ins) (hk : k ∈ branchKinds)
    (hop : bits w 6 0 = 0x63) (hf : bits w 14 12 = branchFunct3 k) :
    Decoder.decodeIns d w =
      Decoder.decodeBType { Decoder.header d w with code := k, type := 'B' } := by
  have ho := Decoder.header_opcode d w
  have hf3 := Decoder.header_funct3 d w
  rw [hop] at ho
  rw [hf] at hf3
  unfold Decoder.decodeIns
  simp only []
  generalize Decoder.header d w = d1 at ho hf3 ⊢
  obtain ⟨i0, op, rd0, r1, r2, f3, f7, im, c0, t0⟩ := d1
  simp only [] at ho hf3
  subst ho hf3
  simp only [branchKinds, List.mem_cons, List.mem_singleton, List.mem_nil_iff, or_false] at hk
  rcases hk with rfl | rfl | rfl | rfl | rfl | rfl <;> rfl

/-- Decoding the encoding of a branch gives back `rs1`, `rs2` and the bits 12:1 of the
offset. -/
theorem decodeBType_encode (d : Decoder) (f rs1 rs2 : Nat) (o : Int) (hf : f < 8)
    (hrs1 : rs1 < 32) (hrs2 : rs2 < 32) (hw : d.ins = encodeBranch f rs1 rs2 o) :
    (Decoder.decodeBType d).rs1 = rs1 ∧ (Decoder.decodeBType d).rs2 = rs2 ∧
      (Decoder.decodeBType d).imm = (o % 2 ^ 13).toNat / 2 % 2 ^ 12 := by
  have hu : (o % 2 ^ 13).toNat < 2 ^ 13 := by omega
  have hx := branch_fields ((o % 2 ^ 13).toNat / 2 ^ 12 % 2) ((o % 2 ^ 13).toNat / 2 ^ 5 % 2 ^ 6)
    ((o % 2 ^ 13).toNat / 2 % 2 ^ 4) ((o % 2 ^ 13).toNat / 2 ^ 11 % 2) f rs1 rs2
    (Nat.mod_lt _ (by norm_num)) (Nat.mod_lt _ (by norm_num)) (Nat.mod_lt _ (by norm_num))
    (Nat.mod_lt _ (by norm_num)) hf hrs1 hrs2
  rw [← encodeBranch_eq f rs1 rs2 o, ← hw] at hx
  unfold Decoder.decodeBType
  simp only []
  rw [and_mask_eq_mod _ 5 0x1f (by norm_num), and_mask_eq_mod _ 5 0x1f (by norm_num),
    and_mask_eq_mod _ 4 0xf (by norm_num), and_mask_eq_mod _ 6 0x3f (by norm_num),
    and_mask_eq_mod _ 1 0x1 (by norm_num), and_mask_eq_mod _ 1 0x1 (by norm_num)]
  simp only [Nat.shiftRight_eq_div_pow, Nat.shiftLeft_eq]
  rw [hx.2.2.1, hx.2.2.2.1, hx.2.2.2.2.1, hx.2.2.2.2.2.1, hx.2.2.2.2.2.2.1, hx.2.2.2.2.2.2.2]
  exact ⟨rfl, rfl, branch_imm_sum _ hu⟩

/-- The offset a taken branch adds to `pc`, from the bits 12:1 of an even offset in range:
the offset itself as a 64-bit two's complement value. -/
theorem branch_offset (o : Int) (h1 : -(2 ^ 12) ≤ o) (h2 : o < 2 ^ 12) (hev : o % 2 = 0) :
    sext_32_64 ((sext_12_32 ((o % 2 ^ 13).toNat / 2 % 2 ^ 12) <<< 1) % 2 ^ 32) = ofInt64 o := by
  rw [sext_32_64_eq, sext_12_32_eq, Nat.shiftLeft_eq]
  unfold signExt ofInt64
  split_ifs <;> omega

/-- The six branch cases of `executeIns`: the jump when the condition of the specification
holds, else the final `pc += 4`. -/
theorem executeInsT_branch (p : processor) (hk : p.decoder.code ∈ branchKinds)
    (ha : reg p p.decoder.rs1 < 2 ^ 64) (hb : reg p p.decoder.rs2 < 2 ^ 64) :
    executeInsT p =
      (if branchCond p.decoder.code (reg p p.decoder.rs1) (reg p p.decoder.rs2) = true then
        branchJump p else pcInc p, none) := by
  have hs := signedComp_eq _ _ ha hb
  simp only [branchKinds, List.mem_cons, List.mem_singleton, List.mem_nil_iff, or_false] at hk
  rcases hk with h | h | h | h | h | h
  all_goals
    rw [executeInsT_of_code p _ h, h]
    dsimp only [execCase, branchCond]
    (try rw [hs])
    split_ifs <;>
      first
        | rfl
        | (exfalso; simp only [decide_eq_true_eq, ge_iff_le, not_lt, not_le, ne_eq] at *; omega)

theorem branchJump_pc (p : processor) :
    (branchJump p).pc =
      (p.pc + sext_32_64 ((sext_12_32 p.decoder.imm <<< 1) % 2 ^ 32)) % 2 ^ 64 := by
  unfold branchJump
  rfl

/-- The decoder record with which a step runs `executeIns` on the encoding of a branch. -/
theorem atExec_branch (p : processor) (k : Ins) (rs1 rs2 : Nat) (o : Int)
    (hk : k ∈ branchKinds) (hrs1 : rs1 < 32) (hrs2 : rs2 < 32)
    (hw : fetch (atFetch p) = encodeBranch (branchFunct3 k) rs1 rs2 o) :
    (atExec p).decoder.code = k ∧ (atExec p).decoder.rs1 = rs1 ∧
      (atExec p).decoder.rs2 = rs2 ∧
      (atExec p).decoder.imm = (o % 2 ^ 13).toNat / 2 % 2 ^ 12 := by
  have hd : (atExec p).decoder =
      Decoder.decodeIns (atFetch p).decoder (encodeBranch (branchFunct3 k) rs1 rs2 o) := by
    unfold atExec decodeAt
    rw [hw]
  have hx := encodeBranch_fields (branchFunct3 k) rs1 rs2 o (branchFunct3_lt k) hrs1 hrs2
  rw [hd, decodeIns_branch _ _ k hk hx.1 hx.2]
  exact ⟨rfl, decodeBType_encode _ _ rs1 rs2 o (branchFunct3_lt k) hrs1 hrs2 rfl⟩

/-! ## The breakpoint -/

theorem reachable_breakpoint_mod {p : processor} (h : Reachable p) : p.breakpoint % 4 = 0 := by
  induction h with
  | init m => rfl
  | set_pc v _ ih => exact ih
  | set_reg r v _ ih => rw [set_reg_breakpoint]; exact ih
  | set_csr n v _ ih => rw [set_csr_breakpoint]; exact ih
  | set_prv v _ ih => exact ih
  | set_breakpoint a _ ih =>
    show (a - a % 4) % 4 = 0
    omega
  | clear_breakpoint _ ih => rfl
  | execute num chk _ ih =>
    rw [(breakpoint_of_upd (execute_upd _ num chk)).1]
    exact ih
  | load m _ ih => exact ih

/-- The interrupt check reads the CSR file and the privilege level only. -/
theorem checkInterruptT_congr (p q : processor) (hc : q.csrs = p.csrs) (hv : q.prv = p.prv) :
    (checkInterruptT q).2 = (checkInterruptT p).2 := by
  have e1 : ∀ k, csrAt q k = csrAt p k := fun k => csrAt_congr p q k (by rw [hc])
  unfold checkInterruptT pending
  simp only [e1, hv]
  split_ifs <;> rfl

/-- A step at a 4-aligned `pc` equal to the enabled breakpoint, with the check requested
and no interrupt delivered, leaves the loop without any change. -/
theorem executeStepT_at_breakpoint (p : processor) (ha : p.pc % 4 = 0)
    (hen : p.bp_enabled = true) (hpc : p.pc = p.breakpoint)
    (hirq : (checkInterruptT p).2 = none) :
    executeStepT p true = (p, { halted := true, irq := none, trap := none, word := none }) := by
  have hq := checkInterruptT_none p hirq
  unfold executeStepT
  simp only [ha, ne_eq, not_true_eq_false, if_false]
  rw [hq, hirq, if_pos ⟨trivial, hpc, hen⟩]

/-- A step that is not stopped at the breakpoint and starts at a 4-aligned `pc` with no
interrupt delivered decodes the word at `pc`, executes it and counts it. -/
theorem executeStepT_normal (p : processor) (chk : Bool) (ha : p.pc % 4 = 0)
    (hirq : (checkInterruptT p).2 = none)
    (hb : ¬ (chk = true ∧ p.pc = p.breakpoint ∧ p.bp_enabled = true)) :
    executeStepT p chk =
      (countInc (executeIns (decodeAt p)),
        { halted := false, irq := none, trap := (executeInsT (decodeAt p)).2,
          word := some (fetch p) }) := by
  have hq := checkInterruptT_none p hirq
  unfold executeStepT
  simp only [ha, ne_eq, not_true_eq_false, if_false]
  rw [hq, hirq, if_neg hb]
  rfl

/-! ## The fetch -/

/-- The instruction word fetched: the low half of the doubleword at `pc & ~7` when
`pc mod 8 = 0`, its high half otherwise. -/
theorem fetch_eq (p : processor) :
    fetch p =
      if p.pc % 8 = 0 then
        p.main_memory.read_doubleword (p.pc &&& 0xfffffffffffffff8) % 2 ^ 32
      else p.main_memory.read_doubleword (p.pc &&& 0xfffffffffffffff8) / 2 ^ 32 % 2 ^ 32 := by
  unfold fetch
  simp only []
  rw [memory.read_doubleword_masked, and_mask_eq_mod _ 32 0xffffffff (by norm_num),
    and_mask_eq_mod _ 32 0xffffffff (by norm_num), Nat.shiftRight_eq_div_pow]
  split_ifs <;> first | rfl | omega

/-- The two words of a doubleword-aligned pair lie in the same doubleword. -/
theorem and_not_7_add_4 (a : Nat) (h : a % 8 = 0) :
    (a + 4) &&& 0xfffffffffffffff8 = a &&& 0xfffffffffffffff8 := by
  have hm : (0xfffffffffffffff8 : Nat) = 2 ^ 64 - (7 + 1) := by norm_num
  have e1 : a + 4 = 2 ^ 3 * (a / 8) + 4 := by omega
  have e2 : a = 2 ^ 3 * (a / 8) + 0 := by omega
  apply Nat.eq_of_testBit_eq
  intro i
  rw [Nat.testBit_and, Nat.testBit_and, hm, Nat.testBit_two_pow_sub_succ (by norm_num)]
  by_cases hi : i < 3
  · have h7 : Nat.testBit 7 i = true := by
      interval_cases i <;> decide
    simp [h7]
  · conv_lhs => rw [e1, Nat.testBit_mul_pow_two_add _ (by norm_num : 4 < 2 ^ 3), if_neg hi]
    conv_rhs => rw [e2, Nat.testBit_mul_pow_two_add _ (by norm_num : 0 < 2 ^ 3), if_neg hi]

/-- The doubleword read back after a write of a whole doubleword. -/
theorem read_after_full_write (m : memory) (a d b : Nat) (hd : d < 2 ^ 64)
    (h : b &&& 0xfffffffffffffff8 = a &&& 0xfffffffffffffff8) :
    (m.write_doubleword a d 0xffffffffffffffff).read_doubleword b = d := by
  rw [memory.read_write_same m a d _ b h]
  have h1 : (0xffffffffffffffff ^^^ 0xffffffffffffffff : Nat) = 0 := Nat.xor_self _
  rw [h1, Nat.and_zero, Nat.zero_or, and_mask_eq_mod d 64 0xffffffffffffffff (by norm_num),
    Nat.mod_eq_of_lt hd]

/-! ## Steps that halt at the breakpoint -/

theorem interrupt_prv_ne_zero (p : processor) (c : Nat) : (interrupt p c).prv ≠ 0 := by
  unfold interrupt
  simp only []
  rw [csrUpd_prv]
  split_ifs <;>
    simp only [csrUpd_prv, set_prv_prv, pcSet_prv, set_csr_prv] at * <;> omega

theorem interrupt_mie (p : processor) (c : Nat) :
    (csrAt (interrupt p c) 0x300 >>> 3) &&& 0x1 = 0 := by
  unfold interrupt
  simp only []
  rw [csrAt_csrUpd_same, shr_and_one, testBit_and_not_mie]
  simp

/-- After the interrupt check no interrupt is deliverable. -/
theorem checkInterruptT_atFetch (p : processor) : checkInterruptT (atFetch p) = (atFetch p, none) := by
  unfold atFetch
  rcases checkInterruptT_cases p with ⟨h1, h2⟩ | ⟨c, -, h2⟩
  · rw [h2]
    exact Prod.ext h2 h1
  · rw [h2]
    unfold checkInterruptT
    rw [if_neg]
    rw [interrupt_mie]
    intro h
    rcases h with h | h
    · exact absurd h (by decide)
    · exact interrupt_prv_ne_zero p c h

/-- What a step that halts at the breakpoint leaves. -/
theorem executeStepT_halted (p : processor) (chk : Bool)
    (h : (executeStepT p chk).2.halted = true) :
    p.pc % 4 = 0 ∧ (executeStepT p chk).1 = atFetch p ∧
      (chk = true ∧ (atFetch p).pc = (atFetch p).breakpoint ∧ (atFetch p).bp_enabled = true) := by
  unfold executeStepT at h ⊢
  unfold atFetch
  by_cases ha : p.pc % 4 = 0
  · simp only [ha, ne_eq, not_true_eq_false, if_false] at h ⊢
    split_ifs at h ⊢ with hb
    exact ⟨trivial, rfl, hb⟩
  · simp only [ha, ne_eq, not_false_eq_true, if_true] at h
    exact absurd h (by simp)

/-- A step that halted at the breakpoint halts again without change when re-run. -/
theorem executeStepT_rehalt (p : processor) (chk : Bool)
    (h : (executeStepT p chk).2.halted = true) :
    executeStepT (executeStep p chk) chk =
      (executeStep p chk, { halted := true, irq := none, trap := none, word := none }) := by
  obtain ⟨ha, hq, hc, hpc, hen⟩ := executeStepT_halted p chk h
  unfold executeStep
  rw [hq, hc]
  exact executeStepT_at_breakpoint (atFetch p) (atFetch_pc_mod p ha) hen hpc
    (congrArg Prod.snd (checkInterruptT_atFetch p))

theorem execute_of_halting (q : processor) (chk : Bool) (i : StepInfo)
    (h : executeStepT q chk = (q, i)) (hi : i.halted = true) (b : Nat) :
    execute q b chk = q := by
  cases b with
  | zero => rfl
  | succ n =>
    unfold execute
    simp only []
    rw [h, if_pos hi]

theorem execute_add (p : processor) (a b : Nat) (chk : Bool) :
    execute p (a + b) chk = execute (execute p a chk) b chk := by
  induction a generalizing p with
  | zero =>
    rw [Nat.zero_add]
    rfl
  | succ n ih =>
    have e : n + 1 + b = (n + b) + 1 := by omega
    rw [e]
    by_cases hh : (executeStepT p chk).2.halted = true
    · have h1 : execute p (n + b + 1) chk = executeStep p chk := by
        unfold execute executeStep
        simp only []
        rw [if_pos hh]
      have h2 : execute p (n + 1) chk = executeStep p chk := by
        unfold execute executeStep
        simp only []
        rw [if_pos hh]
      rw [h1, h2, execute_of_halting _ chk _ (executeStepT_rehalt p chk hh) rfl b]
    · have h1 : execute p (n + b + 1) chk = execute (executeStep p chk) (n + b) chk := by
        conv_lhs => unfold execute
        simp only []
        rw [if_neg hh]
        rfl
      have h2 : execute p (n + 1) chk = execute (executeStep p chk) n chk := by
        conv_lhs => unfold execute
        simp only []
        rw [if_neg hh]
        rfl
      rw [h1, h2, ih]

/-! ## The constraints on the stored CSR values are kept -/

theorem and_or_distrib_right (x y z : Nat) : (x ||| y) &&& z = (x &&& z) ||| (y &&& z) := by
  rw [Nat.and_comm, Nat.and_or_distrib_left, Nat.and_comm z x, Nat.and_comm z y]

theorem and_and_literal (v m n r : Nat) (h : m &&& n = r) : (v &&& m) &&& n = v &&& r := by
  rw [Nat.and_assoc, h]

/-- A 64-bit value with no bit in the complement of a mask is left alone by the mask. -/
theorem mask_fix (v m n : Nat) (hm : m ||| n = 2 ^ 64 - 1) (hv : v < 2 ^ 64)
    (h0 : v &&& n = 0) : v &&& m = v := by
  have h1 : v &&& (2 ^ 64 - 1) = v := by
    rw [Nat.and_pow_two_sub_one_eq_mod, Nat.mod_eq_of_lt hv]
  rw [← hm, Nat.and_or_distrib_left, h0, Nat.or_zero] at h1
  exact h1

theorem csrValueOK_mstatus (v : Nat) :
    csrValueOK 0x300 v ↔ (v &&& 0xffffffffffffe777 = 0x200000000 ∧ v < 2 ^ 64) := by
  unfold csrValueOK
  simp

theorem csrValueOK_misa (v : Nat) : csrValueOK 0x301 v ↔ v = 0x8000000000100100 := by
  unfold csrValueOK
  simp

theorem csrValueOK_mie (v : Nat) :
    csrValueOK 0x304 v ↔ (v &&& 0xfffffffffffff666 = 0 ∧ v < 2 ^ 64) := by
  unfold csrValueOK
  simp

theorem csrValueOK_mip (v : Nat) :
    csrValueOK 0x344 v ↔ (v &&& 0xfffffffffffff666 = 0 ∧ v < 2 ^ 64) := by
  unfold csrValueOK
  simp

theorem csrValueOK_mepc (v : Nat) : csrValueOK 0x341 v ↔ (v % 4 = 0 ∧ v < 2 ^ 64) := by
  unfold csrValueOK
  simp

theorem csrValueOK_mcause (v : Nat) :
    csrValueOK 0x342 v ↔ (v &&& 0x7ffffffffffffff0 = 0 ∧ v < 2 ^ 64) := by
  unfold csrValueOK
  simp

theorem csrValueOK_mtvec (v : Nat) :
    csrValueOK 0x305 v ↔
      (v &&& 0x2 = 0 ∧ (v &&& 0x1 = 1 → v &&& 0xfe = 0) ∧ v < 2 ^ 64) := by
  unfold csrValueOK
  simp

theorem csrValueOK_other (k v : Nat) (h0 : k ≠ 0x300) (h1 : k ≠ 0x301) (h2 : k ≠ 0x304)
    (h3 : k ≠ 0x344) (h4 : k ≠ 0x341) (h5 : k ≠ 0x342) (h6 : k ≠ 0x305) :
    csrValueOK k v := by
  unfold csrValueOK
  rw [if_neg h0, if_neg h1, if_neg h2, if_neg h3, if_neg h4, if_neg h5, if_neg h6]
  trivial

theorem csrMasked_mstatus (v : Nat) :
    csrMasked 0x300 v = (v &&& 0x1888) ||| 0x200000000 := by
  unfold csrMasked
  simp

theorem csrMasked_misa (v : Nat) : csrMasked 0x301 v = 0x8000000000100100 := by
  unfold csrMasked
  simp

theorem csrMasked_mie (v : Nat) : csrMasked 0x304 v = v &&& 0x999 := by
  unfold csrMasked
  simp

theorem csrMasked_mip (v : Nat) : csrMasked 0x344 v = v &&& 0x999 := by
  unfold csrMasked
  simp

theorem csrMasked_mtvec (v : Nat) :
    csrMasked 0x305 v =
      if v &&& 0x1 = 0 then v &&& 0xfffffffffffffffc else v &&& 0xffffffffffffff01 := by
  unfold csrMasked
  simp

theorem csrMasked_other (k v : Nat) (h0 : k ≠ 0x300) (h1 : k ≠ 0x301) (h2 : k ≠ 0x304)
    (h3 : k ≠ 0x344) (h4 : k ≠ 0x341) (h5 : k ≠ 0x342) (h6 : k ≠ 0x305) :
    csrMasked k v = v := by
  unfold csrMasked
  rw [if_neg h0, if_neg h1, if_neg h2, if_neg h6]
  split_ifs <;> rfl

/-- The value `set_csr` stores meets the constraint of its CSR. -/
theorem csrValueOK_masked (k v : Nat) : csrValueOK k (csrMasked k v) := by
  by_cases h0 : k = 0x300
  · subst h0
    rw [csrValueOK_mstatus, csrMasked_mstatus, and_or_distrib_right,
      and_and_literal v 0x1888 0xffffffffffffe777 0 (by decide), Nat.and_zero, Nat.zero_or]
    exact ⟨by decide, Nat.or_lt_two_pow (and_mask_lt_word v _ (by norm_num)) (by norm_num)⟩
  by_cases h1 : k = 0x301
  · subst h1
    rw [csrValueOK_misa, csrMasked_misa]
  by_cases h2 : k = 0x304
  · subst h2
    rw [csrValueOK_mie, csrMasked_mie,
      and_and_literal v 0x999 0xfffffffffffff666 0 (by decide), Nat.and_zero]
    exact ⟨rfl, and_mask_lt_word v _ (by norm_num)⟩
  by_cases h3 : k = 0x344
  · subst h3
    rw [csrValueOK_mip, csrMasked_mip,
      and_and_literal v 0x999 0xfffffffffffff666 0 (by decide), Nat.and_zero]
    exact ⟨rfl, and_mask_lt_word v _ (by norm_num)⟩
  by_cases h4 : k = 0x341
  · subst h4
    rw [csrValueOK_mepc, csrMasked_mepc]
    exact ⟨mtvecBase_mod v, mtvecBase_lt v⟩
  by_cases h5 : k = 0x342
  · subst h5
    rw [csrValueOK_mcause, csrMasked_mcause,
      and_and_literal v 0x800000000000000f 0x7ffffffffffffff0 0 (by decide), Nat.and_zero]
    exact ⟨rfl, and_mask_lt_word v _ (by norm_num)⟩
  by_cases h6 : k = 0x305
  · subst h6
    rw [csrValueOK_mtvec, csrMasked_mtvec]
    split_ifs
    · rw [and_and_literal v 0xfffffffffffffffc 0x2 0 (by decide),
        and_and_literal v 0xfffffffffffffffc 0x1 0 (by decide), Nat.and_zero]
      exact ⟨rfl, fun h => absurd h (by decide), and_mask_lt_word v _ (by norm_num)⟩
    · rw [and_and_literal v 0xffffffffffffff01 0x2 0 (by decide),
        and_and_literal v 0xffffffffffffff01 0xfe 0 (by decide), Nat.and_zero]
      exact ⟨rfl, fun _ => rfl, and_mask_lt_word v _ (by norm_num)⟩
  exact csrValueOK_other k _ h0 h1 h2 h3 h4 h5 h6

/-- The three `|=` statements on `mstatus` keep its constraint. -/
theorem csrValueOK_mstatus_or (x a : Nat) (ha : a = 0x80 ∨ a = 0x1800 ∨ a = 0x8)
    (h : csrValueOK 0x300 x) : csrValueOK 0x300 (x ||| a) := by
  rw [csrValueOK_mstatus] at h ⊢
  have h1 : a &&& 0xffffffffffffe777 = 0 ∧ a < 2 ^ 64 := by
    rcases ha with rfl | rfl | rfl <;> exact ⟨by decide, by norm_num⟩
  rw [and_or_distrib_right, h.1, h1.1, Nat.or_zero]
  exact ⟨rfl, Nat.or_lt_two_pow h.2 h1.2⟩

/-- The three `&=` statements on `mstatus` keep its constraint. -/
theorem csrValueOK_mstatus_and (x a : Nat)
    (ha : a = 0xffffffffffffe7ff ∨ a = 0xffffffffffffff7f ∨ a = 0xfffffffffffffff7)
    (h : csrValueOK 0x300 x) : csrValueOK 0x300 (x &&& a) := by
  rw [csrValueOK_mstatus] at h ⊢
  have h1 : 0x200000000 &&& a = 0x200000000 := by
    rcases ha with rfl | rfl | rfl <;> decide
  rw [Nat.and_assoc, Nat.and_comm a, ← Nat.and_assoc, h.1, h1]
  exact ⟨rfl, lt_of_le_of_lt Nat.and_le_left h.2⟩

theorem csrAt_csrPut_same (p : processor) (k v : Nat) : csrAt (csrPut p k v) k = v := by
  unfold csrAt
  rw [umFind_csrPut_same]
  rfl

theorem csrValuesOK_csrPut (p : processor) (k v : Nat) (h : CsrValuesOK p)
    (hv : csrValueOK k v) : CsrValuesOK (csrPut p k v) := by
  intro k'
  by_cases e : k' = k
  · subst e
    rw [csrAt_csrPut_same]
    exact hv
  · rw [csrAt_congr p _ k' (umFind_csrPut_other p k v k' (fun e' => e e'.symm))]
    exact h k'

theorem csrValuesOK_set_csr (p : processor) (k v : Nat) (h : CsrValuesOK p) :
    CsrValuesOK (set_csr p k v) := by
  unfold set_csr
  split_ifs
  · exact h
  · exact h
  · exact csrValuesOK_csrPut p k _ h (csrValueOK_masked k v)

theorem csrValuesOK_congr (p q : processor) (hc : q.csrs = p.csrs) (h : CsrValuesOK p) :
    CsrValuesOK q := by
  intro k
  rw [csrAt_congr p q k (by rw [hc])]
  exact h k

theorem csrValuesOK_of_upd {p q : processor} (h : Upd p q) (hp : CsrValuesOK p) :
    CsrValuesOK q := by
  induction h with
  | refl => exact hp
  | pc q v _ ih => exact csrValuesOK_congr q _ rfl ih
  | ins_count q v _ ih => exact csrValuesOK_congr q _ rfl ih
  | prv q v _ ih => exact csrValuesOK_congr q _ rfl ih
  | decoder q d _ ih => exact csrValuesOK_congr q _ rfl ih
  | mem q m _ ih => exact csrValuesOK_congr q _ rfl ih
  | reg q r v _ ih => exact csrValuesOK_congr q _ (set_reg_csrs q r v) ih
  | csr q k v _ ih => exact csrValuesOK_set_csr q k v ih
  | mstatusOr q a ha _ ih =>
    exact csrValuesOK_csrPut q 0x300 _ ih (csrValueOK_mstatus_or _ a ha (ih 0x300))
  | mstatusAnd q a ha _ ih =>
    exact csrValuesOK_csrPut q 0x300 _ ih (csrValueOK_mstatus_and _ a ha (ih 0x300))

theorem csrValuesOK_init (m : memory) : CsrValuesOK (processor.init m) := by
  have e0 : csrAt (processor.init m) 0x300 = 0x200000000 := rfl
  have e1 : csrAt (processor.init m) 0x301 = 0x8000000000100100 := rfl
  have e2 : csrAt (processor.init m) 0x304 = 0 := rfl
  have e3 : csrAt (processor.init m) 0x344 = 0 := rfl
  have e4 : csrAt (processor.init m) 0x341 = 0 := rfl
  have e5 : csrAt (processor.init m) 0x342 = 0 := rfl
  have e6 : csrAt (processor.init m) 0x305 = 0 := rfl
  intro k
  by_cases h0 : k = 0x300
  · subst h0
    rw [csrValueOK_mstatus, e0]
    exact ⟨by decide, by norm_num⟩
  by_cases h1 : k = 0x301
  · subst h1
    rw [csrValueOK_misa, e1]
  by_cases h2 : k = 0x304
  · subst h2
    rw [csrValueOK_mie, e2]
    exact ⟨by decide, by norm_num⟩
  by_cases h3 : k = 0x344
  · subst h3
    rw [csrValueOK_mip, e3]
    exact ⟨by decide, by norm_num⟩
  by_cases h4 : k = 0x341
  · subst h4
    rw [csrValueOK_mepc, e4]
    exact ⟨by decide, by norm_num⟩
  by_cases h5 : k = 0x342
  · subst h5
    rw [csrValueOK_mcause, e5]
    exact ⟨by decide, by norm_num⟩
  by_cases h6 : k = 0x305
  · subst h6
    rw [csrValueOK_mtvec, e6]
    exact ⟨by decide, fun h => absurd h (by decide), by norm_num⟩
  exact csrValueOK_other k _ h0 h1 h2 h3 h4 h5 h6

theorem reachable_csrValuesOK {p : processor} (h : Reachable p) : CsrValuesOK p := by
  induction h with
  | init m => exact csrValuesOK_init m
  | set_pc v _ ih => exact csrValuesOK_congr _ _ rfl ih
  | set_reg r v _ ih => exact csrValuesOK_congr _ _ (set_reg_csrs _ r v) ih
  | set_csr n v _ ih => exact csrValuesOK_set_csr _ n v ih
  | set_prv v _ ih => exact csrValuesOK_congr _ _ rfl ih
  | set_breakpoint a _ ih => exact csrValuesOK_congr _ _ rfl ih
  | clear_breakpoint _ ih => exact csrValuesOK_congr _ _ rfl ih
  | execute num chk _ ih => exact csrValuesOK_of_upd (execute_upd _ num chk) ih
  | load m _ ih => exact csrValuesOK_congr _ _ rfl ih

/-! ## `set_csr` on stored values -/

/-- A value that meets the constraint of its CSR is a fixed point of the write mask. -/
theorem csrMasked_fix (k x : Nat) (h : csrValueOK k x) : csrMasked k x = x := by
  by_cases h0 : k = 0x300
  · subst h0
    rw [csrValueOK_mstatus] at h
    rw [csrMasked_mstatus, ← h.1, ← Nat.and_or_distrib_left]
    have e : (0x1888 ||| 0xffffffffffffe777 : Nat) = 2 ^ 64 - 1 := by decide
    rw [e, Nat.and_pow_two_sub_one_eq_mod, Nat.mod_eq_of_lt h.2]
  by_cases h1 : k = 0x301
  · subst h1
    rw [csrValueOK_misa] at h
    rw [csrMasked_misa, h]
  by_cases h2 : k = 0x304
  · subst h2
    rw [csrValueOK_mie] at h
    rw [csrMasked_mie]
    exact mask_fix x _ _ (by decide) h.2 h.1
  by_cases h3 : k = 0x344
  · subst h3
    rw [csrValueOK_mip] at h
    rw [csrMasked_mip]
    exact mask_fix x _ _ (by decide) h.2 h.1
  by_cases h4 : k = 0x341
  · subst h4
    rw [csrValueOK_mepc] at h
    rw [csrMasked_mepc]
    exact and_not_3_of_aligned x h.2 h.1
  by_cases h5 : k = 0x342
  · subst h5
    rw [csrValueOK_mcause] at h
    rw [csrMasked_mcause]
    exact mask_fix x _ _ (by decide) h.2 h.1
  by_cases h6 : k = 0x305
  · subst h6
    rw [csrValueOK_mtvec] at h
    rw [csrMasked_mtvec]
    split_ifs with hb
    · have h3 : x &&& 0x3 = 0 := by
        have e : (0x3 : Nat) = 0x2 ||| 0x1 := by decide
        rw [e, Nat.and_or_distrib_left, h.1, hb, Nat.or_zero]
      exact mask_fix x _ _ (by decide) h.2.2 h3
    · have hb1 : x &&& 0x1 = 1 := by
        have := Nat.and_one_is_mod x
        omega
      exact mask_fix x _ _ (by decide) h.2.2 (h.2.1 hb1)
  exact csrMasked_other k x h0 h1 h2 h3 h4 h5 h6

theorem csrMasked_idem (k v : Nat) : csrMasked k (csrMasked k v) = csrMasked k v :=
  csrMasked_fix k _ (csrValueOK_masked k v)

theorem umAssign_umAssign_same {α : Type} (m : List (Nat × α)) (k : Nat) (v w : α) :
    umAssign (umAssign m k v) k w = umAssign m k w := by
  induction m with
  | nil => simp [umAssign]
  | cons e rest ih =>
    obtain ⟨k0, v0⟩ := e
    by_cases h : k0 = k
    · simp [umAssign, h]
    · simp [umAssign, h, ih]

theorem umAssign_self {α : Type} (m : List (Nat × α)) (k : Nat) (v : α)
    (h : umFind m k = some v) : umAssign m k v = m := by
  induction m with
  | nil => simp [umFind] at h
  | cons e rest ih =>
    obtain ⟨k0, v0⟩ := e
    by_cases hk : k0 = k
    · simp only [umFind, hk, if_true, Option.some.injEq] at h
      simp [umAssign, hk, h]
    · simp only [umFind, hk, if_false] at h
      simp [umAssign, hk, ih h]

/-- A second `set_csr` on the same CSR overrides the first. -/
theorem set_csr_set_csr (q : processor) (n v w : Nat) :
    set_csr (set_csr q n v) n w = set_csr q n w := by
  by_cases h1 : umFind q.csrs n = none
  · have e : ∀ x, set_csr q n x = q := by
      intro x
      unfold set_csr
      rw [if_pos h1]
    rw [e v, e w]
  · by_cases h2 : n = 0xf11 ∨ n = 0xf12 ∨ n = 0xf13 ∨ n = 0xf14
    · have e : ∀ x, set_csr q n x = q := by
        intro x
        unfold set_csr
        rw [if_neg h1, if_pos h2]
      rw [e v, e w]
    · have e : ∀ x, set_csr q n x = csrPut q n (csrMasked n x) := by
        intro x
        unfold set_csr
        rw [if_neg h1, if_neg h2]
      rw [e v, e w]
      unfold set_csr
      rw [if_neg (by rw [umFind_csrPut_same]; simp), if_neg h2]
      unfold csrPut
      simp only [umAssign_umAssign_same]

/-- The value read after `set_csr` is a fixed point of `set_csr`. -/
theorem set_csr_stored (q : processor) (n v : Nat) :
    set_csr (set_csr q n v) n (csrAt (set_csr q n v) n) = set_csr q n v := by
  rw [set_csr_set_csr]
  by_cases h1 : umFind q.csrs n = none
  · have e : ∀ x, set_csr q n x = q := by
      intro x
      unfold set_csr
      rw [if_pos h1]
    rw [e v, e]
  · by_cases h2 : n = 0xf11 ∨ n = 0xf12 ∨ n = 0xf13 ∨ n = 0xf14
    · have e : ∀ x, set_csr q n x = q := by
        intro x
        unfold set_csr
        rw [if_neg h1, if_pos h2]
      rw [e v, e]
    · have e : ∀ x, set_csr q n x = csrPut q n (csrMasked n x) := by
        intro x
        unfold set_csr
        rw [if_neg h1, if_neg h2]
      rw [e v, e, csrAt_csrPut_same, csrMasked_idem]

/-- In a state whose CSR values meet their constraints, writing back the stored value of
an existing CSR changes nothing. -/
theorem set_csr_current (p : processor) (n : Nat) (h : CsrValuesOK p)
    (hn : umFind p.csrs n ≠ none) : set_csr p n (csrAt p n) = p := by
  unfold set_csr
  rw [if_neg hn]
  split_ifs
  · rfl
  · rw [csrMasked_fix n _ (h n)]
    obtain ⟨x, hx⟩ := Option.ne_none_iff_exists'.1 hn
    have hc : csrAt p n = x := by
      unfold csrAt
      rw [hx]
      rfl
    unfold csrPut
    rw [hc, umAssign_self _ _ _ hx]

/-! ## Steps on an unknown opcode, EBREAK and MRET, relative to the state after the interrupt check -/

/-- A step that fetches a word whose opcode is none of the thirteen opcodes of the
dispatch table, relative to the state in which the word is fetched. -/
theorem step_unknown_opcode (p : processor) (chk : Bool)
    (halign : p.pc % 4 = 0)
    (hop : bits (fetch (checkInterruptT p).1) 6 0 ∉ tableOpcodes)
    (hrun : (executeStepT p chk).2.halted = false) :
    (executeStepT p chk).2.trap = none ∧
      (executeStepT p chk).2.word = some (fetch (checkInterruptT p).1) ∧
      (executeStep p chk).pc = ((checkInterruptT p).1.pc + 4) % 2 ^ 64 ∧
      (executeStep p chk).ins_count = ((checkInterruptT p).1.ins_count + 1) % 2 ^ 64 ∧
      (executeStep p chk).registers = (checkInterruptT p).1.registers ∧
      (executeStep p chk).main_memory = (checkInterruptT p).1.main_memory ∧
      (executeStep p chk).csrs = (checkInterruptT p).1.csrs ∧
      (executeStep p chk).prv = (checkInterruptT p).1.prv ∧
      ((checkInterruptT p).2 = none → (checkInterruptT p).1 = p) := by
  have hdec : (decodeAt (checkInterruptT p).1).decoder = Decoder.init :=
    Decoder.decodeIns_unknown _ _ hop
  have hex : executeInsT (decodeAt (checkInterruptT p).1)
      = (pcInc (decodeAt (checkInterruptT p).1), none) := by
    unfold executeInsT
    rw [hdec]
    rfl
  unfold executeStep
  unfold executeStepT at hrun ⊢
  simp only [halign, ne_eq, not_true_eq_false, if_false] at hrun ⊢
  split_ifs at hrun ⊢ with hb
  rw [hex]
  refine ⟨rfl, rfl, ?_, ?_, ?_, ?_, ?_, ?_, checkInterruptT_none p⟩
  · rw [countInc_pc, pcInc_pc]; rfl
  · unfold countInc; rfl
  · rw [countInc_registers, pcInc_registers]; rfl
  · rw [countInc_main_memory, pcInc_main_memory]; rfl
  · rw [countInc_csrs, pcInc_csrs]; rfl
  · rw [countInc_prv, pcInc_prv]; rfl

/-- A step that decodes `EBREAK`, relative to the state in which the instruction is
fetched. -/
theorem step_ebreak (p : processor) (chk : Bool) (hok : CsrFileOK p.csrs)
    (ha : p.pc % 4 = 0) (hpc : p.pc < 2 ^ 64) (hcnt : p.ins_count < 2 ^ 64)
    (hrun : (executeStepT p chk).2.halted = false)
    (hcode : (atExec p).decoder.code = ins_ebreak)
    (hprv : (atFetch p).prv = 0 ∨ (atFetch p).prv = 3) :
    (executeStepT p chk).2.trap = some 3 ∧
      csrAt (executeStep p chk) 0x341 = (atFetch p).pc ∧
      csrAt (executeStep p chk) 0x342 = 3 ∧
      (executeStep p chk).pc = mtvecBase (csrAt p 0x305) ∧
      (executeStep p chk).prv = 3 ∧
      mstatusMpp (csrAt (executeStep p chk) 0x300) = (atFetch p).prv ∧
      mstatusMpie (csrAt (executeStep p chk) 0x300) = mstatusMie (csrAt (atFetch p) 0x300) ∧
      mstatusMie (csrAt (executeStep p chk) 0x300) = 0 ∧
      (executeStep p chk).ins_count = p.ins_count ∧
      ((checkInterruptT p).2 = none → atFetch p = p) := by
  have h41 := present_of_ok (atExec_ok p hok) 0x341 (by decide)
  have h42 := present_of_ok (atExec_ok p hok) 0x342 (by decide)
  have hf := ebreakStatus_fields (atFetch p).prv (csrAt (atFetch p) 0x300) hprv
  have hm : csrAt (countInc (pcInc (ebreakBody (atExec p)))) 0x300 =
      ebreakStatus (atFetch p).prv (csrAt (atFetch p) 0x300) := by
    rw [csrAt_countInc, csrAt_pcInc, ebreakBody_mstatus, atExec_prv, atExec_csrAt]
  unfold executeStep
  rw [executeStepT_run p chk ha hrun, executeInsT_ebreak _ hcode]
  simp only []
  rw [hm]
  refine ⟨trivial, ?_, ?_, ?_, ?_, hf.1, hf.2.1, hf.2.2, ?_, atFetch_of_no_irq p⟩
  · rw [csrAt_countInc, csrAt_pcInc, ebreakBody_mepc _ h41, atExec_pc,
      and_not_3_of_aligned _ (atFetch_pc_lt p hpc) (atFetch_pc_mod p ha)]
  · rw [csrAt_countInc, csrAt_pcInc, ebreakBody_mcause _ h42]
  · rw [countInc_pc, pcInc_ebreakBody_pc, atExec_mtvec]
  · rw [countInc_prv, pcInc_prv, ebreakBody_prv]
  · simp only [countInc_ins_count, pcInc_ins_count, ebreakBody_ins_count, atExec_ins_count]
    omega

/-- A step that decodes `MRET` in Machine privilege, relative to the state in which the
instruction is fetched. -/
theorem step_mret (p : processor) (chk : Bool)
    (ha : p.pc % 4 = 0)
    (hrun : (executeStepT p chk).2.halted = false)
    (hcode : (atExec p).decoder.code = ins_mret)
    (hprv : (atFetch p).prv = 3)
    (hmepc : csrAt (atFetch p) 0x341 < 2 ^ 64)
    (hms : csrAt (atFetch p) 0x300 < 2 ^ 64) :
    (executeStepT p chk).2.trap = none ∧
      (executeStep p chk).pc = csrAt (atFetch p) 0x341 ∧
      mstatusMie (csrAt (executeStep p chk) 0x300) = mstatusMpie (csrAt (atFetch p) 0x300) ∧
      mstatusMpie (csrAt (executeStep p chk) 0x300) = 1 ∧
      mstatusMpp (csrAt (executeStep p chk) 0x300) = 0 ∧
      (∀ i, i ≠ 3 → i ≠ 7 → i ≠ 11 → i ≠ 12 →
        (csrAt (executeStep p chk) 0x300).testBit i = (csrAt (atFetch p) 0x300).testBit i) ∧
      (∀ k, k ≠ 0x300 → umFind (executeStep p chk).csrs k = umFind (atFetch p).csrs k) ∧
      (executeStep p chk).registers = p.registers ∧
      (executeStep p chk).main_memory = p.main_memory ∧
      (executeStep p chk).ins_count = (p.ins_count + 1) % 2 ^ 64 ∧
      ((checkInterruptT p).2 = none → atFetch p = p) := by
  have h0 : ¬ (atExec p).prv = 0 := by
    rw [atExec_prv, hprv]
    decide
  have hf := mretStatus_fields (csrAt (atFetch p) 0x300)
  have hm : csrAt (countInc (pcInc (mretBody (atExec p)))) 0x300 =
      mretStatus (csrAt (atFetch p) 0x300) := by
    rw [csrAt_countInc, csrAt_pcInc, mretBody_mstatus, atExec_csrAt]
  unfold executeStep
  rw [executeStepT_run p chk ha hrun, executeInsT_mret _ hcode, if_neg h0]
  simp only []
  rw [hm]
  refine ⟨trivial, ?_, hf.1, hf.2.1, hf.2.2, ?_, ?_, ?_, ?_, ?_, atFetch_of_no_irq p⟩
  · rw [countInc_pc, pcInc_pc, mretBody_pc, atExec_csrAt]
    omega
  · intro i h3 h7 h11 h12
    exact mretStatus_other_bits _ i hms h3 h7 h11 h12
  · intro k hk
    simp only [countInc_csrs, pcInc_csrs]
    rw [mretBody_umFind_other _ k (fun e => hk e.symm), atExec_csrs]
  · simp only [countInc_registers, pcInc_registers, mretBody_registers, atExec_registers]
  · simp only [countInc_main_memory, pcInc_main_memory, mretBody_main_memory,
      atExec_main_memory]
  · simp only [countInc_ins_count, pcInc_ins_count, mretBody_ins_count, atExec_ins_count]

/-! ## The privilege level and the CSR values after the interrupt check -/

theorem interrupt_prv (p : processor) (c : Nat) (h : p.prv = 0 ∨ p.prv = 3) :
    (interrupt p c).prv = 3 := by
  unfold interrupt
  simp only []
  rw [csrUpd_prv]
  rcases h with h | h <;>
    split_ifs <;>
      simp only [csrUpd_prv, set_prv_prv, pcSet_prv, set_csr_prv] at * <;> omega

theorem atFetch_prv (p : processor) (h : p.prv = 0 ∨ p.prv = 3) :
    (atFetch p).prv = 0 ∨ (atFetch p).prv = 3 := by
  unfold atFetch
  rcases checkInterruptT_cases p with ⟨-, h2⟩ | ⟨c, -, h2⟩ <;> rw [h2]
  · exact h
  · exact Or.inr (interrupt_prv p c h)

theorem atFetch_prv_machine (p : processor) (h : p.prv = 3) : (atFetch p).prv = 3 := by
  unfold atFetch
  rcases checkInterruptT_cases p with ⟨-, h2⟩ | ⟨c, -, h2⟩ <;> rw [h2]
  · exact h
  · exact interrupt_prv p c (Or.inr h)

theorem atFetch_csrValuesOK (p : processor) (h : CsrValuesOK p) : CsrValuesOK (atFetch p) :=
  csrValuesOK_of_upd (checkInterruptT_upd p) h

end processor

namespace processor

/-! # The claims -/

/-- C1: in every state reachable from the initial state, register `x[0]` is 0;
`set_reg(0, v)` changes nothing for every `v`; and every step, whatever the instruction
and its `rd` field, leaves `x[0] == 0`. -/
theorem C1_x0_hardwired (p : processor) (h : Reachable p) :
    reg p 0 = 0 ∧ (∀ v, set_reg p 0 v = p) ∧
      (∀ chk, reg (executeStep p chk) 0 = 0) ∧
      (∀ num chk, reg (execute p num chk) 0 = 0) := by
  have h0 := reachable_reg_zero h
  refine ⟨h0, ?_, ?_, ?_⟩
  · intro v
    unfold set_reg
    simp only [if_true]
  · intro chk
    exact (reg_zero_of_upd (executeStepT_upd p chk)).trans h0
  · intro num chk
    exact (reg_zero_of_upd (execute_upd p num chk)).trans h0

/-- C1 at the state reached by running `ADDI x0, x0, 5`, whose `rd` field is 0. -/
theorem C1_x0_hardwired_witness :
    reg (execute (processor.init zeroRdMem) 1 false) 0 = 0 ∧
      set_reg (execute (processor.init zeroRdMem) 1 false) 0 7
        = execute (processor.init zeroRdMem) 1 false ∧
      reg (executeStep (execute (processor.init zeroRdMem) 1 false) true) 0 = 0 :=
  have h := C1_x0_hardwired (execute (processor.init zeroRdMem) 1 false)
    (Reachable.execute 1 false (Reachable.init zeroRdMem))
  ⟨h.1, h.2.1 7, h.2.2.1 true⟩

/-- C2: for every step that starts at a 4-aligned pc, delivers no interrupt and is not
halted by the breakpoint: if the executed instruction raises no trap and is not JAL, JALR,
MRET or a taken branch, then the new pc is the old pc plus 4 modulo 2^64. -/
theorem C2_pc_advances_by_four (p : processor) (chk : Bool)
    (halign : p.pc % 4 = 0)
    (hirq : (executeStepT p chk).2.irq = none)
    (hrun : (executeStepT p chk).2.halted = false)
    (htrap : (executeStepT p chk).2.trap = none)
    (hjal : (decodeAt p).decoder.code ≠ ins_jal)
    (hjalr : (decodeAt p).decoder.code ≠ ins_jalr)
    (hmret : (decodeAt p).decoder.code ≠ ins_mret)
    (hbr : ¬ branchTaken (decodeAt p)) :
    (executeStep p chk).pc = (p.pc + 4) % 2 ^ 64 := by
  unfold executeStep
  unfold executeStepT at hirq hrun htrap ⊢
  simp only [halign, ne_eq, not_true_eq_false, ite_false, if_false] at hirq hrun htrap ⊢
  split_ifs at hirq hrun htrap ⊢ with hb
  simp only at hirq htrap ⊢
  have hq := checkInterruptT_none p hirq
  rw [hq] at htrap ⊢
  have hf := (executeInsT_facts (decodeAt p)).1 htrap
  rw [countInc_pc]
  exact hf.2 hjal hjalr hmret hbr

/-- C2 at the initial state over `sampleMem`: `ADDI x1, x0, -1` moves pc from 0 to 4. -/
theorem C2_pc_advances_by_four_witness : (executeStep sampleState false).pc = 4 :=
  C2_pc_advances_by_four sampleState false (by decide) (by decide) (by decide) (by decide)
    (by decide) (by decide) (by decide) (by decide)

/-- C3: the retired-instruction counter counts exactly the retired instructions: a step
in which an instruction executes without raising a trap increases it by 1 (modulo 2^64),
and a step that ends in a synchronous trap (whose cause is then one of 0, 2, 3, 4, 6, 8,
11) leaves it equal to its value before the step. -/
theorem C3_retired_counter (p : processor) (chk : Bool) (hcount : p.ins_count < 2 ^ 64) :
    ((executeStepT p chk).2.word ≠ none → (executeStepT p chk).2.trap = none →
      (executeStep p chk).ins_count = (p.ins_count + 1) % 2 ^ 64) ∧
    (∀ c, (executeStepT p chk).2.trap = some c →
      (c = 0 ∨ c = 2 ∨ c = 3 ∨ c = 4 ∨ c = 6 ∨ c = 8 ∨ c = 11) ∧
      (executeStep p chk).ins_count = p.ins_count) := by
  have hci := checkInterruptT_ins_count p
  unfold executeStep executeStepT
  simp only []
  split_ifs with ha hb
  · refine ⟨fun h => absurd rfl h, ?_⟩
    intro c hc
    simp only [Option.some.injEq] at hc
    subst hc
    refine ⟨Or.inl rfl, ?_⟩
    simp only [except_ins_count_zero]
    omega
  · refine ⟨fun h => absurd rfl h, ?_⟩
    intro c hc
    simp at hc
  · have hf := executeInsT_facts (decodeAt (checkInterruptT p).1)
    have hd : (decodeAt (checkInterruptT p).1).ins_count = p.ins_count := hci
    constructor
    · intro _ ht
      have h1 := (hf.1 ht).1
      unfold countInc
      simp only [h1, hd]
    · intro c hc
      have h2 := hf.2 c hc
      refine ⟨Or.inr h2.1, ?_⟩
      unfold countInc
      simp only [h2.2, hd]
      omega

/-- C3 at the initial state over `sampleMem` (the step retires `ADDI`) and at the same
state in User privilege over a memory holding `ECALL` (the step traps with cause 8). -/
theorem C3_retired_counter_witness :
    (executeStep sampleState false).ins_count = 1 ∧
      (executeStep (set_prv (processor.init
        (memory.init.write_doubleword 0 0x00000073 0xffffffffffffffff)) 0) false).ins_count
        = 0 :=
  ⟨(C3_retired_counter sampleState false (by decide)).1 (by decide) (by decide),
   ((C3_retired_counter (set_prv (processor.init
        (memory.init.write_doubleword 0 0x00000073 0xffffffffffffffff)) 0) false
        (by decide)).2 8 (by decide)).2⟩

end processor

/-- C4: for every word that matches a row of the dispatch table (`specKind` gives the
kind of the row, with the `funct7` and `ins >> 20` discriminants of the table), `decodeIns`
sets exactly that kind, whatever the previous state of the decoder. -/
theorem C4_dispatch_table (d : Decoder) (ins : Nat) (k : Ins) (h : specKind ins = some k) :
    (Decoder.decodeIns d ins).code = k := by
  rw [Decoder.decodeIns_of_specKind d ins k h]
  exact (decodeFormat_header _ _).1

/-- C4 at the word 0x40000033 (opcode 0x33, funct3 0, funct7 0x20, so SUB), decoded after
an earlier `ADDI`. -/
theorem C4_dispatch_table_witness :
    (Decoder.decodeIns (Decoder.decodeIns Decoder.init 0xFFF00093) 0x40000033).code = ins_sub :=
  C4_dispatch_table (Decoder.decodeIns Decoder.init 0xFFF00093) 0x40000033 ins_sub (by decide)

/-- C5: for every word of a table row the operand fields produced by the decoder are the
stated bit fields of the word, by format (R: rd, rs1, rs2; I: rd, rs1, imm; S and B: rs1,
rs2, imm; U and J: rd, imm), for the six CSR kinds `imm` is `ins[31:20]` and `rs1` is
`ins[19:15]`; and after any history of decodes `rd`, `rs1` and `rs2` are below 32. -/
theorem C5_operand_fields :
    (∀ (d : Decoder) (ins : Nat) (k : Ins), specKind ins = some k →
      (kindFormat k = some .R →
        (Decoder.decodeIns d ins).rd = bits ins 11 7 ∧
        (Decoder.decodeIns d ins).rs1 = bits ins 19 15 ∧
        (Decoder.decodeIns d ins).rs2 = bits ins 24 20) ∧
      (kindFormat k = some .I →
        (Decoder.decodeIns d ins).rd = bits ins 11 7 ∧
        (Decoder.decodeIns d ins).rs1 = bits ins 19 15 ∧
        (Decoder.decodeIns d ins).imm = bits ins 31 20) ∧
      (kindFormat k = some .S →
        (Decoder.decodeIns d ins).rs1 = bits ins 19 15 ∧
        (Decoder.decodeIns d ins).rs2 = bits ins 24 20 ∧
        (Decoder.decodeIns d ins).imm = (bits ins 31 25 <<< 5) ||| bits ins 11 7) ∧
      (kindFormat k = some .B →
        (Decoder.decodeIns d ins).rs1 = bits ins 19 15 ∧
        (Decoder.decodeIns d ins).rs2 = bits ins 24 20 ∧
        (Decoder.decodeIns d ins).imm =
          (bits ins 31 31 <<< 11) ||| (bits ins 7 7 <<< 10) ||| (bits ins 30 25 <<< 4)
            ||| bits ins 11 8) ∧
      (kindFormat k = some .U →
        (Decoder.decodeIns d ins).rd = bits ins 11 7 ∧
        (Decoder.decodeIns d ins).imm = bits ins 31 12) ∧
      (kindFormat k = some .J →
        (Decoder.decodeIns d ins).rd = bits ins 11 7 ∧
        (Decoder.decodeIns d ins).imm =
          (bits ins 31 31 <<< 19) ||| (bits ins 19 12 <<< 11) ||| (bits ins 20 20 <<< 10)
            ||| bits ins 30 21) ∧
      (k ∈ [ins_csrrw, ins_csrrs, ins_csrrc, ins_csrrwi, ins_csrrsi, ins_csrrci] →
        (Decoder.decodeIns d ins).imm = bits ins 31 20 ∧
        (Decoder.decodeIns d ins).rs1 = bits ins 19 15)) ∧
    (∀ ws : List Nat,
      (ws.foldl Decoder.decodeIns Decoder.init).rd < 32 ∧
      (ws.foldl Decoder.decodeIns Decoder.init).rs1 < 32 ∧
      (ws.foldl Decoder.decodeIns Decoder.init).rs2 < 32) := by
  refine ⟨?_, fun ws => decode_history_regs_lt ws _ ⟨by decide, by decide, by decide⟩⟩
  intro d ins k hk
  rw [Decoder.decodeIns_of_specKind d ins k hk]
  have hins : ({ Decoder.header d ins with code := k } : Decoder).ins = ins := rfl
  have hI : ∀ e : Decoder, e.ins = ins →
      (decodeFormat (some .I) e).rd = bits ins 11 7 ∧
      (decodeFormat (some .I) e).rs1 = bits ins 19 15 ∧
      (decodeFormat (some .I) e).imm = bits ins 31 20 := by
    intro e he
    have := Decoder.decodeIType_fields { e with type := 'I' }
    rw [← he]; exact this
  refine ⟨?_, ?_, ?_, ?_, ?_, ?_, ?_⟩
  · intro hf
    rw [hf]
    exact Decoder.decodeRType_fields _
  · intro hf
    rw [hf]
    exact hI _ hins
  · intro hf
    rw [hf]
    exact Decoder.decodeSType_fields _
  · intro hf
    rw [hf]
    exact Decoder.decodeBType_fields _
  · intro hf
    rw [hf]
    exact Decoder.decodeUType_fields _
  · intro hf
    rw [hf]
    exact Decoder.decodeJType_fields _
  · intro hmem
    have hf : kindFormat k = some .I := by
      simp only [List.mem_cons, List.mem_singleton, List.not_mem_nil, or_false] at hmem
      rcases hmem with h | h | h | h | h | h <;> subst h <;> rfl
    rw [hf]
    have := hI _ hins
    exact ⟨this.2.2, this.2.1⟩

/-- C5 at the B-type word 0xFE209EE3 (`BNE x1, x2, -4`) and at the CSR word 0x34009073
(`CSRRW x0, mscratch, x1`). -/
theorem C5_operand_fields_witness :
    (Decoder.decodeIns Decoder.init 0xFE209EE3).imm =
        (bits 0xFE209EE3 31 31 <<< 11) ||| (bits 0xFE209EE3 7 7 <<< 10)
          ||| (bits 0xFE209EE3 30 25 <<< 4) ||| bits 0xFE209EE3 11 8 ∧
      (Decoder.decodeIns Decoder.init 0x34009073).imm = bits 0x34009073 31 20 ∧
      (Decoder.decodeIns Decoder.init 0x34009073).rs1 = bits 0x34009073 19 15 :=
  ⟨((C5_operand_fields.1 Decoder.init 0xFE209EE3 ins_bne (by decide)).2.2.2.1 (by decide)).2.2,
   (C5_operand_fields.1 Decoder.init 0x34009073 ins_csrrw (by decide)).2.2.2.2.2.2 (by decide)⟩

/-- C6 (the code departs from the claim): the word 0x00007003 (opcode 0x03 with the
unlisted funct3 7) matches no row of the dispatch table, yet decoded after
`ADDI x1, x1, 1` it keeps the kind `ins_addi` instead of `ins_default`, and the executor
runs the `ADDI` a second time: after two steps over `staleMem`, `x[1]` is 2, not 1. -/
theorem C6_unlisted_funct3_keeps_stale_kind :
    specKind 0x00007003 = none ∧
      (Decoder.decodeIns (Decoder.decodeIns Decoder.init 0x00108093) 0x00007003).code
        = ins_addi ∧
      processor.fetch (processor.execute (processor.init staleMem) 1 false) = 0x00007003 ∧
      processor.reg (processor.execute (processor.init staleMem) 1 false) 1 = 1 ∧
      processor.reg (processor.execute (processor.init staleMem) 2 false) 1 = 2 := by
  decide

/-- C7 (as stated, refuted): the record left by `decodeIns(w)` depends on the earlier
decodes.  The I-type word 0x00108093 decoded first, and decoded after the R-type word
0x002081B3 (`ADD x3, x1, x2`), gives two different records; in the second `rs2` is 2, not
the reset value 0. -/
theorem C7_counterexample :
    Decoder.decodeIns Decoder.init 0x00108093
        ≠ Decoder.decodeIns (Decoder.decodeIns Decoder.init 0x002081B3) 0x00108093 ∧
      (Decoder.decodeIns (Decoder.decodeIns Decoder.init 0x002081B3) 0x00108093).rs2 = 2 := by
  decide

/-- C7 (amended): for every word `w` of a table row with kind `k`, and any two prior
decoder states, the kind, the stored word, opcode, funct3, funct7 and the operand fields
of the format of `k` after `decodeIns(w)` are identical (and so is the format letter when
`k` has a format); the operand fields that do not belong to the format keep the values
they had before the call, they are not reset; for a word whose opcode is outside the
table the whole record is the reset record whatever the prior state. -/
theorem C7_decode_determined_fields :
    (∀ (d1 d2 : Decoder) (w : Nat) (k : Ins), specKind w = some k →
      (Decoder.decodeIns d1 w).code = (Decoder.decodeIns d2 w).code ∧
      (Decoder.decodeIns d1 w).ins = (Decoder.decodeIns d2 w).ins ∧
      (Decoder.decodeIns d1 w).opcode = (Decoder.decodeIns d2 w).opcode ∧
      (Decoder.decodeIns d1 w).funct3 = (Decoder.decodeIns d2 w).funct3 ∧
      (Decoder.decodeIns d1 w).funct7 = (Decoder.decodeIns d2 w).funct7 ∧
      formatFields (kindFormat k) (Decoder.decodeIns d1 w)
        = formatFields (kindFormat k) (Decoder.decodeIns d2 w) ∧
      (∀ f, kindFormat k = some f →
        (Decoder.decodeIns d1 w).type = f.letter ∧ (Decoder.decodeIns d2 w).type = f.letter) ∧
      otherFields (kindFormat k) (Decoder.decodeIns d1 w) = otherFields (kindFormat k) d1 ∧
      (kindFormat k = none → (Decoder.decodeIns d1 w).type = d1.type)) ∧
    (∀ (d1 d2 : Decoder) (w : Nat), bits w 6 0 ∉ tableOpcodes →
      Decoder.decodeIns d1 w = Decoder.decodeIns d2 w ∧
      Decoder.decodeIns d1 w = Decoder.init) := by
  constructor
  · intro d1 d2 w k hk
    rw [Decoder.decodeIns_of_specKind d1 w k hk, Decoder.decodeIns_of_specKind d2 w k hk]
    have h1 := decodeFormat_header (kindFormat k) { Decoder.header d1 w with code := k }
    have h2 := decodeFormat_header (kindFormat k) { Decoder.header d2 w with code := k }
    refine ⟨h1.1.trans h2.1.symm, h1.2.1.trans h2.2.1.symm, h1.2.2.1.trans h2.2.2.1.symm,
      h1.2.2.2.1.trans h2.2.2.2.1.symm, h1.2.2.2.2.trans h2.2.2.2.2.symm,
      decodeFormat_fields_congr _ _ _ rfl, ?_, ?_, ?_⟩
    · intro f hf
      rw [hf]
      exact ⟨decodeFormat_type f _, decodeFormat_type f _⟩
    · rw [decodeFormat_other]
      cases kindFormat k with
      | none => rfl
      | some f => cases f <;> rfl
    · intro hf
      rw [hf]
      rfl
  · intro d1 d2 w hw
    rw [Decoder.decodeIns_unknown d1 w hw, Decoder.decodeIns_unknown d2 w hw]
    exact ⟨rfl, rfl⟩

/-- C7 (amended) at the I-type word 0x00108093, decoded first and decoded after the
R-type word 0x002081B3. -/
theorem C7_decode_determined_fields_witness :
    formatFields (some .I) (Decoder.decodeIns Decoder.init 0x00108093)
        = formatFields (some .I)
            (Decoder.decodeIns (Decoder.decodeIns Decoder.init 0x002081B3) 0x00108093) ∧
      otherFields (some .I)
          (Decoder.decodeIns (Decoder.decodeIns Decoder.init 0x002081B3) 0x00108093)
        = otherFields (some .I) (Decoder.decodeIns Decoder.init 0x002081B3) :=
  ⟨(C7_decode_determined_fields.1 Decoder.init (Decoder.decodeIns Decoder.init 0x002081B3)
      0x00108093 ins_addi (by decide)).2.2.2.2.2.1,
   (C7_decode_determined_fields.1 (Decoder.decodeIns Decoder.init 0x002081B3) Decoder.init
      0x00108093 ins_addi (by decide)).2.2.2.2.2.2.2.1⟩

namespace processor

/-- C8 fails when an interrupt is delivered in the step.  In Machine mode over the empty
memory, with `mstatus.mie = 1` and a machine external interrupt pending and enabled at
`pc = 8` (`mtvec = 0`), the step delivers interrupt 11 and then fetches the all-zero word
at the handler address 0, whose opcode 0 is not in the dispatch table; no trap is raised,
but `pc` ends at 4 and not at 12, and `mstatus`, `mepc` and `mcause` have changed. -/
theorem C8_counterexample :
    irqEmptyState.pc = 8 ∧ irqEmptyState.prv = 3 ∧
      csrAt irqEmptyState 0x300 = 0x200000008 ∧ csrAt irqEmptyState 0x341 = 0 ∧
      csrAt irqEmptyState 0x342 = 0 ∧
      (executeStepT irqEmptyState false).2 =
        { halted := false, irq := some 11, trap := none, word := some 0 } ∧
      bits 0 6 0 ∉ tableOpcodes ∧
      (executeStep irqEmptyState false).pc = 4 ∧
      csrAt (executeStep irqEmptyState false) 0x300 = 0x200001880 ∧
      csrAt (executeStep irqEmptyState false) 0x341 = 8 ∧
      csrAt (executeStep irqEmptyState false) 0x342 = 0x800000000000000B := by
  decide

/-- C8, amended: in every state with a 4-aligned `pc`, a step that is not stopped at the
breakpoint and fetches a word whose opcode is none of the thirteen opcodes of the dispatch
table raises no trap, increments the retired counter by 1 (modulo 2^64) and leaves the
registers and the memory unchanged.  When no interrupt is delivered in the step, it also
advances `pc` by 4 (modulo 2^64) and leaves the CSRs and the privilege level unchanged.
When an interrupt with cause `c` is delivered in the step, the word is the one fetched at
the handler address: `pc` ends at the `pc` that `interrupt(c)` leaves plus 4, and the CSRs
and the privilege level are those that `interrupt(c)` leaves. -/
theorem C8_unknown_opcode_is_noop (p : processor) (chk : Bool)
    (halign : p.pc % 4 = 0)
    (hop : bits (fetch (atFetch p)) 6 0 ∉ tableOpcodes)
    (hrun : (executeStepT p chk).2.halted = false) :
    (executeStepT p chk).2.trap = none ∧
      (executeStepT p chk).2.word = some (fetch (atFetch p)) ∧
      (executeStep p chk).ins_count = (p.ins_count + 1) % 2 ^ 64 ∧
      (executeStep p chk).registers = p.registers ∧
      (executeStep p chk).main_memory = p.main_memory ∧
      ((checkInterruptT p).2 = none →
        (executeStepT p chk).2.word = some (fetch p) ∧
        (executeStep p chk).pc = (p.pc + 4) % 2 ^ 64 ∧
        (executeStep p chk).csrs = p.csrs ∧
        (executeStep p chk).prv = p.prv) ∧
      (∀ c, (checkInterruptT p).2 = some c →
        (executeStepT p chk).2.word = some (fetch (interrupt p c)) ∧
        (executeStep p chk).pc = ((interrupt p c).pc + 4) % 2 ^ 64 ∧
        (executeStep p chk).csrs = (interrupt p c).csrs ∧
        (executeStep p chk).prv = (interrupt p c).prv) := by
  obtain ⟨g1, g2, g3, g4, g5, g6, g7, g8, -⟩ := step_unknown_opcode p chk halign hop hrun
  refine ⟨g1, g2, ?_, ?_, ?_, ?_, ?_⟩
  · rw [g4, checkInterruptT_ins_count]
  · rw [g5]
    exact atFetch_registers p
  · rw [g6]
    exact atFetch_main_memory p
  · intro h
    have e := checkInterruptT_none p h
    rw [g2, g3, g7, g8, e]
    exact ⟨rfl, rfl, rfl, rfl⟩
  · intro c h
    have e := checkInterruptT_delivers p c h
    rw [g2, g3, g7, g8, e]
    exact ⟨rfl, rfl, rfl, rfl⟩

/-- C8, amended, at the freshly constructed simulator over the empty memory: the all-zero
word read from unmapped memory is executed as a no-op. -/
theorem C8_unknown_opcode_is_noop_witness :
    (executeStepT (processor.init memory.init) false).2.trap = none ∧
      (executeStep (processor.init memory.init) false).pc = 4 ∧
      (executeStep (processor.init memory.init) false).ins_count = 1 ∧
      (executeStep (processor.init memory.init) false).registers
        = (processor.init memory.init).registers ∧
      (executeStep (processor.init memory.init) false).csrs
        = (processor.init memory.init).csrs :=
  have h := C8_unknown_opcode_is_noop (processor.init memory.init) false
    (by decide) (by decide) (by decide)
  ⟨h.1, (h.2.2.2.2.2.1 (by decide)).2.1.trans (by decide), h.2.2.1.trans (by decide),
    h.2.2.2.1, (h.2.2.2.2.2.1 (by decide)).2.2.1⟩

/-- C9: for every writable registered CSR number `n` present in the CSR file and every
value `v`, after `set_csr(n, v)` the stored value is the one of the table of write masks
(`specCsrValue`), and no other CSR, no register, pc, privilege, memory, counter,
breakpoint or decoder field changes. -/
theorem C9_set_csr_masks (p : processor) (n v : Nat)
    (hn : n ∈ [0x300, 0x301, 0x304, 0x305, 0x340, 0x341, 0x342, 0x343, 0x344])
    (hex : umFind p.csrs n ≠ none) :
    umFind (set_csr p n v).csrs n = some (specCsrValue n v) ∧
      (∀ m, m ≠ n → umFind (set_csr p n v).csrs m = umFind p.csrs m) ∧
      (set_csr p n v).registers = p.registers ∧ (set_csr p n v).pc = p.pc ∧
      (set_csr p n v).prv = p.prv ∧ (set_csr p n v).main_memory = p.main_memory ∧
      (set_csr p n v).ins_count = p.ins_count ∧
      (set_csr p n v).breakpoint = p.breakpoint ∧
      (set_csr p n v).bp_enabled = p.bp_enabled ∧ (set_csr p n v).decoder = p.decoder := by
  have hro : ¬ (n = 0xf11 ∨ n = 0xf12 ∨ n = 0xf13 ∨ n = 0xf14) := by
    simp only [List.mem_cons, List.mem_singleton, List.not_mem_nil, or_false] at hn
    omega
  have hval : csrMasked n v = specCsrValue n v := by
    simp only [List.mem_cons, List.mem_singleton, List.not_mem_nil, or_false] at hn
    rcases hn with h | h | h | h | h | h | h | h | h <;> subst h <;>
      norm_num [csrMasked, specCsrValue, not64]
  have hcs : (set_csr p n v).csrs = umAssign p.csrs n (csrMasked n v) := by
    unfold set_csr csrPut
    simp only [hex, hro, if_false]
  refine ⟨?_, ?_, set_csr_registers p n v, set_csr_pc p n v, set_csr_prv p n v,
    set_csr_main_memory p n v, set_csr_ins_count p n v, set_csr_breakpoint p n v,
    set_csr_bp_enabled p n v, set_csr_decoder p n v⟩
  · rw [hcs, umFind_umAssign_same, hval]
  · intro m hm
    rw [hcs, umFind_umAssign_other _ _ _ _ (Ne.symm hm)]

/-- C9 at the initial state: writing all ones to `mtvec` (0x305) stores the value with
bit 0 kept and bits 7..1 cleared. -/
theorem C9_set_csr_masks_witness :
    umFind (set_csr sampleState 0x305 0xffffffffffffffff).csrs 0x305
      = some 0xffffffffffffff01 :=
  (C9_set_csr_masks sampleState 0x305 0xffffffffffffffff (by decide) (by decide)).1

/-- C10: in every reachable state `set_csr(n, v)` changes nothing when `n` is outside the
thirteen registered numbers or is one of the read-only numbers 0xF11..0xF14 (in any state
at all it changes nothing when `n` is absent from the CSR file or read-only), and
mvendorid, marchid, mimpid and mhartid hold their initial values 0, 0,
0x2020_0200_0000_0000 and 0. -/
theorem C10_set_csr_rejects (p : processor) (h : Reachable p) :
    (∀ n v, n ∉ registeredCSRs ∨ n ∈ readOnlyCSRs → set_csr p n v = p) ∧
      (∀ (q : processor) (n v : Nat),
        umFind q.csrs n = none ∨ n ∈ readOnlyCSRs → set_csr q n v = q) ∧
      umFind p.csrs 0xF11 = some 0 ∧ umFind p.csrs 0xF12 = some 0 ∧
      umFind p.csrs 0xF13 = some 0x2020020000000000 ∧ umFind p.csrs 0xF14 = some 0 := by
  have hok := reachable_csrFileOK h
  refine ⟨?_, set_csr_rejected, hok.2.1, hok.2.2.1, hok.2.2.2.1, hok.2.2.2.2⟩
  intro n v hn
  apply set_csr_rejected
  rcases hn with hn | hn
  · left
    by_contra hne
    have hmem := (umFind_ne_none_iff p.csrs n).1 hne
    rw [hok.1] at hmem
    exact hn hmem
  · exact Or.inr hn

/-- C10 at the state reached by running `CSRRW x0, mimpid, x0` (0xF1301073) in Machine
privilege: the write to the read-only register is dropped, and so are `set_csr` calls
on 0xF13 and on the unregistered number 0x7C0. -/
theorem C10_set_csr_rejects_witness :
    set_csr (execute (processor.init
        (memory.init.write_doubleword 0 0xF1301073 0xffffffffffffffff)) 1 false) 0xF13 5
      = execute (processor.init
        (memory.init.write_doubleword 0 0xF1301073 0xffffffffffffffff)) 1 false ∧
    set_csr (execute (processor.init
        (memory.init.write_doubleword 0 0xF1301073 0xffffffffffffffff)) 1 false) 0x7C0 5
      = execute (processor.init
        (memory.init.write_doubleword 0 0xF1301073 0xffffffffffffffff)) 1 false ∧
    umFind (execute (processor.init
        (memory.init.write_doubleword 0 0xF1301073 0xffffffffffffffff)) 1 false).csrs 0xF13
      = some 0x2020020000000000 :=
  have h := C10_set_csr_rejects (execute (processor.init
      (memory.init.write_doubleword 0 0xF1301073 0xffffffffffffffff)) 1 false)
    (Reachable.execute 1 false (Reachable.init _))
  ⟨h.1 0xF13 5 (Or.inr (by decide)), h.1 0x7C0 5 (Or.inl (by decide)), h.2.2.2.2.1⟩

/-- C11: in every state with a well-formed CSR file, a step that raises a synchronous
exception with cause `c` (any of 0, 2, 4, 6, 8, 11, and also 3) ends with `mcause = c` and
with `pc` equal to `mtvec` with its two low bits cleared, whatever the mode bit of `mtvec`
is (no hypothesis on it: direct and vectored alike), `mtvec` itself being unchanged; and
when `pc mod 4 ≠ 0` at the start of the step, the step raises cause 0, leaves the old
misaligned `pc` in `mtval`, checks for no interrupt, fetches no word and leaves the
registers and the memory unchanged. -/
theorem C11_trap_vector (p : processor) (chk : Bool) (hok : CsrFileOK p.csrs) :
    (∀ c, (executeStepT p chk).2.trap = some c →
      csrAt (executeStep p chk) 0x342 = c ∧
      (executeStep p chk).pc = mtvecBase (csrAt p 0x305) ∧
      csrAt (executeStep p chk) 0x305 = csrAt p 0x305) ∧
    (p.pc % 4 ≠ 0 →
      (executeStepT p chk).2.trap = some 0 ∧
      (executeStepT p chk).2.word = none ∧
      (executeStepT p chk).2.irq = none ∧
      csrAt (executeStep p chk) 0x343 = p.pc ∧
      (executeStep p chk).registers = p.registers ∧
      (executeStep p chk).main_memory = p.main_memory) := by
  have h42 := present_of_ok hok 0x342 (by decide)
  have h43 := present_of_ok hok 0x343 (by decide)
  constructor
  · intro c htrap
    unfold executeStep
    by_cases ha : p.pc % 4 = 0
    · have hrun := executeStepT_trap_run p chk ha c htrap
      rw [executeStepT_run p chk ha hrun] at htrap ⊢
      simp only at htrap ⊢
      have h42' := present_of_ok (atExec_ok p hok) 0x342 (by decide)
      rcases executeInsT_trap _ c htrap with ⟨hc, -, e⟩ | ⟨hc, e⟩
      · subst hc
        rw [e]
        refine ⟨?_, ?_, ?_⟩
        · rw [csrAt_countInc, csrAt_pcInc, ebreakBody_mcause _ h42']
        · rw [countInc_pc, pcInc_ebreakBody_pc, atExec_mtvec]
        · rw [csrAt_countInc, csrAt_pcInc,
            csrAt_congr _ _ _ (ebreakBody_umFind_other _ 0x305 (by decide) (by decide)
              (by decide)), atExec_mtvec]
      · have hc0 : c ≠ 0 := by omega
        rw [e]
        refine ⟨?_, ?_, ?_⟩
        · rw [csrAt_countInc, csrAt_pcInc, except_mcause _ _ h42']
          exact mcause_mask c (by omega)
        · rw [countInc_pc, pcInc_except_pc _ _ hc0, atExec_mtvec]
        · rw [csrAt_countInc, csrAt_pcInc, except_mtvec, atExec_mtvec]
    · rw [executeStepT_misaligned p chk ha] at htrap ⊢
      simp only [Option.some.injEq] at htrap ⊢
      subst htrap
      exact ⟨(except_mcause p 0 h42).trans (by decide), except_pc_zero p, except_mtvec p 0⟩
  · intro ha
    unfold executeStep
    rw [executeStepT_misaligned p chk ha]
    exact ⟨rfl, rfl, rfl, except_mtval_zero p h43, except_registers p 0, except_main_memory p 0⟩

theorem C11_trap_vector_witness :
    (executeStepT (set_pc sampleState 2) false).2.trap = some 0 ∧
      csrAt (executeStep (set_pc sampleState 2) false) 0x343 = 2 ∧
      (executeStep (set_pc sampleState 2) false).registers = sampleState.registers :=
  have h := (C11_trap_vector (set_pc sampleState 2) false
    (reachable_csrFileOK (Reachable.set_pc 2 (Reachable.init sampleMem)))).2 (by decide)
  ⟨h.1, h.2.2.2.1, h.2.2.2.2.1⟩

/-- C12 fails for cause 0: with `pc = 2` the step raises cause 0 by calling `except(0)`,
and `mepc` is 0 afterwards, not the old `pc` 2. -/
theorem C12_counterexample :
    (set_pc sampleState 2).pc = 2 ∧
      executeStepT (set_pc sampleState 2) false =
        (except (set_pc sampleState 2) 0,
          { halted := false, irq := none, trap := some 0, word := none }) ∧
      csrAt (except (set_pc sampleState 2) 0) 0x341 = 0 := by
  decide

/-- C12, amended: in every state with a well-formed CSR file, after `except(cause)` the
register `mepc` holds the old `pc` with its two low bits cleared (the write goes through the
`mepc` mask of `set_csr`).  So `mepc` equals the old `pc` when that is a 4-aligned 64-bit
value, and differs from it when it is not 4-aligned, which is the case of cause 0.  In a
step from a 4-aligned 64-bit `pc`, every trap raised (by `except` or by the sequence of
`ins_ebreak`) leaves in `mepc` exactly the `pc` at which the instruction was fetched. -/
theorem C12_mepc_is_masked_pc (p : processor) (cause : Nat) (hok : CsrFileOK p.csrs) :
    csrAt (except p cause) 0x341 = p.pc &&& 0xfffffffffffffffc ∧
    (p.pc < 2 ^ 64 → p.pc % 4 = 0 → csrAt (except p cause) 0x341 = p.pc) ∧
    (p.pc % 4 ≠ 0 → csrAt (except p cause) 0x341 ≠ p.pc) ∧
    (∀ chk c, p.pc < 2 ^ 64 → p.pc % 4 = 0 → (executeStepT p chk).2.trap = some c →
      csrAt (executeStep p chk) 0x341 = (atFetch p).pc) := by
  have h41 := present_of_ok hok 0x341 (by decide)
  have e := except_mepc p cause h41
  refine ⟨e, ?_, ?_, ?_⟩
  · intro hlt ha
    rw [e, and_not_3_of_aligned _ hlt ha]
  · intro ha hne
    rw [e] at hne
    have := mtvecBase_mod p.pc
    unfold mtvecBase at this
    rw [hne] at this
    exact ha this
  · intro chk c hlt ha htrap
    unfold executeStep
    have hrun := executeStepT_trap_run p chk ha c htrap
    rw [executeStepT_run p chk ha hrun] at htrap ⊢
    simp only at htrap ⊢
    have h41' := present_of_ok (atExec_ok p hok) 0x341 (by decide)
    have hq := and_not_3_of_aligned _ (atFetch_pc_lt p hlt) (atFetch_pc_mod p ha)
    rcases executeInsT_trap _ c htrap with ⟨-, -, e'⟩ | ⟨-, e'⟩
    · rw [e', csrAt_countInc, csrAt_pcInc, ebreakBody_mepc _ h41', atExec_pc, hq]
    · rw [e', csrAt_countInc, csrAt_pcInc, except_mepc _ _ h41', atExec_pc, hq]

theorem C12_mepc_is_masked_pc_witness :
    csrAt (except (set_pc sampleState 2) 0) 0x341 = 2 &&& 0xfffffffffffffffc ∧
      csrAt (except sampleState 2) 0x341 = 0 :=
  ⟨(C12_mepc_is_masked_pc (set_pc sampleState 2) 0
      (reachable_csrFileOK (Reachable.set_pc 2 (Reachable.init sampleMem)))).1,
    (C12_mepc_is_masked_pc sampleState 2
      (reachable_csrFileOK (Reachable.init sampleMem))).2.1 (by decide) (by decide)⟩

/-- C13 fails on the code for a trap raised from Machine mode with `mstatus.mie = 1`: in
Machine mode with `mstatus = 0x2_0000_0008` and no interrupt pending, the step on `ECALL`
raises cause 11 through `except(11)`, and afterwards `mstatus = 0x2_0000_1808`:
`mstatus.mie` is still 1 (not 0), `mstatus.mpie` is 0 (not the old `mie` 1), and only
`mstatus.mpp = 3` is as stated. -/
theorem C13_machine_trap_keeps_mie :
    ecallMieState.prv = 3 ∧
      mstatusMie (csrAt ecallMieState 0x300) = 1 ∧
      executeStepT ecallMieState false =
        (countInc (pcInc (except (atExec ecallMieState) 11)),
          { halted := false, irq := none, trap := some 11, word := some 0x00000073 }) ∧
      csrAt (executeStep ecallMieState false) 0x300 = 0x200001808 ∧
      mstatusMie (csrAt (executeStep ecallMieState false) 0x300) = 1 ∧
      mstatusMpie (csrAt (executeStep ecallMieState false) 0x300) = 0 ∧
      mstatusMpp (csrAt (executeStep ecallMieState false) 0x300) = 3 := by
  decide

/-- C14 fails on the code when the immediate is not 0: with `x1 = 0x100` the step on
`LH x2, 1(x1)` computes the effective address 0x101, raises cause 4 through `except(4)`,
and leaves in `mtval` the base register value 0x100, not the misaligned address 0x101. -/
theorem C14_mtval_is_base_register :
    reg (atExec lhState) (atExec lhState).decoder.rs1 = 0x100 ∧
      (atExec lhState).decoder.imm = 1 ∧
      effAddr (atExec lhState) = 0x101 ∧
      executeStepT lhState false =
        (countInc (pcInc (except (atExec lhState) 4)),
          { halted := false, irq := none, trap := some 4, word := some 0x00109103 }) ∧
      csrAt (executeStep lhState false) 0x343 = 0x100 := by
  decide

/-- C15: in every state with a 4-aligned `pc` and a 64-bit retired counter, a step that is
not stopped at the breakpoint and runs an LH, LHU, LW, LWU, LD, SH, SW or SD whose
effective address `effAddr` (that is `x[rs1] + sext(imm)` modulo 2^64) is not a multiple of
its alignment 2, 4 or 8 raises cause 4 (loads) or cause 6 (stores), and after it the 32
registers, the memory, every CSR other than `mstatus`, `mepc`, `mcause` and `mtval`, and the
retired counter are what they were before the step. -/
theorem C15_misaligned_access_frame (p : processor) (chk : Bool) (c : Nat)
    (ha : p.pc % 4 = 0) (hcnt : p.ins_count < 2 ^ 64)
    (hrun : (executeStepT p chk).2.halted = false)
    (hkind : misalignedCause (atExec p).decoder.code = some c)
    (hmis : effAddr (atExec p) % alignOf (atExec p).decoder.code ≠ 0) :
    (executeStepT p chk).2.trap = some c ∧
      (executeStep p chk).registers = p.registers ∧
      (executeStep p chk).main_memory = p.main_memory ∧
      (∀ k, k ∉ trapCSRs → umFind (executeStep p chk).csrs k = umFind p.csrs k) ∧
      (executeStep p chk).ins_count = p.ins_count := by
  have hc : c ≠ 0 := by
    intro h0
    subst h0
    cases hk : (atExec p).decoder.code <;> rw [hk] at hkind <;>
      simp [misalignedCause] at hkind
  unfold executeStep
  rw [executeStepT_run p chk ha hrun, executeInsT_misaligned _ c hkind hmis]
  refine ⟨rfl, ?_, ?_, ?_, ?_⟩
  · simp only [countInc_registers, pcInc_registers, except_registers, atExec_registers]
  · simp only [countInc_main_memory, pcInc_main_memory, except_main_memory,
      atExec_main_memory]
  · intro k hk
    have hk' := hk
    simp only [trapCSRs, List.mem_cons, List.mem_singleton, List.not_mem_nil, or_false,
      not_or] at hk'
    simp only [countInc_csrs, pcInc_csrs]
    rw [except_umFind_other _ _ _ hk, atExec_csrs]
    exact atFetch_umFind_other p k (fun e => hk'.1 e.symm) (fun e => hk'.2.1 e.symm)
      (fun e => hk'.2.2.1 e.symm)
  · simp only [countInc_ins_count, pcInc_ins_count, except_ins_count_of_ne _ _ hc,
      atExec_ins_count]
    omega

theorem C15_misaligned_access_frame_witness :
    (executeStepT lhState false).2.trap = some 4 ∧
      (executeStep lhState false).registers = lhState.registers ∧
      (executeStep lhState false).ins_count = 0 :=
  have h := C15_misaligned_access_frame lhState false 4 (by decide) (by decide) (by decide)
    (by decide) (by decide)
  ⟨h.1, h.2.1, h.2.2.2.2⟩

/-- C16: in every state with a well-formed CSR file, a 4-aligned 64-bit `pc`, a 64-bit
retired counter and no interrupt to deliver, a step that is not stopped at the breakpoint
and decodes `ECALL` raises cause 8 when the privilege is User and cause 11 when it is
Machine; in the User case afterwards `mcause = 8`, `mepc` is the `pc` before the step,
`mtval = 0`, the privilege is Machine, `pc` is `mtvec` with its two low bits cleared, the
registers and the memory are unchanged, and the retired counter has its value of before
the step. -/
theorem C16_ecall (p : processor) (chk : Bool) (hok : CsrFileOK p.csrs)
    (ha : p.pc % 4 = 0) (hpc : p.pc < 2 ^ 64) (hcnt : p.ins_count < 2 ^ 64)
    (hirq : (checkInterruptT p).2 = none)
    (hrun : (executeStepT p chk).2.halted = false)
    (hcode : (decodeAt p).decoder.code = ins_ecall) :
    (p.prv = 0 →
      (executeStepT p chk).2.trap = some 8 ∧
      csrAt (executeStep p chk) 0x342 = 8 ∧
      csrAt (executeStep p chk) 0x341 = p.pc ∧
      csrAt (executeStep p chk) 0x343 = 0 ∧
      (executeStep p chk).prv = 3 ∧
      (executeStep p chk).pc = mtvecBase (csrAt p 0x305) ∧
      (executeStep p chk).registers = p.registers ∧
      (executeStep p chk).main_memory = p.main_memory ∧
      (executeStep p chk).ins_count = p.ins_count) ∧
    (p.prv = 3 → (executeStepT p chk).2.trap = some 11) := by
  have hq : atExec p = decodeAt p := by
    unfold atExec
    rw [atFetch_of_no_irq p hirq]
  have h41 : umFind (decodeAt p).csrs 0x341 ≠ none := present_of_ok hok 0x341 (by decide)
  have h42 : umFind (decodeAt p).csrs 0x342 ≠ none := present_of_ok hok 0x342 (by decide)
  have h43 : umFind (decodeAt p).csrs 0x343 ≠ none := present_of_ok hok 0x343 (by decide)
  unfold executeStep
  rw [executeStepT_run p chk ha hrun, hq, executeInsT_ecall _ hcode, decodeAt_prv]
  constructor
  · intro h0
    rw [if_pos h0]
    refine ⟨rfl, ?_, ?_, ?_, ?_, ?_, ?_, ?_, ?_⟩
    · rw [csrAt_countInc, csrAt_pcInc, except_mcause _ _ h42]
      decide
    · rw [csrAt_countInc, csrAt_pcInc, except_mepc _ _ h41, decodeAt_pc,
        and_not_3_of_aligned _ hpc ha]
    · rw [csrAt_countInc, csrAt_pcInc, except_mtval_ecall_user _ h43]
    · rw [countInc_prv, pcInc_prv, except_prv_ecall]
    · rw [countInc_pc, pcInc_except_pc _ _ (by decide)]
      exact congrArg mtvecBase (csrAt_of_csrs (decodeAt_csrs p) 0x305)
    · simp only [countInc_registers, pcInc_registers, except_registers, decodeAt_registers]
    · simp only [countInc_main_memory, pcInc_main_memory, except_main_memory,
        decodeAt_main_memory]
    · simp only [countInc_ins_count, pcInc_ins_count,
        except_ins_count_of_ne _ _ (by decide : (8 : Nat) ≠ 0), decodeAt_ins_count]
      omega
  · intro h3
    have h0 : ¬ p.prv = 0 := by omega
    rw [if_neg h0, if_pos h3]

theorem C16_ecall_witness :
    (executeStepT ecallUserState false).2.trap = some 8 ∧
      csrAt (executeStep ecallUserState false) 0x342 = 8 ∧
      (executeStep ecallUserState false).prv = 3 ∧
      (executeStep ecallUserState false).ins_count = 0 :=
  have h := (C16_ecall ecallUserState false
    (reachable_csrFileOK (Reachable.set_prv 0 (Reachable.init ecallMem)))
    (by decide) (by decide) (by decide) (by decide) (by decide) (by decide)).1 (by decide)
  ⟨h.1, h.2.1, h.2.2.2.2.1, h.2.2.2.2.2.2.2.2⟩

/-- C17 fails when an interrupt is delivered in the step.  In User mode with a machine
external interrupt pending and enabled at `pc = 8` (`mtvec = 0`, `EBREAK` at the handler
address 0), the step delivers interrupt 11 and then runs `EBREAK` at the handler: it is a
cause-3 trap, but `mepc` is 0 and not the `pc` 8 of before the step, and `mstatus.mpp` is 3
and not the old privilege 0. -/
theorem C17_counterexample :
    irqEbreakUserState.pc = 8 ∧ irqEbreakUserState.prv = 0 ∧
      (executeStepT irqEbreakUserState false).2 =
        { halted := false, irq := some 11, trap := some 3, word := some 0x00100073 } ∧
      csrAt (executeStep irqEbreakUserState false) 0x342 = 3 ∧
      (executeStep irqEbreakUserState false).prv = 3 ∧
      csrAt (executeStep irqEbreakUserState false) 0x341 = 0 ∧
      mstatusMpp (csrAt (executeStep irqEbreakUserState false) 0x300) = 3 := by
  decide

/-- C17, amended: in every state with a well-formed CSR file, a 4-aligned 64-bit `pc`, a
64-bit retired counter and the privilege User or Machine, a step that is not stopped at
the breakpoint and decodes `EBREAK` is a cause-3 trap: afterwards `mcause = 3`, `pc` is
`mtvec` with its two low bits cleared whatever the mode bit of `mtvec`, the privilege is
Machine, `mstatus.mie = 0`, and the retired counter has its value of before the step.
When no interrupt is delivered in the step, `mepc` is the `pc` before the step,
`mstatus.mpp` is the old privilege and `mstatus.mpie` is the old `mstatus.mie`.  When an
interrupt with cause `c` is delivered in the step, the `EBREAK` is the instruction at the
handler address: `mepc` is the `pc` that `interrupt(c)` leaves, `mstatus.mpp` is 3 (Machine)
and `mstatus.mpie` is 0. -/
theorem C17_ebreak (p : processor) (chk : Bool) (hok : CsrFileOK p.csrs)
    (ha : p.pc % 4 = 0) (hpc : p.pc < 2 ^ 64) (hcnt : p.ins_count < 2 ^ 64)
    (hrun : (executeStepT p chk).2.halted = false)
    (hcode : (atExec p).decoder.code = ins_ebreak)
    (hprv : p.prv = 0 ∨ p.prv = 3) :
    (executeStepT p chk).2.trap = some 3 ∧
      csrAt (executeStep p chk) 0x342 = 3 ∧
      (executeStep p chk).pc = mtvecBase (csrAt p 0x305) ∧
      (executeStep p chk).prv = 3 ∧
      mstatusMie (csrAt (executeStep p chk) 0x300) = 0 ∧
      (executeStep p chk).ins_count = p.ins_count ∧
      ((checkInterruptT p).2 = none →
        csrAt (executeStep p chk) 0x341 = p.pc ∧
        mstatusMpp (csrAt (executeStep p chk) 0x300) = p.prv ∧
        mstatusMpie (csrAt (executeStep p chk) 0x300) = mstatusMie (csrAt p 0x300)) ∧
      (∀ c, (checkInterruptT p).2 = some c →
        csrAt (executeStep p chk) 0x341 = (interrupt p c).pc ∧
        mstatusMpp (csrAt (executeStep p chk) 0x300) = 3 ∧
        mstatusMpie (csrAt (executeStep p chk) 0x300) = 0) := by
  obtain ⟨g1, g2, g3, g4, g5, g6, g7, g8, g9, -⟩ :=
    step_ebreak p chk hok ha hpc hcnt hrun hcode (atFetch_prv p hprv)
  refine ⟨g1, g3, g4, g5, g8, g9, ?_, ?_⟩
  · intro h
    have e := atFetch_of_no_irq p h
    rw [g2, g6, g7, e]
    exact ⟨rfl, rfl, rfl⟩
  · intro c h
    have e : atFetch p = interrupt p c := checkInterruptT_delivers p c h
    rw [g2, g6, g7, e, interrupt_prv p c hprv]
    refine ⟨rfl, rfl, ?_⟩
    unfold mstatusMie
    exact interrupt_mie p c

theorem C17_ebreak_witness :
    (executeStepT (set_prv (processor.init ebreakMem) 0) false).2.trap = some 3 ∧
      csrAt (executeStep (set_prv (processor.init ebreakMem) 0) false) 0x342 = 3 ∧
      (executeStep (set_prv (processor.init ebreakMem) 0) false).prv = 3 ∧
      csrAt (executeStep (set_prv (processor.init ebreakMem) 0) false) 0x341 = 0 ∧
      mstatusMpp (csrAt (executeStep (set_prv (processor.init ebreakMem) 0) false) 0x300)
        = 0 :=
  have h := C17_ebreak (set_prv (processor.init ebreakMem) 0) false
    (reachable_csrFileOK (Reachable.set_prv 0 (Reachable.init ebreakMem)))
    (by decide) (by decide) (by decide) (by decide) (by decide) (by decide)
  ⟨h.1, h.2.1, h.2.2.2.1, (h.2.2.2.2.2.2.1 (by decide)).1.trans (by decide),
    (h.2.2.2.2.2.2.1 (by decide)).2.1.trans (by decide)⟩

/-- C18 fails when an interrupt is delivered in the step.  In Machine mode with
`mepc = 0x40`, `mstatus.mie = 1`, `mstatus.mpie = 0` and a machine external interrupt
pending and enabled at `pc = 8` (`mtvec = 0`, `MRET` at the handler address 0), the step
delivers interrupt 11 and then runs `MRET` at the handler: afterwards `mepc` is 8 and not
0x40, `mcause` has changed, `pc` is 8, and `mstatus.mie` is 1 while the old `mstatus.mpie`
was 0. -/
theorem C18_counterexample :
    irqMretState.pc = 8 ∧ irqMretState.prv = 3 ∧
      csrAt irqMretState 0x341 = 0x40 ∧ csrAt irqMretState 0x342 = 0 ∧
      mstatusMpie (csrAt irqMretState 0x300) = 0 ∧
      (executeStepT irqMretState false).2 =
        { halted := false, irq := some 11, trap := none, word := some 0x30200073 } ∧
      (executeStep irqMretState false).pc = 8 ∧
      csrAt (executeStep irqMretState false) 0x341 = 8 ∧
      csrAt (executeStep irqMretState false) 0x342 = 0x800000000000000B ∧
      mstatusMie (csrAt (executeStep irqMretState false) 0x300) = 1 := by
  decide

/-- C18, amended: in every reachable state in Machine privilege with a 4-aligned `pc`, a
step that is not stopped at the breakpoint and decodes `MRET` raises no trap and ends with
`pc = mepc` (the final `pc += 4` cancels the `- 4`), `mstatus.mpie = 1`, `mstatus.mpp = 0`,
the registers and the memory unchanged, and the retired counter incremented by 1 (modulo
2^64).  When no interrupt is delivered in the step, `pc` is the `mepc` of before the step,
`mstatus.mie` is the old `mstatus.mpie`, and every other bit of `mstatus` and every other
CSR is unchanged.  When an interrupt with cause `c` is delivered in the step, the `MRET` is
the instruction at the handler address, and the same holds with the values that
`interrupt(c)` leaves in place of the old ones. -/
theorem C18_mret (p : processor) (chk : Bool) (hp : Reachable p)
    (ha : p.pc % 4 = 0)
    (hrun : (executeStepT p chk).2.halted = false)
    (hcode : (atExec p).decoder.code = ins_mret)
    (hprv : p.prv = 3) :
    (executeStepT p chk).2.trap = none ∧
      (executeStep p chk).pc = csrAt (executeStep p chk) 0x341 ∧
      mstatusMpie (csrAt (executeStep p chk) 0x300) = 1 ∧
      mstatusMpp (csrAt (executeStep p chk) 0x300) = 0 ∧
      (executeStep p chk).registers = p.registers ∧
      (executeStep p chk).main_memory = p.main_memory ∧
      (executeStep p chk).ins_count = (p.ins_count + 1) % 2 ^ 64 ∧
      ((checkInterruptT p).2 = none →
        (executeStep p chk).pc = csrAt p 0x341 ∧
        mstatusMie (csrAt (executeStep p chk) 0x300) = mstatusMpie (csrAt p 0x300) ∧
        (∀ i, i ≠ 3 → i ≠ 7 → i ≠ 11 → i ≠ 12 →
          (csrAt (executeStep p chk) 0x300).testBit i = (csrAt p 0x300).testBit i) ∧
        (∀ k, k ≠ 0x300 → umFind (executeStep p chk).csrs k = umFind p.csrs k)) ∧
      (∀ c, (checkInterruptT p).2 = some c →
        (executeStep p chk).pc = csrAt (interrupt p c) 0x341 ∧
        mstatusMie (csrAt (executeStep p chk) 0x300)
          = mstatusMpie (csrAt (interrupt p c) 0x300) ∧
        (∀ i, i ≠ 3 → i ≠ 7 → i ≠ 11 → i ≠ 12 →
          (csrAt (executeStep p chk) 0x300).testBit i
            = (csrAt (interrupt p c) 0x300).testBit i) ∧
        (∀ k, k ≠ 0x300 →
          umFind (executeStep p chk).csrs k = umFind (interrupt p c).csrs k)) := by
  have hv := atFetch_csrValuesOK p (reachable_csrValuesOK hp)
  obtain ⟨g1, g2, g3, g4, g5, g6, g7, g8, g9, g10, -⟩ :=
    step_mret p chk ha hrun hcode (atFetch_prv_machine p hprv)
      ((csrValueOK_mepc _).1 (hv 0x341)).2 ((csrValueOK_mstatus _).1 (hv 0x300)).2
  refine ⟨g1, ?_, g4, g5, g8, g9, g10, ?_, ?_⟩
  · rw [g2]
    exact (csrAt_congr _ _ 0x341 (g7 0x341 (by decide))).symm
  · intro h
    have e := atFetch_of_no_irq p h
    rw [e] at g2 g3 g6 g7
    exact ⟨g2, g3, g6, g7⟩
  · intro c h
    have e : atFetch p = interrupt p c := checkInterruptT_delivers p c h
    rw [e] at g2 g3 g6 g7
    exact ⟨g2, g3, g6, g7⟩

theorem C18_mret_witness :
    (executeStep (set_csr (processor.init mretMem) 0x341 0x40) false).pc = 0x40 ∧
      mstatusMpie (csrAt (executeStep (set_csr (processor.init mretMem) 0x341 0x40) false)
        0x300) = 1 ∧
      (executeStep (set_csr (processor.init mretMem) 0x341 0x40) false).ins_count = 1 :=
  have h := C18_mret (set_csr (processor.init mretMem) 0x341 0x40) false
    (Reachable.set_csr 0x341 0x40 (Reachable.init mretMem))
    (by decide) (by decide) (by decide) (by decide)
  ⟨(h.2.2.2.2.2.2.2.1 (by decide)).1.trans (by decide), h.2.2.1,
    h.2.2.2.2.2.2.1.trans (by decide)⟩

/-- C19 fails for the values 1 and 2 of `mstatus.mpp`: `set_csr(0x300, 0x800)` stores
`mstatus.mpp = 1`, and the step on `MRET` in Machine privilege then leaves the privilege
level 0, not 1. -/
theorem C19_counterexample :
    mretMpp1State = set_csr (processor.init mretMem) 0x300 0x800 ∧
      mretMpp1State.prv = 3 ∧
      mstatusMpp (csrAt mretMpp1State 0x300) = 1 ∧
      (atExec mretMpp1State).decoder.code = ins_mret ∧
      (executeStepT mretMpp1State false).2 =
        { halted := false, irq := none, trap := none, word := some 0x30200073 } ∧
      (executeStep mretMpp1State false).prv = 0 := by
  decide

/-- C19, amended: in every state with a 4-aligned `pc`, after a step that is not stopped at
the breakpoint and decodes `MRET` in Machine privilege, the privilege level is Machine (3)
when the field `mstatus.mpp` was 3 and User (0) otherwise.  So it equals the old
`mstatus.mpp` exactly when that was 0 or 3; and `set_csr` can store each of the four values
0, 1, 2, 3 in the field.  (`mstatus.mpp` is read in the state `atFetch p` in which the step
fetches.) -/
theorem C19_mret_privilege (p : processor) (chk : Bool)
    (ha : p.pc % 4 = 0)
    (hrun : (executeStepT p chk).2.halted = false)
    (hcode : (atExec p).decoder.code = ins_mret)
    (hprv : (atFetch p).prv = 3) :
    (executeStep p chk).prv
        = (if mstatusMpp (csrAt (atFetch p) 0x300) = 3 then 3 else 0) ∧
      ((executeStep p chk).prv = mstatusMpp (csrAt (atFetch p) 0x300) ↔
        (mstatusMpp (csrAt (atFetch p) 0x300) = 0 ∨
          mstatusMpp (csrAt (atFetch p) 0x300) = 3)) ∧
      (∀ v, v < 4 → mstatusMpp (csrMasked 0x300 (v <<< 11)) = v) := by
  have h0 : ¬ (atExec p).prv = 0 := by
    rw [atExec_prv, hprv]
    decide
  have e : (executeStep p chk).prv
      = (if mstatusMpp (csrAt (atFetch p) 0x300) = 3 then 3 else 0) := by
    unfold executeStep
    rw [executeStepT_run p chk ha hrun, executeInsT_mret _ hcode, if_neg h0]
    simp only []
    rw [countInc_prv, pcInc_prv, mretBody_prv, atExec_csrAt]
  refine ⟨e, ?_, ?_⟩
  · rw [e]
    split_ifs with h3
    · rw [h3]
      simp
    · constructor
      · intro h
        exact Or.inl h.symm
      · intro h
        rcases h with h | h
        · exact h.symm
        · exact absurd h h3
  · intro v hv
    interval_cases v <;> decide

theorem C19_mret_privilege_witness :
    (executeStep (processor.init mretMem) false).prv = 0 :=
  (C19_mret_privilege (processor.init mretMem) false (by decide) (by decide) (by decide)
    (by decide)).1.trans (by decide)

/-- C20: in every state with a well-formed CSR file, a 4-aligned `pc` and a 64-bit retired
counter, in a step that is not stopped at the breakpoint: each of CSRRW, CSRRS, CSRRC,
CSRRWI, CSRRSI, CSRRCI raises cause 2 if and only if the privilege is User, or the CSR
number (the `imm` field) is not one of the thirteen registered numbers, or it is one of
0xF11..0xF14 and the rs1/zimm field is not 0, and raises nothing otherwise; `MRET` raises
cause 2 when the privilege is User; and whenever cause 2 is raised, all registers (so
`x[rd]`) and every CSR other than `mstatus`, `mepc`, `mcause`, `mtval` are unchanged,
`mcause = 2`, `mtval` is the instruction word fetched, and the retired counter has its
value of before the step.  (The privilege is that of the state `atExec p` in which the
instruction runs.) -/
theorem C20_csr_illegal (p : processor) (chk : Bool) (hok : CsrFileOK p.csrs)
    (ha : p.pc % 4 = 0) (hcnt : p.ins_count < 2 ^ 64)
    (hrun : (executeStepT p chk).2.halted = false) :
    ((atExec p).decoder.code ∈ csrKinds →
      ((executeStepT p chk).2.trap = some 2 ↔
        ((atExec p).prv = 0 ∨ (atExec p).decoder.imm ∉ registeredCSRs ∨
          ((atExec p).decoder.imm ∈ readOnlyCSRs ∧ (atExec p).decoder.rs1 ≠ 0))) ∧
      ((executeStepT p chk).2.trap = some 2 ∨ (executeStepT p chk).2.trap = none)) ∧
    ((atExec p).decoder.code = ins_mret → (atExec p).prv = 0 →
      (executeStepT p chk).2.trap = some 2) ∧
    ((executeStepT p chk).2.trap = some 2 →
      (executeStep p chk).registers = p.registers ∧
      (∀ k, k ∉ trapCSRs → umFind (executeStep p chk).csrs k = umFind p.csrs k) ∧
      csrAt (executeStep p chk) 0x342 = 2 ∧
      csrAt (executeStep p chk) 0x343 = fetch (atFetch p) ∧
      (executeStepT p chk).2.word = some (fetch (atFetch p)) ∧
      (executeStep p chk).ins_count = p.ins_count) := by
  have hok' := atExec_ok p hok
  have h42 := present_of_ok hok' 0x342 (by decide)
  have h43 := present_of_ok hok' 0x343 (by decide)
  unfold executeStep
  rw [executeStepT_run p chk ha hrun]
  simp only []
  refine ⟨?_, ?_, ?_⟩
  · intro hk
    have hg := executeInsT_csr (atExec p) hk
    rw [← csrGuard_iff _ hok']
    by_cases g : csrGuard (atExec p) (atExec p).decoder.imm
    · rw [hg.1 g]
      exact ⟨⟨fun _ => g, fun _ => rfl⟩, Or.inl rfl⟩
    · rw [hg.2 g]
      exact ⟨⟨fun h => absurd h (by simp), fun h => absurd h g⟩, Or.inr rfl⟩
  · intro hk h0
    rw [executeInsT_mret _ hk, if_pos h0]
  · intro htrap
    have hword : (atExec p).decoder.ins = fetch (atFetch p) := by
      rcases Decoder.decodeIns_ins (atFetch p).decoder (fetch (atFetch p)) with h | h
      · exact h
      · have hd : (atExec p).decoder.code = ins_default := h
        rw [executeInsT_default _ hd] at htrap
        exact absurd htrap (by simp)
    rcases executeInsT_trap _ 2 htrap with ⟨h, -⟩ | ⟨-, e⟩
    · exact absurd h (by decide)
    · rw [e]
      refine ⟨?_, ?_, ?_, ?_, trivial, ?_⟩
      · simp only [countInc_registers, pcInc_registers, except_registers, atExec_registers]
      · intro k hk
        have hk' := hk
        simp only [trapCSRs, List.mem_cons, List.mem_singleton, List.not_mem_nil, or_false,
          not_or] at hk'
        simp only [countInc_csrs, pcInc_csrs]
        rw [except_umFind_other _ _ _ hk, atExec_csrs]
        exact atFetch_umFind_other p k (fun e => hk'.1 e.symm) (fun e => hk'.2.1 e.symm)
          (fun e => hk'.2.2.1 e.symm)
      · rw [csrAt_countInc, csrAt_pcInc, except_mcause _ _ h42]
        decide
      · rw [csrAt_countInc, csrAt_pcInc, except_mtval_illegal _ h43, hword]
      · simp only [countInc_ins_count, pcInc_ins_count,
          except_ins_count_of_ne _ _ (by decide : (2 : Nat) ≠ 0), atExec_ins_count]
        omega

theorem C20_csr_illegal_witness :
    (executeStepT csrrwUserState false).2.trap = some 2 ∧
      (executeStep csrrwUserState false).registers = csrrwUserState.registers ∧
      csrAt (executeStep csrrwUserState false) 0x343 = 0x34009073 :=
  have h := C20_csr_illegal csrrwUserState false
    (reachable_csrFileOK
      (Reachable.set_prv 0 (Reachable.set_reg 1 0x1234 (Reachable.init csrrwMem))))
    (by decide) (by decide) (by decide)
  have ht : (executeStepT csrrwUserState false).2.trap = some 2 :=
    (h.1 (by decide)).1.2 (Or.inl (by decide))
  ⟨ht, (h.2.2 ht).1, (h.2.2 ht).2.2.2.1.trans (by decide)⟩

/-- C21: in every reachable state with a 4-aligned `pc`, in a step that is not stopped at
the breakpoint and runs one of CSRRW, CSRRS, CSRRC, CSRRWI, CSRRSI, CSRRCI without trap
(`x[rs1]` being a 64-bit value): every register is unchanged except that `x[rd]`, when
`rd ≠ 0`, receives the CSR value read before any write (also when `rd = rs1`); CSRRW and
CSRRWI always, and the other four when the field `rs1`/`zimm` is not 0, leave the CSR file
that `set_csr(csr, value)` leaves, where `value` is `src`, `old | src` or `old & ~src`,
ANDed with 0x111 first when the CSR is `mip`, and `src` is `x[rs1]` or the 5-bit `zimm`;
otherwise the CSR file is unchanged; and a write to `mip` stores `value & 0x111`.  The old
values are those of the state `atExec p` in which the instruction runs, whose registers are
those of `p`. -/
theorem C21_csr_read_write (p : processor) (chk : Bool) (hp : Reachable p)
    (ha : p.pc % 4 = 0)
    (hrun : (executeStepT p chk).2.halted = false)
    (hk : (atExec p).decoder.code ∈ csrKinds)
    (hs : reg p (atExec p).decoder.rs1 < 2 ^ 64)
    (hnt : (executeStepT p chk).2.trap = none) :
    (∀ r, reg (executeStep p chk) r =
      if r = (atExec p).decoder.rd ∧ (atExec p).decoder.rd ≠ 0 then
        csrAt (atExec p) (atExec p).decoder.imm
      else reg p r) ∧
    (csrWrites (atExec p).decoder.code (atExec p).decoder.rs1 →
      (executeStep p chk).csrs =
        (set_csr (atExec p) (atExec p).decoder.imm
          (mipMask (atExec p).decoder.imm
            (csrOperation (atExec p).decoder.code (csrAt (atExec p) (atExec p).decoder.imm)
              (csrSource (atExec p).decoder.code (reg p (atExec p).decoder.rs1)
                (atExec p).decoder.rs1)))).csrs) ∧
    (¬ csrWrites (atExec p).decoder.code (atExec p).decoder.rs1 →
      (executeStep p chk).csrs = (atExec p).csrs) ∧
    (csrWrites (atExec p).decoder.code (atExec p).decoder.rs1 →
      (atExec p).decoder.imm = 0x344 →
      csrAt (executeStep p chk) 0x344 =
        csrOperation (atExec p).decoder.code (csrAt (atExec p) 0x344)
          (csrSource (atExec p).decoder.code (reg p (atExec p).decoder.rs1)
            (atExec p).decoder.rs1) &&& 0x111) ∧
    (atExec p).decoder.rs1 < 32 ∧
    (executeStep p chk).main_memory = p.main_memory := by
  have hwf := atExec_regsOK p (reachable_regsOK hp)
  have hok := atExec_ok p (reachable_csrFileOK hp)
  have hreg : ∀ r, reg (atExec p) r = reg p r := reg_of_registers (atExec_registers p)
  have hg : ¬ csrGuard (atExec p) (atExec p).decoder.imm := by
    intro g
    rw [executeStepT_run p chk ha hrun, (executeInsT_csr _ hk).1 g] at hnt
    exact absurd hnt (by simp)
  have hs' : reg (atExec p) (atExec p).decoder.rs1 < 2 ^ 64 := by
    rw [hreg]
    exact hs
  have e := executeInsT_csr_ok (atExec p) hk hs' hwf.2.2.1 hg
  unfold executeStep
  rw [executeStepT_run p chk ha hrun, e, hreg]
  simp only []
  have hl : (atExec p).decoder.rd < (atExec p).registers.length := by
    rw [hwf.1]
    exact hwf.2.1
  refine ⟨?_, ?_, ?_, ?_, hwf.2.2.1, ?_⟩
  · intro r
    rw [← hreg r, ← reg_after_write (atExec p) _ _ r hl]
    apply reg_of_registers
    split_ifs <;>
      simp only [countInc_registers, pcInc_registers, set_csr_registers]
  · intro hw
    rw [if_pos hw]
    simp only [countInc_csrs, pcInc_csrs]
    exact set_csr_csrs_congr (set_reg_csrs _ _ _) _ _
  · intro hw
    rw [if_neg hw]
    simp only [countInc_csrs, pcInc_csrs, set_reg_csrs]
  · intro hw hn
    rw [if_pos hw, hn]
    have h44 : umFind (atExec p).csrs 0x344 ≠ none := present_of_ok hok 0x344 (by decide)
    have hc : (countInc (pcInc (set_csr (set_reg (atExec p) (atExec p).decoder.rd
        (csrAt (atExec p) 0x344)) 0x344 (mipMask 0x344
          (csrOperation (atExec p).decoder.code (csrAt (atExec p) 0x344)
            (csrSource (atExec p).decoder.code (reg p (atExec p).decoder.rs1)
              (atExec p).decoder.rs1)))))).csrs
        = (set_csr (atExec p) 0x344 (mipMask 0x344
          (csrOperation (atExec p).decoder.code (csrAt (atExec p) 0x344)
            (csrSource (atExec p).decoder.code (reg p (atExec p).decoder.rs1)
              (atExec p).decoder.rs1)))).csrs := by
      simp only [countInc_csrs, pcInc_csrs]
      exact set_csr_csrs_congr (set_reg_csrs _ _ _) _ _
    rw [csrAt_of_csrs hc, csrAt_set_csr_same _ _ _ h44 (by decide)]
    unfold mipMask
    rw [if_pos rfl, mip_premask]
  · split_ifs <;>
      simp only [countInc_main_memory, pcInc_main_memory, set_csr_main_memory,
        set_reg_main_memory, atExec_main_memory]

theorem C21_csr_read_write_witness :
    reg (executeStep csrrwState false) 0 = 0 ∧
      csrAt (executeStep csrrwState false) 0x340 = 0x1234 :=
  have h := C21_csr_read_write csrrwState false
    (Reachable.set_reg 1 0x1234 (Reachable.init csrrwMem))
    (by decide) (by decide) (by decide) (by decide) (by decide)
  ⟨(h.1 0).trans (by decide),
    (csrAt_of_csrs (h.2.1 (by decide)) 0x340).trans (by decide)⟩

/-- C22: at the start of every step with a 4-aligned `pc`, the interrupt delivered is the
one of the specification (`specInterrupt`): if `mstatus.mie == 1` or the privilege is User,
the first cause in the priority order 11, 3, 7, 8, 0, 4 whose bit is set in both `mip` and
`mie`, and none otherwise.  So an interrupt is delivered if and only if interrupts are
enabled in this sense and some cause of the list has its bit set in both registers; the
cause delivered is in the list, has both bits set, and `interrupt(c)` is what the step
calls; and in Machine privilege with `mstatus.mie == 0` nothing is delivered, whatever `mip`
and `mie` hold. -/
theorem C22_interrupt_priority (p : processor) (chk : Bool) (ha : p.pc % 4 = 0) :
    (executeStepT p chk).2.irq = specInterrupt p ∧
    ((executeStepT p chk).2.irq ≠ none ↔
      (irqEnabled p ∧ ∃ c, c ∈ irqPriority ∧ irqBit p c = true)) ∧
    (∀ c, (executeStepT p chk).2.irq = some c →
      c ∈ irqPriority ∧ irqBit p c = true ∧ atFetch p = interrupt p c) ∧
    ((executeStepT p chk).2.irq = none → atFetch p = p) ∧
    (p.prv = 3 → mstatusMie (csrAt p 0x300) = 0 → (executeStepT p chk).2.irq = none) := by
  have e : (executeStepT p chk).2.irq = specInterrupt p := by
    rw [executeStepT_irq p chk ha, checkInterruptT_spec]
  refine ⟨e, ?_, ?_, ?_, ?_⟩
  · rw [e]
    unfold specInterrupt
    constructor
    · intro h
      split_ifs at h with he
      · refine ⟨he, ?_⟩
        cases hf : List.find? (irqBit p) irqPriority with
        | none => exact absurd hf h
        | some c => exact ⟨c, List.mem_of_find?_eq_some hf, List.find?_some hf⟩
      · exact absurd rfl h
    · rintro ⟨he, c, hc, hb⟩
      rw [if_pos he]
      intro hn
      rw [List.find?_eq_none] at hn
      exact absurd hb (by simpa using hn c hc)
  · intro c hc
    have h1 := specInterrupt_mem p c (e ▸ hc)
    refine ⟨h1.2.1, h1.2.2, ?_⟩
    rw [executeStepT_irq p chk ha] at hc
    exact checkInterruptT_delivers p c hc
  · intro hn
    rw [executeStepT_irq p chk ha] at hn
    exact atFetch_of_no_irq p hn
  · intro h3 h0
    rw [e]
    unfold specInterrupt irqEnabled
    rw [if_neg]
    rw [h0, h3]
    decide

theorem C22_interrupt_priority_witness :
    (executeStepT irqState false).2.irq = some 11 ∧
      atFetch irqState = interrupt irqState 11 :=
  have h := C22_interrupt_priority irqState false (by decide)
  ⟨h.1.trans (by decide), (h.2.2.1 11 (by decide)).2.2⟩

/-- C23 fails: with a machine external interrupt pending and enabled at `pc = 8` and
`mtvec = 0`, the step delivers interrupt 11 and then goes on in the same iteration: it
fetches the word 0xFFF00093 (`ADDI x1, x0, -1`) at the handler address 0 and executes it, so
that afterwards `pc` is 4 (not the `mtvec` base 0), `x1` has changed and the retired counter
is 1. -/
theorem C23_counterexample :
    irqState.pc = 8 ∧ csrAt irqState 0x305 = 0 ∧ reg irqState 1 = 0 ∧
      irqState.ins_count = 0 ∧
      (executeStepT irqState false).2 =
        { halted := false, irq := some 11, trap := none, word := some 0xFFF00093 } ∧
      (executeStep irqState false).pc = 4 ∧
      reg (executeStep irqState false) 1 = 0xffffffffffffffff ∧
      (executeStep irqState false).ins_count = 1 := by
  decide

/-- C23, amended: when an interrupt with cause `c` fires in a step from a 4-aligned 64-bit
`pc` (CSR file well-formed), the step first calls `interrupt(c)`: in the state `atFetch p`
this leaves, `mepc` is the old `pc`, `mcause` is `2^63 | c`, `pc` is the `mtvec` base in
direct mode and base + 4 * c (modulo 2^64) in vectored mode, and the registers, the memory
and the retired counter are unchanged.  The step does not return there: unless it is
stopped at the breakpoint (then it ends in that state), it fetches the word at the new
`pc`, decodes and executes it and counts it, so the retired counter is incremented when
that instruction does not trap. -/
theorem C23_interrupt_then_execute (p : processor) (chk : Bool) (c : Nat)
    (hok : CsrFileOK p.csrs) (ha : p.pc % 4 = 0) (hpc : p.pc < 2 ^ 64)
    (hirq : (executeStepT p chk).2.irq = some c) :
    atFetch p = interrupt p c ∧
    csrAt (atFetch p) 0x341 = p.pc ∧
    csrAt (atFetch p) 0x342 = 2 ^ 63 ||| c ∧
    (atFetch p).pc =
      (if csrAt p 0x305 &&& 0x1 = 0 then mtvecBase (csrAt p 0x305)
        else (mtvecBase (csrAt p 0x305) + 4 * c) % 2 ^ 64) ∧
    (atFetch p).registers = p.registers ∧
    (atFetch p).main_memory = p.main_memory ∧
    (atFetch p).ins_count = p.ins_count ∧
    ((executeStepT p chk).2.halted = true → executeStep p chk = atFetch p) ∧
    ((executeStepT p chk).2.halted = false →
      (executeStepT p chk).2.word = some (fetch (atFetch p)) ∧
      executeStep p chk = countInc (executeIns (decodeAt (atFetch p))) ∧
      ((executeStepT p chk).2.trap = none →
        (executeStep p chk).ins_count = (p.ins_count + 1) % 2 ^ 64)) := by
  have hci : (checkInterruptT p).2 = some c := by
    rw [← executeStepT_irq p chk ha]
    exact hirq
  have hd : atFetch p = interrupt p c := checkInterruptT_delivers p c hci
  have hmem : c ∈ irqPriority :=
    (specInterrupt_mem p c ((checkInterruptT_spec p).symm.trans hci)).2.1
  have h41 := present_of_ok hok 0x341 (by decide)
  have h42 := present_of_ok hok 0x342 (by decide)
  refine ⟨hd, ?_, ?_, ?_, atFetch_registers p, atFetch_main_memory p, atFetch_ins_count p,
    ?_, ?_⟩
  · rw [hd, interrupt_mepc p c h41, and_not_3_of_aligned _ hpc ha]
  · rw [hd, interrupt_mcause p c h42, (interrupt_mcause_value c hmem).1]
  · rw [hd, interrupt_pc]
  · intro hh
    unfold executeStep
    unfold executeStepT at hh ⊢
    simp only [ha, ne_eq, not_true_eq_false, if_false] at hh ⊢
    split_ifs at hh ⊢ with hb
    · rfl
  · intro hr
    unfold executeStep
    rw [executeStepT_run p chk ha hr]
    refine ⟨rfl, rfl, ?_⟩
    intro hnt
    simp only [] at hnt ⊢
    rw [countInc_ins_count, ((executeInsT_facts (atExec p)).1 hnt).1, atExec_ins_count]

theorem C23_interrupt_then_execute_witness :
    atFetch irqState = interrupt irqState 11 ∧ csrAt (atFetch irqState) 0x341 = 8 ∧
      (executeStep irqState false).ins_count = 1 :=
  have h := C23_interrupt_then_execute irqState false 11
    (reachable_csrFileOK (Reachable.set_pc 8 (Reachable.set_csr 0x344 0x800
      (Reachable.set_csr 0x304 0x800 (Reachable.set_csr 0x300 0x8
        (Reachable.init sampleMem))))))
    (by decide) (by decide) (by decide)
  ⟨h.1, h.2.1, ((h.2.2.2.2.2.2.2.2 (by decide)).2.2 (by decide)).trans (by decide)⟩

/-- C24 fails on the code for an interrupt delivered from User privilege when
`mstatus.mpp` is not 0: in User mode with `mstatus = 0x2_0000_1800` (`mpp = 3`, `mie = 0`)
and a machine external interrupt pending and enabled, the step delivers interrupt 11; the
privilege becomes Machine, `mstatus.mie` is 0 and `mstatus.mpie` is the old `mie` 0, but
`mstatus.mpp` is still 3 and not the privilege 0 the interrupt was taken from. -/
theorem C24_user_interrupt_keeps_mpp :
    irqUserState.prv = 0 ∧
      csrAt irqUserState 0x300 = 0x200001800 ∧
      (executeStepT irqUserState false).2.irq = some 11 ∧
      atFetch irqUserState = interrupt irqUserState 11 ∧
      (atFetch irqUserState).prv = 3 ∧
      mstatusMie (csrAt (atFetch irqUserState) 0x300) = 0 ∧
      mstatusMpie (csrAt (atFetch irqUserState) 0x300) = 0 ∧
      mstatusMpp (csrAt (atFetch irqUserState) 0x300) = 3 ∧
      mstatusMpp (csrAt (executeStep irqUserState false) 0x300) = 3 := by
  decide

/-- C25: in every reachable state with a 4-aligned `pc`, in a step that is not stopped at
the breakpoint and runs a load (LB, LH, LW, LD, LBU, LHU, LWU) whose effective address
`a = (x[rs1] + sext64(imm12)) mod 2^64` meets the alignment requirement of the kind (2 for
LH/LHU, 4 for LW/LWU, 8 for LD, none for LB/LBU), the doubleword read being a 64-bit value:
no trap is raised, the memory is unchanged, and every register is unchanged except that
`x[rd]`, when `rd ≠ 0`, receives `specLoad`: the bits `(a mod 8) * 8` to
`(a mod 8) * 8 + 8 * w - 1` of the doubleword that `read_doubleword(a)` returns (the one at
`a & ~7`), sign-extended to 64 bits for LB, LH, LW, zero-extended for LBU, LHU, LWU, and
the whole doubleword for LD. -/
theorem C25_aligned_load (p : processor) (chk : Bool) (hp : Reachable p)
    (ha : p.pc % 4 = 0)
    (hrun : (executeStepT p chk).2.halted = false)
    (hk : (atExec p).decoder.code ∈ loadKinds)
    (hal : effAddr (atExec p) % alignOf (atExec p).decoder.code = 0)
    (hdw : p.main_memory.read_doubleword (effAddr (atExec p)) < 2 ^ 64) :
    effAddr (atExec p)
        = (reg p (atExec p).decoder.rs1 + signExt 12 (atExec p).decoder.imm) % 2 ^ 64 ∧
    (executeStepT p chk).2.trap = none ∧
    (executeStep p chk).main_memory = p.main_memory ∧
    (∀ r, reg (executeStep p chk) r =
      if r = (atExec p).decoder.rd ∧ (atExec p).decoder.rd ≠ 0 then
        specLoad (atExec p).decoder.code
          (p.main_memory.read_doubleword (effAddr (atExec p))) (effAddr (atExec p))
      else reg p r) ∧
    p.main_memory.read_doubleword (effAddr (atExec p))
        = p.main_memory.read_doubleword (effAddr (atExec p) &&& 0xfffffffffffffff8) ∧
    ((atExec p).decoder.code = ins_ld →
      specLoad ins_ld (p.main_memory.read_doubleword (effAddr (atExec p)))
        (effAddr (atExec p)) = p.main_memory.read_doubleword (effAddr (atExec p))) := by
  have hwf := atExec_regsOK p (reachable_regsOK hp)
  have hreg : ∀ r, reg (atExec p) r = reg p r := reg_of_registers (atExec_registers p)
  have hmem := atExec_main_memory p
  have hdw' : (atExec p).main_memory.read_doubleword (effAddr (atExec p)) < 2 ^ 64 := by
    rw [hmem]
    exact hdw
  have e := executeInsT_load (atExec p) hk hal hdw'
  have hl : (atExec p).decoder.rd < (atExec p).registers.length := by
    rw [hwf.1]
    exact hwf.2.1
  refine ⟨?_, ?_, ?_, ?_, (memory.read_doubleword_masked _ _).symm, ?_⟩
  · rw [effAddr_eq, hreg]
  · rw [executeStepT_run p chk ha hrun, e]
  · unfold executeStep
    rw [executeStepT_run p chk ha hrun, e]
    simp only [countInc_main_memory, pcInc_main_memory, set_reg_main_memory, hmem]
  · intro r
    unfold executeStep
    rw [executeStepT_run p chk ha hrun, e]
    simp only []
    rw [reg_after_write (atExec p) _ _ r hl, hreg, hmem]
  · intro hld
    rw [hld] at hal
    exact (specLoad_ld _ _ hal hdw).symm

theorem C25_aligned_load_witness :
    reg (execute sdldState 2 false) 2 = 0xDEADBEEFCAFEF00D :=
  ((C25_aligned_load (execute sdldState 1 false) false
    (Reachable.execute 1 false (Reachable.set_pc 0x100
      (Reachable.set_reg 1 0xDEADBEEFCAFEF00D (Reachable.init sdldMem))))
    (by decide) (by decide) (by decide) (by decide) (by decide)).2.2.2.1 2).trans (by decide)

/-- C26: in every state with a 4-aligned `pc`, in a step that is not stopped at the
breakpoint and runs a store SB, SH, SW or SD (width `w` = 1, 2, 4, 8 bytes) whose effective
address `a` meets the alignment requirement, with `v = x[rs2]`: no trap is raised and the
registers are unchanged; in the doubleword read back at `a` (the one at `a & ~7`), each of
the 64 bits is the bit of `v` at the same place in the field of bits `(a mod 8) * 8` to
`(a mod 8) * 8 + 8 * w - 1` and the old bit outside it; every doubleword at another
`b & ~7` reads as before; the byte field at `a` holds `v mod 2^(8 * w)`; and a following
LBU, LHU, LWU or LD (the zero-extending load of the same width) at `a` over this memory
writes `v mod 2^(8 * w)` to its `rd`. -/
theorem C26_store_load_round_trip (p : processor) (chk : Bool)
    (ha : p.pc % 4 = 0)
    (hrun : (executeStepT p chk).2.halted = false)
    (hk : (atExec p).decoder.code ∈ storeKinds)
    (hal : effAddr (atExec p) % alignOf (atExec p).decoder.code = 0) :
    (executeStepT p chk).2.trap = none ∧
    (executeStep p chk).registers = p.registers ∧
    (∀ i, i < 64 →
      ((executeStep p chk).main_memory.read_doubleword (effAddr (atExec p))).testBit i =
        if effAddr (atExec p) % 8 * 8 ≤ i ∧
            i < effAddr (atExec p) % 8 * 8 + 8 * accessWidth (atExec p).decoder.code then
          (reg p (atExec p).decoder.rs2).testBit (i - effAddr (atExec p) % 8 * 8)
        else (p.main_memory.read_doubleword (effAddr (atExec p))).testBit i) ∧
    (∀ b, b &&& 0xfffffffffffffff8 ≠ effAddr (atExec p) &&& 0xfffffffffffffff8 →
      (executeStep p chk).main_memory.read_doubleword b = p.main_memory.read_doubleword b) ∧
    byteField ((executeStep p chk).main_memory.read_doubleword (effAddr (atExec p)))
        (effAddr (atExec p)) (accessWidth (atExec p).decoder.code)
      = reg p (atExec p).decoder.rs2 % 2 ^ (8 * accessWidth (atExec p).decoder.code) ∧
    (∀ q : processor, q.main_memory = (executeStep p chk).main_memory →
      q.decoder.code = zeroLoadOfWidth (accessWidth (atExec p).decoder.code) →
      effAddr q = effAddr (atExec p) →
      executeInsT q =
        (pcInc (set_reg q q.decoder.rd
          (reg p (atExec p).decoder.rs2 % 2 ^ (8 * accessWidth (atExec p).decoder.code))),
          none)) := by
  have hreg : ∀ r, reg (atExec p) r = reg p r := reg_of_registers (atExec_registers p)
  have e := executeInsT_store (atExec p) hk hal
  have hm : (executeStep p chk).main_memory =
      p.main_memory.write_doubleword (effAddr (atExec p))
        (storeData (atExec p).decoder.code (reg p (atExec p).decoder.rs2) (effAddr (atExec p)))
        (storeMask (atExec p).decoder.code (effAddr (atExec p))) := by
    unfold executeStep
    rw [executeStepT_run p chk ha hrun, e, hreg]
    simp only [countInc_main_memory, pcInc_main_memory]
    unfold memWrite
    rw [atExec_main_memory]
  have hrd := memory.read_write_same p.main_memory (effAddr (atExec p))
    (storeData (atExec p).decoder.code (reg p (atExec p).decoder.rs2) (effAddr (atExec p)))
    (storeMask (atExec p).decoder.code (effAddr (atExec p))) (effAddr (atExec p)) rfl
  have hbf : byteField ((executeStep p chk).main_memory.read_doubleword (effAddr (atExec p)))
        (effAddr (atExec p)) (accessWidth (atExec p).decoder.code)
      = reg p (atExec p).decoder.rs2 % 2 ^ (8 * accessWidth (atExec p).decoder.code) := by
    rw [hm, hrd]
    exact store_byteField _ hk _ _ _ hal
  refine ⟨?_, ?_, ?_, ?_, hbf, ?_⟩
  · rw [executeStepT_run p chk ha hrun, e]
  · unfold executeStep
    rw [executeStepT_run p chk ha hrun, e]
    simp only [countInc_registers, pcInc_registers, memWrite_registers, atExec_registers]
  · intro i hi
    rw [hm, hrd]
    exact store_testBit _ hk _ _ _ i hi hal
  · intro b hb
    rw [hm]
    exact memory.read_write_other _ _ _ _ b hb
  · intro q hq hc ha2
    have hkl : q.decoder.code ∈ loadKinds := by
      rw [hc]
      simp only [storeKinds, List.mem_cons, List.mem_singleton, List.not_mem_nil,
        or_false] at hk
      rcases hk with h | h | h | h <;> rw [h] <;> decide
    have hal2 : effAddr q % alignOf q.decoder.code = 0 := by
      rw [hc, ha2]
      simp only [storeKinds, List.mem_cons, List.mem_singleton, List.not_mem_nil,
        or_false] at hk
      rcases hk with h | h | h | h <;> rw [h] at hal ⊢ <;>
        simp only [alignOf, accessWidth, zeroLoadOfWidth] at hal ⊢ <;> omega
    have hlt : q.main_memory.read_doubleword (effAddr q) < 2 ^ 64 := by
      rw [hq, ha2, hm, hrd]
      exact store_lt _ hk _ _ _
    rw [executeInsT_load q hkl hal2 hlt, hc, specLoad_zero _ hk, hq, ha2, hbf]

theorem C26_store_load_round_trip_witness :
    (executeStep sdldState false).main_memory.read_doubleword 0 = 0xDEADBEEFCAFEF00D ∧
      reg (execute sdldState 2 false) 2 = reg sdldState 1 :=
  have h := C26_store_load_round_trip sdldState false (by decide) (by decide) (by decide)
    (by decide)
  ⟨by
    have h5 := h.2.2.2.2.1
    exact (by decide : (executeStep sdldState false).main_memory.read_doubleword 0
      = byteField ((executeStep sdldState false).main_memory.read_doubleword
          (effAddr (atExec sdldState))) (effAddr (atExec sdldState))
          (accessWidth (atExec sdldState).decoder.code)).trans (h5.trans (by decide)),
   (congrArg (fun r : processor × Option Nat => reg (countInc r.1) 2)
      (h.2.2.2.2.2 (atExec (executeStep sdldState false)) (by decide) (by decide)
        (by decide))).trans (by decide)⟩

/-- C27: in every reachable state with a 4-aligned `pc`, in a step that is not stopped at
the breakpoint and runs ADDI, XORI, ORI, ANDI, SLTI, SLTIU, LUI or AUIPC (`x[rs1]` being a
64-bit value): no trap is raised, `pc` advances by 4, the memory is unchanged and every
register is unchanged except that `x[rd]`, when `rd ≠ 0`, receives `specImm`: with `S` the
12-bit immediate read as a two's complement number and extended to 64 bits, `x[rs1] + S`
modulo 2^64, `x[rs1] ^ S`, `x[rs1] | S`, `x[rs1] & S`, 1 or 0 according to `x[rs1] < S` as
signed (SLTI) or unsigned (SLTIU) 64-bit values; for LUI the 32-bit value `imm << 12`
sign-extended to 64 bits, for AUIPC the `pc` of the instruction plus that value. -/
theorem C27_immediate_operands (p : processor) (chk : Bool) (hp : Reachable p)
    (ha : p.pc % 4 = 0)
    (hrun : (executeStepT p chk).2.halted = false)
    (hk : (atExec p).decoder.code ∈ immKinds)
    (hx : reg p (atExec p).decoder.rs1 < 2 ^ 64) :
    (executeStepT p chk).2.trap = none ∧
    (executeStep p chk).pc = ((atFetch p).pc + 4) % 2 ^ 64 ∧
    (executeStep p chk).main_memory = p.main_memory ∧
    (∀ r, reg (executeStep p chk) r =
      if r = (atExec p).decoder.rd ∧ (atExec p).decoder.rd ≠ 0 then
        specImm (atExec p).decoder.code (reg p (atExec p).decoder.rs1)
          (atExec p).decoder.imm (atFetch p).pc
      else reg p r) ∧
    ((checkInterruptT p).2 = none → atFetch p = p) := by
  have hwf := atExec_regsOK p (reachable_regsOK hp)
  have hreg : ∀ r, reg (atExec p) r = reg p r := reg_of_registers (atExec_registers p)
  have hx' : reg (atExec p) (atExec p).decoder.rs1 < 2 ^ 64 := by
    rw [hreg]
    exact hx
  have e := executeInsT_imm (atExec p) hk hx'
  have hl : (atExec p).decoder.rd < (atExec p).registers.length := by
    rw [hwf.1]
    exact hwf.2.1
  unfold executeStep
  rw [executeStepT_run p chk ha hrun, e, hreg, atExec_pc]
  refine ⟨rfl, ?_, ?_, ?_, atFetch_of_no_irq p⟩
  · simp only [countInc_pc, pcInc_pc, set_reg_pc, atExec_pc]
  · simp only [countInc_main_memory, pcInc_main_memory, set_reg_main_memory,
      atExec_main_memory]
  · intro r
    simp only []
    rw [reg_after_write (atExec p) _ _ r hl, hreg]

theorem C27_immediate_operands_witness :
    reg (executeStep sampleState false) 1 = 0xFFFFFFFFFFFFFFFF ∧
      (executeStep sampleState false).pc = 4 ∧
      reg (execute sampleState 2 false) 2 = 0xFFFFFFFFFFFFF000 :=
  have h1 := C27_immediate_operands sampleState false (Reachable.init sampleMem)
    (by decide) (by decide) (by decide) (by decide)
  have h2 := C27_immediate_operands (execute sampleState 1 false) false
    (Reachable.execute 1 false (Reachable.init sampleMem))
    (by decide) (by decide) (by decide) (by decide)
  ⟨(h1.2.2.2.1 1).trans (by decide), h1.2.1.trans (by decide),
    (h2.2.2.2.1 2).trans (by decide)⟩

/-- C28: in every reachable state with a 4-aligned `pc`, in a step that is not stopped at
the breakpoint and runs SLLI, SRLI, SRAI, SLL, SRL or SRA (`x[rs1]` being a 64-bit value):
the shift amount `s` is the 6-bit value `((funct7 & 1) << 5) | rs2` for the immediate
forms and `x[rs2] & 0x3F` for the register forms, it is below 64, no trap is raised, and
every register is unchanged except that `x[rd]`, when `rd ≠ 0`, receives `specShift`:
`x[rs1] * 2^s` modulo 2^64 for SLLI/SLL, `floor(x[rs1] / 2^s)` for SRLI/SRL, and for
SRAI/SRA the 64-bit two's complement value of `floor(signed(x[rs1]) / 2^s)`, for every
`s` from 0 to 63 and every sign of `x[rs1]`. -/
theorem C28_shifts (p : processor) (chk : Bool) (hp : Reachable p)
    (ha : p.pc % 4 = 0)
    (hrun : (executeStepT p chk).2.halted = false)
    (hk : (atExec p).decoder.code ∈ shiftKinds)
    (hx : reg p (atExec p).decoder.rs1 < 2 ^ 64) :
    shiftAmount (atExec p).decoder.code (atExec p).decoder.funct7 (atExec p).decoder.rs2
        (reg p (atExec p).decoder.rs2) < 64 ∧
    (executeStepT p chk).2.trap = none ∧
    (∀ r, reg (executeStep p chk) r =
      if r = (atExec p).decoder.rd ∧ (atExec p).decoder.rd ≠ 0 then
        specShift (atExec p).decoder.code (reg p (atExec p).decoder.rs1)
          (shiftAmount (atExec p).decoder.code (atExec p).decoder.funct7
            (atExec p).decoder.rs2 (reg p (atExec p).decoder.rs2))
      else reg p r) ∧
    (executeStep p chk).main_memory = p.main_memory := by
  have hwf := atExec_regsOK p (reachable_regsOK hp)
  have hreg : ∀ r, reg (atExec p) r = reg p r := reg_of_registers (atExec_registers p)
  have hx' : reg (atExec p) (atExec p).decoder.rs1 < 2 ^ 64 := by
    rw [hreg]
    exact hx
  have e := executeInsT_shift (atExec p) hk hx' hwf.2.2.2
  have hl : (atExec p).decoder.rd < (atExec p).registers.length := by
    rw [hwf.1]
    exact hwf.2.1
  unfold executeStep
  rw [executeStepT_run p chk ha hrun, e, hreg, hreg]
  refine ⟨shiftAmount_lt _ _ _ _ hwf.2.2.2, rfl, ?_, ?_⟩
  · intro r
    simp only []
    rw [reg_after_write (atExec p) _ _ r hl, hreg]
  · simp only [countInc_main_memory, pcInc_main_memory, set_reg_main_memory,
      atExec_main_memory]

theorem C28_shifts_witness :
    reg (execute (processor.init sraiMem) 3 false) 2 = 0xC000000000000000 :=
  ((C28_shifts (execute (processor.init sraiMem) 2 false) false
    (Reachable.execute 2 false (Reachable.init sraiMem))
    (by decide) (by decide) (by decide) (by decide)).2.2.1 2).trans (by decide)

/-- C29: in every reachable state with a 4-aligned `pc`, in a step that is not stopped at
the breakpoint and runs ADDIW, SLLIW, SRLIW, SRAIW, ADDW, SUBW, SLLW, SRLW or SRAW
(`x[rs2]` being a 64-bit value): no trap is raised and every register is unchanged except
that `x[rd]`, when `rd ≠ 0`, receives the sign extension from bit 31 of `specW32`, the
32-bit result on the low 32 bits of the operands: sum or difference modulo 2^32, left,
logical right or arithmetic right shift of the 32-bit value by the 5-bit field `rs2`
(immediate forms) or by `x[rs2] & 0x1F` (register forms).  The bits 32 to 63 of the value
written all equal its bit 31, and the 32-bit result is the same for any operands with the
same low 32 bits. -/
theorem C29_w_type (p : processor) (chk : Bool) (hp : Reachable p)
    (ha : p.pc % 4 = 0)
    (hrun : (executeStepT p chk).2.halted = false)
    (hk : (atExec p).decoder.code ∈ wKinds)
    (hy : reg p (atExec p).decoder.rs2 < 2 ^ 64) :
    (executeStepT p chk).2.trap = none ∧
    (∀ r, reg (executeStep p chk) r =
      if r = (atExec p).decoder.rd ∧ (atExec p).decoder.rd ≠ 0 then
        signExt 32 (specW32 (atExec p).decoder.code (reg p (atExec p).decoder.rs1)
          (wOperand (atExec p).decoder.code (atExec p).decoder.imm (atExec p).decoder.rs2
            (reg p (atExec p).decoder.rs2)))
      else reg p r) ∧
    (∀ i, 32 ≤ i → i < 64 →
      (signExt 32 (specW32 (atExec p).decoder.code (reg p (atExec p).decoder.rs1)
          (wOperand (atExec p).decoder.code (atExec p).decoder.imm (atExec p).decoder.rs2
            (reg p (atExec p).decoder.rs2)))).testBit i =
        (signExt 32 (specW32 (atExec p).decoder.code (reg p (atExec p).decoder.rs1)
          (wOperand (atExec p).decoder.code (atExec p).decoder.imm (atExec p).decoder.rs2
            (reg p (atExec p).decoder.rs2)))).testBit 31) ∧
    (∀ x2 y2, x2 % 2 ^ 32 = reg p (atExec p).decoder.rs1 % 2 ^ 32 →
      y2 % 2 ^ 32 = wOperand (atExec p).decoder.code (atExec p).decoder.imm
        (atExec p).decoder.rs2 (reg p (atExec p).decoder.rs2) % 2 ^ 32 →
      specW32 (atExec p).decoder.code x2 y2 =
        specW32 (atExec p).decoder.code (reg p (atExec p).decoder.rs1)
          (wOperand (atExec p).decoder.code (atExec p).decoder.imm (atExec p).decoder.rs2
            (reg p (atExec p).decoder.rs2))) ∧
    (atExec p).decoder.rs2 < 32 ∧
    (executeStep p chk).main_memory = p.main_memory := by
  have hwf := atExec_regsOK p (reachable_regsOK hp)
  have hreg : ∀ r, reg (atExec p) r = reg p r := reg_of_registers (atExec_registers p)
  have hy2 : reg (atExec p) (atExec p).decoder.rs2 < 2 ^ 64 := by
    rw [hreg]
    exact hy
  have e := executeInsT_w (atExec p) hk hy2 hwf.2.2.2
  have hl : (atExec p).decoder.rd < (atExec p).registers.length := by
    rw [hwf.1]
    exact hwf.2.1
  unfold executeStep
  rw [executeStepT_run p chk ha hrun, e, hreg, hreg]
  refine ⟨rfl, ?_, ?_, ?_, hwf.2.2.2, ?_⟩
  · intro r
    simp only []
    rw [reg_after_write (atExec p) _ _ r hl, hreg]
  · intro i h1 h2
    exact signExt_32_testBit _ i h1 h2
  · intro x2 y2 hx2 hy2
    exact specW32_low _ _ _ x2 y2 hx2 hy2
  · simp only [countInc_main_memory, pcInc_main_memory, set_reg_main_memory,
      atExec_main_memory]

theorem C29_w_type_witness :
    reg (executeStep addwState false) 3 = 0xFFFFFFFF80000000 :=
  ((C29_w_type addwState false
    (Reachable.set_reg 2 1 (Reachable.set_reg 1 0x17FFFFFFF (Reachable.init addwMem)))
    (by decide) (by decide) (by decide) (by decide)).2.1 3).trans (by decide)

/-- C30: JAL decode/execute round trip.  For every even offset `o` with
`-2^20 ≤ o < 2^20`, every `rd < 32` and every reachable state whose `pc` is a 64-bit
value: a step that executes the standard J-type encoding of `JAL rd, o` (the word
`encodeJal rd o`: imm[20|10:1|11|19:12] in bits 31:12, `rd` in bits 11:7, opcode 0x6F)
decodes it as JAL, raises no trap, leaves `pc` at the address of the instruction plus `o`
modulo 2^64, writes that address plus 4 to `x[rd]` unless `rd = 0`, leaves every other
register unchanged and retires one instruction.  The address of the instruction is the
`pc` before the step when no interrupt is delivered in the step. -/
theorem C30_jal_round_trip (p : processor) (chk : Bool) (rd : Nat) (o : Int)
    (hp : Reachable p) (hpc : p.pc < 2 ^ 64) (hrd : rd < 32)
    (ho1 : -(2 ^ 20) ≤ o) (ho2 : o < 2 ^ 20) (hev : o % 2 = 0)
    (hw : (executeStepT p chk).2.word = some (encodeJal rd o)) :
    (atExec p).decoder.code = ins_jal ∧
    (executeStepT p chk).2.trap = none ∧
    (executeStep p chk).pc = ofInt64 (((atFetch p).pc : Int) + o) ∧
    (∀ r, reg (executeStep p chk) r =
      if r = rd ∧ rd ≠ 0 then ((atFetch p).pc + 4) % 2 ^ 64 else reg p r) ∧
    (executeStep p chk).ins_count = (p.ins_count + 1) % 2 ^ 64 ∧
    ((checkInterruptT p).2 = none → atFetch p = p) := by
  obtain ⟨ha, hrun, hf⟩ := executeStepT_word p chk _ hw
  obtain ⟨hc, hd, hi⟩ := atExec_jal p rd o hrd hf
  have hwf := atExec_regsOK p (reachable_regsOK hp)
  have hreg : ∀ r, reg (atExec p) r = reg p r := reg_of_registers (atExec_registers p)
  have hl : rd < (atExec p).registers.length := by
    rw [hwf.1]
    exact hrd
  have hm := atFetch_pc_mod p ha
  have hlt := atFetch_pc_lt p hpc
  have ht : (((atFetch p).pc + ofInt64 o) % 2 ^ 64) = ofInt64 (((atFetch p).pc : Int) + o) := by
    unfold ofInt64
    omega
  have he : (((atFetch p).pc + ofInt64 o) % 2 ^ 64) % 2 = 0 := by
    unfold ofInt64
    omega
  have e := executeInsT_jal (atExec p) hc
  rw [hd, hi, jal_offset o ho1 ho2 hev, set_reg_pc, atExec_pc, pcEven_of_even _ (by
    rw [pcSet_pc]
    exact he), ht] at e
  unfold executeStep
  rw [executeStepT_run p chk ha hrun, e]
  refine ⟨hc, rfl, ?_, ?_, ?_, atFetch_of_no_irq p⟩
  · simp only [countInc_pc, pcSet_pc]
  · intro r
    simp only []
    rw [reg_after_jump (atExec p) _ _ _ r hl, hreg]
  · simp only [countInc_ins_count, pcSet_ins_count, set_reg_ins_count, atExec_ins_count]

theorem C30_jal_round_trip_witness :
    reg (executeStep jalState false) 1 = 0x104 ∧ (executeStep jalState false).pc = 0x108 ∧
      (executeStep jalState false).ins_count = 1 :=
  have h := C30_jal_round_trip jalState false 1 8
    (Reachable.set_pc 0x100 (Reachable.init jalMem))
    (by decide) (by decide) (by decide) (by decide) (by decide) (by decide)
  ⟨(h.2.2.2.1 1).trans (by decide), h.2.2.1.trans (by decide), h.2.2.2.2.1.trans (by decide)⟩

/-- C31: in every reachable state with a 4-aligned `pc`, in a step that is not stopped at
the breakpoint and runs JALR with the fields `rd`, `rs1` and `imm`: no trap is raised,
`pc` becomes `sext_32_64(x[rs1] + sext_12_32(imm))` (the sum modulo 2^64) with bit 0
cleared, where `x[rs1]` is the register value before the instruction, also when
`rd = rs1`; `x[rd]`, when `rd ≠ 0`, receives the address of the instruction plus 4 (modulo
2^64) and every other register is unchanged; the instruction is counted as retired; and
`pc` is exactly the target, not advanced by a further 4.  The address of the instruction is
the `pc` before the step when no interrupt is delivered in the step. -/
theorem C31_jalr (p : processor) (chk : Bool) (hp : Reachable p)
    (ha : p.pc % 4 = 0)
    (hrun : (executeStepT p chk).2.halted = false)
    (hk : (atExec p).decoder.code = ins_jalr) :
    (executeStepT p chk).2.trap = none ∧
    (executeStep p chk).pc =
      clearBit0 (sext_32_64 ((reg p (atExec p).decoder.rs1
        + sext_12_32 (atExec p).decoder.imm) % 2 ^ 64)) ∧
    (executeStep p chk).pc % 2 = 0 ∧
    (∀ r, reg (executeStep p chk) r =
      if r = (atExec p).decoder.rd ∧ (atExec p).decoder.rd ≠ 0 then
        ((atFetch p).pc + 4) % 2 ^ 64
      else reg p r) ∧
    (executeStep p chk).ins_count = (p.ins_count + 1) % 2 ^ 64 ∧
    ((checkInterruptT p).2 = none → atFetch p = p) := by
  have hwf := atExec_regsOK p (reachable_regsOK hp)
  have hreg : ∀ r, reg (atExec p) r = reg p r := reg_of_registers (atExec_registers p)
  have hl : (atExec p).decoder.rd < (atExec p).registers.length := by
    rw [hwf.1]
    exact hwf.2.1
  have e := executeInsT_jalr (atExec p) hk
  rw [hreg, atExec_pc] at e
  unfold executeStep
  rw [executeStepT_run p chk ha hrun, e]
  refine ⟨rfl, ?_, ?_, ?_, ?_, atFetch_of_no_irq p⟩
  · simp only [countInc_pc, pcEven_pc, set_reg_pc, pcSet_pc]
  · simp only [countInc_pc, pcEven_pc, set_reg_pc, pcSet_pc]
    unfold clearBit0
    omega
  · intro r
    simp only []
    rw [reg_after_jalr (atExec p) _ _ _ r hl, hreg]
  · simp only [countInc_ins_count, pcEven_ins_count, set_reg_ins_count, pcSet_ins_count,
      atExec_ins_count]

theorem C31_jalr_witness :
    (executeStep jalrState false).pc = 0x208 ∧ reg (executeStep jalrState false) 1 = 4 ∧
      (executeStep jalrState false).ins_count = 1 :=
  have h := C31_jalr jalrState false (Reachable.set_reg 1 0x201 (Reachable.init jalrMem))
    (by decide) (by decide) (by decide)
  ⟨h.2.1.trans (by decide), (h.2.2.2.1 1).trans (by decide), h.2.2.2.2.1.trans (by decide)⟩

/-- C32: for every branch kind (BEQ, BNE, BLT, BGE, BLTU, BGEU), all `rs1, rs2 < 32`, every
even offset `o` with `-4096 ≤ o < 4096` and all 64-bit register values `a = x[rs1]`,
`b = x[rs2]`: a step that executes the standard B-type encoding of the branch
(`encodeBranch`) decodes it as that kind, raises no trap, and leaves `pc` at the address
of the instruction plus `o` (modulo 2^64) when the condition holds and at that address
plus 4 otherwise, with the registers and the memory unchanged and one instruction retired.
The condition (`branchCond`) is `a = b` for BEQ, `a ≠ b` for BNE, `a < b` and `a ≥ b` on
the two's complement integers for BLT and BGE, and on the unsigned values for BLTU and
BGEU.  The address of the instruction is the `pc` before the step when no interrupt is
delivered in the step. -/
theorem C32_branch_round_trip (p : processor) (chk : Bool) (k : Ins) (rs1 rs2 : Nat)
    (o : Int) (hk : k ∈ branchKinds) (hrs1 : rs1 < 32) (hrs2 : rs2 < 32)
    (ho1 : -(2 ^ 12) ≤ o) (ho2 : o < 2 ^ 12) (hev : o % 2 = 0)
    (ha : reg p rs1 < 2 ^ 64) (hb : reg p rs2 < 2 ^ 64)
    (hw : (executeStepT p chk).2.word = some (encodeBranch (branchFunct3 k) rs1 rs2 o)) :
    (atExec p).decoder.code = k ∧
    (executeStepT p chk).2.trap = none ∧
    (executeStep p chk).pc =
      (if branchCond k (reg p rs1) (reg p rs2) = true then
        ofInt64 (((atFetch p).pc : Int) + o)
      else ((atFetch p).pc + 4) % 2 ^ 64) ∧
    (executeStep p chk).registers = p.registers ∧
    (executeStep p chk).main_memory = p.main_memory ∧
    (executeStep p chk).ins_count = (p.ins_count + 1) % 2 ^ 64 ∧
    ((checkInterruptT p).2 = none → atFetch p = p) := by
  obtain ⟨ha4, hrun, hf⟩ := executeStepT_word p chk _ hw
  obtain ⟨hc, h1, h2, hi⟩ := atExec_branch p k rs1 rs2 o hk hrs1 hrs2 hf
  have hreg : ∀ r, reg (atExec p) r = reg p r := reg_of_registers (atExec_registers p)
  have e := executeInsT_branch (atExec p) (by rw [hc]; exact hk)
    (by rw [h1, hreg]; exact ha) (by rw [h2, hreg]; exact hb)
  rw [hc, h1, h2, hreg, hreg] at e
  have ht : (((atFetch p).pc + ofInt64 o) % 2 ^ 64) = ofInt64 (((atFetch p).pc : Int) + o) := by
    unfold ofInt64
    omega
  unfold executeStep
  rw [executeStepT_run p chk ha4 hrun, e]
  refine ⟨hc, rfl, ?_, ?_, ?_, ?_, atFetch_of_no_irq p⟩
  · simp only []
    split_ifs
    · rw [countInc_pc, branchJump_pc, hi, branch_offset o ho1 ho2 hev, atExec_pc, ht]
    · rw [countInc_pc, pcInc_pc, atExec_pc]
  · simp only []
    split_ifs <;>
      simp only [countInc_registers, branchJump_registers, pcInc_registers, atExec_registers]
  · simp only []
    split_ifs <;>
      simp only [countInc_main_memory, branchJump_main_memory, pcInc_main_memory,
        atExec_main_memory]
  · simp only []
    split_ifs <;>
      simp only [countInc_ins_count, branchJump_ins_count, pcInc_ins_count, atExec_ins_count]

theorem C32_branch_round_trip_witness :
    (executeStep bltState false).pc = 0xF8 ∧
      (executeStep bltState false).registers = bltState.registers :=
  have h := C32_branch_round_trip bltState false ins_blt 1 2 (-8)
    (by decide) (by decide) (by decide) (by decide) (by decide) (by decide) (by decide)
    (by decide) (by decide)
  ⟨h.2.2.1.trans (by decide), h.2.2.2.1⟩

/-- C33: `set_breakpoint(a)` sets the breakpoint address to `a` rounded down to a multiple
of 4 and enables the breakpoint.  In every reachable state with the breakpoint enabled,
`pc` equal to the breakpoint address and no deliverable interrupt, `execute(n, true)` with
`n ≥ 1` halts in its first step before decoding and leaves the whole state unchanged
(registers, `pc`, CSRs, memory, privilege, retired count, decoder).  After
`clear_breakpoint`, or with `breakpoint_check` false, the step does not halt: it decodes
the word at that `pc`, executes it and counts it. -/
theorem C33_breakpoint (p : processor) (a n : Nat) (hp : Reachable p)
    (hen : p.bp_enabled = true) (hpc : p.pc = p.breakpoint)
    (hirq : (checkInterruptT p).2 = none) :
    ((set_breakpoint p a).breakpoint = a - a % 4 ∧
      (set_breakpoint p a).breakpoint % 4 = 0 ∧
      (set_breakpoint p a).breakpoint ≤ a ∧ a < (set_breakpoint p a).breakpoint + 4 ∧
      (set_breakpoint p a).bp_enabled = true) ∧
    (executeStepT p true).2 = { halted := true, irq := none, trap := none, word := none } ∧
    execute p (n + 1) true = p ∧
    (∀ chk,
      (executeStepT (clear_breakpoint p) chk).2.halted = false ∧
      (executeStepT (clear_breakpoint p) chk).2.word = some (fetch p) ∧
      executeStep (clear_breakpoint p) chk =
        countInc (executeIns (decodeAt (clear_breakpoint p)))) ∧
    ((executeStepT p false).2.halted = false ∧
      (executeStepT p false).2.word = some (fetch p) ∧
      executeStep p false = countInc (executeIns (decodeAt p))) := by
  have ha : p.pc % 4 = 0 := by
    rw [hpc]
    exact reachable_breakpoint_mod hp
  have hs := executeStepT_at_breakpoint p ha hen hpc hirq
  refine ⟨⟨rfl, ?_, ?_, ?_, rfl⟩, ?_, ?_, ?_, ?_⟩
  · show (a - a % 4) % 4 = 0
    omega
  · show a - a % 4 ≤ a
    omega
  · show a < a - a % 4 + 4
    omega
  · rw [hs]
  · exact execute_of_halting p true _ hs rfl (n + 1)
  · intro chk
    have hc : (checkInterruptT (clear_breakpoint p)).2 = none :=
      (checkInterruptT_congr p (clear_breakpoint p) rfl rfl).trans hirq
    have e := executeStepT_normal (clear_breakpoint p) chk ha hc
      (fun h => absurd h.2.2 (by simp [clear_breakpoint]))
    unfold executeStep
    rw [e]
    exact ⟨rfl, rfl, rfl⟩
  · have e := executeStepT_normal p false ha hirq (fun h => absurd h.1 (by simp))
    unfold executeStep
    rw [e]
    exact ⟨rfl, rfl, rfl⟩

theorem C33_breakpoint_witness :
    bpState.breakpoint = 0 ∧ execute bpState 3 true = bpState ∧
      (executeStep (clear_breakpoint bpState) true).pc = 4 :=
  have h := C33_breakpoint bpState 2 2
    (Reachable.set_breakpoint 2 (Reachable.init sampleMem)) (by decide) (by decide) (by decide)
  ⟨by decide, h.2.2.1, (congrArg processor.pc (h.2.2.2.1 true).2.2).trans (by decide)⟩

/-- C34: in every step that passes an instruction word to `decodeIns`, the `pc` the word is
fetched at (the `pc` after the interrupt check, which is the `pc` before the step when no
interrupt is delivered) is 4-aligned, so `pc mod 8` is 0 or 4, and the word decoded is the
low 32 bits of the doubleword at `pc & ~7` when `pc mod 8 = 0` and its high 32 bits when
`pc mod 8 = 4`.  So when the memory is the result of a write of the whole doubleword
`lo + hi * 2^32` at an 8-aligned address `a` (what SD does), the word decoded at `pc = a`
is `lo` and the word decoded at `pc = a + 4` is `hi`. -/
theorem C34_fetch (p : processor) (chk : Bool) (w : Nat)
    (hw : (executeStepT p chk).2.word = some w) :
    (atFetch p).pc % 4 = 0 ∧
    ((atFetch p).pc % 8 = 0 ∨ (atFetch p).pc % 8 = 4) ∧
    (atExec p).decoder = Decoder.decodeIns (atFetch p).decoder w ∧
    ((atFetch p).pc % 8 = 0 →
      w = p.main_memory.read_doubleword ((atFetch p).pc &&& 0xfffffffffffffff8) % 2 ^ 32) ∧
    ((atFetch p).pc % 8 = 4 →
      w = p.main_memory.read_doubleword ((atFetch p).pc &&& 0xfffffffffffffff8) / 2 ^ 32
        % 2 ^ 32) ∧
    (∀ (m : memory) (a lo hi : Nat), a % 8 = 0 → lo < 2 ^ 32 → hi < 2 ^ 32 →
      p.main_memory = m.write_doubleword a (lo + hi * 2 ^ 32) 0xffffffffffffffff →
      ((atFetch p).pc = a → w = lo) ∧ ((atFetch p).pc = a + 4 → w = hi)) ∧
    ((checkInterruptT p).2 = none → atFetch p = p) := by
  obtain ⟨ha, hrun, hf⟩ := executeStepT_word p chk w hw
  have hm := atFetch_pc_mod p ha
  have hfe := fetch_eq (atFetch p)
  rw [hf, atFetch_main_memory] at hfe
  refine ⟨hm, by omega, ?_, ?_, ?_, ?_, atFetch_of_no_irq p⟩
  · rw [← hf]
    rfl
  · intro h0
    rw [hfe, if_pos h0]
  · intro h4
    rw [hfe, if_neg (by omega)]
  · intro m a lo hi h8 hlo hhi hmem
    have hd : lo + hi * 2 ^ 32 < 2 ^ 64 := by omega
    constructor
    · intro hpc
      rw [hfe, hpc, if_pos h8, memory.read_doubleword_masked, hmem,
        read_after_full_write m a _ a hd rfl]
      omega
    · intro hpc
      rw [hfe, hpc, if_neg (by omega), memory.read_doubleword_masked, hmem,
        read_after_full_write m a _ (a + 4) hd (and_not_7_add_4 a h8)]
      omega

theorem C34_fetch_witness :
    (atFetch sdldState).pc % 8 = 0 ∧
      (0x00103023 = 0x0000310300103023 % 2 ^ 32) ∧
      (atFetch (executeStep sdldState false)).pc % 8 = 4 ∧
      (0x00003103 = 0x0000310300103023 / 2 ^ 32 % 2 ^ 32) :=
  have h1 := C34_fetch sdldState false 0x00103023 (by decide)
  have h2 := C34_fetch (executeStep sdldState false) false 0x00003103 (by decide)
  ⟨by decide, (h1.2.2.2.1 (by decide)).trans (by decide), by decide,
    (h2.2.2.2.2.1 (by decide)).trans (by decide)⟩

/-- C35: each of the five sign-extension helpers `sext_12_32`, `sext_20_32`, `sext_8_64`,
`sext_16_64`, `sext_32_64` (source width `N`, target width `M`) depends only on the low `N`
bits of its argument and returns their two's complement sign extension to `M` bits: the
result is an `M`-bit word, it is the `M`-bit word of the integer the low `N` bits stand
for and stands for that integer, its low `N` bits are those of the argument and its bits
`N` to `M - 1` are copies of bit `N - 1`.  Hence the helper applied to the low `N` bits of
an `M`-bit `v` whose bits `N - 1` to `M - 1` are all equal returns `v`; and for arbitrary
`x`, `sext_32_64(x & 0xffffffff)` is the 64-bit word of the integer the low 32 bits of `x`
stand for. -/
theorem C35_sign_extension (N M : Nat) (h : Nat → Nat) (hm : (N, M, h) ∈ sextHelpers) :
    (∀ v w, v % 2 ^ N = w % 2 ^ N → h v = h w) ∧
    (∀ v, h v < 2 ^ M ∧ h v = ofIntN M (toIntN N v) ∧ toIntN M (h v) = toIntN N v) ∧
    (∀ v i, (h v).testBit i =
      if i < N then v.testBit i else (decide (i < M) && v.testBit (N - 1))) ∧
    (∀ v, v < 2 ^ M → (∀ i, N - 1 ≤ i → i < M → v.testBit i = v.testBit (N - 1)) →
      h (v % 2 ^ N) = v) ∧
    (∀ x, sext_32_64 (x &&& 0xffffffff) = ofIntN 64 (toIntN 32 x) ∧
      toIntN 64 (sext_32_64 (x &&& 0xffffffff)) = toIntN 32 x) := by
  obtain ⟨hN, hNM, hh⟩ := sextHelpers_spec N M h hm
  refine ⟨?_, ?_, ?_, ?_, ?_⟩
  · intro v w hvw
    rw [hh, hh]
    exact signExtTo_congr N M v w hvw
  · intro v
    rw [hh]
    exact ⟨signExtTo_lt N M v hNM, signExtTo_eq_ofIntN N M v hNM,
      toIntN_signExtTo N M v hN hNM⟩
  · intro v i
    rw [hh]
    exact signExtTo_testBit N M v i hN hNM
  · intro v hv hb
    rw [hh]
    exact signExtTo_round_trip N M v hN hNM hv hb
  · intro x
    have e : sext_32_64 (x &&& 0xffffffff) = signExtTo 32 64 x := by
      rw [sext_32_64_to, and_mask_eq_mod x 32 0xffffffff (by norm_num)]
      exact signExtTo_congr 32 64 _ _ (Nat.mod_mod _ _)
    rw [e]
    exact ⟨signExtTo_eq_ofIntN 32 64 x (by norm_num),
      toIntN_signExtTo 32 64 x (by norm_num) (by norm_num)⟩

theorem C35_sign_extension_witness :
    sext_12_32 0x800 < 2 ^ 32 ∧ toIntN 32 (sext_12_32 0x800) = -2048 ∧
      sext_12_32 (0xFFFFF800 % 2 ^ 12) = 0xFFFFF800 :=
  have h := C35_sign_extension 12 32 sext_12_32 (by simp [sextHelpers])
  ⟨(h.2.1 0x800).1, (h.2.1 0x800).2.2.trans (by decide), by decide⟩

/-- C36: in every reachable state (the initial state followed by any sequence of `set_pc`,
`set_reg`, `set_csr`, `set_prv`, `set_breakpoint`, `clear_breakpoint`, `execute` calls and
image loads) the CSR numbers that exist are exactly the thirteen registered ones, and the
stored values satisfy: `mstatus & ~0x1888 = 0x2_0000_0000`,
`misa = 0x8000_0000_0010_0100`, `mie & ~0x999 = 0`, `mip & ~0x999 = 0`, `mepc mod 4 = 0`,
`mcause & ~0x8000_0000_0000_000F = 0`, bit 1 of `mtvec` is 0 and, when its bit 0 is 1, its
bits 7..1 are all 0; each of these seven registers holds a 64-bit value. -/
theorem C36_csr_invariant (p : processor) (hp : Reachable p) :
    p.csrs.map Prod.fst = registeredCSRs ∧
    (∀ k, umFind p.csrs k ≠ none ↔ k ∈ registeredCSRs) ∧
    csrAt p 0x300 &&& 0xffffffffffffe777 = 0x200000000 ∧
    csrAt p 0x301 = 0x8000000000100100 ∧
    csrAt p 0x304 &&& 0xfffffffffffff666 = 0 ∧
    csrAt p 0x344 &&& 0xfffffffffffff666 = 0 ∧
    csrAt p 0x341 % 4 = 0 ∧
    csrAt p 0x342 &&& 0x7ffffffffffffff0 = 0 ∧
    csrAt p 0x305 &&& 0x2 = 0 ∧
    (csrAt p 0x305 &&& 0x1 = 1 → csrAt p 0x305 &&& 0xfe = 0) ∧
    (csrAt p 0x300 < 2 ^ 64 ∧ csrAt p 0x301 < 2 ^ 64 ∧ csrAt p 0x304 < 2 ^ 64 ∧
      csrAt p 0x305 < 2 ^ 64 ∧ csrAt p 0x341 < 2 ^ 64 ∧ csrAt p 0x342 < 2 ^ 64 ∧
      csrAt p 0x344 < 2 ^ 64) := by
  have hf := reachable_csrFileOK hp
  have hv := reachable_csrValuesOK hp
  have h0 := (csrValueOK_mstatus _).1 (hv 0x300)
  have h1 := (csrValueOK_misa _).1 (hv 0x301)
  have h2 := (csrValueOK_mie _).1 (hv 0x304)
  have h3 := (csrValueOK_mip _).1 (hv 0x344)
  have h4 := (csrValueOK_mepc _).1 (hv 0x341)
  have h5 := (csrValueOK_mcause _).1 (hv 0x342)
  have h6 := (csrValueOK_mtvec _).1 (hv 0x305)
  refine ⟨hf.1, ?_, h0.1, h1, h2.1, h3.1, h4.1, h5.1, h6.1, h6.2.1,
    h0.2, ?_, h2.2, h6.2.2, h4.2, h5.2, h3.2⟩
  · intro k
    rw [umFind_ne_none_iff, hf.1]
  · rw [h1]
    norm_num

theorem C36_csr_invariant_witness :
    csrAt (execute irqState 1 false) 0x300 &&& 0xffffffffffffe777 = 0x200000000 ∧
      csrAt (execute irqState 1 false) 0x341 % 4 = 0 ∧
      csrAt (execute irqState 1 false) 0x342 &&& 0x7ffffffffffffff0 = 0 :=
  have h := C36_csr_invariant (execute irqState 1 false)
    (Reachable.execute 1 false
      (Reachable.set_pc 8
        (Reachable.set_csr 0x344 0x800
          (Reachable.set_csr 0x304 0x800
            (Reachable.set_csr 0x300 0x8 (Reachable.init sampleMem))))))
  ⟨h.2.2.1, h.2.2.2.2.2.2.1, h.2.2.2.2.2.2.2.1⟩

/-- C37 fails on the code for the synchronous exceptions that `except` delivers from User
privilege with a cause other than 8.  In User mode the step that runs
`CSRRW x0, mscratch, x1` raises cause 2, and the step at the misaligned `pc = 2` raises
cause 0; after either step `pc` is the handler address 0 and `mstatus.mpp` is 0, but the
privilege level is still User (0), not Machine.  ECALL from User (cause 8) does switch to
Machine. -/
theorem C37_user_exception_stays_user :
    (csrrwUserState.prv = 0 ∧
      (executeStepT csrrwUserState false).2.trap = some 2 ∧
      (executeStep csrrwUserState false).pc = 0 ∧
      csrAt (executeStep csrrwUserState false) 0x342 = 2 ∧
      mstatusMpp (csrAt (executeStep csrrwUserState false) 0x300) = 0 ∧
      (executeStep csrrwUserState false).prv = 0) ∧
    (userMisalignedState.prv = 0 ∧
      (executeStepT userMisalignedState false).2.trap = some 0 ∧
      (executeStep userMisalignedState false).pc = 0 ∧
      csrAt (executeStep userMisalignedState false) 0x342 = 0 ∧
      (executeStep userMisalignedState false).prv = 0) ∧
    (ecallUserState.prv = 0 ∧
      (executeStepT ecallUserState false).2.trap = some 8 ∧
      (executeStep ecallUserState false).prv = 3) := by
  decide

/-- C38: `execute` composes.  For every state, all `a` and `b` and either value of
`breakpoint_check`, `execute(a + b, chk)` leaves the same state as `execute(a, chk)`
followed by `execute(b, chk)`, also when a breakpoint halts the batch early: a step that
halted at the breakpoint halts again, with no interrupt delivered and without any change,
when it is re-run from the state it left, even if an interrupt was delivered in it. -/
theorem C38_execute_composes (p : processor) (a b : Nat) (chk : Bool) :
    execute p (a + b) chk = execute (execute p a chk) b chk ∧
    ((executeStepT p chk).2.halted = true →
      executeStepT (executeStep p chk) chk =
        (executeStep p chk, { halted := true, irq := none, trap := none, word := none })) :=
  ⟨execute_add p a b chk, executeStepT_rehalt p chk⟩

theorem C38_execute_composes_witness :
    (executeStepT irqBpState true).2 =
        { halted := true, irq := some 11, trap := none, word := none } ∧
      execute irqBpState (1 + 2) true = execute (execute irqBpState 1 true) 2 true ∧
      executeStepT (executeStep irqBpState true) true =
        (executeStep irqBpState true,
          { halted := true, irq := none, trap := none, word := none }) :=
  have h := C38_execute_composes irqBpState 1 2 true
  ⟨by decide, h.1, h.2 (by decide)⟩

/-- C39: in every reachable state with a 4-aligned `pc`, in a step that is not stopped at
the breakpoint and runs JALR, with `T = (x[rs1] + sext64(imm)) mod 2^64` the target of the
architectural 64-bit definition (`jalrTarget`): the `pc` set is the sign extension of the
low 32 bits of `T` with bit 0 cleared; it is `T` with bit 0 cleared when `T` is the sign
extension of its own low 32 bits, and differs from `T` with bit 0 cleared for every other
`T`; and `T` is the sign extension of its own low 32 bits exactly when its bits 63..31 are
all equal. -/
theorem C39_jalr_refinement (p : processor) (chk : Bool)
    (ha : p.pc % 4 = 0)
    (hrun : (executeStepT p chk).2.halted = false)
    (hk : (atExec p).decoder.code = ins_jalr) :
    (executeStep p chk).pc =
      clearBit0 (signExt 32 (jalrTarget (reg p (atExec p).decoder.rs1)
        (atExec p).decoder.imm)) ∧
    (signExt 32 (jalrTarget (reg p (atExec p).decoder.rs1) (atExec p).decoder.imm)
        = jalrTarget (reg p (atExec p).decoder.rs1) (atExec p).decoder.imm →
      (executeStep p chk).pc =
        clearBit0 (jalrTarget (reg p (atExec p).decoder.rs1) (atExec p).decoder.imm)) ∧
    (signExt 32 (jalrTarget (reg p (atExec p).decoder.rs1) (atExec p).decoder.imm)
        ≠ jalrTarget (reg p (atExec p).decoder.rs1) (atExec p).decoder.imm →
      (executeStep p chk).pc ≠
        clearBit0 (jalrTarget (reg p (atExec p).decoder.rs1) (atExec p).decoder.imm)) ∧
    (signExt 32 (jalrTarget (reg p (atExec p).decoder.rs1) (atExec p).decoder.imm)
        = jalrTarget (reg p (atExec p).decoder.rs1) (atExec p).decoder.imm ↔
      ∀ i, 31 ≤ i → i < 64 →
        (jalrTarget (reg p (atExec p).decoder.rs1) (atExec p).decoder.imm).testBit i =
          (jalrTarget (reg p (atExec p).decoder.rs1) (atExec p).decoder.imm).testBit 31) := by
  have hreg : ∀ r, reg (atExec p) r = reg p r := reg_of_registers (atExec_registers p)
  have e := executeInsT_jalr (atExec p) hk
  rw [hreg, jalr_value] at e
  have hpc : (executeStep p chk).pc =
      clearBit0 (signExt 32 (jalrTarget (reg p (atExec p).decoder.rs1)
        (atExec p).decoder.imm)) := by
    unfold executeStep
    rw [executeStepT_run p chk ha hrun, e]
    simp only [countInc_pc, pcEven_pc, set_reg_pc, pcSet_pc]
  have hT : jalrTarget (reg p (atExec p).decoder.rs1) (atExec p).decoder.imm < 2 ^ 64 :=
    Nat.mod_lt _ (by norm_num)
  generalize jalrTarget (reg p (atExec p).decoder.rs1) (atExec p).decoder.imm = T
    at hpc hT ⊢
  refine ⟨hpc, ?_, ?_, ?_⟩
  · intro h
    rw [hpc, h]
  · intro h hc
    rw [hpc] at hc
    exact h (clearBit0_inj_low _ _ (signExt_low T) hc)
  · constructor
    · intro h i h1 h2
      rw [← h, signExt_eq_signExtTo]
      exact signExtTo_high_bits 32 64 T i (by norm_num) (by norm_num) h1 h2
    · intro h
      have h1 := signExtTo_round_trip 32 64 T (by norm_num) (by norm_num) hT h
      rw [signExt_eq_signExtTo, signExtTo_congr 32 64 T (T % 2 ^ 32) (Nat.mod_mod _ _).symm]
      exact h1

theorem C39_jalr_refinement_witness :
    jalrTarget (reg jalrWideState 1) 8 = 0x100000008 ∧
      (executeStep jalrWideState false).pc = 8 :=
  ⟨by decide,
   (C39_jalr_refinement jalrWideState false
    (by decide) (by decide) (by decide)).1.trans (by decide)⟩

/-- C40: `set_csr` is idempotent and stable on stored values.  For every state `q`, every
CSR number `n` and every value `v`, `set_csr(n, v)` performed twice leaves the state that
one `set_csr(n, v)` leaves; the value stored by a write is a fixed point of the write mask
of its CSR, so writing back the value read after the write changes nothing; and in every
reachable state `p`, for every registered CSR number `m`, `set_csr(m, csrs[m])` leaves the
whole state unchanged. -/
theorem C40_set_csr_idempotent (q : processor) (n v : Nat) (p : processor) (m : Nat)
    (hp : Reachable p) (hm : m ∈ registeredCSRs) :
    set_csr (set_csr q n v) n v = set_csr q n v ∧
    csrMasked n (csrMasked n v) = csrMasked n v ∧
    set_csr (set_csr q n v) n (csrAt (set_csr q n v) n) = set_csr q n v ∧
    csrMasked m (csrAt p m) = csrAt p m ∧
    set_csr p m (csrAt p m) = p :=
  ⟨set_csr_set_csr q n v v, csrMasked_idem n v, set_csr_stored q n v,
    csrMasked_fix m _ (reachable_csrValuesOK hp m),
    set_csr_current p m (reachable_csrValuesOK hp)
      (present_of_ok (reachable_csrFileOK hp) m hm)⟩

theorem C40_set_csr_idempotent_witness :
    set_csr (set_csr sampleState 0x305 0xFFF) 0x305 0xFFF = set_csr sampleState 0x305 0xFFF ∧
      csrAt (execute irqState 1 false) 0x300 = 0x200001880 ∧
      set_csr (execute irqState 1 false) 0x300 0x200001880 = execute irqState 1 false :=
  have h := C40_set_csr_idempotent sampleState 0x305 0xFFF (execute irqState 1 false) 0x300
    (Reachable.execute 1 false
      (Reachable.set_pc 8
        (Reachable.set_csr 0x344 0x800
          (Reachable.set_csr 0x304 0x800
            (Reachable.set_csr 0x300 0x8 (Reachable.init sampleMem))))))
    (by decide)
  have e : csrAt (execute irqState 1 false) 0x300 = 0x200001880 := by decide
  ⟨h.1, e, e ▸ h.2.2.2.2⟩

end processor

end RV64
